import Mathlib

/-!
# Avida virtual-CPU core: cost ledger, mutation engine, fitness gate

A shallow embedding of `cHardwareBase.cc` (avida-core/source/cpu) and proofs about it.

Conventions of the embedding
* C++ `int` values that may become negative are `Int`; sizes and array indices are `Nat`.
* A `double` the program reads (a configuration value, a fitness, a resource amount) is given
  by a rational and enters the arithmetic as the nearest double; the arithmetic on doubles is
  that of IEEE 754 binary64 (`Double` below), each operation rounding to nearest, ties to even.
  Probabilities and mutation rates are only handed to the random source and stay rationals.
* A call that would index an array outside its range, or that reaches
  `ctx.Driver().Abort(...)`, ends with a `Fault` instead of a value.
* Every `for` loop of the source is an instance of `forLoop` / `forLoopWhile` below.
-/

namespace Avida

/-! ## Faults, instructions, sequences -/

/-- Ways in which a call ends without producing its result. -/
inductive Fault where
  /-- An array or sequence was indexed outside `[0, size)` (or resized below 0). -/
  | range
  /-- The run was aborted with `Avida::INVALID_CONFIG` after `Feedback().Error(...)`. -/
  | invalidConfig
  /-- An `assert(...)` of the source failed. -/
  | assertion
  /-- A conversion whose behaviour the language leaves undefined: a `double` whose truncated
  value is not an `int`. -/
  | undefined
  deriving DecidableEq, Repr

deriving instance DecidableEq for Except

/-- An instruction is identified with its opcode (`Instruction(op)`, `GetOp()`). -/
abbrev Instruction := Nat

/-- Modelled from the spec: the `InstructionSequence` class is not part of the sources; it is
"an ordered, resizable sequence of Instructions". -/
abbrev InstructionSequence := List Instruction

/-- Modelled from the spec: `seq[i]` read, a range fault outside `[0, size)`. -/
def seqGet {α : Type} (seq : List α) (i : Nat) : Except Fault α :=
  match seq[i]? with
  | some x => .ok x
  | none => .error .range

/-- Modelled from the spec: `seq[i] = x`, a range fault outside `[0, size)`. -/
def seqSet {α : Type} (seq : List α) (i : Nat) (x : α) : Except Fault (List α) :=
  if i < seq.length then .ok (seq.set i x) else .error .range

/-- Modelled from the spec: `seq.Resize(new_size)`; the first `min(size, new_size)` cells are
kept, new cells hold the default instruction (opcode 0); a negative size is a range fault. -/
def seqResize (seq : InstructionSequence) (new_size : Int) : Except Fault InstructionSequence :=
  if new_size < 0 then .error .range
  else .ok (seq.take new_size.toNat ++ List.replicate (new_size.toNat - seq.length) 0)

/-- Modelled from the spec: `seq.Insert(pos, inst)`, "insert a uniformly random instruction
there, shifting later elements right"; valid positions are `[0, size]`. -/
def seqInsert (seq : InstructionSequence) (pos : Nat) (inst : Instruction) :
    Except Fault InstructionSequence :=
  if pos ≤ seq.length then .ok (seq.take pos ++ inst :: seq.drop pos) else .error .range

/-- Modelled from the spec: `seq.Remove(pos)`, "remove it, shifting later elements left";
valid positions are `[0, size)`. -/
def seqRemove (seq : InstructionSequence) (pos : Nat) : Except Fault InstructionSequence :=
  if pos < seq.length then .ok (seq.take pos ++ seq.drop (pos + 1)) else .error .range

/-! ## Loops -/

/-- The loop `for (i = lo; i < lo + k; i++) body`, threading the state `s`. -/
def forLoop {σ : Type} (body : Nat → σ → Except Fault σ) : Nat → Nat → σ → Except Fault σ
  | _, 0, s => .ok s
  | i, k + 1, s =>
    match body i s with
    | .ok s' => forLoop body (i + 1) k s'
    | .error e => .error e

/-- The loop `for (i = lo; i < lo + k && cond; i++) body`; a `if (!cond) break;` at the head of
a loop body is the same loop. -/
def forLoopWhile {σ : Type} (cond : σ → Bool) (body : Nat → σ → Except Fault σ) :
    Nat → Nat → σ → Except Fault σ
  | _, 0, s => .ok s
  | i, k + 1, s =>
    if cond s then
      match body i s with
      | .ok s' => forLoopWhile cond body (i + 1) k s'
      | .error e => .error e
    else .ok s

/-! ## The arithmetic of `double` -/

/-- The conversion of a real number to an integer by truncation toward zero. -/
def truncToInt (x : ℚ) : Int := if 0 ≤ x then ⌊x⌋ else ⌈x⌉

/-- A value of the C++ type `double` (IEEE 754 binary64): a finite value, given by the rational
number it stands for, an infinity or a NaN. A zero carries no sign here: the sign of a zero
shows only in a division by it, and the divisors of this file are integers or values read from
the configuration or the organism, which enter as `Double.round` of a rational. -/
inductive Double where
  | finite (value : ℚ)
  | inf (negative : Bool)
  | nan
  deriving DecidableEq

/-- The integer nearest to `y`, the even one of the two when `y` lies half-way. -/
def roundHalfEven (y : ℚ) : Int :=
  if y - ⌊y⌋ < 1 / 2 then ⌊y⌋
  else if 1 / 2 < y - ⌊y⌋ then ⌊y⌋ + 1
  else if ⌊y⌋ % 2 = 0 then ⌊y⌋ else ⌊y⌋ + 1

/-- The exponent of the unit in the last place of the doubles next to `x`: 52 binary places
below the leading bit of `x`, and never below `-1074` (the subnormal numbers). -/
@[irreducible]
def Double.quantum (x : ℚ) : Int := max (Int.log 2 |x| - 52) (-1074)

/-- The rounding of every arithmetic operation (round to nearest, ties to even): the multiple
of `2 ^ quantum x` nearest to `x`, and an infinity when that is `2 ^ 1024` or beyond. It is also
how a decimal value of the configuration is read. -/
@[irreducible]
def Double.round (x : ℚ) : Double :=
  if |(roundHalfEven (x / 2 ^ Double.quantum x) : ℚ) * 2 ^ Double.quantum x| < 2 ^ (1024 : Nat) then
    .finite ((roundHalfEven (x / 2 ^ Double.quantum x) : ℚ) * 2 ^ Double.quantum x)
  else .inf (decide (x < 0))

/-- The conversion of an `int` to `double`. -/
def Double.ofInt (n : Int) : Double := Double.round n

/-- `-x`. -/
def Double.neg : Double → Double
  | .finite a => .finite (-a)
  | .inf s => .inf (!s)
  | .nan => .nan

/-- `x + y`. -/
def Double.add : Double → Double → Double
  | .finite a, .finite b => Double.round (a + b)
  | .finite _, .inf t => .inf t
  | .inf s, .finite _ => .inf s
  | .inf s, .inf t => if s = t then .inf s else .nan
  | _, _ => .nan

/-- `x - y`. -/
def Double.sub (x y : Double) : Double := Double.add x (Double.neg y)

/-- `x * y`. -/
def Double.mul : Double → Double → Double
  | .finite a, .finite b => Double.round (a * b)
  | .finite a, .inf t => if a = 0 then .nan else .inf (t != decide (a < 0))
  | .inf s, .finite b => if b = 0 then .nan else .inf (s != decide (b < 0))
  | .inf s, .inf t => .inf (s != t)
  | _, _ => .nan

/-- `x / y`; a finite divisor that is zero is the positive zero. -/
def Double.div : Double → Double → Double
  | .finite a, .finite b =>
    if b = 0 then (if a = 0 then .nan else .inf (decide (a < 0))) else Double.round (a / b)
  | .finite _, .inf _ => .finite 0
  | .inf s, .finite b => .inf (s != decide (b < 0))
  | _, _ => .nan

/-- `x < y`; false when one of the two is a NaN. -/
def Double.lt : Double → Double → Bool
  | .finite a, .finite b => decide (a < b)
  | .finite _, .inf t => !t
  | .inf s, .finite _ => s
  | .inf s, .inf t => s && !t
  | _, _ => false

/-- `x <= y`; false when one of the two is a NaN. -/
def Double.le : Double → Double → Bool
  | .finite a, .finite b => decide (a ≤ b)
  | .finite _, .inf t => !t
  | .inf s, .finite _ => s
  | .inf s, .inf t => s || !t
  | _, _ => false

/-- `x == y`; false when one of the two is a NaN. -/
def Double.eq : Double → Double → Bool
  | .finite a, .finite b => decide (a = b)
  | .inf s, .inf t => decide (s = t)
  | _, _ => false

/-- `static_cast<int>(x)`: truncation toward zero; the behaviour is undefined when the
truncated value is not an `int` (32 bits), in particular for an infinity or a NaN. -/
def Double.toInt : Double → Except Fault Int
  | .finite a =>
    if -(2 ^ (31 : Nat)) ≤ truncToInt a ∧ truncToInt a < 2 ^ (31 : Nat) then .ok (truncToInt a)
    else .error .undefined
  | _ => .error .undefined

/-- The rational `d` is a finite double: a multiple of its own unit in the last place, below
`2 ^ 1024` in absolute value. -/
def isDouble (d : ℚ) : Prop :=
  (∃ m : Int, d = m * 2 ^ Double.quantum d) ∧ |d| < 2 ^ (1024 : Nat)

/-! ## Random source -/

/-- Modelled from the spec: the organism's random source (`ctx.GetRandom()`, class not part of
the sources), "a source of uniform randomness". `draws` are the raw values it will hand out,
in call order; every call consumes one; an exhausted stream hands out 0. -/
structure cRandom where
  draws : List Nat
  deriving DecidableEq, Repr

/-- The raw value of the next call and the source after it. -/
def cRandom.next (r : cRandom) : Nat × cRandom := (r.draws.headD 0, ⟨r.draws.tail⟩)

/-- Modelled from the spec: `GetUInt(max)` / `GetInt(max)`, a value in `[0, max)`
(0 when `max` is 0). -/
def cRandom.GetUInt (r : cRandom) (max : Nat) : Nat × cRandom :=
  (if max = 0 then 0 else r.next.1 % max, r.next.2)

/-- The number of raw values per unit of probability in `P`. -/
def RAND_MBIG : Nat := 1000000000

/-- Modelled from the spec: `P(p)`, true with probability `p`: never for `p ≤ 0`, always for
`p ≥ 1`, and otherwise when the raw value, reduced to `[0, RAND_MBIG)`, is below
`p * RAND_MBIG`. -/
def cRandom.P (r : cRandom) (p : ℚ) : Bool × cRandom :=
  (if p ≤ 0 then false else if 1 ≤ p then true
   else decide (((r.next.1 % RAND_MBIG : Nat) : ℚ) < p * (RAND_MBIG : ℚ)), r.next.2)

/-- Modelled from the spec: `GetRandBinomial(n, p)`, "a mutation count from a Binomial(length,
probability) distribution": a value in `[0, n]`, 0 when `p ≤ 0` and `n` when `p ≥ 1`. -/
def cRandom.GetRandBinomial (r : cRandom) (n : Nat) (p : ℚ) : Nat × cRandom :=
  (if p ≤ 0 then 0 else if 1 ≤ p then n else r.next.1 % (n + 1), r.next.2)

/-- Modelled from the spec: `GetRandPoisson(mean)`, any count; 0 when the mean is not positive. -/
def cRandom.GetRandPoisson (r : cRandom) (mean : ℚ) : Nat × cRandom :=
  (if mean ≤ 0 then 0 else r.next.1, r.next.2)

/-! ## Instruction set and configuration -/

/-- Modelled from the spec: the part of `cInstSet` the hardware consults (class not part of
the sources): its size, the two spacer instructions and the per-opcode cost getters. -/
structure cInstSet where
  /-- Value of `GetSize()`. -/
  size : Nat
  /-- Value of `GetInst("nop-X")`. -/
  nopX : Instruction
  /-- Value of `GetInst("nop-C")`. -/
  nopC : Instruction
  /-- Value of `GetResCost(inst)`. -/
  GetResCost : Instruction → ℚ
  /-- Value of `GetFemResCost(inst)`. -/
  GetFemResCost : Instruction → ℚ
  /-- Value of `GetBonusCost(inst)`. -/
  GetBonusCost : Instruction → ℚ
  /-- Value of `GetFemaleCost(inst)`. -/
  GetFemaleCost : Instruction → Int
  /-- Value of `GetChoosyFemaleCost(inst)`. -/
  GetChoosyFemaleCost : Instruction → Int

/-- Modelled from the spec: `m_inst_set->GetRandomInst(ctx)`, "a uniformly random instruction
from the instruction set": one draw in `[0, size)`. -/
def cInstSet.GetRandomInst (inst_set : cInstSet) (rng : cRandom) : Instruction × cRandom :=
  rng.GetUInt inst_set.size

/-- The configuration values read through `m_world->GetConfig()` by the mutation engine, and
the two hard genome-length constants (whose definitions are not part of the sources). -/
structure cConfig where
  MIN_GENOME_LENGTH : Int
  MAX_GENOME_LENGTH : Int
  MIN_GENOME_SIZE : Int
  MAX_GENOME_SIZE : Int
  SLIP_FILL_MODE : Int
  TRANS_FILL_MODE : Int

/-! ## Slip and translocation mutations -/

/-- The inner `while (passed >= 0)` loop of the scrambled fill modes. The list argument is the
part of `copied_so_far` from index `test` on; `passed` is known to be `≥ 0` on entry to each
round; reading `copied_so_far[test]` past the end is a range fault. Returns `copy_index`. -/
def scrambleScan : List Bool → Nat → Nat → Except Fault Nat
  | [], _, _ => .error .range
  | true :: rest, passed, copy_index => scrambleScan rest passed (copy_index + 1)
  | false :: _, 0, copy_index =>
    -- passed-- gives -1: the loop ends (after test++)
    .ok copy_index
  | false :: rest, passed + 1, copy_index => scrambleScan rest passed copy_index

/-- Loop state of the fill loops of `doSlipMutation` and `doTransMutation`. -/
structure FillState where
  genome : InstructionSequence
  copied_so_far : List Bool
  rng : cRandom
  deriving DecidableEq, Repr

/-- One round `i` of the fill loop of `doSlipMutation` (the `switch` on `SLIP_FILL_MODE`). -/
def slipFillStep (cfg : cConfig) (inst_set : cInstSet) (genome_copy : InstructionSequence)
    (from_ to_ insertion_length : Nat) (i : Nat) (s : FillState) : Except Fault FillState :=
  if cfg.SLIP_FILL_MODE = 0 then do
    -- Duplication
    let x ← seqGet genome_copy (to_ + i)
    let g ← seqSet s.genome (from_ + i) x
    pure { s with genome := g }
  else if cfg.SLIP_FILL_MODE = 1 then do
    -- Empty (nop-X)
    let g ← seqSet s.genome (from_ + i) inst_set.nopX
    pure { s with genome := g }
  else if cfg.SLIP_FILL_MODE = 2 then do
    -- Random
    let (x, rng) := inst_set.GetRandomInst s.rng
    let g ← seqSet s.genome (from_ + i) x
    pure { s with genome := g, rng := rng }
  else if cfg.SLIP_FILL_MODE = 3 then do
    -- Scrambled order
    let (copy_index, rng) := s.rng.GetUInt (insertion_length - i)
    let copy_index ← scrambleScan s.copied_so_far copy_index copy_index
    let x ← seqGet s.genome (to_ + copy_index)
    let g ← seqSet s.genome (from_ + i) x
    let c ← seqSet s.copied_so_far copy_index true
    pure { genome := g, copied_so_far := c, rng := rng }
  else if cfg.SLIP_FILL_MODE = 4 then do
    -- Empty (nop-C)
    let g ← seqSet s.genome (from_ + i) inst_set.nopC
    pure { s with genome := g }
  else
    -- Error("Unknown SLIP_FILL_MODE"); Abort(INVALID_CONFIG)
    .error .invalidConfig

/-- One round of a loop `genome[dst + i] = genome_copy[src + i]`; the plain copy loops of
`doSlipMutation` and `doTransMutation` are all of this shape. -/
def copyStep (genome_copy : InstructionSequence) (dst src : Nat) (i : Nat)
    (genome : InstructionSequence) : Except Fault InstructionSequence := do
  let x ← seqGet genome_copy (src + i)
  seqSet genome (dst + i) x

/-- The body of `doSlipMutation` from "Resize child genome" to the end, with `from` and `to`
as drawn; `genome_copy` is the genome on entry. -/
def doSlipMutationAt (cfg : cConfig) (inst_set : cInstSet) (rng : cRandom)
    (genome : InstructionSequence) (from_ to_ : Nat) :
    Except Fault (InstructionSequence × cRandom) := do
  let genome_copy := genome
  -- Resize child genome
  let insertion_length : Int := (from_ : Int) - (to_ : Int)
  let genome ← seqResize genome ((genome.length : Int) + insertion_length)
  -- Fill insertion
  let s ←
    if insertion_length > 0 then
      forLoop (slipFillStep cfg inst_set genome_copy from_ to_ insertion_length.toNat) 0
        insertion_length.toNat ⟨genome, List.replicate insertion_length.toNat false, rng⟩
    else pure ⟨genome, [], rng⟩
  -- Deletion / remaining genome
  let insertion_length : Int := if insertion_length < 0 then 0 else insertion_length
  let genome ← forLoop (copyStep genome_copy from_ to_) insertion_length.toNat
    (((genome_copy.length : Int) - (to_ : Int)) - insertion_length).toNat s.genome
  pure (genome, s.rng)

/-- `cHardwareBase::doSlipMutation(ctx, genome, from)`; a negative `from` (the value the callers
in this file pass implicitly) makes the function draw it. Returns the genome and the random
source after the call. -/
def doSlipMutation (cfg : cConfig) (inst_set : cInstSet) (rng : cRandom)
    (genome : InstructionSequence) (from_ : Int) :
    Except Fault (InstructionSequence × cRandom) :=
  -- All combinations except beginning to past end allowed
  let fr := if from_ < 0 then rng.GetUInt (genome.length + 1) else (from_.toNat, rng)
  let t := if fr.1 = 0 then fr.2.GetUInt genome.length else fr.2.GetUInt (genome.length + 1)
  doSlipMutationAt cfg inst_set t.2 genome fr.1 t.1

/-- One round `i` of the scrambled-order fill loop of `doTransMutation` (`case 1`). -/
def transScrambleStep (ins_loc to_ insertion_length : Nat) (i : Nat) (s : FillState) :
    Except Fault FillState := do
  let (copy_index, rng) := s.rng.GetUInt (insertion_length - i)
  let copy_index ← scrambleScan s.copied_so_far copy_index copy_index
  let x ← seqGet s.genome (to_ + copy_index)
  let g ← seqSet s.genome (ins_loc + i) x
  let c ← seqSet s.copied_so_far copy_index true
  pure { genome := g, copied_so_far := c, rng := rng }

/-- The body of `doTransMutation` from "Resize child genome" to the end, with `from` and `to`
as drawn; `genome_copy` is the genome on entry. -/
def doTransMutationAt (cfg : cConfig) (rng : cRandom) (genome : InstructionSequence)
    (from_ to_ : Nat) : Except Fault (InstructionSequence × cRandom) := do
  let genome_copy := genome
  -- Resize child genome
  let insertion_length : Int := (from_ : Int) - (to_ : Int)
  let genome ← seqResize genome ((genome.length : Int) + insertion_length)
  -- Select insertion location
  let (ins_loc, rng) := rng.GetUInt (genome_copy.length + 1)
  -- Fill insertion
  let (genome, rng) ←
    if insertion_length > 0 then
      if cfg.TRANS_FILL_MODE = 0 then do
        -- Duplication: genome[ins_loc + i] = genome_copy[to + i]
        let g ← forLoop (copyStep genome_copy ins_loc to_) 0 insertion_length.toNat genome
        pure (g, rng)
      else if cfg.TRANS_FILL_MODE = 1 then do
        -- Scrambled order
        let s ← forLoop (transScrambleStep ins_loc to_ insertion_length.toNat) 0
          insertion_length.toNat ⟨genome, List.replicate insertion_length.toNat false, rng⟩
        pure (s.genome, s.rng)
      else
        -- Error("Unknown TRANS_FILL_MODE"); Abort(INVALID_CONFIG)
        .error .invalidConfig
    else pure (genome, rng)
  if insertion_length < 0 then do
    -- Deletion: for (i = ins_loc; i < genome.GetSize(); i++) genome[i] = genome_copy[i - insertion_length]
    let g ← forLoop (copyStep genome_copy 0 (-insertion_length).toNat) ins_loc
      (genome.length - ins_loc) genome
    pure (g, rng)
  else do
    -- Copy remaining genome:
    -- for (i = ins_loc; i < genome_copy.GetSize(); i++) genome[i + insertion_length] = genome_copy[i]
    let g ← forLoop (copyStep genome_copy insertion_length.toNat 0) ins_loc
      (genome_copy.length - ins_loc) genome
    pure (g, rng)

/-- `cHardwareBase::doTransMutation(ctx, genome, from)`; a negative `from` makes the function
draw it. Returns the genome and the random source after the call. -/
def doTransMutation (cfg : cConfig) (rng : cRandom) (genome : InstructionSequence)
    (from_ : Int) : Except Fault (InstructionSequence × cRandom) :=
  -- All combinations except beginning to past end allowed
  let fr := if from_ < 0 then rng.GetUInt (genome.length + 1) else (from_.toNat, rng)
  let t := if fr.1 = 0 then fr.2.GetUInt genome.length else fr.2.GetUInt (genome.length + 1)
  doTransMutationAt cfg t.2 genome fr.1 t.1

/-! ## Uniform mutation -/

/-- The `max_genome_size` in force: the configured `MAX_GENOME_SIZE`, replaced by
`MAX_GENOME_LENGTH` when it is 0 or above `MAX_GENOME_LENGTH`. -/
def cConfig.max_genome_size (cfg : cConfig) : Int :=
  if cfg.MAX_GENOME_SIZE = 0 ∨ cfg.MAX_GENOME_SIZE > cfg.MAX_GENOME_LENGTH
  then cfg.MAX_GENOME_LENGTH else cfg.MAX_GENOME_SIZE

/-- The `min_genome_size` in force: the configured `MIN_GENOME_SIZE`, replaced by
`MIN_GENOME_LENGTH` when it is 0 or below `MIN_GENOME_LENGTH`. -/
def cConfig.min_genome_size (cfg : cConfig) : Int :=
  if cfg.MIN_GENOME_SIZE = 0 ∨ cfg.MIN_GENOME_SIZE < cfg.MIN_GENOME_LENGTH
  then cfg.MIN_GENOME_LENGTH else cfg.MIN_GENOME_SIZE

/-- `cHardwareBase::doUniformMutation(ctx, genome)`: the returned flag, the genome and the
random source after the call. -/
def doUniformMutation (cfg : cConfig) (inst_set : cInstSet) (rng : cRandom)
    (genome : InstructionSequence) : Except Fault (Bool × InstructionSequence × cRandom) :=
  let (mut_, rng) := rng.GetUInt (inst_set.size * 2 + 1)
  if mut_ < inst_set.size then do
    -- point
    let (site, rng) := rng.GetUInt genome.length
    let genome ← seqSet genome site mut_
    pure (true, genome, rng)
  else if mut_ = inst_set.size then
    -- delete
    let min_genome_size := cfg.min_genome_size
    if (genome.length : Int) = min_genome_size then pure (false, genome, rng)
    else do
      let (site, rng) := rng.GetUInt genome.length
      let genome ← seqRemove genome site
      pure (true, genome, rng)
  else
    -- insert
    let max_genome_size := cfg.max_genome_size
    if (genome.length : Int) = max_genome_size then pure (false, genome, rng)
    else do
      let (site, rng) := rng.GetUInt (genome.length + 1)
      let genome ← seqInsert genome site (mut_ - inst_set.size - 1)
      pure (true, genome, rng)

/-! ## Mutations on divide -/

/-- Modelled from the spec: the mutation rates of the organism (`cOrganism`, not part of the
sources), read by `TestDivide*`, `NumDividePoisson*`, `GetDiv*Prob`, `GetParent*Prob` and
`GetPoint*Prob`. -/
structure cMutationRates where
  divide_slip_prob : ℚ
  divide_poisson_slip_mean : ℚ
  div_slip_prob : ℚ
  divide_trans_prob : ℚ
  divide_poisson_trans_mean : ℚ
  div_trans_prob : ℚ
  divide_mut_prob : ℚ
  divide_poisson_mut_mean : ℚ
  divide_ins_prob : ℚ
  divide_poisson_ins_mean : ℚ
  divide_del_prob : ℚ
  divide_poisson_del_mean : ℚ
  divide_uniform_prob : ℚ
  div_mut_prob : ℚ
  div_ins_prob : ℚ
  div_del_prob : ℚ
  div_uniform_prob : ℚ
  parent_mut_prob : ℚ
  parent_ins_prob : ℚ
  parent_del_prob : ℚ
  point_mut_prob : ℚ
  point_ins_prob : ℚ
  point_del_prob : ℚ

/-- Everything `Divide_DoMutations` reads and does not change: configuration, instruction set,
the organism's mutation rates and the two arguments `mut_multiplier` and `maxmut`. -/
structure MutEnv where
  cfg : cConfig
  inst_set : cInstSet
  rates : cMutationRates
  mut_multiplier : ℚ
  maxmut : Int

/-- Everything `Divide_DoMutations` changes: the random source, the offspring genome, the
parent's executing memory (`GetMemory()`), the phenotype's divide type and the running count
`totalMutations`. -/
structure MutState where
  rng : cRandom
  offspring_genome : InstructionSequence
  memory : InstructionSequence
  div_type : ℚ
  totalMutations : Int
  deriving DecidableEq

/-- A block of `Divide_DoMutations`. -/
abbrev MutStep := MutState → Except Fault MutState

/-- Runs blocks one after the other. -/
def runSteps : List MutStep → MutState → Except Fault MutState
  | [], st => .ok st
  | step :: rest, st =>
    match step st with
    | .ok st' => runSteps rest st'
    | .error e => .error e

/-- Loop body `doSlipMutation(ctx, offspring_genome)`. -/
def slipOnce (env : MutEnv) (_i : Nat) (st : MutState) : Except Fault MutState := do
  let (g, rng) ← doSlipMutation env.cfg env.inst_set st.rng st.offspring_genome (-1)
  pure { st with offspring_genome := g, rng := rng }

/-- Loop body `doTransMutation(ctx, offspring_genome)`. -/
def transOnce (env : MutEnv) (_i : Nat) (st : MutState) : Except Fault MutState := do
  let (g, rng) ← doTransMutation env.cfg st.rng st.offspring_genome (-1)
  pure { st with offspring_genome := g, rng := rng }

/-- Divide Slip Mutations - NOT COUNTED. -/
def stepDivideSlip (env : MutEnv) : MutStep := fun st =>
  let (b, rng) := st.rng.P env.rates.divide_slip_prob
  let st := { st with rng := rng }
  if b then slipOnce env 0 st else pure st

/-- Poisson Slip Mutations - NOT COUNTED. -/
def stepPoissonSlip (env : MutEnv) : MutStep := fun st =>
  let (num_poisson_slip, rng) := st.rng.GetRandPoisson env.rates.divide_poisson_slip_mean
  forLoop (slipOnce env) 0 num_poisson_slip { st with rng := rng }

/-- Slip Mutations (per site) - NOT COUNTED. -/
def stepSiteSlip (env : MutEnv) : MutStep := fun st =>
  if env.rates.div_slip_prob > 0 then
    let (num_mut, rng) := st.rng.GetRandBinomial st.offspring_genome.length
      (env.rates.div_slip_prob / env.mut_multiplier)
    forLoop (slipOnce env) 0 num_mut { st with rng := rng }
  else pure st

/-- Divide Translocation Mutations - NOT COUNTED. -/
def stepDivideTrans (env : MutEnv) : MutStep := fun st =>
  let (b, rng) := st.rng.P env.rates.divide_trans_prob
  let st := { st with rng := rng }
  if b then transOnce env 0 st else pure st

/-- Poisson Translocation Mutations - NOT COUNTED. -/
def stepPoissonTrans (env : MutEnv) : MutStep := fun st =>
  let (num_poisson_trans, rng) := st.rng.GetRandPoisson env.rates.divide_poisson_trans_mean
  forLoop (transOnce env) 0 num_poisson_trans { st with rng := rng }

/-- Translocation Mutations (per site) - NOT COUNTED. -/
def stepSiteTrans (env : MutEnv) : MutStep := fun st =>
  if env.rates.div_trans_prob > 0 then
    let (num_mut, rng) := st.rng.GetRandBinomial st.offspring_genome.length
      (env.rates.div_trans_prob / env.mut_multiplier)
    forLoop (transOnce env) 0 num_mut { st with rng := rng }
  else pure st

/-- Loop body: one point substitution of the offspring genome, counted. -/
def pointMutOnce (env : MutEnv) (_i : Nat) (st : MutState) : Except Fault MutState := do
  let (mut_line, rng) := st.rng.GetUInt st.offspring_genome.length
  let (inst, rng) := env.inst_set.GetRandomInst rng
  let g ← seqSet st.offspring_genome mut_line inst
  pure { st with offspring_genome := g, rng := rng, totalMutations := st.totalMutations + 1 }

/-- Loop body: one insertion into the offspring genome, counted. -/
def insOnce (env : MutEnv) (_i : Nat) (st : MutState) : Except Fault MutState := do
  let (mut_line, rng) := st.rng.GetUInt (st.offspring_genome.length + 1)
  let (inst, rng) := env.inst_set.GetRandomInst rng
  let g ← seqInsert st.offspring_genome mut_line inst
  pure { st with offspring_genome := g, rng := rng, totalMutations := st.totalMutations + 1 }

/-- Loop body: one deletion from the offspring genome, counted. -/
def delOnce (_i : Nat) (st : MutState) : Except Fault MutState := do
  let (mut_line, rng) := st.rng.GetUInt st.offspring_genome.length
  let g ← seqRemove st.offspring_genome mut_line
  pure { st with offspring_genome := g, rng := rng, totalMutations := st.totalMutations + 1 }

/-- Divide Mutations. -/
def stepDivideMut (env : MutEnv) : MutStep := fun st =>
  let (b, rng) := st.rng.P env.rates.divide_mut_prob
  let st := { st with rng := rng }
  if b ∧ st.totalMutations < env.maxmut then pointMutOnce env 0 st else pure st

/-- Poisson Divide Mutations. -/
def stepPoissonMut (env : MutEnv) : MutStep := fun st =>
  let (num_poisson_mut, rng) := st.rng.GetRandPoisson env.rates.divide_poisson_mut_mean
  forLoopWhile (fun st => decide (¬ st.totalMutations ≥ env.maxmut)) (pointMutOnce env) 0
    num_poisson_mut { st with rng := rng }

/-- Divide Insertions. -/
def stepDivideIns (env : MutEnv) : MutStep := fun st =>
  let (b, rng) := st.rng.P env.rates.divide_ins_prob
  let st := { st with rng := rng }
  if b ∧ (st.offspring_genome.length : Int) < env.cfg.max_genome_size
      ∧ st.totalMutations < env.maxmut then insOnce env 0 st
  else pure st

/-- Poisson Divide Insertions. -/
def stepPoissonIns (env : MutEnv) : MutStep := fun st =>
  let (num_poisson_ins, rng) := st.rng.GetRandPoisson env.rates.divide_poisson_ins_mean
  forLoopWhile
    (fun st => decide (¬ (st.offspring_genome.length : Int) ≥ env.cfg.max_genome_size
      ∧ ¬ st.totalMutations ≥ env.maxmut))
    (insOnce env) 0 num_poisson_ins { st with rng := rng }

/-- Divide Deletions. -/
def stepDivideDel (env : MutEnv) : MutStep := fun st =>
  let (b, rng) := st.rng.P env.rates.divide_del_prob
  let st := { st with rng := rng }
  if b ∧ (st.offspring_genome.length : Int) > env.cfg.min_genome_size
      ∧ st.totalMutations < env.maxmut then delOnce 0 st
  else pure st

/-- Poisson Divide Deletions. -/
def stepPoissonDel (env : MutEnv) : MutStep := fun st =>
  let (num_poisson_del, rng) := st.rng.GetRandPoisson env.rates.divide_poisson_del_mean
  forLoopWhile
    (fun st => decide (¬ (st.offspring_genome.length : Int) ≤ env.cfg.min_genome_size
      ∧ ¬ st.totalMutations ≥ env.maxmut))
    delOnce 0 num_poisson_del { st with rng := rng }

/-- Loop body `if (doUniformMutation(ctx, offspring_genome)) totalMutations++;`. -/
def uniformOnce (env : MutEnv) (_i : Nat) (st : MutState) : Except Fault MutState := do
  let (b, g, rng) ← doUniformMutation env.cfg env.inst_set st.rng st.offspring_genome
  pure { st with offspring_genome := g, rng := rng,
                 totalMutations := if b then st.totalMutations + 1 else st.totalMutations }

/-- Divide Uniform Mutations. -/
def stepDivideUniform (env : MutEnv) : MutStep := fun st =>
  let (b, rng) := st.rng.P env.rates.divide_uniform_prob
  let st := { st with rng := rng }
  if b ∧ st.totalMutations < env.maxmut then uniformOnce env 0 st else pure st

/-- Divide Mutations (per site). -/
def stepSiteMut (env : MutEnv) : MutStep := fun st =>
  if env.rates.div_mut_prob > 0 ∧ st.totalMutations < env.maxmut then
    let (num_mut, rng) := st.rng.GetRandBinomial st.offspring_genome.length
      (env.rates.div_mut_prob / env.mut_multiplier)
    let st := { st with rng := rng }
    -- If we have lines to mutate...
    if num_mut > 0 ∧ st.totalMutations < env.maxmut then
      forLoopWhile (fun st => decide (st.totalMutations < env.maxmut)) (pointMutOnce env) 0
        num_mut st
    else pure st
  else pure st

/-- Modelled from the spec: `Apto::QSort(mut_sites)` (not part of the sources), "sorted
ascending". -/
def QSort (a : List Nat) : List Nat := a.insertionSort (fun x y => x ≤ y)

/-- Loop body `mut_sites[i] = ctx.GetRandom().GetUInt(size + 1)`, where `size` is the length
of the sequence before the batch. -/
def drawSiteStep (size : Nat) (i : Nat) (s : List Nat × cRandom) :
    Except Fault (List Nat × cRandom) := do
  let (site, rng) := s.2.GetUInt (size + 1)
  let mut_sites ← seqSet s.1 i site
  pure (mut_sites, rng)

/-- Round `k` of `for (int i = mut_sites.GetSize() - 1; i >= 0; i--)
seq.Insert(mut_sites[i], m_inst_set->GetRandomInst(ctx))`, in which `i` is
`mut_sites.GetSize() - 1 - k`. -/
def insertSiteStep (inst_set : cInstSet) (mut_sites : List Nat) (k : Nat)
    (s : InstructionSequence × cRandom) : Except Fault (InstructionSequence × cRandom) := do
  let i := mut_sites.length - 1 - k
  let site ← seqGet mut_sites i
  let (inst, rng) := inst_set.GetRandomInst s.2
  let seq ← seqInsert s.1 site inst
  pure (seq, rng)

/-- Sorts the drawn sites and does the insertions in reverse sort order. -/
def insertAtSites (inst_set : cInstSet) (mut_sites : List Nat) (seq : InstructionSequence)
    (rng : cRandom) : Except Fault (InstructionSequence × cRandom) :=
  let mut_sites := QSort mut_sites
  -- Actually do the mutations (in reverse sort order)
  forLoop (insertSiteStep inst_set mut_sites) 0 mut_sites.length (seq, rng)

/-- The per-site batch insertion of `num_mut > 0` instructions, as written three times in the
source (offspring genome and parent memory in `Divide_DoMutations`, memory in `PointMutate`):
build a sorted list of the sites, then insert in reverse sort order. -/
def batchInsert (inst_set : cInstSet) (num_mut : Nat) (seq : InstructionSequence)
    (rng : cRandom) : Except Fault (InstructionSequence × cRandom) := do
  -- Build a sorted list of the sites where mutations occured
  let (mut_sites, rng) ← forLoop (drawSiteStep seq.length) 0 num_mut
    (List.replicate num_mut 0, rng)
  insertAtSites inst_set mut_sites seq rng

/-- Insert Mutations (per site). -/
def stepSiteIns (env : MutEnv) : MutStep := fun st =>
  if env.rates.div_ins_prob > 0 ∧ st.totalMutations < env.maxmut then
    let (num_mut, rng) := st.rng.GetRandBinomial st.offspring_genome.length
      env.rates.div_ins_prob
    let num_mut : Int := num_mut
    -- If would make creature too big, insert up to max_genome_size
    let num_mut : Int :=
      if num_mut + (st.offspring_genome.length : Int) > env.cfg.max_genome_size
      then env.cfg.max_genome_size - (st.offspring_genome.length : Int) else num_mut
    -- If we have lines to insert...
    if num_mut > 0 then do
      let (g, rng) ← batchInsert env.inst_set num_mut.toNat st.offspring_genome rng
      pure { st with offspring_genome := g, rng := rng,
                     totalMutations := st.totalMutations + num_mut }
    else pure { st with rng := rng }
  else pure st

/-- Loop body `site = GetUInt(offspring_genome.GetSize()); offspring_genome.Remove(site);`. -/
def delSiteOnce (_i : Nat) (st : MutState) : Except Fault MutState := do
  let (site, rng) := st.rng.GetUInt st.offspring_genome.length
  let g ← seqRemove st.offspring_genome site
  pure { st with offspring_genome := g, rng := rng }

/-- Delete Mutations (per site). -/
def stepSiteDel (env : MutEnv) : MutStep := fun st =>
  if env.rates.div_del_prob > 0 ∧ st.totalMutations < env.maxmut then do
    let (num_mut, rng) := st.rng.GetRandBinomial st.offspring_genome.length
      env.rates.div_del_prob
    let num_mut : Int := num_mut
    -- If would make creature too small, delete down to min_genome_size
    let num_mut : Int :=
      if (st.offspring_genome.length : Int) - num_mut < env.cfg.min_genome_size
      then (st.offspring_genome.length : Int) - env.cfg.min_genome_size else num_mut
    -- If we have lines to delete...
    let st ← forLoop delSiteOnce 0 num_mut.toNat { st with rng := rng }
    pure { st with totalMutations := st.totalMutations + num_mut }
  else pure st

/-- Uniform Mutations (per site). -/
def stepSiteUniform (env : MutEnv) : MutStep := fun st =>
  if env.rates.div_uniform_prob > 0 ∧ st.totalMutations < env.maxmut then
    let (num_mut, rng) := st.rng.GetRandBinomial st.offspring_genome.length
      (env.rates.div_uniform_prob / env.mut_multiplier)
    let st := { st with rng := rng }
    -- If we have lines to mutate...
    if num_mut > 0 ∧ st.totalMutations < env.maxmut then
      forLoopWhile (fun st => decide (st.totalMutations < env.maxmut)) (uniformOnce env) 0
        num_mut st
    else pure st
  else pure st

/-- Loop body: one point substitution of the parent memory, counted. -/
def parentMutOnce (env : MutEnv) (_i : Nat) (st : MutState) : Except Fault MutState := do
  let (site, rng) := st.rng.GetUInt st.memory.length
  let (inst, rng) := env.inst_set.GetRandomInst rng
  let m ← seqSet st.memory site inst
  pure { st with memory := m, rng := rng, totalMutations := st.totalMutations + 1 }

/-- Parent Substitution Mutations (per site). -/
def stepParentMut (env : MutEnv) : MutStep := fun st =>
  if env.rates.parent_mut_prob > 0 ∧ st.totalMutations < env.maxmut then
    let (num_mut, rng) := st.rng.GetRandBinomial st.memory.length env.rates.parent_mut_prob
    let st := { st with rng := rng }
    -- If we have lines to mutate...
    if num_mut > 0 then
      forLoopWhile (fun st => decide (st.totalMutations < env.maxmut)) (parentMutOnce env) 0
        num_mut st
    else pure st
  else pure st

/-- Parent Insert Mutations (per site). -/
def stepParentIns (env : MutEnv) : MutStep := fun st =>
  if env.rates.parent_ins_prob > 0 ∧ st.totalMutations < env.maxmut then
    let (num_mut, rng) := st.rng.GetRandBinomial st.memory.length env.rates.parent_ins_prob
    let num_mut : Int := num_mut
    -- If would make creature too big, insert up to max_genome_size
    let num_mut : Int :=
      if num_mut + (st.memory.length : Int) > env.cfg.max_genome_size
      then env.cfg.max_genome_size - (st.memory.length : Int) else num_mut
    -- If we have lines to insert...
    if num_mut > 0 then do
      let (m, rng) ← batchInsert env.inst_set num_mut.toNat st.memory rng
      pure { st with memory := m, rng := rng, totalMutations := st.totalMutations + num_mut }
    else pure { st with rng := rng }
  else pure st

/-- Loop body `site = GetUInt(memory.GetSize()); memory.Remove(site);`. -/
def parentDelOnce (_i : Nat) (st : MutState) : Except Fault MutState := do
  let (site, rng) := st.rng.GetUInt st.memory.length
  let m ← seqRemove st.memory site
  pure { st with memory := m, rng := rng }

/-- Parent Deletion Mutations (per site). -/
def stepParentDel (env : MutEnv) : MutStep := fun st =>
  if env.rates.parent_del_prob > 0 ∧ st.totalMutations < env.maxmut then do
    let (num_mut, rng) := st.rng.GetRandBinomial st.memory.length env.rates.parent_del_prob
    let num_mut : Int := num_mut
    -- If would make creature too small, delete down to min_genome_size
    let num_mut : Int :=
      if (st.memory.length : Int) - num_mut < env.cfg.min_genome_size
      then (st.memory.length : Int) - env.cfg.min_genome_size else num_mut
    -- If we have lines to delete...
    let st ← forLoop parentDelOnce 0 num_mut.toNat { st with rng := rng }
    pure { st with totalMutations := st.totalMutations + num_mut }
  else pure st

/-- The slip and translocation blocks of `Divide_DoMutations`, in source order. -/
def slipTransSteps (env : MutEnv) : List MutStep :=
  [stepDivideSlip env, stepPoissonSlip env, stepSiteSlip env,
   stepDivideTrans env, stepPoissonTrans env, stepSiteTrans env]

/-- The counted blocks of `Divide_DoMutations` that edit the offspring genome, in source
order. -/
def offspringSteps (env : MutEnv) : List MutStep :=
  [stepDivideMut env, stepPoissonMut env, stepDivideIns env, stepPoissonIns env,
   stepDivideDel env, stepPoissonDel env, stepDivideUniform env,
   stepSiteMut env, stepSiteIns env, stepSiteDel env, stepSiteUniform env]

/-- The counted blocks of `Divide_DoMutations` that edit the parent memory, in source order. -/
def parentSteps (env : MutEnv) : List MutStep :=
  [stepParentMut env, stepParentIns env, stepParentDel env]

/-- `cHardwareBase::Divide_DoMutations(ctx, mut_multiplier, maxmut)`: the returned count and the
state after the call. -/
def Divide_DoMutations (env : MutEnv) (rng : cRandom) (offspring_genome : InstructionSequence)
    (memory : InstructionSequence) : Except Fault (Int × MutState) := do
  -- int totalMutations = 0;  m_organism->GetPhenotype().SetDivType(mut_multiplier);
  let st : MutState := { rng := rng, offspring_genome := offspring_genome, memory := memory,
                         div_type := env.mut_multiplier, totalMutations := 0 }
  let st ← runSteps (slipTransSteps env ++ offspringSteps env ++ parentSteps env) st
  pure (st.totalMutations, st)

/-- `cHardwareBase::PointMutate(ctx, override_mut_rate)`: the returned count, the memory and the
random source after the call. -/
def PointMutate (cfg : cConfig) (inst_set : cInstSet) (rates : cMutationRates)
    (override_mut_rate : ℚ) (rng : cRandom) (memory : InstructionSequence) :
    Except Fault (Int × InstructionSequence × cRandom) := do
  let max_genome_size := cfg.MAX_GENOME_SIZE
  let min_genome_size := cfg.MIN_GENOME_SIZE
  let totalMutations : Int := 0
  -- Point Substitution Mutations (per site)
  let (totalMutations, memory, rng) ←
    if rates.point_mut_prob > 0 ∨ override_mut_rate > 0 then do
      let mut_rate := if override_mut_rate > 0 then override_mut_rate else rates.point_mut_prob
      let (num_mut, rng) := rng.GetRandBinomial memory.length mut_rate
      let (memory, rng) ← forLoop
        (fun _ (s : InstructionSequence × cRandom) => do
          let (site, rng) := s.2.GetUInt s.1.length
          let (inst, rng) := inst_set.GetRandomInst rng
          let m ← seqSet s.1 site inst
          pure (m, rng))
        0 num_mut (memory, rng)
      pure (totalMutations + (num_mut : Int), memory, rng)
    else pure (totalMutations, memory, rng)
  -- Point Insert Mutations (per site)
  let (totalMutations, memory, rng) ←
    if rates.point_ins_prob > 0 then do
      let (num_mut, rng) := rng.GetRandBinomial memory.length rates.point_ins_prob
      let num_mut : Int := num_mut
      -- If would make creature too big, insert up to max_genome_size
      let num_mut : Int :=
        if num_mut + (memory.length : Int) > max_genome_size
        then max_genome_size - (memory.length : Int) else num_mut
      if num_mut > 0 then do
        let (memory, rng) ← batchInsert inst_set num_mut.toNat memory rng
        pure (totalMutations + num_mut, memory, rng)
      else pure (totalMutations, memory, rng)
    else pure (totalMutations, memory, rng)
  -- Point Deletion Mutations (per site)
  if rates.point_del_prob > 0 then do
    let (num_mut, rng) := rng.GetRandBinomial memory.length rates.point_del_prob
    let num_mut : Int := num_mut
    -- If would make creature too small, delete down to min_genome_size
    let num_mut : Int :=
      if (memory.length : Int) - num_mut < min_genome_size
      then (memory.length : Int) - min_genome_size else num_mut
    let (memory, rng) ← forLoop
      (fun _ (s : InstructionSequence × cRandom) => do
        let (site, rng) := s.2.GetUInt s.1.length
        let m ← seqRemove s.1 site
        pure (m, rng))
      0 num_mut.toNat (memory, rng)
    pure (totalMutations + num_mut, memory, rng)
  else pure (totalMutations, memory, rng)

/-! ## Cost ledger -/

/-- The cost members of `cHardwareBase`: the `m_has_*` flags, the per-opcode cost arrays
snapshotted by `Reset` and the per-thread countdown arrays. -/
structure cHardwareBase where
  m_has_costs : Bool
  m_has_ft_costs : Bool
  m_has_res_costs : Bool
  m_has_fem_res_costs : Bool
  m_has_post_costs : Bool
  m_has_bonus_costs : Bool
  m_has_female_costs : Bool
  m_has_choosy_female_costs : Bool
  m_inst_ft_cost : List Int
  m_thread_inst_cost : List Int
  m_thread_inst_post_cost : List Int
  m_active_thread_costs : List Int
  m_active_thread_post_costs : List Int
  deriving DecidableEq

/-- Modelled from the spec: what the cost functions read from the organism, its phenotype and
the configuration (classes not part of the sources). -/
structure CostOrganism where
  /-- Whether `GetPhenotype().GetMatingType() == MATING_TYPE_FEMALE`. -/
  is_female : Bool
  /-- Whether `GetPhenotype().GetMatePreference() != MATE_PREFERENCE_RANDOM`. -/
  is_choosy : Bool
  /-- Value of `GetPhenotype().GetCurBonus()`. -/
  cur_bonus : ℚ
  /-- Value of `GetRBin(resource)`. -/
  GetRBin : Int → ℚ
  /-- Value of the configuration option `COLLECT_SPECIFIC_RESOURCE`. -/
  COLLECT_SPECIFIC_RESOURCE : Int

/-- The per-use cost block of `SingleProcess_PayPreCosts` ("Next, look at the per use costs"),
entered with the `per_use_cost` computed before it. -/
def payPerUseCosts (hw : cHardwareBase) (per_use_cost : Int) (thread_id : Nat) :
    Except Fault (Bool × cHardwareBase) := do
  -- if ACTIVE post cost already being paid (from previous executed instruction), pay this first
  let post ← seqGet hw.m_active_thread_post_costs thread_id
  if post > 1 then do
    let a ← seqSet hw.m_active_thread_post_costs thread_id (post - 1)
    pure (false, { hw with m_active_thread_post_costs := a })
  else do
    let hw ←
      if post = 1 then do
        let a ← seqSet hw.m_active_thread_post_costs thread_id 0
        pure { hw with m_active_thread_post_costs := a }
      else pure hw
    let active ← seqGet hw.m_active_thread_costs thread_id
    if active > 1 then do
      let a ← seqSet hw.m_active_thread_costs thread_id (active - 1)
      pure (false, { hw with m_active_thread_costs := a })
    -- no already active thread-specific execution cost, but this instruction has a cost
    else if active = 0 ∧ per_use_cost > 1 then do
      let a ← seqSet hw.m_active_thread_costs thread_id (per_use_cost - 1)
      pure (false, { hw with m_active_thread_costs := a })
    -- If we fall to here, execution is allowed now...any pre-cost is paid
    else if active = 1 then do
      let a ← seqSet hw.m_active_thread_costs thread_id 0
      pure (true, { hw with m_active_thread_costs := a })
    else pure (true, hw)

/-- The test `res_stored < res_req` of the resource gate of `SingleProcess_PayPreCosts`, with
`res_req = res_cost + fem_res_cost` computed in `double`. -/
def resStoredBelowRequired (inst_set : cInstSet) (org : CostOrganism) (cur_inst : Instruction) :
    Bool :=
  let res_cost := Double.round (inst_set.GetResCost cur_inst)
  let fem_res_cost :=
    if org.is_female then Double.round (inst_set.GetFemResCost cur_inst) else Double.ofInt 0
  let res_req := Double.add res_cost fem_res_cost
  let res_stored := Double.round (org.GetRBin org.COLLECT_SPECIFIC_RESOURCE)
  Double.lt res_stored res_req

/-- The test `GetCurBonus() < GetBonusCost(cur_inst)` of the bonus gate of
`SingleProcess_PayPreCosts`. -/
def bonusBelowCost (inst_set : cInstSet) (org : CostOrganism) (cur_inst : Instruction) : Bool :=
  Double.lt (Double.round org.cur_bonus) (Double.round (inst_set.GetBonusCost cur_inst))

/-- `cHardwareBase::SingleProcess_PayPreCosts(ctx, cur_inst, thread_id)`: the returned flag and
the hardware after the call. -/
def SingleProcess_PayPreCosts (inst_set : cInstSet) (org : CostOrganism) (hw : cHardwareBase)
    (cur_inst : Instruction) (thread_id : Nat) : Except Fault (Bool × cHardwareBase) := do
  -- If first time cost hasn't been paid off...
  let ft ← if hw.m_has_ft_costs then seqGet hw.m_inst_ft_cost cur_inst else pure 0
  if hw.m_has_ft_costs ∧ ft > 0 then do
    let a ← seqSet hw.m_inst_ft_cost cur_inst (ft - 1)
    pure (false, { hw with m_inst_ft_cost := a })
  -- Check for res_costs and fail if org does not have enough resources to process instruction
  else if (hw.m_has_res_costs ∨ hw.m_has_fem_res_costs) ∧ org.COLLECT_SPECIFIC_RESOURCE < 0 then
    -- assert(resource >= 0)
    .error .assertion
  else if (hw.m_has_res_costs ∨ hw.m_has_fem_res_costs) ∧
      resStoredBelowRequired inst_set org cur_inst = true then
    -- res_stored < res_req
    pure (false, hw)
  else if hw.m_has_bonus_costs ∧ bonusBelowCost inst_set org cur_inst = true then
    pure (false, hw)
  else do
    let per_use_cost : Int ←
      if hw.m_has_costs then seqGet hw.m_thread_inst_cost cur_inst else pure 0
    let add_female_costs : Bool :=
      hw.m_has_female_costs && org.is_female && decide (inst_set.GetFemaleCost cur_inst ≠ 0)
    let per_use_cost : Int :=
      if add_female_costs then per_use_cost + inst_set.GetFemaleCost cur_inst else per_use_cost
    let add_choosy_female_costs : Bool :=
      hw.m_has_choosy_female_costs && (org.is_female && org.is_choosy)
        && decide (inst_set.GetChoosyFemaleCost cur_inst ≠ 0)
    let per_use_cost : Int :=
      if add_choosy_female_costs then per_use_cost + inst_set.GetChoosyFemaleCost cur_inst
      else per_use_cost
    -- Next, look at the per use costs
    if hw.m_has_costs || add_female_costs || add_choosy_female_costs || hw.m_has_post_costs then
      payPerUseCosts hw per_use_cost thread_id
    else pure (true, hw)

/-- `cHardwareBase::IsPayingActiveCost(ctx, thread_id)`. -/
def IsPayingActiveCost (hw : cHardwareBase) (thread_id : Nat) : Except Fault Bool := do
  let post ← seqGet hw.m_active_thread_post_costs thread_id
  pure (decide (post > 1))

/-- `cHardwareBase::SingleProcess_SetPostCPUCosts(ctx, cur_inst, thread_id)`. -/
def SingleProcess_SetPostCPUCosts (hw : cHardwareBase) (cur_inst : Instruction)
    (thread_id : Nat) : Except Fault cHardwareBase := do
  if hw.m_has_post_costs then do
    let per_use_post_cost ← seqGet hw.m_thread_inst_post_cost cur_inst
    let post ← seqGet hw.m_active_thread_post_costs thread_id
    -- for post-cost, setup the new counter after allowing initial execution to proceed
    if post = 0 ∧ per_use_post_cost > 1 then do
      let a ← seqSet hw.m_active_thread_post_costs thread_id per_use_post_cost
      pure { hw with m_active_thread_post_costs := a }
    else pure hw
  else pure hw

/-- The flags returned by `n` successive calls of `SingleProcess_PayPreCosts` with the same
instruction on the same thread, and the hardware after them. -/
def payPreCostsCalls (inst_set : cInstSet) (org : CostOrganism) (cur_inst : Instruction)
    (thread_id : Nat) : Nat → cHardwareBase → Except Fault (List Bool × cHardwareBase)
  | 0, hw => .ok ([], hw)
  | n + 1, hw =>
    match SingleProcess_PayPreCosts inst_set org hw cur_inst thread_id with
    | .ok (b, hw') =>
      match payPreCostsCalls inst_set org cur_inst thread_id n hw' with
      | .ok (bs, hw'') => .ok (b :: bs, hw'')
      | .error e => .error e
    | .error e => .error e

/-! ## Fitness gate -/

/-- Loop state of the task comparison loop. -/
structure TaskLossState where
  del : Bool
  added : Bool
  deriving DecidableEq

/-- One round of the task comparison loop; after `added = true` the loop is left (`break`). -/
def taskLossStep (childtasks parenttasks : List Int) (i : Nat) (s : TaskLossState) :
    Except Fault TaskLossState := do
  let c ← seqGet childtasks i
  let p ← seqGet parenttasks i
  if c > p then pure { s with added := true }
  else if c < p then pure { s with del := true }
  else pure s

/-- The task comparison loop and its result `del & !added`: the child has lost a task the
parent had and not gained any. -/
def taskLossNoGain (childtasks parenttasks : List Int) : Except Fault Bool := do
  let s ← forLoopWhile (fun s => !s.added) (taskLossStep childtasks parenttasks) 0
    childtasks.length ⟨false, false⟩
  pure (s.del && !s.added)

/-- Modelled from the spec: what a test execution reports (`cCPUTestInfo`, not part of the
sources): "child fitness, task-count history, maximum recursive self-test depth, and viability
flag". -/
structure cCPUTestInfo where
  /-- Value of `GetGenotypeFitness()`. -/
  genotype_fitness : ℚ
  /-- Value of `GetMaxDepth()`. -/
  max_depth : Int
  /-- Value of `IsViable()`. -/
  is_viable : Bool
  /-- Value of `GetTestPhenotype().GetLastTaskCount()`. -/
  last_task_count : List Int

/-- Modelled from the spec: the test-execution harness (external collaborator); both entry
points receive the context and may draw from its random source. -/
structure TestHarness where
  /-- `m_organism->GetTestFitness(ctx)`, for the genome of the organism. -/
  GetTestFitness : cRandom → InstructionSequence → ℚ × cRandom
  /-- `testcpu->TestGenome(ctx, test_info, genome)` with random inputs. -/
  TestGenome : cRandom → InstructionSequence → cCPUTestInfo × cRandom

/-- Modelled from the spec: what the fitness gate reads and writes in the organism and its
phenotype (`cOrganism`, `cPhenotype`, not part of the sources). -/
structure cOrganism where
  /-- `GetGenome()`: the parent's genome. -/
  genome : InstructionSequence
  /-- `OffspringGenome()`. -/
  offspring_genome : InstructionSequence
  /-- `GetPhenotype().CopyTrue()`. -/
  copy_true : Bool
  /-- `GetPhenotype().ChildFertile()`. -/
  child_fertile : Bool
  /-- `GetPhenotype().GetCurTaskCount()`. -/
  cur_task_count : List Int
  /-- `GetTestOnDivide()`. -/
  test_on_divide : Bool
  /-- `GetSterilizeUnstable()`. -/
  sterilize_unstable : Int
  revert_fatal : ℚ
  sterilize_fatal : ℚ
  revert_neg : ℚ
  sterilize_neg : ℚ
  revert_neut : ℚ
  sterilize_neut : ℚ
  revert_pos : ℚ
  sterilize_pos : ℚ
  revert_taskloss : ℚ
  sterilize_taskloss : ℚ
  /-- `GetRevertEquals()`. -/
  revert_equals : ℚ
  neutral_min : ℚ
  neutral_max : ℚ

/-- The state the fitness gate works on: the organism, the random source, the number of times
the test harness has been invoked, and the task indices recorded with
`m_world->GetStats().AddNewTaskCount`. -/
structure GateState where
  org : cOrganism
  rng : cRandom
  harness_calls : Nat
  new_task_counts : List Int

/-- The two draws of a fitness bucket:
`if (P(revert_prob)) revert = true; if (P(sterilize_prob)) sterilize = true;`. -/
def drawRevertSterilize (revert_prob sterilize_prob : ℚ) (revert sterilize : Bool)
    (rng : cRandom) : Bool × Bool × cRandom :=
  let (b, rng) := rng.P revert_prob
  let revert := if b then true else revert
  let (b, rng) := rng.P sterilize_prob
  let sterilize := if b then true else sterilize
  (revert, sterilize, rng)

/-- The fitness buckets of `Divide_TestFitnessMeasures`: the child fitness selects the fatal,
negative, neutral or positive pair of probabilities, which are then drawn. -/
def fitnessBucketDraws (org : cOrganism) (child_fitness neut_min neut_max : Double)
    (revert sterilize : Bool) (rng : cRandom) : Bool × Bool × cRandom :=
  if Double.eq child_fitness (.finite 0) = true then
    -- Fatal mutation... test for reversion.
    drawRevertSterilize org.revert_fatal org.sterilize_fatal revert sterilize rng
  else if Double.lt child_fitness neut_min = true then
    drawRevertSterilize org.revert_neg org.sterilize_neg revert sterilize rng
  else if Double.le child_fitness neut_max = true then
    drawRevertSterilize org.revert_neut org.sterilize_neut revert sterilize rng
  else
    drawRevertSterilize org.revert_pos org.sterilize_pos revert sterilize rng

/-- The draws of `RorS` (0 = neither, 1 = revert, 2 = sterilize):
`if (P(GetRevertTaskLoss())) RorS = 1; else if (P(GetSterilizeTaskLoss())) RorS = 2;`. -/
def drawRorS (org : cOrganism) (rng : cRandom) : Nat × cRandom :=
  let (b, rng) := rng.P org.revert_taskloss
  if b then (1, rng)
  else
    let (b, rng) := rng.P org.sterilize_taskloss
    if b then (2, rng) else (0, rng)

/-- The block `if (RorS) { ... }`: the task comparison, whose result is assigned to `revert`
when `RorS == 1` and to `sterilize` otherwise. -/
def taskLossDecision (RorS : Nat) (childtasks parenttasks : List Int)
    (revert sterilize : Bool) : Except Fault (Bool × Bool) :=
  -- check if child has lost any tasks parent had AND not gained any new tasks
  if RorS ≠ 0 then do
    let lost ← taskLossNoGain childtasks parenttasks
    if RorS = 1 then pure (lost, sterilize) else pure (revert, lost)
  else pure (revert, sterilize)

/-- The block "If mutations granting EQU should be reverted, check for EQU and flag for
reversion": the draw is made only when `GetRevertEquals()` is not 0. -/
def revertEqualsDecision (org : cOrganism) (child_tasks : List Int) (revert : Bool)
    (rng : cRandom) (new_task_counts : List Int) :
    Except Fault (Bool × cRandom × List Int) :=
  if org.revert_equals ≠ 0 then
    let (b, rng) := rng.P org.revert_equals
    if b then do
      let last ← (if child_tasks.length = 0 then .error .range
                  else seqGet child_tasks (child_tasks.length - 1))
      if last ≥ 1 then
        pure (true, rng, new_task_counts ++ [(child_tasks.length : Int) - 1])
      else pure (revert, rng, new_task_counts)
    else pure (revert, rng, new_task_counts)
  else pure (revert, rng, new_task_counts)

/-- The lower bound of the neutral band, `parent_fitness * (1.0 - GetNeutralMin())`, computed
in `double`. -/
def neutMin (org : cOrganism) (parent_fitness : ℚ) : Double :=
  Double.mul (Double.round parent_fitness)
    (Double.sub (.finite 1) (Double.round org.neutral_min))

/-- The upper bound of the neutral band, `parent_fitness * (1.0 + GetNeutralMax())`, computed
in `double`. -/
def neutMax (org : cOrganism) (parent_fitness : ℚ) : Double :=
  Double.mul (Double.round parent_fitness)
    (Double.add (.finite 1) (Double.round org.neutral_max))

/-- The part of `Divide_TestFitnessMeasures` from the fitness buckets up to the resolution (the
same text in `Divide_TestFitnessMeasures1`), entered with `revert = false` and the `sterilize`
flag set by the sterilize-unstable policy: the values of `revert` and `sterilize` on reaching
"Ideally, we won't have reversions and sterilizations ...", the random source and the recorded
task indices. -/
def decideRevertSterilize (st : GateState) (parenttasks : List Int)
    (neut_min neut_max : Double) (test_info : cCPUTestInfo) (sterilize : Bool) :
    Except Fault (Bool × Bool × cRandom × List Int) := do
  let org := st.org
  let child_fitness := Double.round test_info.genotype_fitness
  let revert := false
  let (revert, sterilize, rng) :=
    fitnessBucketDraws org child_fitness neut_min neut_max revert sterilize st.rng
  -- If task loss without gain is to be sterilized or reverted, check for it
  let (RorS, rng) := drawRorS org rng
  let (revert, sterilize) ←
    taskLossDecision RorS test_info.last_task_count parenttasks revert sterilize
  let (revert, rng, new_task_counts) ←
    revertEqualsDecision org test_info.last_task_count revert rng st.new_task_counts
  pure (revert, sterilize, rng, new_task_counts)

/-- The part of `Divide_TestFitnessMeasures` from the fitness buckets to the end (the same text
in `Divide_TestFitnessMeasures1`): the decisions, then their resolution. -/
def resolveFitnessTest (st : GateState) (parenttasks : List Int) (neut_min neut_max : Double)
    (test_info : cCPUTestInfo) (sterilize : Bool) : Except Fault (Bool × GateState) := do
  let org := st.org
  let (revert, sterilize, rng, new_task_counts) ←
    decideRevertSterilize st parenttasks neut_min neut_max test_info sterilize
  -- Ideally, we won't have reversions and sterilizations turned on at the same time, but if
  -- we do, give revert the priority.
  let org := if revert = true then { org with offspring_genome := org.genome } else org
  let org := if sterilize = true then { org with child_fertile := false } else org
  pure (!sterilize && revert,
    { st with org := org, rng := rng, new_task_counts := new_task_counts })

/-- `cHardwareBase::Divide_TestFitnessMeasures(ctx)`: the returned flag and the state after the
call. -/
def Divide_TestFitnessMeasures (harness : TestHarness) (st : GateState) :
    Except Fault (Bool × GateState) :=
  let org := { st.org with copy_true := decide (st.org.offspring_genome = st.org.genome),
                           child_fertile := true }
  let st := { st with org := org }
  -- Only continue if we're supposed to do a fitness test on divide...
  if org.test_on_divide = false then pure (false, st)
  -- If this was a perfect copy, then we don't need to worry about any other tests...
  else if org.copy_true = true then pure (false, st)
  else
    let (parent_fitness, rng) := harness.GetTestFitness st.rng org.genome
    let parenttasks := org.cur_task_count
    let neut_min := neutMin org parent_fitness
    let neut_max := neutMax org parent_fitness
    let (test_info, rng) := harness.TestGenome rng org.offspring_genome
    let st := { st with rng := rng, harness_calls := st.harness_calls + 2 }
    -- If implicit mutations are turned off, make sure this won't spawn one.
    let sterilize : Bool :=
      decide (org.sterilize_unstable = 1) && decide (test_info.max_depth > 0)
    resolveFitnessTest st parenttasks neut_min neut_max test_info sterilize

/-! ## Divide viability -/

/-- The configuration values read by `Divide_CheckViable` on top of those of `cConfig`, and the
world flag `m_world->GetTestSterilize()`. -/
structure cDivideConfig extends cConfig where
  JUV_PERIOD : Int
  MIN_CYCLES : Int
  OFFSPRING_SIZE_RANGE : ℚ
  MIN_EXE_LINES : ℚ
  MIN_COPIED_LINES : ℚ
  DIVIDE_FAILURE_RESETS : Int
  /-- Value of `m_world->GetTestSterilize()`. -/
  GetTestSterilize : Bool

/-- Modelled from the spec: what `Divide_CheckViable` reads and writes in the organism and its
phenotype (`cOrganism`, `cPhenotype`, not part of the sources). -/
structure DivideOrganism where
  /-- Size of the sequence of `GetGenome()`. -/
  genome_size : Nat
  /-- `GetPhenotype().GetTimeUsed()`. -/
  time_used : Int
  /-- Set by `SetLinesExecuted`. -/
  lines_executed : Int
  /-- Set by `SetLinesCopied`. -/
  lines_copied : Int
  /-- `GetPhenotype().IsInjected()`. -/
  is_injected : Bool
  /-- `GetPhenotype().IsFertile()`. -/
  is_fertile : Bool
  /-- `GetPhenotype().CalcSizeMerit()`. -/
  size_merit : Int
  /-- `GetPhenotype().GetCurBonus()`. -/
  cur_bonus : ℚ
  /-- `GetPhenotype().GetLastFitness()`. -/
  last_fitness : ℚ
  /-- `GetPhenotype().GetCurTaskCount()`. -/
  cur_task_count : List Int
  /-- `GetPhenotype().GetLastTaskCount()`. -/
  last_task_count : List Int
  sterilize_neg : ℚ
  sterilize_neut : ℚ
  sterilize_pos : ℚ
  sterilize_taskloss : ℚ
  deriving DecidableEq

/-- Modelled from the spec: the two calls of `Divide_CheckViable` whose bodies are not part of
the sources: the hardware's `calcCopiedSize(parent_size, child_size)` and the organism-level
viability hook `m_organism->Divide_CheckViable(ctx)`, which receives the context and may draw
from its random source. -/
structure DivideHooks where
  calcCopiedSize : Int → Int → Int
  Divide_CheckViable : cRandom → Bool × cRandom

/-- The state `Divide_CheckViable` works on: the organism, the random source, and how often
the organism's viability hook and `internalResetOnFailedDivide()` have been invoked. -/
structure ViableState where
  org : DivideOrganism
  rng : cRandom
  viable_hook_calls : Nat
  reset_hook_calls : Nat
  deriving DecidableEq

/-- `cHardwareBase::calcExecutedSize(parent_size)`; `flag_executed` holds `FlagExecuted(i)` for
the cells of the memory. -/
def calcExecutedSize (flag_executed : List Bool) (parent_size : Int) : Except Fault Int :=
  forLoop (fun i (executed_size : Int) => do
      let f ← seqGet flag_executed i
      pure (if f then executed_size + 1 else executed_size))
    0 parent_size.toNat 0

/-- The value `fitness_ratio` of `Divide_CheckViable`:
`merit_base * GetCurBonus() / GetTimeUsed()` divided by `GetLastFitness()`, computed in
`double`; a division by zero gives an infinity or a NaN. -/
def fitnessRatio (org : DivideOrganism) : Double :=
  let merit_base := org.size_merit
  let cur_fitness :=
    Double.div (Double.mul (Double.ofInt merit_base) (Double.round org.cur_bonus))
      (Double.ofInt org.time_used)
  Double.div cur_fitness (Double.round org.last_fitness)

/-- The sterilization decision of `Divide_CheckViable` ("Determine the fitness of this organism
as compared to its parent..."): the value of `sterilize` on reaching `if (sterilize)` and the
random source. -/
def divideSterilizeDecision (org : DivideOrganism) (rng : cRandom) :
    Except Fault (Bool × cRandom) := do
  let fitness_ratio := fitnessRatio org
  let childtasks := org.cur_task_count
  let parenttasks := org.last_task_count
  let sterilize := false
  let (b, rng) :=
    if Double.lt fitness_ratio (.finite 1) = true then rng.P org.sterilize_neg
    else if Double.eq fitness_ratio (.finite 1) = true then rng.P org.sterilize_neut
    else rng.P org.sterilize_pos
  let sterilize := if b then true else sterilize
  -- for sterilize task loss *SLG
  let (b, rng) := rng.P org.sterilize_taskloss
  if b then do
    let lost ← taskLossNoGain childtasks parenttasks
    -- sterilize = (del & !added);
    pure (lost, rng)
  else pure (sterilize, rng)

/-- The end of `Divide_CheckViable`, from the organism's viability hook on, entered with the
`executed_size` and `copied_size` computed before it. -/
def divideHookAndSterilize (cfg : cDivideConfig) (hooks : DivideHooks) (st : ViableState)
    (executed_size copied_size : Int) : Except Fault (Bool × ViableState) :=
  let (viable, rng) := hooks.Divide_CheckViable st.rng
  let st := { st with rng := rng, viable_hook_calls := st.viable_hook_calls + 1 }
  if viable = false then
    if cfg.DIVIDE_FAILURE_RESETS ≠ 0 then
      -- internalResetOnFailedDivide();
      .ok (false, { st with reset_hook_calls := st.reset_hook_calls + 1 })
    else .ok (false, st)
  else
    -- Save the information we collected here...
    let st := { st with org := { st.org with lines_executed := executed_size,
                                             lines_copied := copied_size } }
    -- Determine the fitness of this organism as compared to its parent...
    if cfg.GetTestSterilize = true ∧ st.org.is_injected = false then
      match divideSterilizeDecision st.org st.rng with
      | .error e => .error e
      | .ok (sterilize, rng) =>
        if sterilize = true then
          -- Don't let this organism have this or any more children!
          .ok (false, { st with rng := rng, org := { st.org with is_fertile := false } })
        else .ok (true, { st with rng := rng })
    else .ok (true, st)

/-- The threshold `static_cast<int>(parent_size * MIN_EXE_LINES)` of the executed-lines check,
the product computed in `double`. -/
def minExeLines (cfg : cDivideConfig) (parent_size : Int) : Except Fault Int :=
  Double.toInt (Double.mul (Double.ofInt parent_size) (Double.round cfg.MIN_EXE_LINES))

/-- The threshold `static_cast<int>(child_size * MIN_COPIED_LINES)` of the copied-lines check,
the product computed in `double`. -/
def minCopied (cfg : cDivideConfig) (child_size : Int) : Except Fault Int :=
  Double.toInt (Double.mul (Double.ofInt child_size) (Double.round cfg.MIN_COPIED_LINES))

/-- The copied-lines check of `Divide_CheckViable` ("Repro organisms mark their entire genomes
as copied"), followed by the rest of the function. -/
def divideCopiedCheck (cfg : cDivideConfig) (hooks : DivideHooks) (st : ViableState)
    (parent_size child_size : Int) (using_repro : Bool) (executed_size : Int) :
    Except Fault (Bool × ViableState) :=
  -- Repro organisms mark their entire genomes as copied
  if using_repro = true then divideHookAndSterilize cfg hooks st executed_size parent_size
  else
    -- Normal organisms check to see how much was copied
    let copied_size := hooks.calcCopiedSize parent_size child_size
    match minCopied cfg child_size with
    | .error e => .error e
    | .ok min_copied =>
      if copied_size < min_copied then .ok (false, st)
      else divideHookAndSterilize cfg hooks st executed_size copied_size

/-- The middle of `Divide_CheckViable`: the executed-lines and copied-lines checks, followed by
the rest of the function. -/
def divideCoverageChecks (cfg : cDivideConfig) (hooks : DivideHooks)
    (flag_executed : List Bool) (st : ViableState) (parent_size child_size : Int)
    (using_repro : Bool) : Except Fault (Bool × ViableState) :=
  -- Count the number of lines executed in the parent, and make sure the specified fraction
  -- has been reached.
  match calcExecutedSize flag_executed parent_size with
  | .error e => .error e
  | .ok executed_size =>
    match minExeLines cfg parent_size with
    | .error e => .error e
    | .ok min_exe_lines =>
      if executed_size < min_exe_lines then .ok (false, st)
      else divideCopiedCheck cfg hooks st parent_size child_size using_repro executed_size

/-- The limits `min_size` and `max_size` of the size-range check of `Divide_CheckViable`:
`Max(MIN_GENOME_LENGTH, static_cast<int>(genome_size / size_range))` and
`Min(MAX_GENOME_LENGTH, static_cast<int>(genome_size * size_range))`, quotient and product
computed in `double`. -/
def sizeRangeLimits (cfg : cDivideConfig) (genome_size : Int) : Except Fault (Int × Int) :=
  let size_range := Double.round cfg.OFFSPRING_SIZE_RANGE
  match Double.toInt (Double.div (Double.ofInt genome_size) size_range) with
  | .error e => .error e
  | .ok lo =>
    match Double.toInt (Double.mul (Double.ofInt genome_size) size_range) with
    | .error e => .error e
    | .ok hi => .ok (max cfg.MIN_GENOME_LENGTH lo, min cfg.MAX_GENOME_LENGTH hi)

/-- The size checks of `Divide_CheckViable` ("Make sure that neither parent nor child will be
below the minimum size"), followed by the rest of the function. -/
def divideSizeChecks (cfg : cDivideConfig) (hooks : DivideHooks) (flag_executed : List Bool)
    (st : ViableState) (parent_size child_size : Int) (using_repro : Bool) :
    Except Fault (Bool × ViableState) :=
  let genome_size : Int := st.org.genome_size
  match sizeRangeLimits cfg genome_size with
  | .error e => .error e
  | .ok (min_size, max_size) =>
    if child_size < min_size ∨ child_size > max_size then .ok (false, st) else
    if parent_size < min_size ∨ parent_size > max_size then .ok (false, st) else
    -- Absolute minimum and maximum child/parent size limits -- @JEB
    let max_genome_size := cfg.MAX_GENOME_SIZE
    let min_genome_size := cfg.MIN_GENOME_SIZE
    if (min_genome_size ≠ 0 ∧ child_size < min_genome_size)
        ∨ (max_genome_size ≠ 0 ∧ child_size > max_genome_size) then .ok (false, st) else
    if (min_genome_size ≠ 0 ∧ parent_size < min_genome_size)
        ∨ (max_genome_size ≠ 0 ∧ parent_size > max_genome_size) then .ok (false, st) else
    divideCoverageChecks cfg hooks flag_executed st parent_size child_size using_repro

/-- `cHardwareBase::Divide_CheckViable(ctx, parent_size, child_size, using_repro)`: the returned
flag and the state after the call. -/
def Divide_CheckViable (cfg : cDivideConfig) (hooks : DivideHooks) (flag_executed : List Bool)
    (st : ViableState) (parent_size child_size : Int) (using_repro : Bool) :
    Except Fault (Bool × ViableState) :=
  let juv_age := cfg.JUV_PERIOD
  let parent_age := st.org.time_used
  if parent_age < juv_age then .ok (false, st) else
  let min_age := cfg.MIN_CYCLES
  if parent_age < min_age then .ok (false, st) else
  divideSizeChecks cfg hooks flag_executed st parent_size child_size using_repro

/-! ## Predicates and concrete inputs of the statements -/

/-- No first-time, resource, bonus or sex-specific cost is in force. -/
def noOtherCosts (hw : cHardwareBase) : Prop :=
  hw.m_has_ft_costs = false ∧ hw.m_has_res_costs = false ∧
  hw.m_has_fem_res_costs = false ∧ hw.m_has_bonus_costs = false ∧
  hw.m_has_female_costs = false ∧ hw.m_has_choosy_female_costs = false

/-- The per-use cost of opcode `op` in force is `c`: the entry of the snapshotted cost table
when the instruction set has costs, and 0 when it has none. -/
def perUseCostIs (hw : cHardwareBase) (op : Nat) (c : Int) : Prop :=
  (hw.m_has_costs = true ∧ hw.m_thread_inst_cost[op]? = some c)
  ∨ (hw.m_has_costs = false ∧ c = 0)

/-- Only the per-use cost table is in force. -/
def onlyPerUseCosts (hw : cHardwareBase) : Prop :=
  hw.m_has_costs = true ∧ hw.m_has_ft_costs = false ∧ hw.m_has_res_costs = false ∧
  hw.m_has_fem_res_costs = false ∧ hw.m_has_bonus_costs = false ∧
  hw.m_has_female_costs = false ∧ hw.m_has_choosy_female_costs = false

/-- The hardware of the witness for C2: one opcode of per-use cost 3, one thread. -/
def costWitnessHardware : cHardwareBase :=
  { m_has_costs := true, m_has_ft_costs := false, m_has_res_costs := false,
    m_has_fem_res_costs := false, m_has_post_costs := false, m_has_bonus_costs := false,
    m_has_female_costs := false, m_has_choosy_female_costs := false,
    m_inst_ft_cost := [], m_thread_inst_cost := [3], m_thread_inst_post_cost := [],
    m_active_thread_costs := [0], m_active_thread_post_costs := [0] }

/-- Mutation rates that are all zero. -/
def zeroRates : cMutationRates :=
  ⟨0, 0, 0, 0, 0, 0, 0, 0, 0, 0, 0, 0, 0, 0, 0, 0, 0, 0, 0, 0, 0, 0, 0⟩

/-- An instruction set of four opcodes without costs. -/
def plainInstSet : cInstSet :=
  ⟨4, 0, 0, fun _ => 0, fun _ => 0, fun _ => 0, fun _ => 0, fun _ => 0⟩

/-- The failing input of C3: only the per-site insertion probability is set (to 1/2), the
genome may grow to 100 and `maxmut` is 1. -/
def overBudgetEnv : MutEnv :=
  { cfg := ⟨1, 100, 0, 0, 0, 0⟩, inst_set := plainInstSet,
    rates := { zeroRates with div_ins_prob := 1 / 2 }, mut_multiplier := 1, maxmut := 1 }

/-- The draws of the failing input of C3: eleven draws of the single-shot and Poisson blocks
(none of which fires), a binomial draw of 3, three sites and three instructions. -/
def overBudgetRandom : cRandom :=
  ⟨[0, 0, 0, 0, 0, 0, 0, 0, 0, 0, 0, 3, 0, 2, 4, 1, 1, 1]⟩

/-- A configuration with the genome size bounded to `[2, 5]`, both fill modes 0. -/
def sizeBoundedConfig : cConfig := ⟨1, 100, 2, 5, 0, 0⟩

/-- The length of `genome` lies within the size bounds in force. -/
def withinSizeBounds (cfg : cConfig) (genome : InstructionSequence) : Prop :=
  cfg.min_genome_size ≤ (genome.length : Int) ∧ (genome.length : Int) ≤ cfg.max_genome_size

/-- No slip and no translocation mutation fires in the run of `Divide_DoMutations` from `st`:
the three slip draws (single-shot test, Poisson count, per-site binomial count) and the three
translocation draws, made in source order on the unchanged offspring genome, all say none. -/
def noSlipTransFires (env : MutEnv) (st : MutState) : Prop :=
  let t1 := st.rng.P env.rates.divide_slip_prob
  let t2 := t1.2.GetRandPoisson env.rates.divide_poisson_slip_mean
  let t3 := if env.rates.div_slip_prob > 0
    then t2.2.GetRandBinomial st.offspring_genome.length
      (env.rates.div_slip_prob / env.mut_multiplier)
    else (0, t2.2)
  let t4 := t3.2.P env.rates.divide_trans_prob
  let t5 := t4.2.GetRandPoisson env.rates.divide_poisson_trans_mean
  let t6 := if env.rates.div_trans_prob > 0
    then t5.2.GetRandBinomial st.offspring_genome.length
      (env.rates.div_trans_prob / env.mut_multiplier)
    else (0, t5.2)
  t1.1 = false ∧ t2.1 = 0 ∧ t3.1 = 0 ∧ t4.1 = false ∧ t5.1 = 0 ∧ t6.1 = 0

/-- The environment of the witness for C5: size bounds `[2, 5]`, no slip or translocation
rates, insertion, deletion and uniform mutations switched on. -/
def boundedMutEnv : MutEnv :=
  { cfg := sizeBoundedConfig, inst_set := plainInstSet,
    rates := { zeroRates with divide_ins_prob := 1, divide_poisson_ins_mean := 3,
                              divide_del_prob := 1 / 2, divide_uniform_prob := 1,
                              div_ins_prob := 1 / 2, div_del_prob := 1 / 2,
                              div_uniform_prob := 1 / 3 },
    mut_multiplier := 1, maxmut := 10 }

/-- The starting state of the witness for C5: an offspring genome of length 4. -/
def boundedMutStart : MutState :=
  { rng := ⟨[5, 1, 4, 1, 8, 2, 3, 7, 9, 2, 6, 4, 4, 1, 3, 5, 8, 9, 7, 2, 1, 6, 3]⟩,
    offspring_genome := [0, 1, 2, 3], memory := [0, 1, 2, 3], div_type := 1,
    totalMutations := 0 }

/-- The environment of the witness for C7: minimum genome size 4, instruction-set size 4. -/
def blockedUniformEnv : MutEnv :=
  { cfg := ⟨1, 100, 4, 0, 0, 0⟩, inst_set := plainInstSet, rates := zeroRates,
    mut_multiplier := 1, maxmut := 10 }

/-- The state of the witness for C7: a genome at the minimum size and a draw of 4 (= `N`). -/
def blockedUniformStart : MutState :=
  { rng := ⟨[4, 1]⟩, offspring_genome := [0, 1, 2, 3], memory := [], div_type := 1,
    totalMutations := 2 }

/-- An organism whose revert and sterilize probabilities are all zero, with the test-on-divide
and the sterilize-unstable policies on and an offspring that differs from the parent. -/
def zeroProbOrganism : cOrganism :=
  { genome := [0, 1, 2, 3], offspring_genome := [0, 1, 2, 2], copy_true := false,
    child_fertile := true, cur_task_count := [1, 0], test_on_divide := true,
    sterilize_unstable := 1, revert_fatal := 0, sterilize_fatal := 0, revert_neg := 0,
    sterilize_neg := 0, revert_neut := 0, sterilize_neut := 0, revert_pos := 0,
    sterilize_pos := 0, revert_taskloss := 0, sterilize_taskloss := 0, revert_equals := 0,
    neutral_min := 0, neutral_max := 0 }

/-- A test harness that reports parent fitness 1 and, for every offspring, fitness 1, the
parent's task counts and a recursion depth of 1. -/
def depthOneHarness : TestHarness :=
  { GetTestFitness := fun rng _ => (1, rng),
    TestGenome := fun rng _ => (⟨1, 1, true, [1, 0]⟩, rng) }

/-- The report of the test execution of the offspring in `Divide_TestFitnessMeasures`. -/
def offspringTestInfo (harness : TestHarness) (st : GateState) : cCPUTestInfo :=
  (harness.TestGenome (harness.GetTestFitness st.rng st.org.genome).2
    st.org.offspring_genome).1

/-- All revert and sterilize probabilities of the organism are zero. -/
def allProbabilitiesZero (org : cOrganism) : Prop :=
  org.revert_fatal = 0 ∧ org.sterilize_fatal = 0 ∧ org.revert_neg = 0 ∧ org.sterilize_neg = 0
  ∧ org.revert_neut = 0 ∧ org.sterilize_neut = 0 ∧ org.revert_pos = 0 ∧ org.sterilize_pos = 0
  ∧ org.revert_taskloss = 0 ∧ org.sterilize_taskloss = 0 ∧ org.revert_equals = 0

/-- The values of `revert` and `sterilize` that `Divide_TestFitnessMeasures` decides on: when
the test is skipped (policy off, or copy-true offspring) nothing is decided and both are
`false`; otherwise they are the flags of `decideRevertSterilize`, entered as the function
enters it. -/
def decidedRevertSterilize (harness : TestHarness) (st : GateState) :
    Except Fault (Bool × Bool) :=
  if st.org.test_on_divide = false ∨ st.org.offspring_genome = st.org.genome then
    .ok (false, false)
  else
    let org := { st.org with copy_true := false, child_fertile := true }
    let (parent_fitness, rng) := harness.GetTestFitness st.rng org.genome
    let neut_min := neutMin org parent_fitness
    let neut_max := neutMax org parent_fitness
    let (test_info, rng) := harness.TestGenome rng org.offspring_genome
    let sterilize : Bool :=
      decide (org.sterilize_unstable = 1) && decide (test_info.max_depth > 0)
    match decideRevertSterilize
        { st with org := org, rng := rng, harness_calls := st.harness_calls + 2 }
        org.cur_task_count neut_min neut_max test_info sterilize with
    | .ok (revert, sterilize, _, _) => .ok (revert, sterilize)
    | .error e => .error e

/-- An organism that always reverts a tested offspring (every revert probability is 1) and
never sterilizes. -/
def revertingOrganism : cOrganism :=
  { zeroProbOrganism with sterilize_unstable := 0, revert_fatal := 1, revert_neg := 1,
                          revert_neut := 1, revert_pos := 1 }

/-- The age and size-range gates of `Divide_CheckViable` let the divide through: the parent is
old enough, the two conversions to `int` of the size-range check are defined, and both sizes
lie within the limits `min_size` and `max_size` the function computes. -/
def passesAgeAndRange (cfg : cDivideConfig) (st : ViableState) (parent_size child_size : Int) :
    Prop :=
  cfg.JUV_PERIOD ≤ st.org.time_used ∧ cfg.MIN_CYCLES ≤ st.org.time_used
  ∧ ∃ min_size max_size, sizeRangeLimits cfg st.org.genome_size = .ok (min_size, max_size)
    ∧ min_size ≤ child_size ∧ child_size ≤ max_size
    ∧ min_size ≤ parent_size ∧ parent_size ≤ max_size

/-- A configuration of `Divide_CheckViable` with no age gate, offspring size range 2, no
absolute size bounds, half of the lines to be executed and copied, and the test-on-divide
sterilization policy active. -/
def viableConfig : cDivideConfig :=
  { MIN_GENOME_LENGTH := 1, MAX_GENOME_LENGTH := 100, MIN_GENOME_SIZE := 0,
    MAX_GENOME_SIZE := 0, SLIP_FILL_MODE := 0, TRANS_FILL_MODE := 0,
    JUV_PERIOD := 0, MIN_CYCLES := 0, OFFSPRING_SIZE_RANGE := 2,
    MIN_EXE_LINES := 1 / 2, MIN_COPIED_LINES := 1 / 2, DIVIDE_FAILURE_RESETS := 0,
    GetTestSterilize := true }

/-- Hooks for the concrete runs: the whole child counts as copied, and the organism's own
viability check agrees without drawing. -/
def viableHooks : DivideHooks :=
  { calcCopiedSize := fun _ child_size => child_size,
    Divide_CheckViable := fun rng => (true, rng) }

/-- An organism of genome size 4, age 10, whose fitness (4 * 1 / 10) is below that of its
parent (1), which is sterilized with certainty on a fitness loss, tested with certainty for a
task loss, and performs exactly the tasks its parent did. -/
def viableOrganism : DivideOrganism :=
  { genome_size := 4, time_used := 10, lines_executed := 0, lines_copied := 0,
    is_injected := false, is_fertile := true, size_merit := 4, cur_bonus := 1,
    last_fitness := 1, cur_task_count := [1, 0], last_task_count := [1, 0],
    sterilize_neg := 1, sterilize_neut := 0, sterilize_pos := 0, sterilize_taskloss := 1 }

/-- The state in which `viableOrganism` asks to divide. -/
def viableStart : ViableState := ⟨viableOrganism, ⟨[7, 7, 7]⟩, 0, 0⟩

/-- The draw of `Divide_CheckViable` for the organism's fitness-ratio class, made on the random
source `rng`: the value it gives `sterilize`. -/
def fitnessClassDraw (org : DivideOrganism) (rng : cRandom) : Bool :=
  let fitness_ratio := fitnessRatio org
  (if Double.lt fitness_ratio (.finite 1) = true then rng.P org.sterilize_neg
   else if Double.eq fitness_ratio (.finite 1) = true then rng.P org.sterilize_neut
   else rng.P org.sterilize_pos).1

/-- The configuration `viableConfig` with a juvenile period of 20 cycles. -/
def juvenileConfig : cDivideConfig := { viableConfig with JUV_PERIOD := 20 }

/-- The configuration `viableConfig` with the absolute genome size bounded below by 5. -/
def absoluteMinConfig : cDivideConfig := { viableConfig with MIN_GENOME_SIZE := 5 }

/-- The configuration `viableConfig` with an offspring size range of 1.1. -/
def narrowRangeConfig : cDivideConfig := { viableConfig with OFFSPRING_SIZE_RANGE := 11 / 10 }

/-- The configuration `viableConfig` with an offspring size range of 0. -/
def zeroRangeConfig : cDivideConfig := { viableConfig with OFFSPRING_SIZE_RANGE := 0 }

/-- The organism `viableOrganism` with a last fitness of 0, sterilized with certainty on a
fitness gain and never on a fitness loss. -/
def orphanOrganism : DivideOrganism :=
  { viableOrganism with last_fitness := 0, sterilize_neg := 0, sterilize_pos := 1 }

/-- The state in which the organism `viableOrganism` with a genome of 33 instructions asks to
divide. -/
def longGenomeStart : ViableState :=
  ⟨{ viableOrganism with genome_size := 33 }, ⟨[7, 7, 7]⟩, 0, 0⟩

/-- The values of `from` and `to` with which `doSlipMutation` and `doTransMutation` work ("All
combinations except beginning to past end allowed": `from` as passed or drawn, `to` as drawn)
and the random source after these draws. -/
def drawFromTo (rng : cRandom) (genome : InstructionSequence) (from_ : Int) :
    Nat × Nat × cRandom :=
  let fr := if from_ < 0 then rng.GetUInt (genome.length + 1) else (from_.toNat, rng)
  let t := if fr.1 = 0 then fr.2.GetUInt genome.length else fr.2.GetUInt (genome.length + 1)
  (fr.1, t.1, t.2)

/-- A configuration whose two fill modes are values the operators do not know. -/
def unknownFillConfig : cConfig := ⟨1, 100, 0, 0, 7, 9⟩

/-- The flags returned by successive calls of `SingleProcess_PayPreCosts`, one call for each pair
of an instruction and a thread id of the list, and the hardware after them. -/
def payPreCostsSeq (inst_set : cInstSet) (org : CostOrganism) :
    List (Instruction × Nat) → cHardwareBase → Except Fault (List Bool × cHardwareBase)
  | [], hw => .ok ([], hw)
  | (cur_inst, thread_id) :: rest, hw =>
    match SingleProcess_PayPreCosts inst_set org hw cur_inst thread_id with
    | .ok (b, hw') =>
      match payPreCostsSeq inst_set org rest hw' with
      | .ok (bs, hw'') => .ok (b :: bs, hw'')
      | .error e => .error e
    | .error e => .error e

/-- A hardware with first-time costs only: 2 for opcode 0 and 0 for opcode 1; two threads. -/
def firstTimeHardware : cHardwareBase :=
  { m_has_costs := false, m_has_ft_costs := true, m_has_res_costs := false,
    m_has_fem_res_costs := false, m_has_post_costs := false, m_has_bonus_costs := false,
    m_has_female_costs := false, m_has_choosy_female_costs := false,
    m_inst_ft_cost := [2, 0], m_thread_inst_cost := [], m_thread_inst_post_cost := [],
    m_active_thread_costs := [0, 0], m_active_thread_post_costs := [0, 0] }

/-- An organism that is not female, with no bonus and empty resource bins. -/
def plainCostOrganism : CostOrganism := ⟨false, false, 0, fun _ => 0, 0⟩

/-- The first-time gate of `SingleProcess_PayPreCosts` lets `op` pass: first-time costs are not
in force, or that of `op` is used up. -/
def firstTimeExhausted (hw : cHardwareBase) (op : Nat) : Prop :=
  hw.m_has_ft_costs = false ∨ ∃ c, hw.m_inst_ft_cost[op]? = some c ∧ c ≤ 0

/-- The check `assert(resource >= 0)` of the resource gate holds whenever it is reached. -/
def resourceAssertHolds (org : CostOrganism) (hw : cHardwareBase) : Prop :=
  (hw.m_has_res_costs = true ∨ hw.m_has_fem_res_costs = true) →
    0 ≤ org.COLLECT_SPECIFIC_RESOURCE

/-- The resource gate is in force and the organism's resource bin holds less than the
resource cost of `op` plus, for a female, its female resource cost, the sum and the comparison
being those the function makes in `double`. -/
def resourceShort (inst_set : cInstSet) (org : CostOrganism) (hw : cHardwareBase) (op : Nat) :
    Prop :=
  (hw.m_has_res_costs = true ∨ hw.m_has_fem_res_costs = true) ∧
    resStoredBelowRequired inst_set org op = true

/-- The bonus gate is in force and the organism's current bonus is below the bonus cost of
`op`. -/
def bonusShort (inst_set : cInstSet) (org : CostOrganism) (hw : cHardwareBase) (op : Nat) :
    Prop :=
  hw.m_has_bonus_costs = true ∧ bonusBelowCost inst_set org op = true

/-- The first-time, resource and bonus gates of `SingleProcess_PayPreCosts` do not block
`inst`, and its per-use cost can be looked up. -/
def gatesOpen (inst_set : cInstSet) (org : CostOrganism) (hw : cHardwareBase)
    (inst : Instruction) : Prop :=
  firstTimeExhausted hw inst ∧ resourceAssertHolds org hw ∧ ¬ resourceShort inst_set org hw inst
    ∧ ¬ bonusShort inst_set org hw inst
    ∧ (hw.m_has_costs = true → inst < hw.m_thread_inst_cost.length)

/-- An instruction set of four opcodes that all have resource cost 1 and bonus cost 1. -/
def costlyInstSet : cInstSet :=
  ⟨4, 0, 0, fun _ => 1, fun _ => 0, fun _ => 1, fun _ => 0, fun _ => 0⟩

/-- A hardware with resource and bonus costs in force and no other cost; two threads, the
second in the middle of a pre-cost countdown. -/
def gatedHardware : cHardwareBase :=
  { m_has_costs := false, m_has_ft_costs := false, m_has_res_costs := true,
    m_has_fem_res_costs := false, m_has_post_costs := false, m_has_bonus_costs := true,
    m_has_female_costs := false, m_has_choosy_female_costs := false,
    m_inst_ft_cost := [], m_thread_inst_cost := [], m_thread_inst_post_cost := [],
    m_active_thread_costs := [0, 3], m_active_thread_post_costs := [0, 0] }

/-- An instruction set of four opcodes that all have resource cost 0.1 and female resource
cost 0.7. -/
def fractionalCostInstSet : cInstSet :=
  ⟨4, 0, 0, fun _ => 1 / 10, fun _ => 7 / 10, fun _ => 0, fun _ => 0, fun _ => 0⟩

/-- A female whose resource bins hold the double 0.7999999999999999, the sum of 0.1 and 0.7 as
computed in `double`. -/
def femaleOrganism : CostOrganism :=
  ⟨true, false, 0, fun _ => 7205759403792793 / 9007199254740992, 0⟩

/-- An organism with 5 units in every resource bin and no bonus. -/
def stockedOrganism : CostOrganism := ⟨false, false, 0, fun _ => 5, 0⟩

/-- A hardware with post-use costs only: post-use cost 3 for opcode 0 and 1 for opcode 1; two
threads, the second with a post countdown of 2 under way. -/
def postCostHardware : cHardwareBase :=
  { m_has_costs := false, m_has_ft_costs := false, m_has_res_costs := false,
    m_has_fem_res_costs := false, m_has_post_costs := true, m_has_bonus_costs := false,
    m_has_female_costs := false, m_has_choosy_female_costs := false,
    m_inst_ft_cost := [], m_thread_inst_cost := [], m_thread_inst_post_cost := [3, 1],
    m_active_thread_costs := [0, 0], m_active_thread_post_costs := [0, 2] }

/-- The hardware `hw` with the post countdown of `thread` set to `q`. -/
def withPostCountdown (hw : cHardwareBase) (thread : Nat) (q : Int) : cHardwareBase :=
  { hw with m_active_thread_post_costs := hw.m_active_thread_post_costs.set thread q }

/-- The number of the first `parent_size` memory cells that are flagged executed, as the claims
about `Divide_CheckViable` word it. -/
def executedCount (flag_executed : List Bool) (parent_size : Int) : Int :=
  ((flag_executed.take parent_size.toNat).count true : Nat)

/-- The copied count `Divide_CheckViable` works with: `parent_size` for a repro-style divide,
otherwise the value of `calcCopiedSize(parent_size, child_size)`. -/
def copiedCount (hooks : DivideHooks) (parent_size child_size : Int) (using_repro : Bool) :
    Int :=
  if using_repro then parent_size else hooks.calcCopiedSize parent_size child_size

/-- One of the checks of `Divide_CheckViable` that precede the organism's viability hook fails:
the age check, the size-range check, the absolute-size check, the executed-lines check or the
copied-lines check. The limits and thresholds are those the function computes in `double` and
converts to `int` (the conversions before the failing check being defined), and the last two
checks are made on a memory that holds the `parent_size` cells counted. -/
def earlyCheckFails (cfg : cDivideConfig) (hooks : DivideHooks) (flag_executed : List Bool)
    (st : ViableState) (parent_size child_size : Int) (using_repro : Bool) : Prop :=
  (st.org.time_used < cfg.JUV_PERIOD ∨ st.org.time_used < cfg.MIN_CYCLES)
  ∨ ∃ min_size max_size, sizeRangeLimits cfg st.org.genome_size = .ok (min_size, max_size)
    ∧ ((child_size < min_size ∨ child_size > max_size
        ∨ parent_size < min_size ∨ parent_size > max_size)
      ∨ (cfg.MIN_GENOME_SIZE ≠ 0
        ∧ (child_size < cfg.MIN_GENOME_SIZE ∨ parent_size < cfg.MIN_GENOME_SIZE))
      ∨ (cfg.MAX_GENOME_SIZE ≠ 0
        ∧ (child_size > cfg.MAX_GENOME_SIZE ∨ parent_size > cfg.MAX_GENOME_SIZE))
      ∨ (parent_size.toNat ≤ flag_executed.length
        ∧ ∃ min_exe_lines, minExeLines cfg parent_size = .ok min_exe_lines
          ∧ (executedCount flag_executed parent_size < min_exe_lines
            ∨ (using_repro = false
              ∧ ∃ min_copied, minCopied cfg child_size = .ok min_copied
                ∧ hooks.calcCopiedSize parent_size child_size < min_copied))))

/-- The configuration `viableConfig` without the test-on-divide sterilization policy. -/
def plainViableConfig : cDivideConfig := { viableConfig with GetTestSterilize := false }

/-- The configuration `plainViableConfig` with 0.29 as the fraction of lines to be executed. -/
def sparseExeConfig : cDivideConfig := { plainViableConfig with MIN_EXE_LINES := 29 / 100 }

/-- The state in which the organism `viableOrganism` with a genome of 100 instructions asks to
divide. -/
def centuryStart : ViableState :=
  ⟨{ viableOrganism with genome_size := 100 }, ⟨[7, 7, 7]⟩, 0, 0⟩

/-- A memory of `n` cells of which exactly the first `k` are flagged executed. -/
def executedFirst (k n : Nat) : List Bool :=
  List.replicate k true ++ List.replicate (n - k) false

/-- The state after the successful divide check of `viableStart` at sizes 4 and 4 with every
line executed: 4 lines executed and 4 copied are recorded, the viability hook has run once. -/
def recordedStart : ViableState :=
  ⟨{ viableOrganism with lines_executed := 4, lines_copied := 4 }, ⟨[7, 7, 7]⟩, 1, 0⟩

/-- Hooks under which nothing counts as copied; the organism's own viability check agrees. -/
def nothingCopiedHooks : DivideHooks :=
  { calcCopiedSize := fun _ _ => 0,
    Divide_CheckViable := fun rng => (true, rng) }

/-- The organism `zeroProbOrganism` (test-on-divide and sterilize-unstable policies on), which
in addition always reverts a neutral offspring and always tests for a task loss to
sterilize. -/
def taskLossTestingOrganism : cOrganism :=
  { zeroProbOrganism with revert_neut := 1, sterilize_taskloss := 1 }

/-- The first block of `Divide_DoExactMutations` ("Divide Mutations"): one point substitution
when `totalMutations < maxmut`. -/
def exactFirstMutation (env : MutEnv) (maxmut : Int) : MutStep := fun st =>
  if st.totalMutations < maxmut then pointMutOnce env 0 st else .ok st

/-- The second block of `Divide_DoExactMutations` ("Divide Mutations (per site)"), entered only
when the organism's `GetDivMutProb()` is positive: up to `pointmut` further point
substitutions, as long as `totalMutations < maxmut`. -/
def exactSiteMutations (env : MutEnv) (pointmut maxmut : Int) : MutStep := fun st =>
  if env.rates.div_mut_prob > 0 ∧ st.totalMutations < maxmut then
    let num_mut := pointmut
    -- If we have lines to mutate...
    if num_mut > 0 ∧ st.totalMutations < maxmut then
      forLoopWhile (fun st => decide (st.totalMutations < maxmut)) (pointMutOnce env) 0
        num_mut.toNat st
    else .ok st
  else .ok st

/-- `cHardwareBase::Divide_DoExactMutations(ctx, mut_multiplier, pointmut)`: the returned count
and the state after the call (`maxmut = pointmut`; the `maxmut` of `env` is not read). -/
def Divide_DoExactMutations (env : MutEnv) (pointmut : Int) (rng : cRandom)
    (offspring_genome : InstructionSequence) (memory : InstructionSequence) :
    Except Fault (Int × MutState) :=
  let maxmut := pointmut
  -- int totalMutations = 0;  m_organism->GetPhenotype().SetDivType(mut_multiplier);
  let st : MutState := { rng := rng, offspring_genome := offspring_genome, memory := memory,
                         div_type := env.mut_multiplier, totalMutations := 0 }
  match runSteps [exactFirstMutation env maxmut, exactSiteMutations env pointmut maxmut] st with
  | .ok st => .ok (st.totalMutations, st)
  | .error e => .error e

/-- An environment in which every mutation rate of the organism is 0. -/
def noSiteMutEnv : MutEnv :=
  { cfg := ⟨1, 100, 0, 0, 0, 0⟩, inst_set := plainInstSet, rates := zeroRates,
    mut_multiplier := 1, maxmut := 0 }

/-- The environment `noSiteMutEnv` with a per-site divide mutation probability of 1/2. -/
def siteMutEnv : MutEnv :=
  { noSiteMutEnv with rates := { zeroRates with div_mut_prob := 1 / 2 } }

/-! ## Further concrete inputs of the statements -/

/-- A configuration with both genome size bounds unset (0) and hard length bounds 2 and 100:
the size bounds in force are `[2, 100]`. -/
def unsetBoundsConfig : cConfig := ⟨2, 100, 0, 0, 0, 0⟩

/-- Mutation rates that are all zero but the point deletion probability, which is 1/2. -/
def pointDelRates : cMutationRates := { zeroRates with point_del_prob := 1 / 2 }

/-- A configuration with translocation fill mode 1 (scrambled order). -/
def scrambledTransConfig : cConfig := ⟨1, 100, 0, 0, 0, 1⟩

/-! ## Lineages -/

/-- Modelled from the spec: what `cLineage` reads of a genotype (`cGenotype`, not part of the
sources): `GetID()`, `GetName()` and `GetTestColonyFitness(ctx)`. -/
structure cGenotype where
  id : Int
  name : String
  test_colony_fitness : ℚ
  deriving DecidableEq

/-- `gt_gentype::operator()(g1, g2)`: the order of the genotype map. -/
def gt_gentype (g1 g2 : cGenotype) : Bool := decide (g1.id > g2.id)

/-- The members of `cLineage` (class declaration not part of the sources; the names are those
used in `cLineage.cc`). `m_genotype_map` is the `map<const cGenotype*, int, gt_gentype>`, held
as the list of its entries. -/
structure cLineage where
  m_id : Int
  m_parent_id : Int
  m_update_born : Int
  m_num_CPUs : Int
  m_total_CPUs : Int
  m_total_genotypes : Int
  m_generation_born : ℚ
  m_lineage_stat1 : ℚ
  m_lineage_stat2 : ℚ
  m_start_fitness : ℚ
  m_max_fitness : ℚ
  m_max_fitness_ever : ℚ
  m_ave_fitness : Double
  m_ave_fitness_changed : Bool
  m_threshold : Bool
  m_genotype_map : List (cGenotype × Int)
  deriving DecidableEq

/-- Modelled from the spec: `m_genotype_map.find(genotype)` of `std::map`: the position and the
entry whose key is equivalent to `genotype` under `gt_gentype` (neither is ordered before the
other), `none` standing for `end()`. -/
def genotypeMapFind : List (cGenotype × Int) → cGenotype → Option (Nat × cGenotype × Int)
  | [], _ => none
  | e :: rest, genotype =>
    if gt_gentype e.1 genotype = false ∧ gt_gentype genotype e.1 = false then some (0, e)
    else (genotypeMapFind rest genotype).map (fun r => (r.1 + 1, r.2))

/-- One round of the loop of `cLineage::CalcCurrentFitness`. -/
def calcFitnessStep (lineage : cLineage) (entry : cGenotype × Int) : cLineage :=
  let fitness := entry.1.test_colony_fitness
  let lineage :=
    if fitness > lineage.m_max_fitness then { lineage with m_max_fitness := fitness }
    else lineage
  let lineage :=
    if fitness > lineage.m_max_fitness_ever then { lineage with m_max_fitness_ever := fitness }
    else lineage
  let weighted := Double.mul (Double.round fitness) (Double.ofInt entry.2)
  { lineage with m_ave_fitness := Double.add lineage.m_ave_fitness weighted }

/-- `cLineage::CalcCurrentFitness(ctx)`. -/
def CalcCurrentFitness (lineage : cLineage) : cLineage :=
  let lineage := { lineage with m_max_fitness := 0, m_ave_fitness := .finite 0 }
  -- we calculate the average fitness as well, since it is so easy.
  let lineage := lineage.m_genotype_map.foldl calcFitnessStep lineage
  { lineage with
      m_ave_fitness := Double.div lineage.m_ave_fitness (Double.ofInt lineage.m_num_CPUs),
      m_ave_fitness_changed := false }

/-- `cLineage::RemoveCreature(ctx, genotype)`: the returned flag, the lineage after the call and
the lines written to `cerr`. -/
def RemoveCreature (lineage : cLineage) (genotype : cGenotype) :
    Bool × cLineage × List String :=
  -- we return true if the removal of this creature triggers a recalculation of the best lineage
  match genotypeMapFind lineage.m_genotype_map genotype with
  | none =>
    -- is the genotype part of the map?
    (false, lineage,
      ["Removing creature from lineage whose genotype is not part of the lineage!\n   "
        ++ genotype.name ++ " " ++ toString lineage.m_id])
  | some (cur, key, count) =>
    -- yes, decrease the count, and adjust the average fitness
    let lineage := { lineage with
      m_genotype_map := lineage.m_genotype_map.set cur (key, count - 1),
      m_ave_fitness_changed := true }
    let fitness := genotype.test_colony_fitness
    -- did we reach zero?
    let (result, lineage) :=
      if count - 1 = 0 then
        -- yes, remove the entry
        let lineage := { lineage with m_genotype_map := lineage.m_genotype_map.eraseIdx cur }
        -- make sure that the maximum fitness is correct
        let lineage :=
          if fitness = lineage.m_max_fitness then CalcCurrentFitness lineage else lineage
        (true, lineage)
      else (false, lineage)
    -- and now the total cpu count
    (result, { lineage with m_num_CPUs := lineage.m_num_CPUs - 1 }, [])

/-- A lineage of three creatures of two genotypes, with ids 7 and 5. -/
def twoGenotypeLineage : cLineage :=
  { m_id := 1, m_parent_id := 0, m_update_born := 0, m_num_CPUs := 3, m_total_CPUs := 3,
    m_total_genotypes := 2, m_generation_born := 0, m_lineage_stat1 := 0,
    m_lineage_stat2 := 0, m_start_fitness := 1, m_max_fitness := 2, m_max_fitness_ever := 2,
    m_ave_fitness := .finite 0, m_ave_fitness_changed := false, m_threshold := false,
    m_genotype_map := [(⟨7, "g7", 2⟩, 2), (⟨5, "g5", 1⟩, 1)] }

/-! ## Fitness gate: the second variant of the fitness test -/

/-- `cHardwareBase::Divide_TestFitnessMeasures1(ctx)`: the returned flag and the state after the
call. The text is that of `Divide_TestFitnessMeasures` except for the sterilize-unstable policy:
the level is tested with `> 0`, and a level `> 1` also sterilizes an offspring that is not
viable. -/
def Divide_TestFitnessMeasures1 (harness : TestHarness) (st : GateState) :
    Except Fault (Bool × GateState) :=
  let org := { st.org with copy_true := decide (st.org.offspring_genome = st.org.genome),
                           child_fertile := true }
  let st := { st with org := org }
  -- Only continue if we're supposed to do a fitness test on divide...
  if org.test_on_divide = false then pure (false, st)
  -- If this was a perfect copy, then we don't need to worry about any other tests...
  else if org.copy_true = true then pure (false, st)
  else
    let (parent_fitness, rng) := harness.GetTestFitness st.rng org.genome
    let parenttasks := org.cur_task_count
    let neut_min := neutMin org parent_fitness
    let neut_max := neutMax org parent_fitness
    let (test_info, rng) := harness.TestGenome rng org.offspring_genome
    let st := { st with rng := rng, harness_calls := st.harness_calls + 2 }
    let sterilize : Bool := false
    -- If implicit mutations are turned off, make sure this won't spawn one.
    let sterilize : Bool :=
      if org.sterilize_unstable > 0 then
        (if test_info.max_depth > 0 then true else sterilize)
      else sterilize
    let sterilize : Bool :=
      if org.sterilize_unstable > 1 ∧ test_info.is_viable = false then true else sterilize
    resolveFitnessTest st parenttasks neut_min neut_max test_info sterilize

/-- An organism as `zeroProbOrganism` with the sterilize-unstable policy at level 2. -/
def levelTwoOrganism : cOrganism := { zeroProbOrganism with sterilize_unstable := 2 }

/-! ## Cost ledger: the countdown arrays thread by thread -/

/-- `cHardwareBase::ResizeCostArrays(new_size)`: both countdown arrays get `new_size` cells, all
set to 0 (`new_size` is a number of threads, so a natural number here). -/
def ResizeCostArrays (hw : cHardwareBase) (new_size : Nat) : cHardwareBase :=
  { hw with m_active_thread_costs := List.replicate new_size 0,
            m_active_thread_post_costs := List.replicate new_size 0 }

/-- The countdown cells of every thread other than `t` are the same in `hw'` as in `hw`. -/
def otherThreadsUnchanged (hw hw' : cHardwareBase) (t : Nat) : Prop :=
  ∀ u, u ≠ t →
    hw'.m_active_thread_costs[u]? = hw.m_active_thread_costs[u]?
    ∧ hw'.m_active_thread_post_costs[u]? = hw.m_active_thread_post_costs[u]?

/-- The two countdown cells of thread `t`, where they exist, are not negative. -/
def countersNonneg (hw : cHardwareBase) (t : Nat) : Prop :=
  (∀ a, hw.m_active_thread_costs[t]? = some a → 0 ≤ a)
  ∧ (∀ p, hw.m_active_thread_post_costs[t]? = some p → 0 ≤ p)

/-- What a cost function called for thread `t` may do to the countdown arrays: nothing to the
cells of the other threads, and nothing that makes a cell of `t` negative. -/
def threadLocalStep (t : Nat) (hw hw' : cHardwareBase) : Prop :=
  otherThreadsUnchanged hw hw' t ∧ (countersNonneg hw t → countersNonneg hw' t)

/-- A hardware with per-use and post-use costs in force: per-use costs 3 and 1, post-use costs
2 and 0; three threads, the second in a pre-cost countdown and the third in a post-cost
countdown. -/
def threeThreadHardware : cHardwareBase :=
  { m_has_costs := true, m_has_ft_costs := false, m_has_res_costs := false,
    m_has_fem_res_costs := false, m_has_post_costs := true, m_has_bonus_costs := false,
    m_has_female_costs := false, m_has_choosy_female_costs := false,
    m_inst_ft_cost := [], m_thread_inst_cost := [3, 1], m_thread_inst_post_cost := [2, 0],
    m_active_thread_costs := [0, 2, 0], m_active_thread_post_costs := [0, 0, 2] }

/-! ## Slip mutation: the slots chosen by the scrambled fill -/

/-- The number of slots below `j` that are not among the slots `chosen`. -/
def unchosenBelow (chosen : List Nat) (j : Nat) : Nat :=
  ((List.range j).filter (fun m => decide (m ∉ chosen))).length

/-- The array `copied_so_far` of `n` cells in which exactly the slots `chosen` are marked. -/
def chosenMask (n : Nat) (chosen : List Nat) : List Bool :=
  (List.range n).map (fun k => decide (k ∈ chosen))

/-- The state of the scrambled fill loop of `doSlipMutation` before round `i`, for the genome
`g` on entry and the draws `ds` of the loop (followed by `rest`): some slots `js` were chosen in
the rounds so far, all different and below the insertion length; `copied_so_far` marks exactly
them; the genome is `g` below `from` and holds `g[to + js[k]]` at `from + k`; each `js[k]` had
`ds[k]` slots not yet chosen below it when it was chosen. -/
def scrambledFillInv (g : InstructionSequence) (from_ to_ : Nat) (ds rest : List Nat) (i : Nat)
    (s : FillState) : Prop :=
  ∃ js : List Nat, js.length = i ∧ js.Nodup ∧ (∀ x ∈ js, x < from_ - to_)
    ∧ s.copied_so_far = chosenMask (from_ - to_) js
    ∧ s.copied_so_far.count false = from_ - to_ - i
    ∧ s.genome.length = g.length + (from_ - to_)
    ∧ (∀ k, k < from_ → s.genome[k]? = g[k]?)
    ∧ (∀ k, k < i → s.genome[from_ + k]? = (js.map (fun j => g.getD (to_ + j) 0))[k]?)
    ∧ s.rng = ⟨ds.drop i ++ rest⟩
    ∧ (∀ k, k < i → unchosenBelow (js.take k) (js.getD k 0) = ds.getD k 0)

/-! ## Basic facts about sequences and loops -/

theorem seqGet_eq {α : Type} (seq : List α) (i : Nat) (h : i < seq.length) :
    seqGet seq i = .ok seq[i] := by
  simp [seqGet, List.getElem?_eq_getElem h]

theorem forLoop_add {σ : Type} (body : Nat → σ → Except Fault σ) :
    ∀ (k1 k2 i : Nat) (s : σ),
      forLoop body i (k1 + k2) s =
        match forLoop body i k1 s with
        | .ok s' => forLoop body (i + k1) k2 s'
        | .error e => .error e := by
  intro k1
  induction k1 with
  | zero => intro k2 i s; simp [forLoop]
  | succ k ih =>
    intro k2 i s
    have : k + 1 + k2 = (k + k2) + 1 := by omega
    rw [this]
    simp only [forLoop]
    cases h : body i s with
    | error e => simp
    | ok s' =>
      simp only []
      rw [ih]
      have : i + 1 + k = i + (k + 1) := by omega
      rw [this]

theorem forLoop_copyStep (src : InstructionSequence) (d s : Nat) :
    ∀ (k a : Nat) (g : InstructionSequence), d + a + k ≤ g.length → s + a + k ≤ src.length →
      ∃ g', forLoop (copyStep src d s) a k g = .ok g' ∧ g'.length = g.length ∧
        ∀ j, g'[j]? = if d + a ≤ j ∧ j < d + a + k then src[s + (j - d)]? else g[j]? := by
  intro k
  induction k with
  | zero =>
    intro a g _ _
    refine ⟨g, rfl, rfl, fun j => ?_⟩
    have : ¬ (d + a ≤ j ∧ j < d + a + 0) := by omega
    rw [if_neg this]
  | succ k ih =>
    intro a g hg hs
    have h1 : s + a < src.length := by omega
    have h2 : d + a < g.length := by omega
    obtain ⟨g', hrun, hlen, hget⟩ := ih (a + 1) (g.set (d + a) src[s + a])
      (by simp; omega) (by omega)
    refine ⟨g', ?_, by simpa using hlen, fun j => ?_⟩
    · simp [forLoop, copyStep, seqGet_eq _ _ h1, seqSet, h2, bind, Except.bind, hrun]
    · rw [hget j]
      by_cases hj : j = d + a
      · subst hj
        have h3 : ¬ (d + (a + 1) ≤ d + a ∧ d + a < d + (a + 1) + k) := by omega
        have h4 : d + a ≤ d + a ∧ d + a < d + a + (k + 1) := by omega
        rw [if_neg h3, if_pos h4, List.getElem?_set, if_pos rfl]
        simp [h2, List.getElem?_eq_getElem h1]
      · by_cases hj2 : d + (a + 1) ≤ j ∧ j < d + (a + 1) + k
        · have : d + a ≤ j ∧ j < d + a + (k + 1) := by omega
          simp [hj2, this]
        · have : ¬ (d + a ≤ j ∧ j < d + a + (k + 1)) := by omega
          rw [if_neg hj2, if_neg this, List.getElem?_set_ne (by omega)]

theorem forLoop_slipFillStep_dup (cfg : cConfig) (inst_set : cInstSet)
    (copy : InstructionSequence) (from_ to_ n : Nat) (h : cfg.SLIP_FILL_MODE = 0)
    (cs : List Bool) (rng : cRandom) :
    ∀ (k i : Nat) (g : InstructionSequence),
      forLoop (slipFillStep cfg inst_set copy from_ to_ n) i k ⟨g, cs, rng⟩ =
        match forLoop (copyStep copy from_ to_) i k g with
        | .ok g' => .ok ⟨g', cs, rng⟩
        | .error e => .error e := by
  intro k
  induction k with
  | zero => intro i g; rfl
  | succ k ih =>
    intro i g
    simp only [forLoop, slipFillStep, h, if_true, copyStep]
    cases hx : seqGet copy (to_ + i) with
    | error e => simp [bind, Except.bind]
    | ok x =>
      cases hy : seqSet g (from_ + i) x with
      | error e => simp [bind, Except.bind, hy]
      | ok g1 => simp [bind, Except.bind, hy, pure, Except.pure, ih]

theorem seqResize_eq (g : InstructionSequence) (n : Nat) :
    seqResize g (n : Int) = .ok (g.take n ++ List.replicate (n - g.length) 0) := by
  simp [seqResize]

theorem copy_tail_eq (g r : InstructionSequence) (from_ to_ : Nat)
    (hfrom : from_ ≤ g.length) (hto : to_ ≤ g.length)
    (hlen : r.length = from_ + (g.length - to_)) (hpre : ∀ j, j < from_ → r[j]? = g[j]?) :
    forLoop (copyStep g from_ to_) 0 (g.length - to_) r = .ok (g.take from_ ++ g.drop to_) := by
  obtain ⟨g', hrun, hl, hget⟩ := forLoop_copyStep g from_ to_ (g.length - to_) 0 r
    (by omega) (by omega)
  rw [hrun]
  congr 1
  apply List.ext_getElem?
  intro j
  rw [hget j]
  by_cases hj : j < from_
  · have : ¬ (from_ + 0 ≤ j ∧ j < from_ + 0 + (g.length - to_)) := by omega
    rw [if_neg this, hpre j hj, List.getElem?_append_left (by simp; omega),
      List.getElem?_take_of_lt hj]
  · by_cases hj2 : j < from_ + (g.length - to_)
    · have : from_ + 0 ≤ j ∧ j < from_ + 0 + (g.length - to_) := by omega
      rw [if_pos this, List.getElem?_append_right (by simp; omega)]
      simp [Nat.min_eq_left hfrom]
    · have : ¬ (from_ + 0 ≤ j ∧ j < from_ + 0 + (g.length - to_)) := by omega
      rw [if_neg this, List.getElem?_eq_none (by omega), List.getElem?_eq_none (by simp; omega)]

theorem doSlipMutationAt_dup (cfg : cConfig) (inst_set : cInstSet) (rng : cRandom)
    (g : InstructionSequence) (from_ to_ : Nat) (h : cfg.SLIP_FILL_MODE = 0)
    (hfrom : from_ ≤ g.length) (hto : to_ ≤ g.length) :
    doSlipMutationAt cfg inst_set rng g from_ to_ = .ok (g.take from_ ++ g.drop to_, rng) := by
  have hN : (g.length : Int) + ((from_ : Int) - (to_ : Int))
      = ((g.length + from_ - to_ : Nat) : Int) := by omega
  set r := g.take (g.length + from_ - to_) ++ List.replicate (g.length + from_ - to_ - g.length) 0
    with hr
  have hrlen : r.length = from_ + (g.length - to_) := by
    simp [hr]; omega
  have hpre : ∀ j, j < from_ → r[j]? = g[j]? := by
    intro j hj
    rw [hr, List.getElem?_append_left (by simp; omega), List.getElem?_take_of_lt (by omega)]
  have hnet := copy_tail_eq g r from_ to_ hfrom hto hrlen hpre
  unfold doSlipMutationAt
  simp only [hN, seqResize_eq, bind, Except.bind]
  by_cases hlt : to_ < from_
  · have h1 : ((from_ : Int) - (to_ : Int)) > 0 := by omega
    have h2 : ¬ ((from_ : Int) - (to_ : Int)) < 0 := by omega
    have h3 : ((from_ : Int) - (to_ : Int)).toNat = from_ - to_ := by omega
    have h4 : (((g.length : Int) - (to_ : Int)) - ((from_ : Int) - (to_ : Int))).toNat
        = g.length - from_ := by omega
    have h5 : g.length - to_ = (from_ - to_) + (g.length - from_) := by omega
    rw [h5, forLoop_add] at hnet
    simp only [h1, h2, if_true, if_false, h3, h4, forLoop_slipFillStep_dup _ _ _ _ _ _ h]
    rw [← hr]
    cases hA : forLoop (copyStep g from_ to_) 0 (from_ - to_) r with
    | error e => rw [hA] at hnet; simp at hnet
    | ok g1 =>
      rw [hA] at hnet
      simp only [Nat.zero_add] at hnet
      simp [hnet, pure, Except.pure]
  · have h1 : ¬ ((from_ : Int) - (to_ : Int)) > 0 := by omega
    have h4 : (((g.length : Int) - (to_ : Int))
        - (if ((from_ : Int) - (to_ : Int)) < 0 then 0 else ((from_ : Int) - (to_ : Int)))).toNat
        = g.length - to_ := by split <;> omega
    have h3 : (if ((from_ : Int) - (to_ : Int)) < 0 then (0 : Int)
        else ((from_ : Int) - (to_ : Int))).toNat = 0 := by split <;> omega
    simp only [h1, if_false, h3, h4, pure, Except.pure]
    rw [← hr, hnet]

theorem GetUInt_cons (d : Nat) (rest : List Nat) (max : Nat) (h : d < max) :
    (cRandom.mk (d :: rest)).GetUInt max = (d, ⟨rest⟩) := by
  have : max ≠ 0 := by omega
  simp [cRandom.GetUInt, cRandom.next, this, Nat.mod_eq_of_lt h]

/-- C1: with `SLIP_FILL_MODE` 0 (duplication), for a genome `g` of length `L`, a drawn (or
passed) `from` in `[0, L]` and a drawn `to` in `[0, L]` (`to < L` when `from = 0`),
`doSlipMutation` returns exactly `g[0..from) ++ g[to..L)`; in particular `[A,B,C,D]` becomes
`[A,D]` for `from = 1, to = 3` and `[A,B,C,B,C,D]` for `from = 3, to = 1`. -/
theorem doSlipMutation_duplication (cfg : cConfig) (inst_set : cInstSet)
    (g : InstructionSequence) (from_ to_ : Nat) (rest : List Nat)
    (hmode : cfg.SLIP_FILL_MODE = 0) (hfrom : from_ ≤ g.length) (hto : to_ ≤ g.length)
    (h0 : from_ = 0 → to_ < g.length) :
    doSlipMutation cfg inst_set ⟨from_ :: to_ :: rest⟩ g (-1)
        = .ok (g.take from_ ++ g.drop to_, ⟨rest⟩)
      ∧ doSlipMutation cfg inst_set ⟨to_ :: rest⟩ g (from_ : Int)
        = .ok (g.take from_ ++ g.drop to_, ⟨rest⟩)
      ∧ (∀ A B C D : Instruction,
          doSlipMutation cfg inst_set ⟨1 :: 3 :: rest⟩ [A, B, C, D] (-1)
            = .ok ([A, D], ⟨rest⟩)
          ∧ doSlipMutation cfg inst_set ⟨3 :: 1 :: rest⟩ [A, B, C, D] (-1)
            = .ok ([A, B, C, B, C, D], ⟨rest⟩)) := by
  have key : ∀ (g : InstructionSequence) (from_ to_ : Nat), from_ ≤ g.length → to_ ≤ g.length →
      (from_ = 0 → to_ < g.length) →
      doSlipMutation cfg inst_set ⟨from_ :: to_ :: rest⟩ g (-1)
        = .ok (g.take from_ ++ g.drop to_, ⟨rest⟩) := by
    intro g from_ to_ hfrom hto h0
    have hneg : ((-1 : Int) < 0) := by decide
    unfold doSlipMutation
    simp only [hneg, if_true, GetUInt_cons from_ (to_ :: rest) (g.length + 1) (by omega)]
    by_cases hz : from_ = 0
    · simp only [hz, if_true, GetUInt_cons to_ rest g.length (h0 hz)]
      rw [doSlipMutationAt_dup cfg inst_set _ g 0 to_ hmode (by omega) hto]
    · simp only [hz, if_false, GetUInt_cons to_ rest (g.length + 1) (by omega)]
      rw [doSlipMutationAt_dup cfg inst_set _ g from_ to_ hmode hfrom hto]
  refine ⟨key g from_ to_ hfrom hto h0, ?_, ?_⟩
  · have hneg : ¬ ((from_ : Int) < 0) := by omega
    unfold doSlipMutation
    simp only [hneg, if_false, Int.toNat_ofNat]
    by_cases hz : from_ = 0
    · simp only [hz, if_true, GetUInt_cons to_ rest g.length (h0 hz)]
      rw [doSlipMutationAt_dup cfg inst_set _ g 0 to_ hmode (by omega) hto]
    · simp only [hz, if_false, GetUInt_cons to_ rest (g.length + 1) (by omega)]
      rw [doSlipMutationAt_dup cfg inst_set _ g from_ to_ hmode hfrom hto]
  · intro A B C D
    exact ⟨key [A, B, C, D] 1 3 (by simp) (by simp) (by simp),
      key [A, B, C, D] 3 1 (by simp) (by simp) (by simp)⟩

/-- Witness for C1: `from = 3`, `to = 1` on the genome `[10, 11, 12, 13]`. -/
theorem doSlipMutation_duplication_witness :
    doSlipMutation ⟨1, 100, 0, 0, 0, 0⟩ plainInstSet ⟨[3, 1, 7]⟩ [10, 11, 12, 13] (-1)
      = .ok ([10, 11, 12, 11, 12, 13], ⟨[7]⟩) :=
  (doSlipMutation_duplication ⟨1, 100, 0, 0, 0, 0⟩ plainInstSet [10, 11, 12, 13] 3 1 [7] rfl
    (by decide) (by decide) (by decide)).1

/-! ## The arithmetic of `double`: rounding -/

theorem roundHalfEven_intCast (n : Int) : roundHalfEven (n : ℚ) = n := by
  simp [roundHalfEven]

theorem two_zpow_pos (k : Int) : (0 : ℚ) < 2 ^ k := zpow_pos (by norm_num) k

/-- A power of two with an exponent that is not negative is an integer. -/
theorem two_zpow_int (k : Int) (hk : 0 ≤ k) : ∃ n : Int, (2 : ℚ) ^ k = n ∧ 0 < n := by
  refine ⟨2 ^ k.toNat, ?_, by positivity⟩
  have : k = (k.toNat : Int) := (Int.toNat_of_nonneg hk).symm
  conv_lhs => rw [this]
  rw [zpow_natCast]
  push_cast
  rfl

/-- The exponent of the last place of `x`, from the binade of `x`. -/
theorem quantum_eq (x : ℚ) (e : Int) (h1 : (2 : ℚ) ^ e ≤ |x|) (h2 : |x| < (2 : ℚ) ^ (e + 1)) :
    Double.quantum x = max (e - 52) (-1074) := by
  have hpos : 0 < |x| := lt_of_lt_of_le (two_zpow_pos e) h1
  have ha : e ≤ Int.log 2 |x| := by
    have := (Int.zpow_le_iff_le_log (b := 2) (R := ℚ) (by norm_num) (x := e) hpos).mp
      (by simpa using h1)
    exact this
  have hb : Int.log 2 |x| < e + 1 := by
    have := (Int.lt_zpow_iff_log_lt (b := 2) (R := ℚ) (by norm_num) (x := e + 1) hpos).mp
      (by simpa using h2)
    exact this
  unfold Double.quantum
  have : Int.log 2 |x| = e := by omega
  rw [this]

/-- The value of `Double.round` at `x`, from the binade of `x` and the rounded quotient. -/
theorem round_eq (x : ℚ) (e m : Int) (h1 : (2 : ℚ) ^ e ≤ |x|) (h2 : |x| < (2 : ℚ) ^ (e + 1))
    (he : -1022 ≤ e) (hm : roundHalfEven (x / 2 ^ (e - 52)) = m)
    (hfin : |(m : ℚ) * 2 ^ (e - 52)| < 2 ^ (1024 : Nat)) :
    Double.round x = .finite ((m : ℚ) * 2 ^ (e - 52)) := by
  have hq : Double.quantum x = e - 52 := by
    rw [quantum_eq x e h1 h2]
    omega
  unfold Double.round
  rw [hq, hm, if_pos hfin]

/-- A finite double is not changed by rounding. -/
theorem round_isDouble (d : ℚ) (h : isDouble d) : Double.round d = .finite d := by
  obtain ⟨⟨m, hm⟩, hfin⟩ := h
  have hu := two_zpow_pos (Double.quantum d)
  have hq : d / 2 ^ Double.quantum d = (m : ℚ) := by
    rw [div_eq_iff (ne_of_gt hu)]
    exact hm
  unfold Double.round
  rw [hq, roundHalfEven_intCast, ← hm, if_pos hfin]

theorem isDouble_zero : isDouble 0 := ⟨⟨0, by simp⟩, by norm_num⟩

/-- A multiple `m * 2 ^ k` of a power of two with `|m| < 2 ^ 53`, `-1074 ≤ k` and the value below
`2 ^ 1024` is a finite double. -/
theorem isDouble_of_mantissa (m k : Int) (hm : |m| < 2 ^ (53 : Nat)) (hk : -1074 ≤ k)
    (hfin : |(m : ℚ) * 2 ^ k| < 2 ^ (1024 : Nat)) : isDouble ((m : ℚ) * 2 ^ k) := by
  refine ⟨?_, hfin⟩
  by_cases h0 : m = 0
  · exact ⟨0, by simp [h0]⟩
  have hk2 := two_zpow_pos k
  have hx : (m : ℚ) * 2 ^ k ≠ 0 := mul_ne_zero (by exact_mod_cast h0) (ne_of_gt hk2)
  -- the binade of the value is below `k + 53`
  have hlt : |(m : ℚ) * 2 ^ k| < (2 : ℚ) ^ (k + 53) := by
    rw [abs_mul, abs_of_pos hk2, zpow_add₀ (by norm_num : (2 : ℚ) ≠ 0), mul_comm]
    apply mul_lt_mul_of_pos_left _ hk2
    have : ((|m| : Int) : ℚ) < ((2 ^ (53 : Nat) : Int) : ℚ) := by exact_mod_cast hm
    rw [Int.cast_abs] at this
    calc |(m : ℚ)| < ((2 ^ (53 : Nat) : Int) : ℚ) := this
      _ = (2 : ℚ) ^ (53 : Int) := by norm_num
  have hlog : Int.log 2 |(m : ℚ) * 2 ^ k| < k + 53 := by
    have := (Int.lt_zpow_iff_log_lt (b := 2) (R := ℚ) (by norm_num) (x := k + 53)
      (abs_pos.mpr hx)).mp (by simpa using hlt)
    exact this
  have hq : Double.quantum ((m : ℚ) * 2 ^ k) ≤ k := by
    unfold Double.quantum
    omega
  obtain ⟨n, hn, _⟩ := two_zpow_int (k - Double.quantum ((m : ℚ) * 2 ^ k)) (by omega)
  refine ⟨m * n, ?_⟩
  push_cast
  rw [← hn, mul_assoc, ← zpow_add₀ (by norm_num : (2 : ℚ) ≠ 0)]
  congr 2
  omega

/-- A rational given as `m * 2 ^ k` with `|m| < 2 ^ 53` and `-1074 ≤ k` is a finite double. -/
theorem isDouble_exact (x : ℚ) (m k : Int) (hx : x = (m : ℚ) * 2 ^ k)
    (hm : |m| < 2 ^ (53 : Nat)) (hk : -1074 ≤ k) (hfin : |x| < 2 ^ (1024 : Nat)) :
    isDouble x := by
  subst hx
  exact isDouble_of_mantissa m k hm hk hfin

/-- A rational given as `m * 2 ^ k` with `|m| < 2 ^ 53` and `-1074 ≤ k` is not changed by
rounding. -/
theorem round_exact (x : ℚ) (m k : Int) (hx : x = (m : ℚ) * 2 ^ k)
    (hm : |m| < 2 ^ (53 : Nat)) (hk : -1074 ≤ k) (hfin : |x| < 2 ^ (1024 : Nat)) :
    Double.round x = .finite x :=
  round_isDouble x (isDouble_exact x m k hx hm hk hfin)

/-- The value of `Double.round` at a positive `x`, from the binade of `x` and the rounded
quotient. -/
theorem round_eq_pos (x : ℚ) (e m : Int) (hpos : 0 < x) (h1 : (2 : ℚ) ^ e ≤ x)
    (h2 : x < (2 : ℚ) ^ (e + 1)) (he : -1022 ≤ e)
    (hm : roundHalfEven (x / 2 ^ (e - 52)) = m) (hm0 : 0 ≤ m)
    (hfin : (m : ℚ) * 2 ^ (e - 52) < 2 ^ (1024 : Nat)) :
    Double.round x = .finite ((m : ℚ) * 2 ^ (e - 52)) := by
  apply round_eq x e m _ _ he hm
  · rw [abs_of_nonneg (mul_nonneg (by exact_mod_cast hm0) (le_of_lt (two_zpow_pos _)))]
    exact hfin
  · rw [abs_of_pos hpos]
    exact h1
  · rw [abs_of_pos hpos]
    exact h2

/-- A rational `x ≥ 0` given as `m * 2 ^ k` with `m < 2 ^ 53` and `-1074 ≤ k` is a finite
double. -/
theorem isDouble_exact_pos (x : ℚ) (m k : Int) (hx : x = (m : ℚ) * 2 ^ k) (hm0 : 0 ≤ m)
    (hm : m < 2 ^ (53 : Nat)) (hk : -1074 ≤ k) (hfin : x < 2 ^ (1024 : Nat)) : isDouble x := by
  have hx0 : 0 ≤ x := by
    rw [hx]
    exact mul_nonneg (by exact_mod_cast hm0) (le_of_lt (two_zpow_pos _))
  exact isDouble_exact x m k hx (by rw [abs_of_nonneg hm0]; exact hm) hk
    (by rw [abs_of_nonneg hx0]; exact hfin)

/-- A rational `x ≥ 0` given as `m * 2 ^ k` with `m < 2 ^ 53` and `-1074 ≤ k` is not changed by
rounding. -/
theorem round_exact_pos (x : ℚ) (m k : Int) (hx : x = (m : ℚ) * 2 ^ k) (hm0 : 0 ≤ m)
    (hm : m < 2 ^ (53 : Nat)) (hk : -1074 ≤ k) (hfin : x < 2 ^ (1024 : Nat)) :
    Double.round x = .finite x :=
  round_isDouble x (isDouble_exact_pos x m k hx hm0 hm hk hfin)

theorem round_zero : Double.round 0 = .finite 0 := round_isDouble 0 isDouble_zero

theorem div_finite (a b : ℚ) (hb : b ≠ 0) :
    Double.div (.finite a) (.finite b) = Double.round (a / b) := by
  simp [Double.div, hb]

theorem mul_finite (a b : ℚ) : Double.mul (.finite a) (.finite b) = Double.round (a * b) := rfl

theorem add_finite (a b : ℚ) : Double.add (.finite a) (.finite b) = Double.round (a + b) := rfl

theorem sub_finite (a b : ℚ) : Double.sub (.finite a) (.finite b) = Double.round (a - b) := by
  simp [Double.sub, Double.neg, Double.add, sub_eq_add_neg]

/-- The conversion to `int` of a finite double whose truncation is an `int`. -/
theorem toInt_finite (a : ℚ) (n : Int) (h : truncToInt a = n)
    (hlo : -(2 ^ (31 : Nat)) ≤ n) (hhi : n < 2 ^ (31 : Nat)) :
    Double.toInt (.finite a) = .ok n := by
  simp only [Double.toInt, h]
  rw [if_pos ⟨hlo, hhi⟩]

theorem getElem?_lt {α : Type} {l : List α} {i : Nat} {a : α} (h : l[i]? = some a) :
    i < l.length := by
  by_contra hc
  rw [List.getElem?_eq_none (by omega)] at h
  cases h

theorem payPreCosts_step (inst_set : cInstSet) (org : CostOrganism) (hw : cHardwareBase)
    (op thread : Nat) (c a : Int) (hf : onlyPerUseCosts hw)
    (hc : hw.m_thread_inst_cost[op]? = some c)
    (hp : hw.m_active_thread_post_costs[thread]? = some 0)
    (ha : hw.m_active_thread_costs[thread]? = some a) :
    SingleProcess_PayPreCosts inst_set org hw op thread =
      if a > 1 then
        .ok (false, { hw with m_active_thread_costs := hw.m_active_thread_costs.set thread (a - 1) })
      else if a = 0 ∧ c > 1 then
        .ok (false, { hw with m_active_thread_costs := hw.m_active_thread_costs.set thread (c - 1) })
      else if a = 1 then
        .ok (true, { hw with m_active_thread_costs := hw.m_active_thread_costs.set thread 0 })
      else .ok (true, hw) := by
  obtain ⟨h1, h2, h3, h4, h5, h6, h7⟩ := hf
  have hlt := getElem?_lt ha
  simp only [SingleProcess_PayPreCosts, payPerUseCosts, seqGet, seqSet, h1, h2, h3, h4, h5, h6,
    h7, hc, hp, ha, hlt, bind, Except.bind, pure, Except.pure]
  simp

theorem payPreCosts_countdown (inst_set : cInstSet) (org : CostOrganism) (op thread : Nat)
    (c : Int) :
    ∀ (m : Nat) (hw : cHardwareBase), onlyPerUseCosts hw →
      hw.m_thread_inst_cost[op]? = some c →
      hw.m_active_thread_post_costs[thread]? = some 0 →
      hw.m_active_thread_costs[thread]? = some ((m : Int) + 1) →
      payPreCostsCalls inst_set org op thread (m + 1) hw =
        .ok (List.replicate m false ++ [true],
          { hw with m_active_thread_costs := hw.m_active_thread_costs.set thread 0 }) := by
  intro m
  induction m with
  | zero =>
    intro hw hf hc hp ha
    have hstep := payPreCosts_step inst_set org hw op thread c _ hf hc hp ha
    rw [if_neg (by omega), if_neg (by omega), if_pos (by omega)] at hstep
    simp [payPreCostsCalls, hstep]
  | succ m ih =>
    intro hw hf hc hp ha
    have hlt := getElem?_lt ha
    have hstep := payPreCosts_step inst_set org hw op thread c _ hf hc hp ha
    have h1 : ((m + 1 : Nat) : Int) + 1 > 1 := by omega
    rw [if_pos h1] at hstep
    have ih' := ih { hw with m_active_thread_costs :=
        hw.m_active_thread_costs.set thread (((m + 1 : Nat) : Int) + 1 - 1) } hf hc hp
      (by simp [hlt])
    rw [payPreCostsCalls, hstep]
    simp only [ih']
    simp [List.replicate_succ]

theorem payPreCosts_no_costs (inst_set : cInstSet) (org : CostOrganism) (hw : cHardwareBase)
    (op thread : Nat) (hf : noOtherCosts hw) (hc : hw.m_has_costs = false)
    (hp : hw.m_active_thread_post_costs[thread]? = some 0)
    (ha : hw.m_active_thread_costs[thread]? = some 0) :
    SingleProcess_PayPreCosts inst_set org hw op thread = .ok (true, hw) := by
  obtain ⟨h2, h3, h4, h5, h6, h7⟩ := hf
  simp only [SingleProcess_PayPreCosts, payPerUseCosts, seqGet, seqSet, hc, h2, h3, h4, h5, h6,
    h7, hp, ha, bind, Except.bind, pure, Except.pure]
  simp

/-- C2: on a thread whose `active_cost` and `active_post_cost` are 0, with only the per-use
cost `c ≥ 0` of the opcode in force, successive calls of `SingleProcess_PayPreCosts` return
`false` exactly `max(c - 1, 0)` times and then `true`, and the thread's `active_cost` is 0
after the allowing call; `c = 3` gives `false, false, true`, `c ≤ 1` gives `true` at once. -/
theorem payPreCosts_per_use_cost (inst_set : cInstSet) (org : CostOrganism)
    (hw : cHardwareBase) (op thread : Nat) (c : Int) (hf : noOtherCosts hw)
    (hc : perUseCostIs hw op c) (hc0 : 0 ≤ c)
    (hp : hw.m_active_thread_post_costs[thread]? = some 0)
    (ha : hw.m_active_thread_costs[thread]? = some 0) :
    (∃ hw', payPreCostsCalls inst_set org op thread ((c - 1).toNat + 1) hw
        = .ok (List.replicate (c - 1).toNat false ++ [true], hw')
      ∧ hw'.m_active_thread_costs[thread]? = some 0)
    ∧ (c = 3 → ∃ hw', payPreCostsCalls inst_set org op thread 3 hw
        = .ok ([false, false, true], hw'))
    ∧ (c ≤ 1 → SingleProcess_PayPreCosts inst_set org hw op thread = .ok (true, hw)) := by
  have hlt := getElem?_lt ha
  have hstep1 : c ≤ 1 → SingleProcess_PayPreCosts inst_set org hw op thread = .ok (true, hw) := by
    intro hle
    rcases hc with ⟨hon, hc⟩ | ⟨hoff, _⟩
    · have hstep := payPreCosts_step inst_set org hw op thread c 0
        ⟨hon, hf.1, hf.2.1, hf.2.2.1, hf.2.2.2.1, hf.2.2.2.2.1, hf.2.2.2.2.2⟩ hc hp ha
      have h1 : ¬ ((0 : Int) = 0 ∧ c > 1) := by omega
      rw [if_neg (by decide), if_neg h1, if_neg (by decide)] at hstep
      exact hstep
    · exact payPreCosts_no_costs inst_set org hw op thread hf hoff hp ha
  have main : ∃ hw', payPreCostsCalls inst_set org op thread ((c - 1).toNat + 1) hw
        = .ok (List.replicate (c - 1).toNat false ++ [true], hw')
      ∧ hw'.m_active_thread_costs[thread]? = some 0 := by
    by_cases hc1 : c > 1
    · rcases hc with ⟨hon, hc⟩ | ⟨_, hzero⟩
      · have hf' : onlyPerUseCosts hw :=
          ⟨hon, hf.1, hf.2.1, hf.2.2.1, hf.2.2.2.1, hf.2.2.2.2.1, hf.2.2.2.2.2⟩
        have hstep := payPreCosts_step inst_set org hw op thread c 0 hf' hc hp ha
        obtain ⟨m, hm⟩ : ∃ m : Nat, c = (m : Int) + 2 := ⟨(c - 2).toNat, by omega⟩
        subst hm
        rw [if_neg (by decide), if_pos ⟨rfl, hc1⟩] at hstep
        have hcd := payPreCosts_countdown inst_set org op thread ((m : Int) + 2) m
          { hw with m_active_thread_costs :=
              hw.m_active_thread_costs.set thread ((m : Int) + 2 - 1) }
          hf' hc hp (by simp [hlt]; omega)
        have hn : ((m : Int) + 2 - 1).toNat = m + 1 := by omega
        refine ⟨{ hw with m_active_thread_costs :=
          (hw.m_active_thread_costs.set thread ((m : Int) + 2 - 1)).set thread 0 }, ?_, ?_⟩
        · rw [hn, payPreCostsCalls, hstep]
          simp only [hcd]
          simp [List.replicate_succ]
        · simp [hlt]
      · omega
    · have hn : (c - 1).toNat = 0 := by omega
      refine ⟨hw, ?_, ha⟩
      rw [hn]
      simp [payPreCostsCalls, hstep1 (by omega)]
  refine ⟨main, ?_, hstep1⟩
  intro h3
  subst h3
  obtain ⟨hw', h, _⟩ := main
  exact ⟨hw', by simpa using h⟩

/-- Witness for C2: per-use cost 3 for opcode 0 on thread 0. -/
theorem payPreCosts_per_use_cost_witness :
    ∃ hw', payPreCostsCalls plainInstSet ⟨false, false, 0, fun _ => 0, 0⟩ 0 0 3
        costWitnessHardware
      = .ok ([false, false, true], hw') :=
  (payPreCosts_per_use_cost plainInstSet ⟨false, false, 0, fun _ => 0, 0⟩ costWitnessHardware
    0 0 3
    ⟨rfl, rfl, rfl, rfl, rfl, rfl⟩ (Or.inl ⟨rfl, rfl⟩) (by decide) rfl rfl).2.1 rfl

/-- C3 (failing input): with `maxmut = 1`, a per-site insertion batch of three insertions is
applied whole and `Divide_DoMutations` returns 3. -/
theorem Divide_DoMutations_exceeds_maxmut :
    ∃ st, Divide_DoMutations overBudgetEnv overBudgetRandom [0, 1, 2, 3] [0, 1, 2, 3]
        = .ok (3, st)
      ∧ st.offspring_genome = [1, 0, 1, 1, 2, 3, 1] ∧ overBudgetEnv.maxmut < 3 := by
  refine ⟨⟨⟨[]⟩, [1, 0, 1, 1, 2, 3, 1], [0, 1, 2, 3], 1, 3⟩, ?_, rfl, by decide⟩
  norm_num [Divide_DoMutations, runSteps, slipTransSteps, offspringSteps, parentSteps,
    overBudgetEnv, overBudgetRandom, zeroRates, plainInstSet,
    stepDivideSlip, stepPoissonSlip, stepSiteSlip, stepDivideTrans, stepPoissonTrans,
    stepSiteTrans, stepDivideMut, stepPoissonMut, stepDivideIns, stepPoissonIns, stepDivideDel,
    stepPoissonDel, stepDivideUniform, stepSiteMut, stepSiteIns, stepSiteDel, stepSiteUniform,
    stepParentMut, stepParentIns, stepParentDel, cRandom.P, cRandom.GetRandPoisson,
    cRandom.GetRandBinomial, cRandom.next, forLoop, forLoopWhile, batchInsert, insertAtSites,
    drawSiteStep, insertSiteStep, QSort, seqSet, seqGet, seqInsert, cRandom.GetUInt,
    cInstSet.GetRandomInst, cConfig.max_genome_size, bind, Except.bind, pure, Except.pure]

/-! ## Slip and translocation: the operators do not fault and set the length -/

theorem forLoop_copyStep_length (src : InstructionSequence) (d s : Nat) (k a : Nat)
    (g : InstructionSequence) (hg : k = 0 ∨ d + a + k ≤ g.length)
    (hs : k = 0 ∨ s + a + k ≤ src.length) :
    ∃ g', forLoop (copyStep src d s) a k g = .ok g' ∧ g'.length = g.length := by
  by_cases hk : k = 0
  · subst hk
    exact ⟨g, rfl, rfl⟩
  · obtain ⟨g', h1, h2, _⟩ := forLoop_copyStep src d s k a g (by omega) (by omega)
    exact ⟨g', h1, h2⟩

theorem scrambleScan_ok :
    ∀ (l : List Bool) (p c : Nat), p < l.count false →
      ∃ j, j < l.length ∧ l[j]? = some false ∧ p ≤ j ∧
        scrambleScan l p c = .ok (c + (j - p)) := by
  intro l
  induction l with
  | nil => intro p c h; simp at h
  | cons b rest ih =>
    intro p c h
    cases b with
    | true =>
      have h' : p < rest.count false := by simpa using h
      obtain ⟨j, hj1, hj2, hj3, hj4⟩ := ih p (c + 1) h'
      refine ⟨j + 1, by simp; omega, by simpa using hj2, by omega, ?_⟩
      rw [scrambleScan, hj4]
      congr 1
      omega
    | false =>
      cases p with
      | zero => exact ⟨0, by simp, by simp, by omega, by simp [scrambleScan]⟩
      | succ p =>
        have h' : p < rest.count false := by simpa using h
        obtain ⟨j, hj1, hj2, hj3, hj4⟩ := ih p c h'
        refine ⟨j + 1, by simp; omega, by simpa using hj2, by omega, ?_⟩
        rw [scrambleScan, hj4]
        congr 1
        omega

theorem count_false_set_true (cs : List Bool) (j : Nat) (h : cs[j]? = some false) :
    (cs.set j true).count false + 1 = cs.count false := by
  have hlt := getElem?_lt h
  have hj : cs[j] = false := by
    rw [List.getElem?_eq_getElem hlt] at h
    exact Option.some.inj h
  rw [List.count_set _ _ _ _ hlt, hj]
  have : 0 < cs.count false := by
    rw [List.count_pos_iff]
    exact hj ▸ List.getElem_mem hlt
  simp
  omega

theorem GetUInt_lt (r : cRandom) (max : Nat) (h : 0 < max) : (r.GetUInt max).1 < max := by
  have : max ≠ 0 := by omega
  simp [cRandom.GetUInt, this, Nat.mod_lt _ h]

theorem GetUInt_le (r : cRandom) (n : Nat) : (r.GetUInt (n + 1)).1 ≤ n := by
  have := GetUInt_lt r (n + 1) (by omega)
  omega

/-- One scrambled round: with `k > 0` slots not yet chosen, the round faults neither in the scan
nor in the reads and writes, keeps the lengths and leaves `k - 1` slots not chosen. -/
theorem scramble_round (src dst n i k : Nat) (s : FillState) (hk : s.copied_so_far.count false = k + 1)
    (hn : n - i = k + 1) (hcs : s.copied_so_far.length = n)
    (hsrc : src + n ≤ s.genome.length) (hdst : dst + i < s.genome.length) :
    ∃ s', transScrambleStep dst src n i s = .ok s' ∧ s'.genome.length = s.genome.length ∧
      s'.copied_so_far.length = n ∧ s'.copied_so_far.count false = k := by
  have hr : (s.rng.GetUInt (n - i)).1 < s.copied_so_far.count false := by
    rw [hk, hn]; exact GetUInt_lt _ _ (by omega)
  obtain ⟨j, hj1, hj2, hj3, hj4⟩ := scrambleScan_ok s.copied_so_far _ (s.rng.GetUInt (n - i)).1 hr
  have hidx : (s.rng.GetUInt (n - i)).1 + (j - (s.rng.GetUInt (n - i)).1) = j := by omega
  rw [hidx] at hj4
  have hread : src + j < s.genome.length := by omega
  have hc := count_false_set_true s.copied_so_far j hj2
  refine ⟨⟨s.genome.set (dst + i) s.genome[src + j], s.copied_so_far.set j true,
    (s.rng.GetUInt (n - i)).2⟩, ?_, by simp, by simp [hcs], ?_⟩
  · simp [transScrambleStep, hj4, seqGet_eq _ _ hread, seqSet, hdst, hj1, bind, Except.bind,
      pure, Except.pure]
  · show (s.copied_so_far.set j true).count false = k
    omega

theorem forLoop_transScrambleStep (src dst n : Nat) :
    ∀ (k i : Nat) (s : FillState), s.copied_so_far.count false = k → n - i = k → i + k = n →
      s.copied_so_far.length = n → src + n ≤ s.genome.length → dst + n ≤ s.genome.length →
      ∃ s', forLoop (transScrambleStep dst src n) i k s = .ok s' ∧
        s'.genome.length = s.genome.length := by
  intro k
  induction k with
  | zero => intro i s _ _ _ _ _ _; exact ⟨s, rfl, rfl⟩
  | succ k ih =>
    intro i s hk hn hik hcs hsrc hdst
    obtain ⟨s1, h1, h2, h3, h4⟩ := scramble_round src dst n i k s hk hn hcs hsrc (by omega)
    obtain ⟨s', h5, h6⟩ := ih (i + 1) s1 h4 (by omega) (by omega) h3 (by omega) (by omega)
    exact ⟨s', by simp [forLoop, h1, h5], by omega⟩

theorem slipFillStep_scrambled (cfg : cConfig) (inst_set : cInstSet) (copy : InstructionSequence)
    (from_ to_ n i : Nat) (s : FillState) (h : cfg.SLIP_FILL_MODE = 3) :
    slipFillStep cfg inst_set copy from_ to_ n i s = transScrambleStep from_ to_ n i s := by
  simp [slipFillStep, transScrambleStep, h]

theorem forLoop_slipFillStep_plain (cfg : cConfig) (inst_set : cInstSet)
    (copy : InstructionSequence) (from_ to_ n : Nat)
    (hmode : cfg.SLIP_FILL_MODE = 0 ∨ cfg.SLIP_FILL_MODE = 1 ∨ cfg.SLIP_FILL_MODE = 2
      ∨ cfg.SLIP_FILL_MODE = 4) (hcopy : to_ + n ≤ copy.length) :
    ∀ (k i : Nat) (s : FillState), i + k = n → from_ + n ≤ s.genome.length →
      ∃ s', forLoop (slipFillStep cfg inst_set copy from_ to_ n) i k s = .ok s' ∧
        s'.genome.length = s.genome.length := by
  intro k
  induction k with
  | zero => intro i s _ _; exact ⟨s, rfl, rfl⟩
  | succ k ih =>
    intro i s hik hdst
    have hw : from_ + i < s.genome.length := by omega
    have hr : to_ + i < copy.length := by omega
    have hstep : ∃ s1, slipFillStep cfg inst_set copy from_ to_ n i s = .ok s1 ∧
        s1.genome.length = s.genome.length := by
      rcases hmode with h | h | h | h
      · exact ⟨{ s with genome := s.genome.set (from_ + i) copy[to_ + i] },
          by simp [slipFillStep, h, seqGet_eq _ _ hr, seqSet, hw, bind, Except.bind, pure,
            Except.pure], by simp⟩
      · exact ⟨{ s with genome := s.genome.set (from_ + i) inst_set.nopX },
          by simp [slipFillStep, h, seqSet, hw, bind, Except.bind, pure, Except.pure], by simp⟩
      · exact ⟨{ s with genome := s.genome.set (from_ + i) (inst_set.GetRandomInst s.rng).1,
                        rng := (inst_set.GetRandomInst s.rng).2 },
          by simp [slipFillStep, h, seqSet, hw, bind, Except.bind, pure, Except.pure], by simp⟩
      · exact ⟨{ s with genome := s.genome.set (from_ + i) inst_set.nopC },
          by simp [slipFillStep, h, seqSet, hw, bind, Except.bind, pure, Except.pure], by simp⟩
    obtain ⟨s1, h1, h2⟩ := hstep
    obtain ⟨s', h5, h6⟩ := ih (i + 1) s1 (by omega) (by omega)
    exact ⟨s', by simp [forLoop, h1, h5], by omega⟩

theorem forLoop_slipFillStep_length (cfg : cConfig) (inst_set : cInstSet)
    (copy : InstructionSequence) (from_ to_ n : Nat)
    (hmode : 0 ≤ cfg.SLIP_FILL_MODE ∧ cfg.SLIP_FILL_MODE ≤ 4) (hcopy : to_ + n ≤ copy.length)
    (g : InstructionSequence) (rng : cRandom) (hsrc : to_ + n ≤ g.length)
    (hdst : from_ + n ≤ g.length) :
    ∃ s', forLoop (slipFillStep cfg inst_set copy from_ to_ n) 0 n
        ⟨g, List.replicate n false, rng⟩ = .ok s' ∧ s'.genome.length = g.length := by
  by_cases h3 : cfg.SLIP_FILL_MODE = 3
  · have : slipFillStep cfg inst_set copy from_ to_ n = transScrambleStep from_ to_ n := by
      funext i s
      exact slipFillStep_scrambled cfg inst_set copy from_ to_ n i s h3
    rw [this]
    exact forLoop_transScrambleStep to_ from_ n n 0 ⟨g, List.replicate n false, rng⟩
      (by simp) (by omega) (by omega) (by simp) hsrc hdst
  · exact forLoop_slipFillStep_plain cfg inst_set copy from_ to_ n (by omega) hcopy n 0 _
      (by omega) hdst

theorem doSlipMutationAt_length (cfg : cConfig) (inst_set : cInstSet) (rng : cRandom)
    (g : InstructionSequence) (from_ to_ : Nat)
    (hmode : 0 ≤ cfg.SLIP_FILL_MODE ∧ cfg.SLIP_FILL_MODE ≤ 4)
    (hfrom : from_ ≤ g.length) (hto : to_ ≤ g.length) :
    ∃ g' rng', doSlipMutationAt cfg inst_set rng g from_ to_ = .ok (g', rng') ∧
      g'.length = g.length + from_ - to_ := by
  have hN : (g.length : Int) + ((from_ : Int) - (to_ : Int))
      = ((g.length + from_ - to_ : Nat) : Int) := by omega
  set r := g.take (g.length + from_ - to_) ++ List.replicate (g.length + from_ - to_ - g.length) 0
    with hr
  have hrlen : r.length = g.length + from_ - to_ := by
    simp [hr]; omega
  unfold doSlipMutationAt
  simp only [hN, seqResize_eq, bind, Except.bind]
  rw [← hr]
  by_cases hlt : to_ < from_
  · have h1 : ((from_ : Int) - (to_ : Int)) > 0 := by omega
    have h2 : ¬ ((from_ : Int) - (to_ : Int)) < 0 := by omega
    have h3 : ((from_ : Int) - (to_ : Int)).toNat = from_ - to_ := by omega
    have h4 : (((g.length : Int) - (to_ : Int)) - ((from_ : Int) - (to_ : Int))).toNat
        = g.length - from_ := by omega
    simp only [h1, h2, if_true, if_false, h3, h4]
    obtain ⟨s', hs1, hs2⟩ := forLoop_slipFillStep_length cfg inst_set g from_ to_ (from_ - to_)
      hmode (by omega) r rng (by omega) (by omega)
    obtain ⟨g', hg1, hg2⟩ := forLoop_copyStep_length g from_ to_ (g.length - from_)
      (from_ - to_) s'.genome (by omega) (by omega)
    rw [hs1]
    simp only [hg1, pure, Except.pure]
    exact ⟨g', s'.rng, rfl, by omega⟩
  · have h1 : ¬ ((from_ : Int) - (to_ : Int)) > 0 := by omega
    have h4 : (((g.length : Int) - (to_ : Int))
        - (if ((from_ : Int) - (to_ : Int)) < 0 then 0 else ((from_ : Int) - (to_ : Int)))).toNat
        = g.length - to_ := by split <;> omega
    have h3 : (if ((from_ : Int) - (to_ : Int)) < 0 then (0 : Int)
        else ((from_ : Int) - (to_ : Int))).toNat = 0 := by split <;> omega
    simp only [h1, if_false, h3, h4, pure, Except.pure]
    obtain ⟨g', hg1, hg2⟩ := forLoop_copyStep_length g from_ to_ (g.length - to_) 0 r
      (by omega) (by omega)
    rw [hg1]
    exact ⟨g', rng, rfl, by omega⟩

theorem doTransMutationAt_length (cfg : cConfig) (rng : cRandom)
    (g : InstructionSequence) (from_ to_ : Nat)
    (hmode : cfg.TRANS_FILL_MODE = 0 ∨ cfg.TRANS_FILL_MODE = 1)
    (hfrom : from_ ≤ g.length) (hto : to_ ≤ g.length) :
    ∃ g' rng', doTransMutationAt cfg rng g from_ to_ = .ok (g', rng') ∧
      g'.length = g.length + from_ - to_ := by
  have hN : (g.length : Int) + ((from_ : Int) - (to_ : Int))
      = ((g.length + from_ - to_ : Nat) : Int) := by omega
  set r := g.take (g.length + from_ - to_) ++ List.replicate (g.length + from_ - to_ - g.length) 0
    with hr
  have hrlen : r.length = g.length + from_ - to_ := by
    simp [hr]; omega
  have hins := GetUInt_le rng g.length
  set ins_loc := (rng.GetUInt (g.length + 1)).1 with hins_loc
  unfold doTransMutationAt
  simp only [hN, seqResize_eq, bind, Except.bind]
  rw [← hr, ← hins_loc]
  by_cases hlt : to_ < from_
  · have h1 : ((from_ : Int) - (to_ : Int)) > 0 := by omega
    have h2 : ¬ ((from_ : Int) - (to_ : Int)) < 0 := by omega
    have h3 : ((from_ : Int) - (to_ : Int)).toNat = from_ - to_ := by omega
    simp only [h1, h2, if_true, if_false, h3]
    rcases hmode with hm | hm
    · obtain ⟨g1, hg1, hl1⟩ := forLoop_copyStep_length g ins_loc to_ (from_ - to_) 0 r
        (by omega) (by omega)
      obtain ⟨g', hg2, hl2⟩ := forLoop_copyStep_length g (from_ - to_) 0 (g.length - ins_loc)
        ins_loc g1 (by omega) (by omega)
      simp only [hm, if_true, hg1, pure, Except.pure, hg2]
      exact ⟨g', _, rfl, by omega⟩
    · obtain ⟨s1, hs1, hl1⟩ := forLoop_transScrambleStep to_ ins_loc (from_ - to_) (from_ - to_) 0
        ⟨r, List.replicate (from_ - to_) false, (rng.GetUInt (g.length + 1)).2⟩
        (by simp) (by omega) (by omega) (by simp) (by simp only []; omega)
        (by simp only []; omega)
      have hl1' : s1.genome.length = r.length := hl1
      obtain ⟨g', hg2, hl2⟩ := forLoop_copyStep_length g (from_ - to_) 0 (g.length - ins_loc)
        ins_loc s1.genome (by omega) (by omega)
      have hne : ¬ (cfg.TRANS_FILL_MODE = 0) := by omega
      simp only [hm, hne, if_true, if_false, hs1, pure, Except.pure, hg2]
      exact ⟨g', _, rfl, by omega⟩
  · have h1 : ¬ ((from_ : Int) - (to_ : Int)) > 0 := by omega
    simp only [h1, if_false, pure, Except.pure]
    by_cases heq : to_ = from_
    · have h2 : ¬ ((from_ : Int) - (to_ : Int)) < 0 := by omega
      have h3 : ((from_ : Int) - (to_ : Int)).toNat = 0 := by omega
      obtain ⟨g', hg2, hl2⟩ := forLoop_copyStep_length g 0 0 (g.length - ins_loc)
        ins_loc r (by omega) (by omega)
      simp only [h2, if_false, h3, hg2]
      exact ⟨g', _, rfl, by omega⟩
    · have h2 : ((from_ : Int) - (to_ : Int)) < 0 := by omega
      have h3 : (-((from_ : Int) - (to_ : Int))).toNat = to_ - from_ := by omega
      obtain ⟨g', hg2, hl2⟩ := forLoop_copyStep_length g 0 (to_ - from_) (r.length - ins_loc)
        ins_loc r (by omega) (by omega)
      simp only [h2, if_true, h3, hg2]
      exact ⟨g', _, rfl, by omega⟩

/-- C4 (counterexample): a genome of length 4, within the size bounds `[2, 5]`, leaves them:
a slip mutation with `from = 3, to = 1` and a translocation with `from = 3, to = 1` produce
length 6, and a slip mutation with `from = 0, to = 3` produces length 1. -/
theorem slip_trans_leave_size_bounds :
    sizeBoundedConfig.min_genome_size = 2 ∧ sizeBoundedConfig.max_genome_size = 5
    ∧ doSlipMutation sizeBoundedConfig plainInstSet ⟨[3, 1]⟩ [10, 11, 12, 13] (-1)
        = .ok ([10, 11, 12, 11, 12, 13], ⟨[]⟩)
    ∧ doTransMutation sizeBoundedConfig ⟨[3, 1, 0]⟩ [10, 11, 12, 13] (-1)
        = .ok ([11, 12, 10, 11, 12, 13], ⟨[]⟩)
    ∧ doSlipMutation sizeBoundedConfig plainInstSet ⟨[0, 3]⟩ [10, 11, 12, 13] (-1)
        = .ok ([13], ⟨[]⟩) := by
  decide

/-- C4 (amended): for a genome of length `L`, admissible draws of `from` and `to`, any draw of
the insertion location and a fill mode the operator knows, `doSlipMutation` and
`doTransMutation` return a genome of length exactly `L + from - to`; it lies within
`[min_genome_size, max_genome_size]` exactly when `L + from - to` does. -/
theorem slip_trans_result_length (cfg : cConfig) (inst_set : cInstSet)
    (g : InstructionSequence) (from_ to_ : Nat) (rest : List Nat)
    (hslip : 0 ≤ cfg.SLIP_FILL_MODE ∧ cfg.SLIP_FILL_MODE ≤ 4)
    (htrans : cfg.TRANS_FILL_MODE = 0 ∨ cfg.TRANS_FILL_MODE = 1)
    (hfrom : from_ ≤ g.length) (hto : to_ ≤ g.length) (h0 : from_ = 0 → to_ < g.length) :
    (∃ g' rng', doSlipMutation cfg inst_set ⟨from_ :: to_ :: rest⟩ g (-1) = .ok (g', rng')
      ∧ g'.length = g.length + from_ - to_
      ∧ ((cfg.min_genome_size ≤ g'.length ∧ (g'.length : Int) ≤ cfg.max_genome_size)
          ↔ (cfg.min_genome_size ≤ (g.length : Int) + from_ - to_
              ∧ (g.length : Int) + from_ - to_ ≤ cfg.max_genome_size)))
    ∧ (∃ g' rng', doTransMutation cfg ⟨from_ :: to_ :: rest⟩ g (-1) = .ok (g', rng')
      ∧ g'.length = g.length + from_ - to_
      ∧ ((cfg.min_genome_size ≤ g'.length ∧ (g'.length : Int) ≤ cfg.max_genome_size)
          ↔ (cfg.min_genome_size ≤ (g.length : Int) + from_ - to_
              ∧ (g.length : Int) + from_ - to_ ≤ cfg.max_genome_size))) := by
  have hneg : ((-1 : Int) < 0) := by decide
  have hdraw1 := GetUInt_cons from_ (to_ :: rest) (g.length + 1) (by omega)
  have hdraw2 : (if from_ = 0 then (cRandom.mk (to_ :: rest)).GetUInt g.length
      else (cRandom.mk (to_ :: rest)).GetUInt (g.length + 1)) = (to_, ⟨rest⟩) := by
    by_cases hz : from_ = 0
    · rw [if_pos hz, GetUInt_cons to_ rest g.length (h0 hz)]
    · rw [if_neg hz, GetUInt_cons to_ rest (g.length + 1) (by omega)]
  constructor
  · obtain ⟨g', rng', h1, h2⟩ := doSlipMutationAt_length cfg inst_set ⟨rest⟩ g from_ to_ hslip
      hfrom hto
    refine ⟨g', rng', ?_, h2, ?_⟩
    · unfold doSlipMutation
      simp only [hneg, if_true, hdraw1, hdraw2, h1]
    · rw [h2]
      have : ((g.length + from_ - to_ : Nat) : Int) = (g.length : Int) + from_ - to_ := by omega
      rw [this]
  · obtain ⟨g', rng', h1, h2⟩ := doTransMutationAt_length cfg ⟨rest⟩ g from_ to_ htrans
      hfrom hto
    refine ⟨g', rng', ?_, h2, ?_⟩
    · unfold doTransMutation
      simp only [hneg, if_true, hdraw1, hdraw2, h1]
    · rw [h2]
      have : ((g.length + from_ - to_ : Nat) : Int) = (g.length : Int) + from_ - to_ := by omega
      rw [this]

/-- Witness for C4 (amended): scrambled fill modes, `from = 3`, `to = 1` on a genome of
length 4. -/
theorem slip_trans_result_length_witness :
    (∃ g' rng', doSlipMutation ⟨1, 100, 2, 5, 3, 1⟩ plainInstSet ⟨[3, 1, 1, 0, 2]⟩
        [10, 11, 12, 13] (-1) = .ok (g', rng') ∧ g'.length = 6)
    ∧ (∃ g' rng', doTransMutation ⟨1, 100, 2, 5, 3, 1⟩ ⟨[3, 1, 1, 0, 2]⟩
        [10, 11, 12, 13] (-1) = .ok (g', rng') ∧ g'.length = 6) := by
  have h := slip_trans_result_length ⟨1, 100, 2, 5, 3, 1⟩ plainInstSet [10, 11, 12, 13] 3 1
    [1, 0, 2] (by decide) (by decide) (by decide) (by decide) (by decide)
  obtain ⟨⟨g1, r1, a1, b1, _⟩, ⟨g2, r2, a2, b2, _⟩⟩ := h
  exact ⟨⟨g1, r1, a1, b1⟩, ⟨g2, r2, a2, b2⟩⟩

/-! ## Mutations on divide: the size bounds -/

theorem forLoopWhile_inv {σ : Type} (Inv : σ → Prop) (cond : σ → Bool)
    (body : Nat → σ → Except Fault σ)
    (h : ∀ i s, Inv s → cond s = true → ∃ s', body i s = .ok s' ∧ Inv s') :
    ∀ (k i : Nat) (s : σ), Inv s → ∃ s', forLoopWhile cond body i k s = .ok s' ∧ Inv s' := by
  intro k
  induction k with
  | zero => intro i s hs; exact ⟨s, rfl, hs⟩
  | succ k ih =>
    intro i s hs
    by_cases hc : cond s = true
    · obtain ⟨s1, h1, h2⟩ := h i s hs hc
      obtain ⟨s', h3, h4⟩ := ih (i + 1) s1 h2
      exact ⟨s', by simp [forLoopWhile, hc, h1, h3], h4⟩
    · exact ⟨s, by simp [forLoopWhile, hc], hs⟩

theorem forLoop_inv {σ : Type} (Inv : Nat → σ → Prop) (body : Nat → σ → Except Fault σ) :
    ∀ (k i : Nat) (s : σ),
      (∀ j s, i ≤ j → j < i + k → Inv j s → ∃ s', body j s = .ok s' ∧ Inv (j + 1) s') →
      Inv i s → ∃ s', forLoop body i k s = .ok s' ∧ Inv (i + k) s' := by
  intro k
  induction k with
  | zero => intro i s _ hs; exact ⟨s, rfl, hs⟩
  | succ k ih =>
    intro i s h hs
    obtain ⟨s1, h1, h2⟩ := h i s (by omega) (by omega) hs
    obtain ⟨s', h3, h4⟩ := ih (i + 1) s1
      (fun j s hj1 hj2 hI => h j s (by omega) (by omega) hI) h2
    refine ⟨s', by simp [forLoop, h1, h3], ?_⟩
    have : i + (k + 1) = i + 1 + k := by omega
    rw [this]
    exact h4

theorem runSteps_append (a b : List MutStep) (st : MutState) :
    runSteps (a ++ b) st =
      match runSteps a st with
      | .ok st' => runSteps b st'
      | .error e => .error e := by
  induction a generalizing st with
  | nil => rfl
  | cons step rest ih =>
    simp only [List.cons_append, runSteps]
    cases step st with
    | error e => rfl
    | ok st' => exact ih st'

theorem runSteps_inv (Inv : MutState → Prop) (steps : List MutStep)
    (h : ∀ step ∈ steps, ∀ s, Inv s → ∃ s', step s = .ok s' ∧ Inv s') :
    ∀ st, Inv st → ∃ st', runSteps steps st = .ok st' ∧ Inv st' := by
  induction steps with
  | nil => intro st hst; exact ⟨st, rfl, hst⟩
  | cons step rest ih =>
    intro st hst
    obtain ⟨s1, h1, h2⟩ := h step (List.mem_cons_self _ _) st hst
    obtain ⟨s', h3, h4⟩ := ih (fun s hs => h s (List.mem_cons_of_mem _ hs)) s1 h2
    exact ⟨s', by simp [runSteps, h1, h3], h4⟩

theorem min_genome_size_ge (cfg : cConfig) : cfg.MIN_GENOME_LENGTH ≤ cfg.min_genome_size := by
  unfold cConfig.min_genome_size
  split <;> omega

theorem pointMutOnce_bounds (env : MutEnv) (hmin : 1 ≤ env.cfg.MIN_GENOME_LENGTH) (i : Nat)
    (st : MutState) (hst : withinSizeBounds env.cfg st.offspring_genome) :
    ∃ st', pointMutOnce env i st = .ok st' ∧ withinSizeBounds env.cfg st'.offspring_genome := by
  have hge := min_genome_size_ge env.cfg
  obtain ⟨h1, h2⟩ := hst
  have hpos : 0 < st.offspring_genome.length := by omega
  have hsite := GetUInt_lt st.rng st.offspring_genome.length hpos
  refine ⟨_, by simp [pointMutOnce, seqSet, hsite, bind, Except.bind, pure, Except.pure]; rfl, ?_⟩
  simp [withinSizeBounds]
  exact ⟨h1, h2⟩

/-- The result of `doUniformMutation` on a non-empty genome, in closed form. -/
theorem doUniformMutation_eq (cfg : cConfig) (inst_set : cInstSet) (rng : cRandom)
    (g : InstructionSequence) (hpos : 0 < g.length) :
    doUniformMutation cfg inst_set rng g =
      if (rng.GetUInt (inst_set.size * 2 + 1)).1 < inst_set.size then
        .ok (true,
          g.set ((rng.GetUInt (inst_set.size * 2 + 1)).2.GetUInt g.length).1
            (rng.GetUInt (inst_set.size * 2 + 1)).1,
          ((rng.GetUInt (inst_set.size * 2 + 1)).2.GetUInt g.length).2)
      else if (rng.GetUInt (inst_set.size * 2 + 1)).1 = inst_set.size then
        if (g.length : Int) = cfg.min_genome_size then
          .ok (false, g, (rng.GetUInt (inst_set.size * 2 + 1)).2)
        else
          .ok (true,
            g.take ((rng.GetUInt (inst_set.size * 2 + 1)).2.GetUInt g.length).1
              ++ g.drop (((rng.GetUInt (inst_set.size * 2 + 1)).2.GetUInt g.length).1 + 1),
            ((rng.GetUInt (inst_set.size * 2 + 1)).2.GetUInt g.length).2)
      else
        if (g.length : Int) = cfg.max_genome_size then
          .ok (false, g, (rng.GetUInt (inst_set.size * 2 + 1)).2)
        else
          .ok (true,
            g.take ((rng.GetUInt (inst_set.size * 2 + 1)).2.GetUInt (g.length + 1)).1
              ++ ((rng.GetUInt (inst_set.size * 2 + 1)).1 - inst_set.size - 1)
                :: g.drop ((rng.GetUInt (inst_set.size * 2 + 1)).2.GetUInt (g.length + 1)).1,
            ((rng.GetUInt (inst_set.size * 2 + 1)).2.GetUInt (g.length + 1)).2) := by
  have hsite := GetUInt_lt (rng.GetUInt (inst_set.size * 2 + 1)).2 g.length hpos
  have hsite' := GetUInt_le (rng.GetUInt (inst_set.size * 2 + 1)).2 g.length
  unfold doUniformMutation
  simp only [seqSet, seqRemove, seqInsert, hsite, hsite', if_true, bind, Except.bind, pure,
    Except.pure]

theorem insOnce_bounds (env : MutEnv) (i : Nat) (st : MutState)
    (hst : withinSizeBounds env.cfg st.offspring_genome)
    (hlt : (st.offspring_genome.length : Int) < env.cfg.max_genome_size) :
    ∃ st', insOnce env i st = .ok st' ∧ withinSizeBounds env.cfg st'.offspring_genome := by
  obtain ⟨h1, h2⟩ := hst
  have hsite := GetUInt_le st.rng st.offspring_genome.length
  refine ⟨_, by simp [insOnce, seqInsert, hsite, bind, Except.bind, pure, Except.pure]; rfl, ?_⟩
  simp only [withinSizeBounds, List.length_append, List.length_take, List.length_cons,
    List.length_drop]
  omega

theorem delOnce_bounds (env : MutEnv) (hmin : 1 ≤ env.cfg.MIN_GENOME_LENGTH) (i : Nat)
    (st : MutState) (hst : withinSizeBounds env.cfg st.offspring_genome)
    (hgt : (st.offspring_genome.length : Int) > env.cfg.min_genome_size) :
    ∃ st', delOnce i st = .ok st' ∧ withinSizeBounds env.cfg st'.offspring_genome := by
  have hge := min_genome_size_ge env.cfg
  obtain ⟨h1, h2⟩ := hst
  have hpos : 0 < st.offspring_genome.length := by omega
  have hsite := GetUInt_lt st.rng st.offspring_genome.length hpos
  refine ⟨_, by simp [delOnce, seqRemove, hsite, bind, Except.bind, pure, Except.pure]; rfl, ?_⟩
  simp only [withinSizeBounds, List.length_append, List.length_take, List.length_drop]
  omega

theorem uniformOnce_bounds (env : MutEnv) (hmin : 1 ≤ env.cfg.MIN_GENOME_LENGTH) (i : Nat)
    (st : MutState) (hst : withinSizeBounds env.cfg st.offspring_genome) :
    ∃ st', uniformOnce env i st = .ok st' ∧ withinSizeBounds env.cfg st'.offspring_genome := by
  have hge := min_genome_size_ge env.cfg
  obtain ⟨h1, h2⟩ := hst
  have hpos : 0 < st.offspring_genome.length := by omega
  have heq := doUniformMutation_eq env.cfg env.inst_set st.rng st.offspring_genome hpos
  have hsite := GetUInt_lt (st.rng.GetUInt (env.inst_set.size * 2 + 1)).2
    st.offspring_genome.length hpos
  have hsite' := GetUInt_le (st.rng.GetUInt (env.inst_set.size * 2 + 1)).2
    st.offspring_genome.length
  unfold uniformOnce
  rw [heq]
  split_ifs with c1 c2 c3 c4
  · refine ⟨_, rfl, ?_⟩
    simp only [withinSizeBounds, List.length_set]
    exact ⟨h1, h2⟩
  · exact ⟨_, rfl, ⟨h1, h2⟩⟩
  · refine ⟨_, rfl, ?_⟩
    simp only [withinSizeBounds, List.length_append, List.length_take, List.length_drop]
    omega
  · exact ⟨_, rfl, ⟨h1, h2⟩⟩
  · refine ⟨_, rfl, ?_⟩
    simp only [withinSizeBounds, List.length_append, List.length_take, List.length_cons,
      List.length_drop]
    omega

/-! ## Per-site batch insertion -/

theorem insertAtSites_spec (inst_set : cInstSet) (mut_sites : List Nat)
    (seq : InstructionSequence) (rng : cRandom) (h : ∀ x ∈ mut_sites, x ≤ seq.length) :
    ∃ seq' rng', insertAtSites inst_set mut_sites seq rng = .ok (seq', rng') ∧
      seq'.length = seq.length + mut_sites.length ∧ seq.Sublist seq' := by
  have hmem : ∀ x ∈ QSort mut_sites, x ≤ seq.length := by
    intro x hx
    exact h x ((List.perm_insertionSort _ _).mem_iff.1 hx)
  have hlen : (QSort mut_sites).length = mut_sites.length := List.length_insertionSort _ _
  obtain ⟨s', h1, h2, h3⟩ := forLoop_inv
    (fun (j : Nat) (s : InstructionSequence × cRandom) =>
      s.1.length = seq.length + j ∧ seq.Sublist s.1)
    (insertSiteStep inst_set (QSort mut_sites)) (QSort mut_sites).length 0 (seq, rng)
    (by
      intro j s _ hj ⟨hl, hsub⟩
      have hidx : (QSort mut_sites).length - 1 - j < (QSort mut_sites).length := by omega
      have hsite : (QSort mut_sites)[(QSort mut_sites).length - 1 - j] ≤ s.1.length := by
        have := hmem _ (List.getElem_mem hidx)
        omega
      refine ⟨(s.1.take (QSort mut_sites)[(QSort mut_sites).length - 1 - j]
          ++ (inst_set.GetRandomInst s.2).1
            :: s.1.drop (QSort mut_sites)[(QSort mut_sites).length - 1 - j],
          (inst_set.GetRandomInst s.2).2), ?_, ?_, ?_⟩
      · simp [insertSiteStep, seqGet_eq _ _ hidx, seqInsert, hsite, bind, Except.bind, pure,
          Except.pure]
      · simp only [List.length_append, List.length_take, List.length_cons, List.length_drop]
        omega
      · refine hsub.trans ?_
        conv_lhs => rw [← List.take_append_drop
          (QSort mut_sites)[(QSort mut_sites).length - 1 - j] s.1]
        exact (List.Sublist.refl _).append (List.sublist_cons_self _ _))
    ⟨by simp, List.Sublist.refl _⟩
  refine ⟨s'.1, s'.2, h1, ?_, h3⟩
  rw [h2, hlen]
  omega

theorem drawSites_spec (size num_mut : Nat) (rng : cRandom) :
    ∃ sites rng', forLoop (drawSiteStep size) 0 num_mut (List.replicate num_mut 0, rng)
        = .ok (sites, rng') ∧ sites.length = num_mut ∧ ∀ x ∈ sites, x ≤ size := by
  obtain ⟨s', h1, h2, h3⟩ := forLoop_inv
    (fun (_ : Nat) (s : List Nat × cRandom) => s.1.length = num_mut ∧ ∀ x ∈ s.1, x ≤ size)
    (drawSiteStep size) num_mut 0 (List.replicate num_mut 0, rng)
    (by
      intro j s _ hj ⟨hl, hall⟩
      have hlt : j < s.1.length := by omega
      refine ⟨(s.1.set j (s.2.GetUInt (size + 1)).1, (s.2.GetUInt (size + 1)).2), ?_, ?_, ?_⟩
      · simp [drawSiteStep, seqSet, hlt, bind, Except.bind, pure, Except.pure]
      · simpa using hl
      · intro x hx
        rcases List.mem_or_eq_of_mem_set hx with hx | hx
        · exact hall x hx
        · rw [hx]; exact GetUInt_le _ _)
    ⟨by simp, by
      intro x hx
      rw [List.eq_of_mem_replicate hx]
      omega⟩
  exact ⟨s'.1, s'.2, h1, h2, h3⟩

theorem batchInsert_spec (inst_set : cInstSet) (num_mut : Nat) (seq : InstructionSequence)
    (rng : cRandom) :
    ∃ seq' rng', batchInsert inst_set num_mut seq rng = .ok (seq', rng') ∧
      seq'.length = seq.length + num_mut ∧ seq.Sublist seq' := by
  obtain ⟨sites, rng1, h1, h2, h3⟩ := drawSites_spec seq.length num_mut rng
  obtain ⟨seq', rng', h4, h5, h6⟩ := insertAtSites_spec inst_set sites seq rng1 h3
  refine ⟨seq', rng', ?_, by omega, h6⟩
  simp [batchInsert, h1, h4, bind, Except.bind]

/-! ## The counted blocks keep the offspring within the size bounds -/

theorem stepDivideMut_bounds (env : MutEnv) (hmin : 1 ≤ env.cfg.MIN_GENOME_LENGTH)
    (st : MutState) (hst : withinSizeBounds env.cfg st.offspring_genome) :
    ∃ st', stepDivideMut env st = .ok st' ∧ withinSizeBounds env.cfg st'.offspring_genome := by
  simp only [stepDivideMut]
  split_ifs
  · exact pointMutOnce_bounds env hmin 0 _ hst
  · exact ⟨_, rfl, hst⟩

theorem stepPoissonMut_bounds (env : MutEnv) (hmin : 1 ≤ env.cfg.MIN_GENOME_LENGTH)
    (st : MutState) (hst : withinSizeBounds env.cfg st.offspring_genome) :
    ∃ st', stepPoissonMut env st = .ok st' ∧ withinSizeBounds env.cfg st'.offspring_genome := by
  simp only [stepPoissonMut]
  apply forLoopWhile_inv (fun (s : MutState) => withinSizeBounds env.cfg s.offspring_genome)
  · exact fun i s hs _ => pointMutOnce_bounds env hmin i s hs
  · exact hst

theorem stepDivideIns_bounds (env : MutEnv)
    (st : MutState) (hst : withinSizeBounds env.cfg st.offspring_genome) :
    ∃ st', stepDivideIns env st = .ok st' ∧ withinSizeBounds env.cfg st'.offspring_genome := by
  simp only [stepDivideIns]
  split_ifs with h
  · exact insOnce_bounds env 0 _ hst h.2.1
  · exact ⟨_, rfl, hst⟩

theorem stepPoissonIns_bounds (env : MutEnv)
    (st : MutState) (hst : withinSizeBounds env.cfg st.offspring_genome) :
    ∃ st', stepPoissonIns env st = .ok st' ∧ withinSizeBounds env.cfg st'.offspring_genome := by
  simp only [stepPoissonIns]
  apply forLoopWhile_inv (fun (s : MutState) => withinSizeBounds env.cfg s.offspring_genome)
  · intro i s hs hc
    simp only [decide_eq_true_eq] at hc
    exact insOnce_bounds env i s hs (by omega)
  · exact hst

theorem stepDivideDel_bounds (env : MutEnv) (hmin : 1 ≤ env.cfg.MIN_GENOME_LENGTH)
    (st : MutState) (hst : withinSizeBounds env.cfg st.offspring_genome) :
    ∃ st', stepDivideDel env st = .ok st' ∧ withinSizeBounds env.cfg st'.offspring_genome := by
  simp only [stepDivideDel]
  split_ifs with h
  · exact delOnce_bounds env hmin 0 _ hst h.2.1
  · exact ⟨_, rfl, hst⟩

theorem stepPoissonDel_bounds (env : MutEnv) (hmin : 1 ≤ env.cfg.MIN_GENOME_LENGTH)
    (st : MutState) (hst : withinSizeBounds env.cfg st.offspring_genome) :
    ∃ st', stepPoissonDel env st = .ok st' ∧ withinSizeBounds env.cfg st'.offspring_genome := by
  simp only [stepPoissonDel]
  apply forLoopWhile_inv (fun (s : MutState) => withinSizeBounds env.cfg s.offspring_genome)
  · intro i s hs hc
    simp only [decide_eq_true_eq] at hc
    exact delOnce_bounds env hmin i s hs (by omega)
  · exact hst

theorem stepDivideUniform_bounds (env : MutEnv) (hmin : 1 ≤ env.cfg.MIN_GENOME_LENGTH)
    (st : MutState) (hst : withinSizeBounds env.cfg st.offspring_genome) :
    ∃ st', stepDivideUniform env st = .ok st' ∧
      withinSizeBounds env.cfg st'.offspring_genome := by
  simp only [stepDivideUniform]
  split_ifs
  · exact uniformOnce_bounds env hmin 0 _ hst
  · exact ⟨_, rfl, hst⟩

theorem stepSiteMut_bounds (env : MutEnv) (hmin : 1 ≤ env.cfg.MIN_GENOME_LENGTH)
    (st : MutState) (hst : withinSizeBounds env.cfg st.offspring_genome) :
    ∃ st', stepSiteMut env st = .ok st' ∧ withinSizeBounds env.cfg st'.offspring_genome := by
  simp only [stepSiteMut]
  split_ifs
  · apply forLoopWhile_inv (fun (s : MutState) => withinSizeBounds env.cfg s.offspring_genome)
    · exact fun i s hs _ => pointMutOnce_bounds env hmin i s hs
    · exact hst
  · exact ⟨_, rfl, hst⟩
  · exact ⟨_, rfl, hst⟩

theorem stepSiteUniform_bounds (env : MutEnv) (hmin : 1 ≤ env.cfg.MIN_GENOME_LENGTH)
    (st : MutState) (hst : withinSizeBounds env.cfg st.offspring_genome) :
    ∃ st', stepSiteUniform env st = .ok st' ∧
      withinSizeBounds env.cfg st'.offspring_genome := by
  simp only [stepSiteUniform]
  split_ifs
  · apply forLoopWhile_inv (fun (s : MutState) => withinSizeBounds env.cfg s.offspring_genome)
    · exact fun i s hs _ => uniformOnce_bounds env hmin i s hs
    · exact hst
  · exact ⟨_, rfl, hst⟩
  · exact ⟨_, rfl, hst⟩

theorem stepSiteIns_bounds (env : MutEnv)
    (st : MutState) (hst : withinSizeBounds env.cfg st.offspring_genome) :
    ∃ st', stepSiteIns env st = .ok st' ∧ withinSizeBounds env.cfg st'.offspring_genome := by
  obtain ⟨h1, h2⟩ := hst
  simp only [stepSiteIns]
  split_ifs with c1 c2 c3 c4
  · obtain ⟨g', rng', hb, hl, _⟩ := batchInsert_spec env.inst_set
      (env.cfg.max_genome_size - (st.offspring_genome.length : Int)).toNat st.offspring_genome
      (st.rng.GetRandBinomial st.offspring_genome.length env.rates.div_ins_prob).2
    refine ⟨_, by simp only [hb, bind, Except.bind, pure, Except.pure]; rfl, ?_⟩
    simp only [withinSizeBounds, hl]
    omega
  · exact ⟨_, rfl, ⟨h1, h2⟩⟩
  · obtain ⟨g', rng', hb, hl, _⟩ := batchInsert_spec env.inst_set
      ((st.rng.GetRandBinomial st.offspring_genome.length env.rates.div_ins_prob).1 : Int).toNat
      st.offspring_genome
      (st.rng.GetRandBinomial st.offspring_genome.length env.rates.div_ins_prob).2
    refine ⟨_, by simp only [hb, bind, Except.bind, pure, Except.pure]; rfl, ?_⟩
    simp only [withinSizeBounds, hl]
    omega
  · exact ⟨_, rfl, ⟨h1, h2⟩⟩
  · exact ⟨_, rfl, ⟨h1, h2⟩⟩

theorem delSiteOnce_ok (j : Nat) (s : MutState) (hpos : 0 < s.offspring_genome.length) :
    ∃ s', delSiteOnce j s = .ok s' ∧
      s'.offspring_genome.length + 1 = s.offspring_genome.length ∧
      s'.totalMutations = s.totalMutations := by
  have hsite := GetUInt_lt s.rng s.offspring_genome.length hpos
  refine ⟨_, (by simp [delSiteOnce, seqRemove, hsite, bind, Except.bind, pure,
    Except.pure]; rfl), ?_, ?_⟩
  · simp only [List.length_append, List.length_take, List.length_drop]
    omega
  · rfl

theorem forLoop_delSiteOnce_bounds (env : MutEnv) (hmin : 1 ≤ env.cfg.MIN_GENOME_LENGTH)
    (num : Nat) (st : MutState)
    (hnum : env.cfg.min_genome_size + (num : Int) ≤ (st.offspring_genome.length : Int))
    (hmax : (st.offspring_genome.length : Int) ≤ env.cfg.max_genome_size) :
    ∃ st', forLoop delSiteOnce 0 num st = .ok st' ∧
      withinSizeBounds env.cfg st'.offspring_genome ∧ st'.totalMutations = st.totalMutations := by
  have hge := min_genome_size_ge env.cfg
  obtain ⟨s', h1, h2, h3⟩ := forLoop_inv
    (fun (j : Nat) (s : MutState) =>
      s.offspring_genome.length + j = st.offspring_genome.length ∧
        s.totalMutations = st.totalMutations)
    delSiteOnce num 0 st
    (by
      intro j s _ hj ⟨hl, ht⟩
      have hpos : 0 < s.offspring_genome.length := by omega
      obtain ⟨s', e1, e2, e3⟩ := delSiteOnce_ok j s hpos
      exact ⟨s', e1, by omega, by rw [e3, ht]⟩)
    ⟨by omega, rfl⟩
  refine ⟨s', h1, ?_, h3⟩
  simp only [withinSizeBounds]
  omega

theorem stepSiteDel_bounds (env : MutEnv) (hmin : 1 ≤ env.cfg.MIN_GENOME_LENGTH)
    (st : MutState) (hst : withinSizeBounds env.cfg st.offspring_genome) :
    ∃ st', stepSiteDel env st = .ok st' ∧ withinSizeBounds env.cfg st'.offspring_genome := by
  obtain ⟨h1, h2⟩ := hst
  simp only [stepSiteDel]
  split_ifs with c1 c2
  · obtain ⟨s', hs1, hs2, _⟩ := forLoop_delSiteOnce_bounds env hmin
      ((st.offspring_genome.length : Int) - env.cfg.min_genome_size).toNat
      { st with rng := (st.rng.GetRandBinomial st.offspring_genome.length
          env.rates.div_del_prob).2 }
      (by simp only []; omega) h2
    refine ⟨_, (by simp only [hs1, bind, Except.bind, pure, Except.pure]; rfl), ?_⟩
    exact hs2
  · obtain ⟨s', hs1, hs2, _⟩ := forLoop_delSiteOnce_bounds env hmin
      ((st.rng.GetRandBinomial st.offspring_genome.length env.rates.div_del_prob).1 : Int).toNat
      { st with rng := (st.rng.GetRandBinomial st.offspring_genome.length
          env.rates.div_del_prob).2 }
      (by simp only []; omega) h2
    refine ⟨_, (by simp only [hs1, bind, Except.bind, pure, Except.pure]; rfl), ?_⟩
    exact hs2
  · exact ⟨_, rfl, ⟨h1, h2⟩⟩

theorem offspringSteps_bounds (env : MutEnv) (hmin : 1 ≤ env.cfg.MIN_GENOME_LENGTH) :
    ∀ step ∈ offspringSteps env, ∀ st, withinSizeBounds env.cfg st.offspring_genome →
      ∃ st', step st = .ok st' ∧ withinSizeBounds env.cfg st'.offspring_genome := by
  intro step hstep st hst
  simp only [offspringSteps, List.mem_cons, List.mem_singleton, List.not_mem_nil, or_false]
    at hstep
  rcases hstep with h | h | h | h | h | h | h | h | h | h | h <;> subst h
  · exact stepDivideMut_bounds env hmin st hst
  · exact stepPoissonMut_bounds env hmin st hst
  · exact stepDivideIns_bounds env st hst
  · exact stepPoissonIns_bounds env st hst
  · exact stepDivideDel_bounds env hmin st hst
  · exact stepPoissonDel_bounds env hmin st hst
  · exact stepDivideUniform_bounds env hmin st hst
  · exact stepSiteMut_bounds env hmin st hst
  · exact stepSiteIns_bounds env st hst
  · exact stepSiteDel_bounds env hmin st hst
  · exact stepSiteUniform_bounds env hmin st hst

theorem stepDivideSlip_quiet (env : MutEnv) (st : MutState)
    (h : (st.rng.P env.rates.divide_slip_prob).1 = false) :
    stepDivideSlip env st = .ok { st with rng := (st.rng.P env.rates.divide_slip_prob).2 } := by
  simp [stepDivideSlip, h, pure, Except.pure]

theorem stepPoissonSlip_quiet (env : MutEnv) (st : MutState)
    (h : (st.rng.GetRandPoisson env.rates.divide_poisson_slip_mean).1 = 0) :
    stepPoissonSlip env st
      = .ok { st with rng := (st.rng.GetRandPoisson env.rates.divide_poisson_slip_mean).2 } := by
  simp [stepPoissonSlip, h, forLoop]

theorem stepSiteSlip_quiet (env : MutEnv) (st : MutState)
    (h : (if env.rates.div_slip_prob > 0
      then st.rng.GetRandBinomial st.offspring_genome.length
        (env.rates.div_slip_prob / env.mut_multiplier)
      else (0, st.rng)).1 = 0) :
    stepSiteSlip env st = .ok { st with rng := (if env.rates.div_slip_prob > 0
      then st.rng.GetRandBinomial st.offspring_genome.length
        (env.rates.div_slip_prob / env.mut_multiplier)
      else (0, st.rng)).2 } := by
  unfold stepSiteSlip
  split_ifs with c
  · rw [if_pos c] at h
    simp [h, forLoop]
  · rfl

theorem stepDivideTrans_quiet (env : MutEnv) (st : MutState)
    (h : (st.rng.P env.rates.divide_trans_prob).1 = false) :
    stepDivideTrans env st = .ok { st with rng := (st.rng.P env.rates.divide_trans_prob).2 } := by
  simp [stepDivideTrans, h, pure, Except.pure]

theorem stepPoissonTrans_quiet (env : MutEnv) (st : MutState)
    (h : (st.rng.GetRandPoisson env.rates.divide_poisson_trans_mean).1 = 0) :
    stepPoissonTrans env st
      = .ok { st with rng := (st.rng.GetRandPoisson env.rates.divide_poisson_trans_mean).2 } := by
  simp [stepPoissonTrans, h, forLoop]

theorem stepSiteTrans_quiet (env : MutEnv) (st : MutState)
    (h : (if env.rates.div_trans_prob > 0
      then st.rng.GetRandBinomial st.offspring_genome.length
        (env.rates.div_trans_prob / env.mut_multiplier)
      else (0, st.rng)).1 = 0) :
    stepSiteTrans env st = .ok { st with rng := (if env.rates.div_trans_prob > 0
      then st.rng.GetRandBinomial st.offspring_genome.length
        (env.rates.div_trans_prob / env.mut_multiplier)
      else (0, st.rng)).2 } := by
  unfold stepSiteTrans
  split_ifs with c
  · rw [if_pos c] at h
    simp [h, forLoop]
  · rfl

theorem slipTransSteps_quiet (env : MutEnv) (st : MutState) (h : noSlipTransFires env st) :
    ∀ k, ∃ r, runSteps ((slipTransSteps env).take k) st = .ok { st with rng := r } := by
  simp only [noSlipTransFires] at h
  obtain ⟨h1, h2, h3, h4, h5, h6⟩ := h
  have e1 := stepDivideSlip_quiet env st h1
  have e2 := stepPoissonSlip_quiet env { st with rng := (st.rng.P env.rates.divide_slip_prob).2 } h2
  have e3 := stepSiteSlip_quiet env
    { st with rng := ((st.rng.P env.rates.divide_slip_prob).2.GetRandPoisson
      env.rates.divide_poisson_slip_mean).2 } h3
  have e4 := stepDivideTrans_quiet env
    { st with rng := (if env.rates.div_slip_prob > 0
      then ((st.rng.P env.rates.divide_slip_prob).2.GetRandPoisson
          env.rates.divide_poisson_slip_mean).2.GetRandBinomial st.offspring_genome.length
        (env.rates.div_slip_prob / env.mut_multiplier)
      else (0, ((st.rng.P env.rates.divide_slip_prob).2.GetRandPoisson
          env.rates.divide_poisson_slip_mean).2)).2 } h4
  have e5 := stepPoissonTrans_quiet env
    { st with rng := ((if env.rates.div_slip_prob > 0
      then ((st.rng.P env.rates.divide_slip_prob).2.GetRandPoisson
          env.rates.divide_poisson_slip_mean).2.GetRandBinomial st.offspring_genome.length
        (env.rates.div_slip_prob / env.mut_multiplier)
      else (0, ((st.rng.P env.rates.divide_slip_prob).2.GetRandPoisson
          env.rates.divide_poisson_slip_mean).2)).2.P env.rates.divide_trans_prob).2 } h5
  have e6 := stepSiteTrans_quiet env
    { st with rng := (((if env.rates.div_slip_prob > 0
      then ((st.rng.P env.rates.divide_slip_prob).2.GetRandPoisson
          env.rates.divide_poisson_slip_mean).2.GetRandBinomial st.offspring_genome.length
        (env.rates.div_slip_prob / env.mut_multiplier)
      else (0, ((st.rng.P env.rates.divide_slip_prob).2.GetRandPoisson
          env.rates.divide_poisson_slip_mean).2)).2.P env.rates.divide_trans_prob).2.GetRandPoisson
            env.rates.divide_poisson_trans_mean).2 } h6
  intro k
  rcases k with _ | _ | _ | _ | _ | _ | k
  · exact ⟨st.rng, rfl⟩
  · exact ⟨_, by simp only [slipTransSteps, List.take, runSteps, e1]; rfl⟩
  · exact ⟨_, by simp only [slipTransSteps, List.take, runSteps, e1, e2]; rfl⟩
  · exact ⟨_, by simp only [slipTransSteps, List.take, runSteps, e1, e2, e3]; rfl⟩
  · exact ⟨_, by simp only [slipTransSteps, List.take, runSteps, e1, e2, e3, e4]; rfl⟩
  · exact ⟨_, by simp only [slipTransSteps, List.take, runSteps, e1, e2, e3, e4, e5]; rfl⟩
  · refine ⟨?r, ?_⟩
    case r => exact (if env.rates.div_trans_prob > 0
      then ((((if env.rates.div_slip_prob > 0
        then ((st.rng.P env.rates.divide_slip_prob).2.GetRandPoisson
            env.rates.divide_poisson_slip_mean).2.GetRandBinomial st.offspring_genome.length
          (env.rates.div_slip_prob / env.mut_multiplier)
        else (0, ((st.rng.P env.rates.divide_slip_prob).2.GetRandPoisson
            env.rates.divide_poisson_slip_mean).2)).2.P env.rates.divide_trans_prob).2.GetRandPoisson
              env.rates.divide_poisson_trans_mean).2).GetRandBinomial st.offspring_genome.length
        (env.rates.div_trans_prob / env.mut_multiplier)
      else (0, (((if env.rates.div_slip_prob > 0
        then ((st.rng.P env.rates.divide_slip_prob).2.GetRandPoisson
            env.rates.divide_poisson_slip_mean).2.GetRandBinomial st.offspring_genome.length
          (env.rates.div_slip_prob / env.mut_multiplier)
        else (0, ((st.rng.P env.rates.divide_slip_prob).2.GetRandPoisson
            env.rates.divide_poisson_slip_mean).2)).2.P env.rates.divide_trans_prob).2.GetRandPoisson
              env.rates.divide_poisson_trans_mean).2)).2
    simp only [slipTransSteps, List.take, List.take_nil, runSteps, e1, e2, e3, e4, e5, e6]

/-- C5: in a run of `Divide_DoMutations` in which no slip and no translocation mutation fires,
an offspring genome that starts within the size bounds in force is within them after every
block up to and including the per-site uniform mutations: every prefix of the blocks runs to
a state whose offspring length is within `[min_genome_size, max_genome_size]`. -/
theorem Divide_DoMutations_keeps_size_bounds (env : MutEnv) (st : MutState)
    (hmin : 1 ≤ env.cfg.MIN_GENOME_LENGTH)
    (hst : withinSizeBounds env.cfg st.offspring_genome)
    (hquiet : noSlipTransFires env st) (k : Nat) :
    ∃ st', runSteps ((slipTransSteps env ++ offspringSteps env).take k) st = .ok st'
      ∧ withinSizeBounds env.cfg st'.offspring_genome := by
  obtain ⟨r, hr⟩ := slipTransSteps_quiet env st hquiet k
  rw [List.take_append_eq_append_take, runSteps_append, hr]
  exact runSteps_inv (fun (s : MutState) => withinSizeBounds env.cfg s.offspring_genome) _
    (fun step hstep => offspringSteps_bounds env hmin step (List.mem_of_mem_take hstep)) _ hst

/-- Witness for C5: all seventeen blocks on a concrete run. -/
theorem Divide_DoMutations_keeps_size_bounds_witness :
    ∃ st', runSteps ((slipTransSteps boundedMutEnv ++ offspringSteps boundedMutEnv).take 17)
        boundedMutStart = .ok st'
      ∧ withinSizeBounds boundedMutEnv.cfg st'.offspring_genome :=
  Divide_DoMutations_keeps_size_bounds boundedMutEnv boundedMutStart (by decide)
    (by simp [withinSizeBounds, boundedMutEnv, boundedMutStart, sizeBoundedConfig,
      cConfig.min_genome_size, cConfig.max_genome_size])
    (by simp [noSlipTransFires, boundedMutEnv, boundedMutStart, zeroRates, cRandom.P,
      cRandom.GetRandPoisson])
    17

/-! ## Uniform mutation -/

/-- C6: for instruction-set size `N`, a genome of length `n` within the size bounds and a draw
`v` in `[0, 2N]`: if `v < N`, `doUniformMutation` sets exactly one site to opcode `v` (length
unchanged); if `v = N` and `n` is above the minimum size, it removes exactly one element
(length `n - 1`); if `v > N` and `n` is below the maximum size, it inserts opcode `v - N - 1`,
which lies in `[0, N)`, at a site in `[0, n]` (length `n + 1`). -/
theorem doUniformMutation_cases (cfg : cConfig) (inst_set : cInstSet)
    (g : InstructionSequence) (v : Nat) (rest : List Nat)
    (hmin : 1 ≤ cfg.MIN_GENOME_LENGTH) (hg : withinSizeBounds cfg g)
    (hv : v ≤ inst_set.size * 2) :
    (v < inst_set.size → ∃ site rng', site < g.length ∧
        doUniformMutation cfg inst_set ⟨v :: rest⟩ g = .ok (true, g.set site v, rng') ∧
        (g.set site v).length = g.length)
    ∧ (v = inst_set.size → (g.length : Int) > cfg.min_genome_size →
        ∃ site rng', site < g.length ∧
          doUniformMutation cfg inst_set ⟨v :: rest⟩ g = .ok (true, g.eraseIdx site, rng') ∧
          (g.eraseIdx site).length = g.length - 1)
    ∧ (v > inst_set.size → (g.length : Int) < cfg.max_genome_size →
        v - inst_set.size - 1 < inst_set.size ∧
        ∃ site rng', site ≤ g.length ∧
          doUniformMutation cfg inst_set ⟨v :: rest⟩ g
            = .ok (true, g.take site ++ (v - inst_set.size - 1) :: g.drop site, rng') ∧
          (g.take site ++ (v - inst_set.size - 1) :: g.drop site).length = g.length + 1) := by
  have hge := min_genome_size_ge cfg
  obtain ⟨h1, h2⟩ := hg
  have hpos : 0 < g.length := by omega
  have heq := doUniformMutation_eq cfg inst_set ⟨v :: rest⟩ g hpos
  have hdraw := GetUInt_cons v rest (inst_set.size * 2 + 1) (by omega)
  simp only [hdraw] at heq
  have hsite := GetUInt_lt ⟨rest⟩ g.length hpos
  have hsite' := GetUInt_le ⟨rest⟩ g.length
  refine ⟨?_, ?_, ?_⟩
  · intro hlt
    refine ⟨((cRandom.mk rest).GetUInt g.length).1, ((cRandom.mk rest).GetUInt g.length).2,
      hsite, ?_, by simp⟩
    rw [heq, if_pos hlt]
  · intro hvN hgt
    refine ⟨((cRandom.mk rest).GetUInt g.length).1, ((cRandom.mk rest).GetUInt g.length).2,
      hsite, ?_, ?_⟩
    · rw [heq, if_neg (by omega), if_pos hvN, if_neg (by omega),
        List.eraseIdx_eq_take_drop_succ]
    · rw [List.length_eraseIdx, if_pos hsite]
  · intro hvN hlt
    refine ⟨by omega, ((cRandom.mk rest).GetUInt (g.length + 1)).1,
      ((cRandom.mk rest).GetUInt (g.length + 1)).2, hsite', ?_, ?_⟩
    · rw [heq, if_neg (by omega), if_neg (by omega), if_neg (by omega)]
    · simp only [List.length_append, List.length_take, List.length_cons, List.length_drop]
      omega

/-- Witness for C6 (scenario A): instruction-set size 4, genome `[0,1,2,3]`, draw 4: a deletion
occurs and the length becomes 3. -/
theorem doUniformMutation_cases_witness :
    ∃ site rng', site < 4 ∧
      doUniformMutation ⟨1, 100, 0, 0, 0, 0⟩ plainInstSet ⟨[4, 2]⟩ [0, 1, 2, 3]
        = .ok (true, [0, 1, 2, 3].eraseIdx site, rng') ∧
      ([0, 1, 2, 3].eraseIdx site).length = 4 - 1 :=
  (doUniformMutation_cases ⟨1, 100, 0, 0, 0, 0⟩ plainInstSet [0, 1, 2, 3] 4 [2] (by decide)
    (by simp [withinSizeBounds, cConfig.min_genome_size, cConfig.max_genome_size])
    (by decide)).2.1 rfl (by simp [cConfig.min_genome_size])

/-- C7: on a non-empty genome `doUniformMutation` returns `false` exactly when the draw is `N`
and the length equals the minimum size, or the draw is greater than `N` and the length equals
the maximum size, and then the genome is unchanged; otherwise it returns `true`. In
`Divide_DoMutations` the count goes up by one exactly when the flag is `true`, so a blocked
uniform mutation does not increase it. -/
theorem doUniformMutation_blocked_iff (env : MutEnv) (st : MutState)
    (hpos : 0 < st.offspring_genome.length) :
    ∃ b g' rng',
      doUniformMutation env.cfg env.inst_set st.rng st.offspring_genome = .ok (b, g', rng')
      ∧ (b = false ↔
          ((st.rng.GetUInt (env.inst_set.size * 2 + 1)).1 = env.inst_set.size
              ∧ (st.offspring_genome.length : Int) = env.cfg.min_genome_size)
          ∨ ((st.rng.GetUInt (env.inst_set.size * 2 + 1)).1 > env.inst_set.size
              ∧ (st.offspring_genome.length : Int) = env.cfg.max_genome_size))
      ∧ (b = false → g' = st.offspring_genome)
      ∧ (∃ st', uniformOnce env 0 st = .ok st'
          ∧ st'.totalMutations = st.totalMutations + (if b then 1 else 0))
      ∧ (b = false →
          ∀ st0 : MutState, st0.offspring_genome = st.offspring_genome →
            (st0.rng.P env.rates.divide_uniform_prob).2 = st.rng →
            ∃ st', stepDivideUniform env st0 = .ok st'
              ∧ st'.totalMutations = st0.totalMutations) := by
  have heq := doUniformMutation_eq env.cfg env.inst_set st.rng st.offspring_genome hpos
  have hstep : ∀ b g' rng',
      doUniformMutation env.cfg env.inst_set st.rng st.offspring_genome = .ok (b, g', rng') →
      (∃ st', uniformOnce env 0 st = .ok st'
          ∧ st'.totalMutations = st.totalMutations + (if b then 1 else 0))
      ∧ (b = false →
          ∀ st0 : MutState, st0.offspring_genome = st.offspring_genome →
            (st0.rng.P env.rates.divide_uniform_prob).2 = st.rng →
            ∃ st', stepDivideUniform env st0 = .ok st'
              ∧ st'.totalMutations = st0.totalMutations) := by
    intro b g' rng' hres
    constructor
    · refine ⟨_, (by simp only [uniformOnce, hres, bind, Except.bind, pure, Except.pure]; rfl),
        ?_⟩
      cases b <;> simp
    · intro hb st0 hg0 hr0
      subst hb
      simp only [stepDivideUniform]
      split_ifs
      · refine ⟨_, (by simp only [uniformOnce, hg0, hr0, hres, bind, Except.bind, pure,
          Except.pure]; rfl), ?_⟩
        simp
      · exact ⟨_, rfl, rfl⟩
  by_cases c1 : (st.rng.GetUInt (env.inst_set.size * 2 + 1)).1 < env.inst_set.size
  · rw [if_pos c1] at heq
    refine ⟨_, _, _, heq, ?_, by simp, hstep _ _ _ heq⟩
    constructor
    · intro h; cases h
    · intro h; omega
  · rw [if_neg c1] at heq
    by_cases c2 : (st.rng.GetUInt (env.inst_set.size * 2 + 1)).1 = env.inst_set.size
    · rw [if_pos c2] at heq
      by_cases c3 : (st.offspring_genome.length : Int) = env.cfg.min_genome_size
      · rw [if_pos c3] at heq
        refine ⟨_, _, _, heq, ?_, by simp, hstep _ _ _ heq⟩
        simp [c2, c3]
      · rw [if_neg c3] at heq
        refine ⟨_, _, _, heq, ?_, by simp, hstep _ _ _ heq⟩
        constructor
        · intro h; cases h
        · intro h; omega
    · rw [if_neg c2] at heq
      by_cases c3 : (st.offspring_genome.length : Int) = env.cfg.max_genome_size
      · rw [if_pos c3] at heq
        refine ⟨_, _, _, heq, ?_, by simp, hstep _ _ _ heq⟩
        have : (st.rng.GetUInt (env.inst_set.size * 2 + 1)).1 > env.inst_set.size := by omega
        simp [c3, this]
      · rw [if_neg c3] at heq
        refine ⟨_, _, _, heq, ?_, by simp, hstep _ _ _ heq⟩
        constructor
        · intro h; cases h
        · intro h; omega

/-- Witness for C7: a deletion drawn at the minimum size is blocked and not counted. -/
theorem doUniformMutation_blocked_iff_witness :
    ∃ st', uniformOnce blockedUniformEnv 0 blockedUniformStart = .ok st'
      ∧ st'.totalMutations = 2 := by
  obtain ⟨b, g', rng', _, h2, _, ⟨st', h4, h5⟩, _⟩ :=
    doUniformMutation_blocked_iff blockedUniformEnv blockedUniformStart (by decide)
  have hb : b = false := h2.2 (Or.inl ⟨by decide, by decide⟩)
  subst hb
  exact ⟨st', h4, by simpa [blockedUniformStart] using h5⟩

/-! ## Per-site batch insertion: safety -/

/-- C8: for a sequence of length `L` and any list of `count` positions each in `[0, L]`, the
per-site batch insertion (sort the positions ascending, insert one instruction at each in
descending order) never inserts beyond the current length (it does not fault), yields a
sequence of length `L + count`, and keeps the original elements in their relative order; the
same holds for the whole batch with the positions drawn by the function itself. -/
theorem batch_insertion_safe (inst_set : cInstSet) (seq : InstructionSequence)
    (rng : cRandom) :
    (∀ mut_sites : List Nat, (∀ x ∈ mut_sites, x ≤ seq.length) →
      ∃ seq' rng', insertAtSites inst_set mut_sites seq rng = .ok (seq', rng') ∧
        seq'.length = seq.length + mut_sites.length ∧ seq.Sublist seq')
    ∧ (∀ num_mut : Nat,
      ∃ seq' rng', batchInsert inst_set num_mut seq rng = .ok (seq', rng') ∧
        seq'.length = seq.length + num_mut ∧ seq.Sublist seq') :=
  ⟨fun mut_sites h => insertAtSites_spec inst_set mut_sites seq rng h,
   fun num_mut => batchInsert_spec inst_set num_mut seq rng⟩

/-! ## Fitness gate -/

theorem fitness_gate_skip (harness : TestHarness) (st : GateState)
    (h : st.org.test_on_divide = false ∨ st.org.offspring_genome = st.org.genome) :
    ∃ st', Divide_TestFitnessMeasures harness st = .ok (false, st')
      ∧ st'.harness_calls = st.harness_calls ∧ st'.rng = st.rng
      ∧ st'.new_task_counts = st.new_task_counts
      ∧ st'.org.offspring_genome = st.org.offspring_genome
      ∧ st'.org.genome = st.org.genome
      ∧ st'.org.child_fertile = true := by
  unfold Divide_TestFitnessMeasures
  by_cases h1 : st.org.test_on_divide = false
  · simp only [h1, if_true]
    exact ⟨_, rfl, rfl, rfl, rfl, rfl, rfl, rfl⟩
  · have h2 : st.org.offspring_genome = st.org.genome := h.resolve_left h1
    simp only [h1, if_false, h2, decide_True, if_true]
    exact ⟨_, rfl, rfl, rfl, rfl, rfl, rfl, rfl⟩

/-- C9: if the test-on-divide policy is disabled, or the offspring genome is identical to the
parent genome (copy-true), `Divide_TestFitnessMeasures` returns `false` without invoking the
test harness and without drawing a random number, leaves the offspring genome unchanged and
leaves the child-fertile flag set to `true`. -/
theorem Divide_TestFitnessMeasures_untested (harness : TestHarness) (st : GateState)
    (h : st.org.test_on_divide = false ∨ st.org.offspring_genome = st.org.genome) :
    ∃ st', Divide_TestFitnessMeasures harness st = .ok (false, st')
      ∧ st'.harness_calls = st.harness_calls ∧ st'.rng = st.rng
      ∧ st'.new_task_counts = st.new_task_counts
      ∧ st'.org.offspring_genome = st.org.offspring_genome
      ∧ st'.org.genome = st.org.genome
      ∧ st'.org.child_fertile = true :=
  fitness_gate_skip harness st h

/-- Witness for C9: a copy-true offspring with the test-on-divide policy on. -/
theorem Divide_TestFitnessMeasures_untested_witness :
    ∃ st', Divide_TestFitnessMeasures depthOneHarness
        ⟨{ zeroProbOrganism with offspring_genome := [0, 1, 2, 3] }, ⟨[5, 6]⟩, 0, []⟩
        = .ok (false, st')
      ∧ st'.harness_calls = 0 ∧ st'.rng = ⟨[5, 6]⟩ ∧ st'.org.child_fertile = true := by
  obtain ⟨st', h1, h2, h3, _, _, _, h7⟩ := Divide_TestFitnessMeasures_untested depthOneHarness
    ⟨{ zeroProbOrganism with offspring_genome := [0, 1, 2, 3] }, ⟨[5, 6]⟩, 0, []⟩
    (Or.inr rfl)
  exact ⟨st', h1, h2, h3, h7⟩

theorem P_zero (r : cRandom) : r.P 0 = (false, r.next.2) := by
  simp [cRandom.P]

/-- With the eight bucket probabilities zero, the draws of whichever bucket is chosen change
neither flag. -/
theorem fitnessBucketDraws_zero (org : cOrganism) (c lo hi : Double) (revert sterilize : Bool)
    (rng : cRandom)
    (h : org.revert_fatal = 0 ∧ org.sterilize_fatal = 0 ∧ org.revert_neg = 0
      ∧ org.sterilize_neg = 0 ∧ org.revert_neut = 0 ∧ org.sterilize_neut = 0
      ∧ org.revert_pos = 0 ∧ org.sterilize_pos = 0) :
    fitnessBucketDraws org c lo hi revert sterilize rng
      = (revert, sterilize, rng.next.2.next.2) := by
  obtain ⟨h1, h2, h3, h4, h5, h6, h7, h8⟩ := h
  unfold fitnessBucketDraws
  split_ifs <;>
    simp [drawRevertSterilize, h1, h2, h3, h4, h5, h6, h7, h8, P_zero]

/-- With every probability zero nothing is decided: `revert` stays `false` and `sterilize` is
as the policy test left it. -/
theorem decideRevertSterilize_zero (st : GateState) (parenttasks : List Int)
    (neut_min neut_max : Double) (test_info : cCPUTestInfo) (sterilize : Bool)
    (h : allProbabilitiesZero st.org) :
    decideRevertSterilize st parenttasks neut_min neut_max test_info sterilize
      = .ok (false, sterilize, st.rng.next.2.next.2.next.2.next.2, st.new_task_counts) := by
  obtain ⟨h1, h2, h3, h4, h5, h6, h7, h8, h9, h10, h11⟩ := h
  unfold decideRevertSterilize
  simp only [fitnessBucketDraws_zero st.org _ _ _ _ _ _ ⟨h1, h2, h3, h4, h5, h6, h7, h8⟩,
    drawRorS, taskLossDecision, revertEqualsDecision, h9, h10, h11, P_zero, if_false, ne_eq,
    not_true_eq_false, Nat.zero_ne_one, pure, Except.pure, bind, Except.bind,
    Bool.false_eq_true]

/-- C10 (counterexample): all revert and sterilize probabilities are zero and the child-fertile
flag is `true` before the call, yet the flag is cleared: the sterilize-unstable policy is on
and the test execution reports a recursion depth of 1. -/
theorem zero_probabilities_still_sterilize :
    zeroProbOrganism.child_fertile = true
    ∧ ∃ st', Divide_TestFitnessMeasures depthOneHarness ⟨zeroProbOrganism, ⟨[]⟩, 0, []⟩
        = .ok (false, st')
      ∧ st'.org.child_fertile = false := by
  refine ⟨rfl, ⟨{ zeroProbOrganism with child_fertile := false }, ⟨[]⟩, 2, []⟩, ?_, rfl⟩
  unfold Divide_TestFitnessMeasures resolveFitnessTest
  simp only [zeroProbOrganism, depthOneHarness]
  rw [decideRevertSterilize_zero]
  swap
  · exact ⟨rfl, rfl, rfl, rfl, rfl, rfl, rfl, rfl, rfl, rfl, rfl⟩
  norm_num [cRandom.next, pure, Except.pure, bind, Except.bind]

/-- C10 (amended): if all revert and sterilize probabilities are zero,
`Divide_TestFitnessMeasures` returns `false`, leaves the offspring genome unmodified, and
leaves the child-fertile flag at the value `true` it sets on entry, except when the offspring
is tested (test-on-divide on, offspring differs from parent), the sterilize-unstable policy is
on and the test execution reports a recursion depth above 0: then the flag is cleared. -/
theorem zero_probabilities_frame (harness : TestHarness) (st : GateState)
    (h : allProbabilitiesZero st.org) :
    ∃ st', Divide_TestFitnessMeasures harness st = .ok (false, st')
      ∧ st'.org.offspring_genome = st.org.offspring_genome
      ∧ st'.org.genome = st.org.genome
      ∧ st'.org.child_fertile =
          !(st.org.test_on_divide && decide (st.org.offspring_genome ≠ st.org.genome)
            && decide (st.org.sterilize_unstable = 1)
            && decide ((offspringTestInfo harness st).max_depth > 0)) := by
  by_cases c1 : st.org.test_on_divide = false
  · obtain ⟨st', e1, _, _, _, e5, e6, e7⟩ :=
      fitness_gate_skip harness st (Or.inl c1)
    exact ⟨st', e1, e5, e6, by simp [e7, c1]⟩
  · by_cases c2 : st.org.offspring_genome = st.org.genome
    · obtain ⟨st', e1, _, _, _, e5, e6, e7⟩ :=
        fitness_gate_skip harness st (Or.inr c2)
      exact ⟨st', e1, e5, e6, by simp [e7, c2]⟩
    · have c1' : st.org.test_on_divide = true := by
        cases hh : st.org.test_on_divide
        · exact absurd hh c1
        · rfl
      unfold Divide_TestFitnessMeasures
      simp only [c1', c2, decide_False, if_false, Bool.true_eq_false, Bool.false_eq_true]
      unfold resolveFitnessTest
      rw [decideRevertSterilize_zero]
      swap
      · exact h
      simp only [bind, Except.bind, pure, Except.pure, Bool.false_eq_true, if_false,
        Bool.and_false]
      refine ⟨_, rfl, ?_, ?_, ?_⟩
      · split_ifs <;> rfl
      · split_ifs <;> rfl
      · unfold offspringTestInfo
        split_ifs with c3
        · simp only [c1', Bool.true_and]
          rw [Bool.and_assoc, c3]
          simp [c2]
        · simp only [Bool.not_eq_true] at c3
          simp only [c1', Bool.true_and]
          rw [Bool.and_assoc, c3]
          simp

/-- Witness for C10 (amended): all probabilities zero, the offspring is tested and keeps its
genome. -/
theorem zero_probabilities_frame_witness :
    ∃ st', Divide_TestFitnessMeasures depthOneHarness ⟨zeroProbOrganism, ⟨[3, 4]⟩, 0, []⟩
        = .ok (false, st')
      ∧ st'.org.offspring_genome = [0, 1, 2, 2] := by
  obtain ⟨st', h1, h2, _, _⟩ := zero_probabilities_frame depthOneHarness
    ⟨zeroProbOrganism, ⟨[3, 4]⟩, 0, []⟩
    ⟨rfl, rfl, rfl, rfl, rfl, rfl, rfl, rfl, rfl, rfl, rfl⟩
  exact ⟨st', h1, h2⟩

/-! ## Fitness gate: decisions and their resolution -/

theorem taskLossStep_ok (childtasks parenttasks : List Int)
    (hlen : childtasks.length ≤ parenttasks.length) (i : Nat) (hi : i < childtasks.length)
    (s : TaskLossState) : ∃ s', taskLossStep childtasks parenttasks i s = .ok s' := by
  have hp : i < parenttasks.length := by omega
  simp only [taskLossStep, seqGet_eq _ _ hi, seqGet_eq _ _ hp, bind, Except.bind, pure,
    Except.pure]
  split_ifs <;> exact ⟨_, rfl⟩

theorem forLoopWhile_ok {σ : Type} (cond : σ → Bool) (body : Nat → σ → Except Fault σ) :
    ∀ (k i : Nat) (s : σ), (∀ j s, i ≤ j → j < i + k → ∃ s', body j s = .ok s') →
      ∃ s', forLoopWhile cond body i k s = .ok s' := by
  intro k
  induction k with
  | zero => intro i s _; exact ⟨s, rfl⟩
  | succ k ih =>
    intro i s h
    by_cases hc : cond s = true
    · obtain ⟨s1, h1⟩ := h i s (by omega) (by omega)
      obtain ⟨s', h2⟩ := ih (i + 1) s1 (fun j s hj1 hj2 => h j s (by omega) (by omega))
      exact ⟨s', by simp [forLoopWhile, hc, h1, h2]⟩
    · exact ⟨s, by simp [forLoopWhile, hc]⟩

theorem taskLossNoGain_ok (childtasks parenttasks : List Int)
    (hlen : childtasks.length ≤ parenttasks.length) :
    ∃ lost, taskLossNoGain childtasks parenttasks = .ok lost := by
  obtain ⟨s', h⟩ := forLoopWhile_ok (fun (s : TaskLossState) => !s.added)
    (taskLossStep childtasks parenttasks) childtasks.length 0 ⟨false, false⟩
    (fun j s _ hj => taskLossStep_ok childtasks parenttasks hlen j (by omega) s)
  exact ⟨s'.del && !s'.added,
    by simp only [taskLossNoGain, h, bind, Except.bind, pure, Except.pure]⟩

theorem taskLossDecision_ok (RorS : Nat) (childtasks parenttasks : List Int)
    (revert sterilize : Bool) (hlen : childtasks.length ≤ parenttasks.length) :
    ∃ r, taskLossDecision RorS childtasks parenttasks revert sterilize = .ok r := by
  obtain ⟨lost, hl⟩ := taskLossNoGain_ok childtasks parenttasks hlen
  simp only [taskLossDecision, hl, bind, Except.bind, pure, Except.pure]
  split_ifs <;> exact ⟨_, rfl⟩

theorem revertEqualsDecision_ok (org : cOrganism) (child_tasks : List Int) (revert : Bool)
    (rng : cRandom) (new_task_counts : List Int) (hne : 0 < child_tasks.length) :
    ∃ r, revertEqualsDecision org child_tasks revert rng new_task_counts = .ok r := by
  have hne' : ¬ child_tasks.length = 0 := by omega
  have hlast : child_tasks.length - 1 < child_tasks.length := by omega
  simp only [revertEqualsDecision, seqGet_eq _ _ hlast, hne', if_false, bind, Except.bind,
    pure, Except.pure]
  split_ifs <;> exact ⟨_, rfl⟩

theorem decideRevertSterilize_ok (st : GateState) (parenttasks : List Int)
    (neut_min neut_max : Double) (test_info : cCPUTestInfo) (sterilize : Bool)
    (hlen : test_info.last_task_count.length ≤ parenttasks.length)
    (hne : 0 < test_info.last_task_count.length) :
    ∃ r, decideRevertSterilize st parenttasks neut_min neut_max test_info sterilize = .ok r := by
  unfold decideRevertSterilize
  obtain ⟨r1, h1⟩ := taskLossDecision_ok
    (drawRorS st.org (fitnessBucketDraws st.org (Double.round test_info.genotype_fitness)
      neut_min neut_max false sterilize st.rng).2.2).1
    test_info.last_task_count parenttasks
    (fitnessBucketDraws st.org (Double.round test_info.genotype_fitness) neut_min neut_max
      false sterilize st.rng).1
    (fitnessBucketDraws st.org (Double.round test_info.genotype_fitness) neut_min neut_max
      false sterilize st.rng).2.1 hlen
  obtain ⟨r2, h2⟩ := revertEqualsDecision_ok st.org test_info.last_task_count r1.1
    (drawRorS st.org (fitnessBucketDraws st.org (Double.round test_info.genotype_fitness)
      neut_min neut_max false sterilize st.rng).2.2).2 st.new_task_counts hne
  exact ⟨(r2.1, r1.2, r2.2.1, r2.2.2),
    by simp only [h1, h2, bind, Except.bind, pure, Except.pure]⟩

theorem fitness_gate_tested (harness : TestHarness) (st : GateState)
    (h1 : ¬ st.org.test_on_divide = false)
    (h2 : ¬ st.org.offspring_genome = st.org.genome)
    (hlen : (offspringTestInfo harness st).last_task_count.length
      ≤ st.org.cur_task_count.length)
    (hne : 0 < (offspringTestInfo harness st).last_task_count.length) :
    ∃ revert sterilize st', decidedRevertSterilize harness st = .ok (revert, sterilize)
      ∧ Divide_TestFitnessMeasures harness st = .ok (!sterilize && revert, st')
      ∧ (revert = true → st'.org.offspring_genome = st.org.genome)
      ∧ (sterilize = false → st'.org.child_fertile = true)
      ∧ (sterilize = true → st'.org.child_fertile = false)
      ∧ (revert = false → st'.org.offspring_genome = st.org.offspring_genome) := by
  obtain ⟨⟨revert, sterilize, rng, ntc⟩, hd⟩ := decideRevertSterilize_ok
    { st with org := { st.org with copy_true := false, child_fertile := true },
              rng := (harness.TestGenome (harness.GetTestFitness st.rng st.org.genome).2
                st.org.offspring_genome).2,
              harness_calls := st.harness_calls + 2 }
    st.org.cur_task_count
    (neutMin { st.org with copy_true := false, child_fertile := true }
      (harness.GetTestFitness st.rng st.org.genome).1)
    (neutMax { st.org with copy_true := false, child_fertile := true }
      (harness.GetTestFitness st.rng st.org.genome).1)
    (offspringTestInfo harness st)
    (decide (st.org.sterilize_unstable = 1)
      && decide ((offspringTestInfo harness st).max_depth > 0)) hlen hne
  have h1' : st.org.test_on_divide = true := by
    cases hh : st.org.test_on_divide
    · exact absurd hh h1
    · rfl
  unfold offspringTestInfo at hd
  simp only [h1'] at hd
  have hdec : decidedRevertSterilize harness st = .ok (revert, sterilize) := by
    unfold decidedRevertSterilize
    simp only [h1', h2, or_self, if_false, Bool.true_eq_false, hd]
  have hrun : Divide_TestFitnessMeasures harness st = .ok (!sterilize && revert,
      { st with
        org := (if sterilize = true then
            { (if revert = true then
                { st.org with copy_true := false, child_fertile := true,
                              offspring_genome := st.org.genome }
              else { st.org with copy_true := false, child_fertile := true })
              with child_fertile := false }
          else (if revert = true then
                { st.org with copy_true := false, child_fertile := true,
                              offspring_genome := st.org.genome }
              else { st.org with copy_true := false, child_fertile := true })),
        rng := rng, harness_calls := st.harness_calls + 2, new_task_counts := ntc }) := by
    unfold Divide_TestFitnessMeasures
    simp only [h1', h2, decide_False, if_false, Bool.true_eq_false, Bool.false_eq_true,
      resolveFitnessTest, hd, bind, Except.bind, pure, Except.pure]
  refine ⟨revert, sterilize, _, hdec, hrun, ?_, ?_, ?_, ?_⟩
  · intro hr; subst hr; cases sterilize <;> rfl
  · intro hs; subst hs; cases revert <;> rfl
  · intro hs; subst hs; cases revert <;> rfl
  · intro hr; subst hr; cases sterilize <;> rfl

/-- C11: `Divide_TestFitnessMeasures` returns `true` if and only if a revert was decided and no
sterilization was decided; whenever a revert was decided (with or without sterilization) the
offspring genome ends equal to the parent's genome, and whenever it returns `true` the
child-fertile flag is `true`. The task-count arrays are taken to be indexable as the function
indexes them (the tested offspring reports at least one task and no more than the parent). -/
theorem Divide_TestFitnessMeasures_return_value (harness : TestHarness) (st : GateState)
    (hlen : (offspringTestInfo harness st).last_task_count.length
      ≤ st.org.cur_task_count.length)
    (hne : 0 < (offspringTestInfo harness st).last_task_count.length) :
    ∃ revert sterilize b st', decidedRevertSterilize harness st = .ok (revert, sterilize)
      ∧ Divide_TestFitnessMeasures harness st = .ok (b, st')
      ∧ (b = true ↔ revert = true ∧ sterilize = false)
      ∧ (revert = true → st'.org.offspring_genome = st.org.genome)
      ∧ (b = true → st'.org.child_fertile = true) := by
  by_cases h : st.org.test_on_divide = false ∨ st.org.offspring_genome = st.org.genome
  · obtain ⟨st', e1, _, _, _, _, _, e7⟩ := fitness_gate_skip harness st h
    refine ⟨false, false, false, st', ?_, e1, by simp, by simp, by simp⟩
    simp only [decidedRevertSterilize, h, if_true]
  · have h1 : ¬ st.org.test_on_divide = false := fun c => h (Or.inl c)
    have h2 : ¬ st.org.offspring_genome = st.org.genome := fun c => h (Or.inr c)
    obtain ⟨revert, sterilize, st', e1, e2, e3, e4, _, _⟩ :=
      fitness_gate_tested harness st h1 h2 hlen hne
    refine ⟨revert, sterilize, !sterilize && revert, st', e1, e2, ?_, e3, ?_⟩
    · cases revert <;> cases sterilize <;> simp
    · intro hb
      apply e4
      cases sterilize
      · rfl
      · simp at hb

/-- Witness for C11: a tested offspring on which the revert draw fires. -/
theorem Divide_TestFitnessMeasures_return_value_witness :
    ∃ revert sterilize b st',
      decidedRevertSterilize depthOneHarness ⟨revertingOrganism, ⟨[3, 4]⟩, 0, []⟩
        = .ok (revert, sterilize)
      ∧ Divide_TestFitnessMeasures depthOneHarness ⟨revertingOrganism, ⟨[3, 4]⟩, 0, []⟩
        = .ok (b, st')
      ∧ (b = true ↔ revert = true ∧ sterilize = false)
      ∧ (revert = true → st'.org.offspring_genome = [0, 1, 2, 3])
      ∧ (b = true → st'.org.child_fertile = true) :=
  Divide_TestFitnessMeasures_return_value depthOneHarness ⟨revertingOrganism, ⟨[3, 4]⟩, 0, []⟩
    (by decide) (by decide)

/-! ## Divide viability: the age and size gates -/

theorem Divide_CheckViable_age_gate_aux (cfg : cDivideConfig) (hooks : DivideHooks)
    (flag_executed : List Bool) (st : ViableState) (parent_size child_size : Int)
    (using_repro : Bool)
    (h : st.org.time_used < cfg.JUV_PERIOD ∨ st.org.time_used < cfg.MIN_CYCLES) :
    Divide_CheckViable cfg hooks flag_executed st parent_size child_size using_repro
      = .ok (false, st) := by
  unfold Divide_CheckViable
  dsimp only
  by_cases h1 : st.org.time_used < cfg.JUV_PERIOD
  · rw [if_pos h1]
  · have h2 : st.org.time_used < cfg.MIN_CYCLES := h.resolve_left h1
    rw [if_neg h1, if_pos h2]

/-- C12: if the parent's age (time used) is below `JUV_PERIOD` or below `MIN_CYCLES`,
`Divide_CheckViable` returns `false`, whatever the sizes, memory flags, configuration and
organism state (and it leaves the state as it is). -/
theorem Divide_CheckViable_age_gate (cfg : cDivideConfig) (hooks : DivideHooks)
    (flag_executed : List Bool) (st : ViableState) (parent_size child_size : Int)
    (using_repro : Bool)
    (h : st.org.time_used < cfg.JUV_PERIOD ∨ st.org.time_used < cfg.MIN_CYCLES) :
    Divide_CheckViable cfg hooks flag_executed st parent_size child_size using_repro
      = .ok (false, st) := by
  unfold Divide_CheckViable
  dsimp only
  by_cases h1 : st.org.time_used < cfg.JUV_PERIOD
  · rw [if_pos h1]
  · have h2 : st.org.time_used < cfg.MIN_CYCLES := h.resolve_left h1
    rw [if_neg h1, if_pos h2]

/-- Past the two age gates, `Divide_CheckViable` is its size checks. -/
theorem Divide_CheckViable_aged (cfg : cDivideConfig) (hooks : DivideHooks)
    (flag_executed : List Bool) (st : ViableState) (parent_size child_size : Int)
    (using_repro : Bool) (h1 : cfg.JUV_PERIOD ≤ st.org.time_used)
    (h2 : cfg.MIN_CYCLES ≤ st.org.time_used) :
    Divide_CheckViable cfg hooks flag_executed st parent_size child_size using_repro
      = divideSizeChecks cfg hooks flag_executed st parent_size child_size using_repro := by
  unfold Divide_CheckViable
  dsimp only
  rw [if_neg (not_lt.mpr h1), if_neg (not_lt.mpr h2)]

/-- The size checks once the two limits of the size range are computed. -/
theorem divideSizeChecks_of_limits (cfg : cDivideConfig) (hooks : DivideHooks)
    (flag_executed : List Bool) (st : ViableState) (parent_size child_size : Int)
    (using_repro : Bool) (min_size max_size : Int)
    (hlim : sizeRangeLimits cfg st.org.genome_size = .ok (min_size, max_size)) :
    divideSizeChecks cfg hooks flag_executed st parent_size child_size using_repro
      = (if child_size < min_size ∨ child_size > max_size then .ok (false, st) else
         if parent_size < min_size ∨ parent_size > max_size then .ok (false, st) else
         if (cfg.MIN_GENOME_SIZE ≠ 0 ∧ child_size < cfg.MIN_GENOME_SIZE)
            ∨ (cfg.MAX_GENOME_SIZE ≠ 0 ∧ child_size > cfg.MAX_GENOME_SIZE)
         then .ok (false, st) else
         if (cfg.MIN_GENOME_SIZE ≠ 0 ∧ parent_size < cfg.MIN_GENOME_SIZE)
            ∨ (cfg.MAX_GENOME_SIZE ≠ 0 ∧ parent_size > cfg.MAX_GENOME_SIZE)
         then .ok (false, st) else
         divideCoverageChecks cfg hooks flag_executed st parent_size child_size
           using_repro) := by
  unfold divideSizeChecks
  dsimp only
  rw [hlim]

/-- The limits of the size range, from the two conversions to `int`. -/
theorem sizeRangeLimits_of_casts (cfg : cDivideConfig) (genome_size lo hi : Int)
    (hlo : Double.toInt (Double.div (Double.ofInt genome_size)
      (Double.round cfg.OFFSPRING_SIZE_RANGE)) = .ok lo)
    (hhi : Double.toInt (Double.mul (Double.ofInt genome_size)
      (Double.round cfg.OFFSPRING_SIZE_RANGE)) = .ok hi) :
    sizeRangeLimits cfg genome_size
      = .ok (max cfg.MIN_GENOME_LENGTH lo, min cfg.MAX_GENOME_LENGTH hi) := by
  unfold sizeRangeLimits
  dsimp only
  rw [hlo, hhi]

/-- The computation of the size-range limits faults or gives the two limits. -/
theorem sizeRangeLimits_cases (cfg : cDivideConfig) (genome_size : Int) :
    (∃ e, sizeRangeLimits cfg genome_size = .error e)
    ∨ ∃ min_size max_size, sizeRangeLimits cfg genome_size = .ok (min_size, max_size) := by
  cases h : sizeRangeLimits cfg genome_size with
  | error e => exact Or.inl ⟨e, rfl⟩
  | ok p => exact Or.inr ⟨p.1, p.2, rfl⟩

theorem ite_chain_range {α : Type} (x y : α) (p1 p2 : Prop) [Decidable p1] [Decidable p2]
    (h : p1 ∨ p2) : (if p1 then x else if p2 then x else y) = x := by
  split_ifs <;> first | rfl | (exfalso; tauto)

theorem Divide_CheckViable_range_reject (cfg : cDivideConfig) (hooks : DivideHooks)
    (flag_executed : List Bool) (st : ViableState) (parent_size child_size : Int)
    (using_repro : Bool) (min_size max_size : Int)
    (hlim : sizeRangeLimits cfg st.org.genome_size = .ok (min_size, max_size))
    (h : child_size < min_size ∨ child_size > max_size
        ∨ parent_size < min_size ∨ parent_size > max_size) :
    Divide_CheckViable cfg hooks flag_executed st parent_size child_size using_repro
      = .ok (false, st) := by
  by_cases h1 : st.org.time_used < cfg.JUV_PERIOD
  · exact Divide_CheckViable_age_gate_aux _ _ _ _ _ _ _ (Or.inl h1)
  · by_cases h2 : st.org.time_used < cfg.MIN_CYCLES
    · exact Divide_CheckViable_age_gate_aux _ _ _ _ _ _ _ (Or.inr h2)
    · rw [Divide_CheckViable_aged _ _ _ _ _ _ _ (not_lt.mp h1) (not_lt.mp h2),
        divideSizeChecks_of_limits _ _ _ _ _ _ _ _ _ hlim]
      apply ite_chain_range
      tauto

/-- C19: `Divide_CheckViable` returns `false` whenever the child size or the parent size is
below `max(MIN_GENOME_LENGTH, static_cast<int>(genome_size / size_range))` or above
`min(MAX_GENOME_LENGTH, static_cast<int>(genome_size * size_range))`, where `genome_size` is the
length of the organism's genome, quotient and product are those the function computes in
`double`, and `lo` and `hi` are the values of the two conversions to `int`. -/
theorem Divide_CheckViable_size_range (cfg : cDivideConfig) (hooks : DivideHooks)
    (flag_executed : List Bool) (st : ViableState) (parent_size child_size : Int)
    (using_repro : Bool) (lo hi : Int)
    (hlo : Double.toInt (Double.div (Double.ofInt st.org.genome_size)
      (Double.round cfg.OFFSPRING_SIZE_RANGE)) = .ok lo)
    (hhi : Double.toInt (Double.mul (Double.ofInt st.org.genome_size)
      (Double.round cfg.OFFSPRING_SIZE_RANGE)) = .ok hi)
    (h : child_size < max cfg.MIN_GENOME_LENGTH lo
        ∨ child_size > min cfg.MAX_GENOME_LENGTH hi
        ∨ parent_size < max cfg.MIN_GENOME_LENGTH lo
        ∨ parent_size > min cfg.MAX_GENOME_LENGTH hi) :
    Divide_CheckViable cfg hooks flag_executed st parent_size child_size using_repro
      = .ok (false, st) :=
  Divide_CheckViable_range_reject cfg hooks flag_executed st parent_size child_size using_repro
    _ _ (sizeRangeLimits_of_casts cfg st.org.genome_size lo hi hlo hhi) h

theorem ite_chain_reject {α : Type} (x y : α) (p1 p2 p3 p4 : Prop)
    [Decidable p1] [Decidable p2] [Decidable p3] [Decidable p4] (h : p3 ∨ p4) :
    (if p1 then x else if p2 then x else if p3 then x else if p4 then x else y) = x := by
  split_ifs <;> first | rfl | (exfalso; tauto)

theorem Divide_CheckViable_absolute_reject (cfg : cDivideConfig) (hooks : DivideHooks)
    (flag_executed : List Bool) (st : ViableState) (parent_size child_size : Int)
    (using_repro : Bool)
    (hlim : ∃ lims, sizeRangeLimits cfg st.org.genome_size = .ok lims)
    (h : ((cfg.MIN_GENOME_SIZE ≠ 0 ∧ child_size < cfg.MIN_GENOME_SIZE)
          ∨ (cfg.MAX_GENOME_SIZE ≠ 0 ∧ child_size > cfg.MAX_GENOME_SIZE))
        ∨ ((cfg.MIN_GENOME_SIZE ≠ 0 ∧ parent_size < cfg.MIN_GENOME_SIZE)
          ∨ (cfg.MAX_GENOME_SIZE ≠ 0 ∧ parent_size > cfg.MAX_GENOME_SIZE))) :
    Divide_CheckViable cfg hooks flag_executed st parent_size child_size using_repro
      = .ok (false, st) := by
  obtain ⟨⟨min_size, max_size⟩, hlim⟩ := hlim
  by_cases h1 : st.org.time_used < cfg.JUV_PERIOD
  · exact Divide_CheckViable_age_gate_aux _ _ _ _ _ _ _ (Or.inl h1)
  · by_cases h2 : st.org.time_used < cfg.MIN_CYCLES
    · exact Divide_CheckViable_age_gate_aux _ _ _ _ _ _ _ (Or.inr h2)
    · rw [Divide_CheckViable_aged _ _ _ _ _ _ _ (not_lt.mp h1) (not_lt.mp h2),
        divideSizeChecks_of_limits _ _ _ _ _ _ _ _ _ hlim]
      exact ite_chain_reject _ _ _ _ _ _ h

theorem ite_chain_pass {α : Type} (x y : α) (p1 p2 p3 p4 : Prop)
    [Decidable p1] [Decidable p2] [Decidable p3] [Decidable p4]
    (h1 : ¬ p1) (h2 : ¬ p2) (h3 : ¬ p3) (h4 : ¬ p4) :
    (if p1 then x else if p2 then x else if p3 then x else if p4 then x else y) = y := by
  rw [if_neg h1, if_neg h2, if_neg h3, if_neg h4]

theorem Divide_CheckViable_absolute_pass (cfg : cDivideConfig) (hooks : DivideHooks)
    (flag_executed : List Bool) (st : ViableState) (parent_size child_size : Int)
    (using_repro : Bool) (hpass : passesAgeAndRange cfg st parent_size child_size)
    (hmin : cfg.MIN_GENOME_SIZE = 0
      ∨ (cfg.MIN_GENOME_SIZE ≤ child_size ∧ cfg.MIN_GENOME_SIZE ≤ parent_size))
    (hmax : cfg.MAX_GENOME_SIZE = 0
      ∨ (child_size ≤ cfg.MAX_GENOME_SIZE ∧ parent_size ≤ cfg.MAX_GENOME_SIZE)) :
    Divide_CheckViable cfg hooks flag_executed st parent_size child_size using_repro
      = divideCoverageChecks cfg hooks flag_executed st parent_size child_size using_repro := by
  obtain ⟨a1, a2, min_size, max_size, hlim, a3, a4, a5, a6⟩ := hpass
  rw [Divide_CheckViable_aged _ _ _ _ _ _ _ a1 a2,
    divideSizeChecks_of_limits _ _ _ _ _ _ _ _ _ hlim]
  apply ite_chain_pass
  · intro hc; rcases hc with hc | hc <;> omega
  · intro hc; rcases hc with hc | hc <;> omega
  · intro hc; rcases hc with ⟨hc1, hc2⟩ | ⟨hc1, hc2⟩
    · rcases hmin with hm | hm <;> omega
    · rcases hmax with hm | hm <;> omega
  · intro hc; rcases hc with ⟨hc1, hc2⟩ | ⟨hc1, hc2⟩
    · rcases hmin with hm | hm <;> omega
    · rcases hmax with hm | hm <;> omega

/-- C20: when the two conversions to `int` of the size-range check are defined,
`Divide_CheckViable` returns `false` whenever a nonzero `MIN_GENOME_SIZE` is greater than the
child size or the parent size, or a nonzero `MAX_GENOME_SIZE` is smaller than the child size or
the parent size; a configured bound of 0 never causes a rejection on that side: once the age
and size-range gates are passed, a side whose bound is 0 (or is respected) lets the function go
on to the executed-lines check. -/
theorem Divide_CheckViable_absolute_size (cfg : cDivideConfig) (hooks : DivideHooks)
    (flag_executed : List Bool) (st : ViableState) (parent_size child_size : Int)
    (using_repro : Bool) :
    ((∃ lims, sizeRangeLimits cfg st.org.genome_size = .ok lims) →
      (cfg.MIN_GENOME_SIZE ≠ 0
        ∧ (child_size < cfg.MIN_GENOME_SIZE ∨ parent_size < cfg.MIN_GENOME_SIZE))
      ∨ (cfg.MAX_GENOME_SIZE ≠ 0
        ∧ (child_size > cfg.MAX_GENOME_SIZE ∨ parent_size > cfg.MAX_GENOME_SIZE)) →
      Divide_CheckViable cfg hooks flag_executed st parent_size child_size using_repro
        = .ok (false, st))
    ∧ (passesAgeAndRange cfg st parent_size child_size →
        (cfg.MIN_GENOME_SIZE = 0
          ∨ (cfg.MIN_GENOME_SIZE ≤ child_size ∧ cfg.MIN_GENOME_SIZE ≤ parent_size)) →
        (cfg.MAX_GENOME_SIZE = 0
          ∨ (child_size ≤ cfg.MAX_GENOME_SIZE ∧ parent_size ≤ cfg.MAX_GENOME_SIZE)) →
        Divide_CheckViable cfg hooks flag_executed st parent_size child_size using_repro
          = divideCoverageChecks cfg hooks flag_executed st parent_size child_size
              using_repro) := by
  constructor
  · intro hlim h
    apply Divide_CheckViable_absolute_reject _ _ _ _ _ _ _ hlim
    tauto
  · exact Divide_CheckViable_absolute_pass cfg hooks flag_executed st parent_size child_size
      using_repro

/-- The two conversions of the size-range check for a genome of 4 and a size range of 2. -/
theorem sizeRange_casts_even :
    Double.toInt (Double.div (Double.ofInt 4) (Double.round 2)) = .ok 2
    ∧ Double.toInt (Double.mul (Double.ofInt 4) (Double.round 2)) = .ok 8 := by
  have r1 : Double.round 2 = .finite 2 := by
    rw [round_exact_pos 2 1 1] <;> norm_num
  have r2 : Double.round 4 = .finite 4 := by
    rw [round_exact_pos 4 1 2] <;> norm_num
  have r3 : Double.round 8 = .finite 8 := by
    rw [round_exact_pos 8 1 3] <;> norm_num
  have t1 : Double.toInt (.finite 2) = .ok 2 := by
    rw [toInt_finite 2 2] <;> norm_num [truncToInt]
  have t2 : Double.toInt (.finite 8) = .ok 8 := by
    rw [toInt_finite 8 8] <;> norm_num [truncToInt]
  norm_num [Double.ofInt, div_finite, mul_finite, r1, r2, r3, t1, t2]

/-- The two conversions of the size-range check for a genome of 33 and a size range of 1.1: the
quotient of 33 by the double nearest to 1.1 rounds to the double just below 30, so the lower
limit is 29. -/
theorem sizeRange_casts_rounded_down :
    Double.toInt (Double.div (Double.ofInt 33) (Double.round (11 / 10))) = .ok 29
    ∧ Double.toInt (Double.mul (Double.ofInt 33) (Double.round (11 / 10))) = .ok 36 := by
  have r1 : Double.round (11 / 10) = .finite (2476979795053773 / 2251799813685248) := by
    rw [round_eq_pos (11 / 10) 0 4953959590107546] <;> norm_num [roundHalfEven]
  have r2 : Double.round 33 = .finite 33 := by
    rw [round_exact_pos 33 33 0] <;> norm_num
  have r3 : Double.round (24769797950537728 / 825659931684591)
      = .finite (8444249301319679 / 281474976710656) := by
    rw [round_eq_pos (24769797950537728 / 825659931684591) 4 8444249301319679] <;>
      norm_num [roundHalfEven]
  have r4 : Double.round (81740333236774509 / 2251799813685248)
      = .finite (5108770827298407 / 140737488355328) := by
    rw [round_eq_pos (81740333236774509 / 2251799813685248) 5 5108770827298407] <;>
      norm_num [roundHalfEven]
  have t1 : Double.toInt (.finite (8444249301319679 / 281474976710656)) = .ok 29 := by
    rw [toInt_finite (8444249301319679 / 281474976710656) 29] <;> norm_num [truncToInt]
  have t2 : Double.toInt (.finite (5108770827298407 / 140737488355328)) = .ok 36 := by
    rw [toInt_finite (5108770827298407 / 140737488355328) 36] <;> norm_num [truncToInt]
  norm_num [Double.ofInt, div_finite, mul_finite, r1, r2, r3, r4, t1, t2]

/-- The two conversions of the size-range check for a genome of 20 and a size range of 1.15: the
product of 20 and the double nearest to 1.15 lies halfway between two doubles and rounds to
23. -/
theorem sizeRange_casts_tie :
    Double.toInt (Double.div (Double.ofInt 20) (Double.round (23 / 20))) = .ok 17
    ∧ Double.toInt (Double.mul (Double.ofInt 20) (Double.round (23 / 20))) = .ok 23 := by
  have r1 : Double.round (23 / 20) = .finite (2589569785738035 / 2251799813685248) := by
    rw [round_eq_pos (23 / 20) 0 5179139571476070] <;> norm_num [roundHalfEven]
  have r2 : Double.round 20 = .finite 20 := by
    rw [round_exact_pos 20 5 2] <;> norm_num
  have r3 : Double.round (9007199254740992 / 517913957147607)
      = .finite (4895216986272279 / 281474976710656) := by
    rw [round_eq_pos (9007199254740992 / 517913957147607) 4 4895216986272279] <;>
      norm_num [roundHalfEven]
  have r4 : Double.round (12947848928690175 / 562949953421312) = .finite 23 := by
    rw [round_eq_pos (12947848928690175 / 562949953421312) 4 6473924464345088] <;>
      norm_num [roundHalfEven]
  have t1 : Double.toInt (.finite (4895216986272279 / 281474976710656)) = .ok 17 := by
    rw [toInt_finite (4895216986272279 / 281474976710656) 17] <;> norm_num [truncToInt]
  have t2 : Double.toInt (.finite 23) = .ok 23 := by
    rw [toInt_finite 23 23] <;> norm_num [truncToInt]
  norm_num [Double.ofInt, div_finite, mul_finite, r1, r2, r3, r4, t1, t2]

/-- The two conversions of the size-range check for a genome of 11 and a size range of 1.1: the
quotient of 11 by the double nearest to 1.1 rounds to 10. -/
theorem sizeRange_casts_rounded_up :
    Double.toInt (Double.div (Double.ofInt 11) (Double.round (11 / 10))) = .ok 10
    ∧ Double.toInt (Double.mul (Double.ofInt 11) (Double.round (11 / 10))) = .ok 12 := by
  have r1 : Double.round (11 / 10) = .finite (2476979795053773 / 2251799813685248) := by
    rw [round_eq_pos (11 / 10) 0 4953959590107546] <;> norm_num [roundHalfEven]
  have r2 : Double.round 11 = .finite 11 := by
    rw [round_exact_pos 11 11 0] <;> norm_num
  have r3 : Double.round (24769797950537728 / 2476979795053773) = .finite 10 := by
    rw [round_eq_pos (24769797950537728 / 2476979795053773) 3 5629499534213120] <;>
      norm_num [roundHalfEven]
  have r4 : Double.round (27246777745591503 / 2251799813685248)
      = .finite (1702923609099469 / 140737488355328) := by
    rw [round_eq_pos (27246777745591503 / 2251799813685248) 3 6811694436397876] <;>
      norm_num [roundHalfEven]
  have t1 : Double.toInt (.finite 10) = .ok 10 := by
    rw [toInt_finite 10 10] <;> norm_num [truncToInt]
  have t2 : Double.toInt (.finite (1702923609099469 / 140737488355328)) = .ok 12 := by
    rw [toInt_finite (1702923609099469 / 140737488355328) 12] <;> norm_num [truncToInt]
  norm_num [Double.ofInt, div_finite, mul_finite, r1, r2, r3, r4, t1, t2]


theorem sizeRangeLimits_viable (cfg : cDivideConfig) (hr : cfg.OFFSPRING_SIZE_RANGE = 2)
    (h1 : cfg.MIN_GENOME_LENGTH = 1) (h2 : cfg.MAX_GENOME_LENGTH = 100) :
    sizeRangeLimits cfg 4 = .ok (2, 8) := by
  rw [sizeRangeLimits_of_casts cfg 4 2 8 (by rw [hr]; exact sizeRange_casts_even.1)
    (by rw [hr]; exact sizeRange_casts_even.2), h1, h2]
  rfl

theorem sizeRangeLimits_narrow : sizeRangeLimits narrowRangeConfig 33 = .ok (29, 36) := by
  rw [sizeRangeLimits_of_casts narrowRangeConfig 33 29 36 sizeRange_casts_rounded_down.1
    sizeRange_casts_rounded_down.2]
  rfl

theorem viableStart_passes : passesAgeAndRange viableConfig viableStart 4 4 :=
  ⟨by decide, by decide, 2, 8, sizeRangeLimits_viable viableConfig rfl rfl rfl, by decide,
    by decide, by decide, by decide⟩

/-- A child of 29 instructions of a parent of 33 passes the size-range check at a size range
of 1.1: the lower limit computed in `double` is 29. -/
theorem longGenomeStart_passes : passesAgeAndRange narrowRangeConfig longGenomeStart 33 29 :=
  ⟨by decide, by decide, 29, 36, sizeRangeLimits_narrow, by decide, by decide, by decide,
    by decide⟩

theorem Divide_CheckViable_age_gate_witness :
    (viableStart.org.time_used < juvenileConfig.JUV_PERIOD
      ∨ viableStart.org.time_used < juvenileConfig.MIN_CYCLES)
    ∧ Divide_CheckViable juvenileConfig viableHooks [true, true, true, true] viableStart 4 4
        false = .ok (false, viableStart) :=
  ⟨Or.inl (by decide),
   Divide_CheckViable_age_gate juvenileConfig viableHooks [true, true, true, true] viableStart
    4 4 false (Or.inl (by decide))⟩

/-- Witness for C19: a genome of 33 instructions and a size range of 1.1 give the limits 29 and
36, and a child of 28 instructions is rejected. -/
theorem Divide_CheckViable_size_range_witness :
    Double.toInt (Double.div (Double.ofInt longGenomeStart.org.genome_size)
        (Double.round narrowRangeConfig.OFFSPRING_SIZE_RANGE)) = .ok 29
    ∧ Double.toInt (Double.mul (Double.ofInt longGenomeStart.org.genome_size)
        (Double.round narrowRangeConfig.OFFSPRING_SIZE_RANGE)) = .ok 36
    ∧ (28 : Int) < max narrowRangeConfig.MIN_GENOME_LENGTH 29
    ∧ Divide_CheckViable narrowRangeConfig viableHooks [] longGenomeStart 33 28 false
        = .ok (false, longGenomeStart) :=
  ⟨sizeRange_casts_rounded_down.1, sizeRange_casts_rounded_down.2, by decide,
   Divide_CheckViable_size_range narrowRangeConfig viableHooks [] longGenomeStart 33 28 false
    29 36 sizeRange_casts_rounded_down.1 sizeRange_casts_rounded_down.2 (Or.inl (by decide))⟩

/-- Witness for C20: an absolute minimum of 5 rejects sizes of 4; with no absolute bounds a
child of 29 instructions of a parent of 33 goes on to the executed-lines check. -/
theorem Divide_CheckViable_absolute_size_witness :
    Divide_CheckViable absoluteMinConfig viableHooks [true, true, true, true] viableStart 4 4
        false = .ok (false, viableStart)
    ∧ Divide_CheckViable narrowRangeConfig viableHooks [] longGenomeStart 33 29 false
      = divideCoverageChecks narrowRangeConfig viableHooks [] longGenomeStart 33 29 false :=
  ⟨(Divide_CheckViable_absolute_size absoluteMinConfig viableHooks [true, true, true, true]
      viableStart 4 4 false).1 ⟨(2, 8), sizeRangeLimits_viable absoluteMinConfig rfl rfl rfl⟩
      (Or.inl ⟨by decide, Or.inl (by decide)⟩),
   (Divide_CheckViable_absolute_size narrowRangeConfig viableHooks [] longGenomeStart 33 29
      false).2 longGenomeStart_passes (Or.inl rfl) (Or.inl rfl)⟩

/-- A size range of 0 makes the quotient `genome_size / size_range` an infinity, whose conversion
to `int` is undefined: `Divide_CheckViable` has no defined result. -/
theorem Divide_CheckViable_undefined_cast :
    Double.div (Double.ofInt 4) (Double.round zeroRangeConfig.OFFSPRING_SIZE_RANGE)
      = .inf false
    ∧ Divide_CheckViable zeroRangeConfig viableHooks [true, true, true, true] viableStart 4 4
        false = .error .undefined := by
  have r4 : Double.round 4 = .finite 4 := by
    rw [round_exact_pos 4 1 2] <;> norm_num
  have hr : zeroRangeConfig.OFFSPRING_SIZE_RANGE = 0 := rfl
  have hdiv : Double.div (Double.ofInt 4) (Double.round zeroRangeConfig.OFFSPRING_SIZE_RANGE)
      = .inf false := by
    norm_num [hr, Double.ofInt, r4, round_zero, Double.div]
  have hlim : sizeRangeLimits zeroRangeConfig viableStart.org.genome_size
      = .error .undefined := by
    unfold sizeRangeLimits
    dsimp only
    rw [show ((viableStart.org.genome_size : Nat) : Int) = 4 from rfl, hdiv]
    rfl
  refine ⟨hdiv, ?_⟩
  rw [Divide_CheckViable_aged _ _ _ _ _ _ _ (by decide) (by decide)]
  unfold divideSizeChecks
  dsimp only
  rw [hlim]

/-! ## Slip and translocation: nothing to insert, and unknown fill modes -/

theorem doSlipMutation_at (cfg : cConfig) (inst_set : cInstSet) (rng : cRandom)
    (g : InstructionSequence) (from_ : Int) :
    doSlipMutation cfg inst_set rng g from_
      = doSlipMutationAt cfg inst_set (drawFromTo rng g from_).2.2 g (drawFromTo rng g from_).1
          (drawFromTo rng g from_).2.1 := rfl

theorem doTransMutation_at (cfg : cConfig) (rng : cRandom) (g : InstructionSequence)
    (from_ : Int) :
    doTransMutation cfg rng g from_
      = doTransMutationAt cfg (drawFromTo rng g from_).2.2 g (drawFromTo rng g from_).1
          (drawFromTo rng g from_).2.1 := rfl

theorem drawFromTo_to_le (rng : cRandom) (g : InstructionSequence) (from_ : Int) :
    (drawFromTo rng g from_).2.1 ≤ g.length := by
  unfold drawFromTo
  dsimp only
  generalize (if from_ < 0 then rng.GetUInt (g.length + 1) else (from_.toNat, rng)) = fr
  by_cases h0 : fr.1 = 0
  · rw [if_pos h0]
    by_cases hL : g.length = 0
    · simp [cRandom.GetUInt, hL]
    · have := GetUInt_lt fr.2 g.length (by omega)
      omega
  · rw [if_neg h0]
    exact GetUInt_le _ _

theorem doSlipMutationAt_no_insert (cfg : cConfig) (inst_set : cInstSet) (rng : cRandom)
    (g : InstructionSequence) (from_ to_ : Nat) (hle : from_ ≤ to_) (hto : to_ ≤ g.length) :
    doSlipMutationAt cfg inst_set rng g from_ to_ = .ok (g.take from_ ++ g.drop to_, rng) := by
  have hfrom : from_ ≤ g.length := by omega
  have hN : (g.length : Int) + ((from_ : Int) - (to_ : Int))
      = ((g.length + from_ - to_ : Nat) : Int) := by omega
  set r := g.take (g.length + from_ - to_) ++ List.replicate (g.length + from_ - to_ - g.length) 0
    with hr
  have hrlen : r.length = from_ + (g.length - to_) := by
    simp [hr]; omega
  have hpre : ∀ j, j < from_ → r[j]? = g[j]? := by
    intro j hj
    rw [hr, List.getElem?_append_left (by simp; omega), List.getElem?_take_of_lt (by omega)]
  have hnet := copy_tail_eq g r from_ to_ hfrom hto hrlen hpre
  unfold doSlipMutationAt
  simp only [hN, seqResize_eq, bind, Except.bind]
  have h1 : ¬ ((from_ : Int) - (to_ : Int)) > 0 := by omega
  have h4 : (((g.length : Int) - (to_ : Int))
      - (if ((from_ : Int) - (to_ : Int)) < 0 then 0 else ((from_ : Int) - (to_ : Int)))).toNat
      = g.length - to_ := by split <;> omega
  have h3 : (if ((from_ : Int) - (to_ : Int)) < 0 then (0 : Int)
      else ((from_ : Int) - (to_ : Int))).toNat = 0 := by split <;> omega
  simp only [h1, if_false, h3, h4, pure, Except.pure]
  rw [← hr, hnet]

theorem doTransMutationAt_no_insert (cfg : cConfig) (rng : cRandom)
    (g : InstructionSequence) (from_ to_ : Nat) (hle : from_ ≤ to_) (hto : to_ ≤ g.length) :
    ∃ g', doTransMutationAt cfg rng g from_ to_ = .ok (g', (rng.GetUInt (g.length + 1)).2) ∧
      g'.length = g.length + from_ - to_ := by
  have hN : (g.length : Int) + ((from_ : Int) - (to_ : Int))
      = ((g.length + from_ - to_ : Nat) : Int) := by omega
  set r := g.take (g.length + from_ - to_) ++ List.replicate (g.length + from_ - to_ - g.length) 0
    with hr
  have hrlen : r.length = g.length + from_ - to_ := by
    simp [hr]; omega
  have hins := GetUInt_le rng g.length
  set ins_loc := (rng.GetUInt (g.length + 1)).1 with hins_loc
  unfold doTransMutationAt
  simp only [hN, seqResize_eq, bind, Except.bind]
  rw [← hr, ← hins_loc]
  have h1 : ¬ ((from_ : Int) - (to_ : Int)) > 0 := by omega
  simp only [h1, if_false, pure, Except.pure]
  by_cases heq : to_ = from_
  · have h2 : ¬ ((from_ : Int) - (to_ : Int)) < 0 := by omega
    have h3 : ((from_ : Int) - (to_ : Int)).toNat = 0 := by omega
    obtain ⟨g', hg2, hl2⟩ := forLoop_copyStep_length g 0 0 (g.length - ins_loc)
      ins_loc r (by omega) (by omega)
    simp only [h2, if_false, h3, hg2]
    exact ⟨g', rfl, by omega⟩
  · have h2 : ((from_ : Int) - (to_ : Int)) < 0 := by omega
    have h3 : (-((from_ : Int) - (to_ : Int))).toNat = to_ - from_ := by omega
    obtain ⟨g', hg2, hl2⟩ := forLoop_copyStep_length g 0 (to_ - from_) (r.length - ins_loc)
      ins_loc r (by omega) (by omega)
    simp only [h2, if_true, h3, hg2]
    exact ⟨g', rfl, by omega⟩

theorem doTransMutationAt_same (cfg : cConfig) (rng : cRandom) (g : InstructionSequence)
    (n : Nat) :
    doTransMutationAt cfg rng g n n = .ok (g, (rng.GetUInt (g.length + 1)).2) := by
  have hins := GetUInt_le rng g.length
  set ins_loc := (rng.GetUInt (g.length + 1)).1 with hins_loc
  obtain ⟨g', hrun, _, hget⟩ := forLoop_copyStep g 0 0 (g.length - ins_loc) ins_loc g
    (by omega) (by omega)
  have hg' : g' = g := by
    apply List.ext_getElem?
    intro j
    rw [hget j]
    split_ifs with h
    · simp
    · rfl
  have hN : (g.length : Int) + ((n : Int) - (n : Int)) = ((g.length : Nat) : Int) := by omega
  have hr : g.take g.length ++ List.replicate (g.length - g.length) 0 = g := by simp
  have h1 : ¬ ((n : Int) - (n : Int)) > 0 := by omega
  have h2 : ¬ ((n : Int) - (n : Int)) < 0 := by omega
  have h3 : ((n : Int) - (n : Int)).toNat = 0 := by omega
  unfold doTransMutationAt
  simp only [hN, seqResize_eq, bind, Except.bind, hr]
  rw [← hins_loc]
  simp only [h1, h2, if_false, pure, Except.pure, h3, hrun, hg']

theorem doSlipMutationAt_unknown_mode (cfg : cConfig) (inst_set : cInstSet) (rng : cRandom)
    (g : InstructionSequence) (from_ to_ : Nat)
    (hmode : cfg.SLIP_FILL_MODE < 0 ∨ 4 < cfg.SLIP_FILL_MODE) (hlt : to_ < from_) :
    doSlipMutationAt cfg inst_set rng g from_ to_ = .error .invalidConfig := by
  have hN : (g.length : Int) + ((from_ : Int) - (to_ : Int))
      = ((g.length + from_ - to_ : Nat) : Int) := by omega
  have h1 : ((from_ : Int) - (to_ : Int)) > 0 := by omega
  obtain ⟨k, hk⟩ : ∃ k, ((from_ : Int) - (to_ : Int)).toNat = k + 1 :=
    ⟨from_ - to_ - 1, by omega⟩
  have m0 : ¬ cfg.SLIP_FILL_MODE = 0 := by omega
  have m1 : ¬ cfg.SLIP_FILL_MODE = 1 := by omega
  have m2 : ¬ cfg.SLIP_FILL_MODE = 2 := by omega
  have m3 : ¬ cfg.SLIP_FILL_MODE = 3 := by omega
  have m4 : ¬ cfg.SLIP_FILL_MODE = 4 := by omega
  unfold doSlipMutationAt
  simp only [hN, seqResize_eq, bind, Except.bind, h1, if_true, hk, forLoop, slipFillStep,
    m0, m1, m2, m3, m4, if_false]

theorem doTransMutationAt_unknown_mode (cfg : cConfig) (rng : cRandom)
    (g : InstructionSequence) (from_ to_ : Nat)
    (hmode : cfg.TRANS_FILL_MODE ≠ 0 ∧ cfg.TRANS_FILL_MODE ≠ 1) (hlt : to_ < from_) :
    doTransMutationAt cfg rng g from_ to_ = .error .invalidConfig := by
  have hN : (g.length : Int) + ((from_ : Int) - (to_ : Int))
      = ((g.length + from_ - to_ : Nat) : Int) := by omega
  have h1 : ((from_ : Int) - (to_ : Int)) > 0 := by omega
  unfold doTransMutationAt
  simp only [hN, seqResize_eq, bind, Except.bind, h1, if_true, hmode.1, hmode.2, if_false]

/-- C14: for every genome, every way of arriving at `from == to` (`from` passed or drawn, `to`
drawn), every draw of the insertion location and every value of the two fill modes,
`doSlipMutation` and `doTransMutation` return a sequence identical to the input. -/
theorem slip_trans_same_from_to (cfg : cConfig) (inst_set : cInstSet) (rng : cRandom)
    (g : InstructionSequence) (from_ : Int)
    (h : (drawFromTo rng g from_).1 = (drawFromTo rng g from_).2.1) :
    doSlipMutation cfg inst_set rng g from_ = .ok (g, (drawFromTo rng g from_).2.2)
    ∧ doTransMutation cfg rng g from_
        = .ok (g, ((drawFromTo rng g from_).2.2.GetUInt (g.length + 1)).2) := by
  constructor
  · rw [doSlipMutation_at,
      doSlipMutationAt_no_insert _ _ _ _ _ _ (le_of_eq h) (drawFromTo_to_le rng g from_), h,
      List.take_append_drop]
  · rw [doTransMutation_at, h, doTransMutationAt_same]

/-- Witness for C14: fill modes 7 and 9, `from = to = 2` on a genome of length 4, insertion
location 1. -/
theorem slip_trans_same_from_to_witness :
    (drawFromTo ⟨[2, 2, 1]⟩ [10, 11, 12, 13] (-1)).1 = 2
    ∧ (drawFromTo ⟨[2, 2, 1]⟩ [10, 11, 12, 13] (-1)).2.1 = 2
    ∧ doSlipMutation unknownFillConfig plainInstSet ⟨[2, 2, 1]⟩ [10, 11, 12, 13] (-1)
        = .ok ([10, 11, 12, 13], ⟨[1]⟩)
    ∧ doTransMutation unknownFillConfig ⟨[2, 2, 1]⟩ [10, 11, 12, 13] (-1)
        = .ok ([10, 11, 12, 13], ⟨[]⟩) :=
  ⟨by decide, by decide,
   slip_trans_same_from_to unknownFillConfig plainInstSet ⟨[2, 2, 1]⟩ [10, 11, 12, 13] (-1)
    (by decide)⟩

/-- C18 (counterexample): with `SLIP_FILL_MODE` 7 and `TRANS_FILL_MODE` 9 the operators do not
abort for the draws `from = 1, to = 3` (a deletion) and `from = to = 2`: they return a
genome. -/
theorem unknown_fill_mode_completes :
    doSlipMutation unknownFillConfig plainInstSet ⟨[1, 3]⟩ [10, 11, 12, 13] (-1)
        = .ok ([10, 13], ⟨[]⟩)
    ∧ doTransMutation unknownFillConfig ⟨[1, 3, 0]⟩ [10, 11, 12, 13] (-1)
        = .ok ([12, 13], ⟨[]⟩)
    ∧ doSlipMutation unknownFillConfig plainInstSet ⟨[2, 2]⟩ [10, 11, 12, 13] (-1)
        = .ok ([10, 11, 12, 13], ⟨[]⟩)
    ∧ doTransMutation unknownFillConfig ⟨[2, 2, 0]⟩ [10, 11, 12, 13] (-1)
        = .ok ([10, 11, 12, 13], ⟨[]⟩) := by
  decide

/-- C18 (amended): a slip mutation performed with a `SLIP_FILL_MODE` outside `{0,1,2,3,4}`, and
a translocation mutation performed with a `TRANS_FILL_MODE` outside `{0,1}`, reports the
configuration error and aborts the run for every draw with `from > to` (an insertion); for
every draw with `from <= to` the fill mode is not consulted and the operator completes: the
slip mutation returns `g[0..from) ++ g[to..L)` and the translocation a genome of length
`L + from - to`. -/
theorem unknown_fill_mode_aborts (cfg : cConfig) (inst_set : cInstSet) (rng : cRandom)
    (g : InstructionSequence) (from_ : Int) :
    ((cfg.SLIP_FILL_MODE < 0 ∨ 4 < cfg.SLIP_FILL_MODE) →
      ((drawFromTo rng g from_).2.1 < (drawFromTo rng g from_).1 →
        doSlipMutation cfg inst_set rng g from_ = .error .invalidConfig)
      ∧ ((drawFromTo rng g from_).1 ≤ (drawFromTo rng g from_).2.1 →
        doSlipMutation cfg inst_set rng g from_
          = .ok (g.take (drawFromTo rng g from_).1 ++ g.drop (drawFromTo rng g from_).2.1,
                 (drawFromTo rng g from_).2.2)))
    ∧ ((cfg.TRANS_FILL_MODE ≠ 0 ∧ cfg.TRANS_FILL_MODE ≠ 1) →
      ((drawFromTo rng g from_).2.1 < (drawFromTo rng g from_).1 →
        doTransMutation cfg rng g from_ = .error .invalidConfig)
      ∧ ((drawFromTo rng g from_).1 ≤ (drawFromTo rng g from_).2.1 →
        ∃ g', doTransMutation cfg rng g from_
            = .ok (g', ((drawFromTo rng g from_).2.2.GetUInt (g.length + 1)).2)
          ∧ g'.length
            = g.length + (drawFromTo rng g from_).1 - (drawFromTo rng g from_).2.1)) := by
  refine ⟨fun hslip => ⟨fun hlt => ?_, fun hle => ?_⟩,
    fun htrans => ⟨fun hlt => ?_, fun hle => ?_⟩⟩
  · rw [doSlipMutation_at]
    exact doSlipMutationAt_unknown_mode cfg inst_set _ g _ _ hslip hlt
  · rw [doSlipMutation_at]
    exact doSlipMutationAt_no_insert cfg inst_set _ g _ _ hle (drawFromTo_to_le rng g from_)
  · rw [doTransMutation_at]
    exact doTransMutationAt_unknown_mode cfg _ g _ _ htrans hlt
  · rw [doTransMutation_at]
    exact doTransMutationAt_no_insert cfg _ g _ _ hle (drawFromTo_to_le rng g from_)

/-- Witness for C18 (amended): fill modes 7 and 9 on a genome of length 4; the draws
`from = 3, to = 1` abort both operators, the draws `from = 1, to = 3` do not. -/
theorem unknown_fill_mode_aborts_witness :
    doSlipMutation unknownFillConfig plainInstSet ⟨[3, 1, 0]⟩ [10, 11, 12, 13] (-1)
        = .error .invalidConfig
    ∧ doTransMutation unknownFillConfig ⟨[3, 1, 0]⟩ [10, 11, 12, 13] (-1)
        = .error .invalidConfig
    ∧ doSlipMutation unknownFillConfig plainInstSet ⟨[1, 3, 0]⟩ [10, 11, 12, 13] (-1)
        = .ok ([10, 13], ⟨[0]⟩) :=
  ⟨((unknown_fill_mode_aborts unknownFillConfig plainInstSet ⟨[3, 1, 0]⟩ [10, 11, 12, 13]
      (-1)).1 (by decide)).1 (by decide),
   ((unknown_fill_mode_aborts unknownFillConfig plainInstSet ⟨[3, 1, 0]⟩ [10, 11, 12, 13]
      (-1)).2 (by decide)).1 (by decide),
   ((unknown_fill_mode_aborts unknownFillConfig plainInstSet ⟨[1, 3, 0]⟩ [10, 11, 12, 13]
      (-1)).1 (by decide)).2 (by decide)⟩

/-! ## Cost ledger: the first-time cost -/

theorem set_getElem?_self {α : Type} (l : List α) (i : Nat) (a : α) (h : l[i]? = some a) :
    l.set i a = l := by
  apply List.ext_getElem?
  intro j
  rw [List.getElem?_set]
  split
  · next hij =>
    subst hij
    simp [getElem?_lt h, h]
  · rfl

theorem payPreCosts_ft_step (inst_set : cInstSet) (org : CostOrganism) (hw : cHardwareBase)
    (op thread : Nat) (c : Int) (hft : hw.m_has_ft_costs = true)
    (hc : hw.m_inst_ft_cost[op]? = some c) (hpos : 0 < c) :
    SingleProcess_PayPreCosts inst_set org hw op thread
      = .ok (false, { hw with m_inst_ft_cost := hw.m_inst_ft_cost.set op (c - 1) }) := by
  have hlt := getElem?_lt hc
  simp [SingleProcess_PayPreCosts, seqGet, seqSet, hft, hc, hpos, hlt, bind, Except.bind, pure,
    Except.pure]

theorem payPreCosts_ft_run (inst_set : cInstSet) (org : CostOrganism) (op : Nat) :
    ∀ (threads : List Nat) (hw : cHardwareBase) (c : Int), hw.m_has_ft_costs = true →
      hw.m_inst_ft_cost[op]? = some c → (threads.length : Int) ≤ c →
      payPreCostsSeq inst_set org (threads.map (fun t => (op, t))) hw
        = .ok (List.replicate threads.length false,
            { hw with m_inst_ft_cost := hw.m_inst_ft_cost.set op (c - threads.length) }) := by
  intro threads
  induction threads with
  | nil =>
    intro hw c _ hc _
    simp [payPreCostsSeq, set_getElem?_self _ _ _ hc]
  | cons t ts ih =>
    intro hw c hft hc hle
    have hlt := getElem?_lt hc
    have hpos : 0 < c := by simp at hle; omega
    have hstep := payPreCosts_ft_step inst_set org hw op t c hft hc hpos
    have ih' := ih { hw with m_inst_ft_cost := hw.m_inst_ft_cost.set op (c - 1) } (c - 1) hft
      (by simp [hlt]) (by simp at hle ⊢; omega)
    simp only [List.map_cons, payPreCostsSeq, hstep, ih']
    simp [List.replicate_succ]
    congr 1
    omega

theorem payPerUseCosts_ft_flag (hw : cHardwareBase) (c : Int) (t : Nat) (f : Bool) :
    payPerUseCosts { hw with m_has_ft_costs := f } c t
      = match payPerUseCosts hw c t with
        | .ok (b, hw') => .ok (b, { hw' with m_has_ft_costs := f })
        | .error e => .error e := by
  unfold payPerUseCosts
  simp only [seqGet, seqSet, bind, Except.bind, pure, Except.pure]
  cases hp : hw.m_active_thread_post_costs[t]? with
  | none => rfl
  | some post =>
    simp only []
    by_cases h1 : post > 1
    · simp only [h1, if_true]
      split <;> rfl
    · simp only [h1, if_false]
      by_cases h2 : post = 1
      · simp only [h2, if_true]
        by_cases h3 : t < hw.m_active_thread_post_costs.length
        · simp only [h3, if_true]
          cases ha : hw.m_active_thread_costs[t]? with
          | none => rfl
          | some a =>
            simp only []
            split_ifs <;> rfl
        · simp only [h3, if_false]
      · simp only [h2, if_false]
        cases ha : hw.m_active_thread_costs[t]? with
        | none => rfl
        | some a =>
          simp only []
          split_ifs <;> rfl

theorem payPerUseCosts_frame (hw hw' : cHardwareBase) (c : Int) (t : Nat) (b : Bool)
    (h : payPerUseCosts hw c t = .ok (b, hw')) :
    ∃ a p, hw' = { hw with m_active_thread_costs := a, m_active_thread_post_costs := p } := by
  unfold payPerUseCosts at h
  simp only [seqGet, seqSet, bind, Except.bind, pure, Except.pure] at h
  cases hp : hw.m_active_thread_post_costs[t]? with
  | none => rw [hp] at h; cases h
  | some post =>
    rw [hp] at h
    simp only [] at h
    have h3 : t < hw.m_active_thread_post_costs.length := getElem?_lt hp
    by_cases h1 : post > 1
    · simp only [h1, if_true, h3] at h
      cases h
      exact ⟨_, _, rfl⟩
    · simp only [h1, if_false] at h
      by_cases h2 : post = 1
      · simp only [h2, if_true, h3] at h
        cases ha : hw.m_active_thread_costs[t]? with
        | none => rw [ha] at h; cases h
        | some a =>
          rw [ha] at h
          simp only [] at h
          split_ifs at h <;> cases h <;> exact ⟨_, _, rfl⟩
      · simp only [h2, if_false] at h
        cases ha : hw.m_active_thread_costs[t]? with
        | none => rw [ha] at h; cases h
        | some a =>
          rw [ha] at h
          simp only [] at h
          split_ifs at h <;> cases h <;> exact ⟨_, _, rfl⟩

/-- `SingleProcess_PayPreCosts` written out with the two table lookups as explicit binds. -/
theorem payPreCosts_unfold (inst_set : cInstSet) (org : CostOrganism) (hw : cHardwareBase)
    (op t : Nat) :
    SingleProcess_PayPreCosts inst_set org hw op t =
      (if hw.m_has_ft_costs = true then seqGet hw.m_inst_ft_cost op else Except.ok 0).bind
        (fun ft =>
          if hw.m_has_ft_costs = true ∧ ft > 0 then
            (seqSet hw.m_inst_ft_cost op (ft - 1)).bind
              (fun a => Except.ok (false, { hw with m_inst_ft_cost := a }))
          else if (hw.m_has_res_costs = true ∨ hw.m_has_fem_res_costs = true)
              ∧ org.COLLECT_SPECIFIC_RESOURCE < 0 then Except.error Fault.assertion
          else if (hw.m_has_res_costs = true ∨ hw.m_has_fem_res_costs = true) ∧
              resStoredBelowRequired inst_set org op = true then
            Except.ok (false, hw)
          else if hw.m_has_bonus_costs = true ∧ bonusBelowCost inst_set org op = true then
            Except.ok (false, hw)
          else
            (if hw.m_has_costs = true then seqGet hw.m_thread_inst_cost op
              else Except.ok 0).bind
              (fun per_use_cost =>
                if (hw.m_has_costs
                    || (hw.m_has_female_costs && org.is_female
                        && decide (inst_set.GetFemaleCost op ≠ 0))
                    || (hw.m_has_choosy_female_costs && (org.is_female && org.is_choosy)
                        && decide (inst_set.GetChoosyFemaleCost op ≠ 0))
                    || hw.m_has_post_costs) = true then
                  payPerUseCosts hw
                    (if (hw.m_has_choosy_female_costs && (org.is_female && org.is_choosy)
                          && decide (inst_set.GetChoosyFemaleCost op ≠ 0)) = true then
                      (if (hw.m_has_female_costs && org.is_female
                            && decide (inst_set.GetFemaleCost op ≠ 0)) = true then
                        per_use_cost + inst_set.GetFemaleCost op else per_use_cost)
                        + inst_set.GetChoosyFemaleCost op
                     else
                      (if (hw.m_has_female_costs && org.is_female
                            && decide (inst_set.GetFemaleCost op ≠ 0)) = true then
                        per_use_cost + inst_set.GetFemaleCost op else per_use_cost)) t
                else Except.ok (true, hw))) := by
  unfold SingleProcess_PayPreCosts
  by_cases h1 : hw.m_has_ft_costs = true <;> by_cases h2 : hw.m_has_costs = true <;>
    simp only [h1, h2, if_true, if_false, bind, pure, Except.pure] <;> rfl

theorem ft_flag_restore (hw : cHardwareBase) (h : hw.m_has_ft_costs = true) :
    ({ ({ hw with m_has_ft_costs := false } : cHardwareBase) with m_has_ft_costs := true }
      : cHardwareBase) = hw := by
  cases hw
  simp only at h
  subst h
  rfl

theorem payPreCosts_ft_exhausted (inst_set : cInstSet) (org : CostOrganism)
    (hw : cHardwareBase) (op t : Nat) (c : Int) (hft : hw.m_has_ft_costs = true)
    (hc : hw.m_inst_ft_cost[op]? = some c) (hle : c ≤ 0) :
    SingleProcess_PayPreCosts inst_set org hw op t
      = match SingleProcess_PayPreCosts inst_set org { hw with m_has_ft_costs := false } op t with
        | .ok (b, hw') => .ok (b, { hw' with m_has_ft_costs := true })
        | .error e => .error e := by
  have hnot : ¬ c > 0 := by omega
  have hres := ft_flag_restore hw hft
  simp only at hres
  rw [payPreCosts_unfold, payPreCosts_unfold]
  have hget : seqGet hw.m_inst_ft_cost op = .ok c := by simp [seqGet, hc]
  simp only [hget, hft, if_true, Except.bind, true_and, hnot, if_false, false_and,
    Bool.false_eq_true]
  by_cases hA : (hw.m_has_res_costs = true ∨ hw.m_has_fem_res_costs = true)
      ∧ org.COLLECT_SPECIFIC_RESOURCE < 0
  · simp only [if_pos hA]
  · simp only [if_neg hA]
    by_cases hB : (hw.m_has_res_costs = true ∨ hw.m_has_fem_res_costs = true) ∧
        resStoredBelowRequired inst_set org op = true
    · simp only [if_pos hB, hres]
    · simp only [if_neg hB]
      by_cases hC : hw.m_has_bonus_costs = true ∧ bonusBelowCost inst_set org op = true
      · simp only [if_pos hC, hres]
      · simp only [if_neg hC]
        generalize (if hw.m_has_costs = true then seqGet hw.m_thread_inst_cost op
          else Except.ok 0) = r
        cases r with
        | error e => rfl
        | ok v =>
          simp only []
          by_cases hD : (hw.m_has_costs
              || (hw.m_has_female_costs && org.is_female
                  && decide (inst_set.GetFemaleCost op ≠ 0))
              || (hw.m_has_choosy_female_costs && (org.is_female && org.is_choosy)
                  && decide (inst_set.GetChoosyFemaleCost op ≠ 0))
              || hw.m_has_post_costs) = true
          · simp only [if_pos hD]
            rw [payPerUseCosts_ft_flag hw _ t false]
            cases hr : payPerUseCosts hw _ t with
            | error e => rfl
            | ok r =>
              obtain ⟨b, hw'⟩ := r
              obtain ⟨a, p, hap⟩ := payPerUseCosts_frame _ _ _ _ _ hr
              subst hap
              simp only [hft]
          · simp only [if_neg hD, hres]

/-- Whatever `SingleProcess_PayPreCosts` returns, it changes nothing in the hardware but the
first-time cost array and the two countdown arrays, and the first-time cost array only when
first-time costs are in force. -/
theorem payPreCosts_frame (inst_set : cInstSet) (org : CostOrganism) (hw hw' : cHardwareBase)
    (op t : Nat) (b : Bool) (h : SingleProcess_PayPreCosts inst_set org hw op t = .ok (b, hw')) :
    ∃ f a p, hw' = { hw with m_inst_ft_cost := f, m_active_thread_costs := a,
                             m_active_thread_post_costs := p }
      ∧ (hw.m_has_ft_costs = false → f = hw.m_inst_ft_cost) := by
  rw [payPreCosts_unfold] at h
  generalize (if hw.m_has_ft_costs = true then seqGet hw.m_inst_ft_cost op
    else Except.ok 0) = r at h
  cases r with
  | error e => cases h
  | ok ft =>
    simp only [Except.bind] at h
    by_cases h1 : hw.m_has_ft_costs = true ∧ ft > 0
    · rw [if_pos h1] at h
      cases hs : seqSet hw.m_inst_ft_cost op (ft - 1) with
      | error e => rw [hs] at h; cases h
      | ok a =>
        rw [hs] at h
        cases h
        exact ⟨a, _, _, rfl, fun hf => by simp [hf] at h1⟩
    · rw [if_neg h1] at h
      by_cases hA : (hw.m_has_res_costs = true ∨ hw.m_has_fem_res_costs = true)
          ∧ org.COLLECT_SPECIFIC_RESOURCE < 0
      · rw [if_pos hA] at h
        cases h
      · rw [if_neg hA] at h
        by_cases hB : (hw.m_has_res_costs = true ∨ hw.m_has_fem_res_costs = true) ∧
            resStoredBelowRequired inst_set org op = true
        · rw [if_pos hB] at h
          cases h
          exact ⟨_, _, _, rfl, fun _ => rfl⟩
        · rw [if_neg hB] at h
          by_cases hC : hw.m_has_bonus_costs = true ∧ bonusBelowCost inst_set org op = true
          · rw [if_pos hC] at h
            cases h
            exact ⟨_, _, _, rfl, fun _ => rfl⟩
          · rw [if_neg hC] at h
            generalize (if hw.m_has_costs = true then seqGet hw.m_thread_inst_cost op
              else Except.ok 0) = r at h
            cases r with
            | error e => cases h
            | ok v =>
              simp only [] at h
              by_cases hD : (hw.m_has_costs
                  || (hw.m_has_female_costs && org.is_female
                      && decide (inst_set.GetFemaleCost op ≠ 0))
                  || (hw.m_has_choosy_female_costs && (org.is_female && org.is_choosy)
                      && decide (inst_set.GetChoosyFemaleCost op ≠ 0))
                  || hw.m_has_post_costs) = true
              · rw [if_pos hD] at h
                obtain ⟨a, p, hap⟩ := payPerUseCosts_frame _ _ _ _ _ h
                exact ⟨_, a, p, hap, fun _ => rfl⟩
              · rw [if_neg hD] at h
                cases h
                exact ⟨_, _, _, rfl, fun _ => rfl⟩

theorem payPreCosts_ft_exhausted_run (inst_set : cInstSet) (org : CostOrganism) (op : Nat)
    (c : Int) (hle : c ≤ 0) :
    ∀ (more : List Nat) (hw : cHardwareBase), hw.m_has_ft_costs = true →
      hw.m_inst_ft_cost[op]? = some c →
      payPreCostsSeq inst_set org (more.map (fun t => (op, t))) hw
        = match payPreCostsSeq inst_set org (more.map (fun t => (op, t)))
              { hw with m_has_ft_costs := false } with
          | .ok (bs, hw') => .ok (bs, { hw' with m_has_ft_costs := true })
          | .error e => .error e := by
  intro more
  induction more with
  | nil =>
    intro hw hft _
    have hres := ft_flag_restore hw hft
    simp only at hres
    simp only [List.map_nil, payPreCostsSeq, hres]
  | cons t ts ih =>
    intro hw hft hc
    obtain ⟨f1, f2, f3, f4, f5, f6, f7, f8, ft, tc, tpc, ac, apc⟩ := hw
    simp only at hft hc
    subst hft
    simp only [List.map_cons, payPreCostsSeq]
    have hL := payPreCosts_ft_exhausted inst_set org
      ⟨f1, true, f3, f4, f5, f6, f7, f8, ft, tc, tpc, ac, apc⟩ op t c rfl hc hle
    simp only [] at hL
    rw [hL]
    cases hs : SingleProcess_PayPreCosts inst_set org
        ⟨f1, false, f3, f4, f5, f6, f7, f8, ft, tc, tpc, ac, apc⟩ op t with
    | error e => rfl
    | ok r =>
      obtain ⟨b, h2⟩ := r
      obtain ⟨f, a, p, hh, hf⟩ := payPreCosts_frame _ _ _ _ _ _ _ hs
      have hf' := hf rfl
      simp only at hf' hh
      subst hf'
      subst hh
      simp only []
      have hI := ih ⟨f1, true, f3, f4, f5, f6, f7, f8, f, tc, tpc, a, p⟩ rfl hc
      simp only [] at hI
      rw [hI]
      cases payPreCostsSeq inst_set org (ts.map (fun t => (op, t)))
          ⟨f1, false, f3, f4, f5, f6, f7, f8, f, tc, tpc, a, p⟩ with
      | error e => rfl
      | ok r2 => rfl

theorem payPreCostsSeq_append (inst_set : cInstSet) (org : CostOrganism) :
    ∀ (l1 l2 : List (Instruction × Nat)) (hw : cHardwareBase),
      payPreCostsSeq inst_set org (l1 ++ l2) hw
        = match payPreCostsSeq inst_set org l1 hw with
          | .ok (bs, hw1) =>
            match payPreCostsSeq inst_set org l2 hw1 with
            | .ok (bs2, hw2) => .ok (bs ++ bs2, hw2)
            | .error e => .error e
          | .error e => .error e := by
  intro l1
  induction l1 with
  | nil =>
    intro l2 hw
    simp only [List.nil_append, payPreCostsSeq]
    cases payPreCostsSeq inst_set org l2 hw with
    | error e => rfl
    | ok r => rfl
  | cons x xs ih =>
    intro l2 hw
    obtain ⟨i, t⟩ := x
    simp only [List.cons_append, payPreCostsSeq]
    cases SingleProcess_PayPreCosts inst_set org hw i t with
    | error e => rfl
    | ok r =>
      obtain ⟨b, hw1⟩ := r
      simp only []
      rw [List.append_eq, ih]
      cases payPreCostsSeq inst_set org xs hw1 with
      | error e => rfl
      | ok r1 =>
        obtain ⟨bs, hw2⟩ := r1
        simp only []
        cases payPreCostsSeq inst_set org l2 hw2 with
        | error e => rfl
        | ok r2 => rfl

/-- C15: for an opcode whose remaining first-time cost is `k ≥ 0` (first-time costs being in
force), the next `k` calls of `SingleProcess_PayPreCosts` with that opcode, on any threads,
each return `false`; after `j ≤ k` of them the hardware differs from the initial one in the
first-time cost of the opcode alone, which is `k - j` (so each call lowers it by one and the
countdown arrays are untouched); from the `(k+1)`-th call on the calls go as they do on a
hardware without first-time costs. -/
theorem payPreCosts_first_time_cost (inst_set : cInstSet) (org : CostOrganism)
    (hw : cHardwareBase) (op k : Nat) (threads : List Nat)
    (hft : hw.m_has_ft_costs = true) (hk : hw.m_inst_ft_cost[op]? = some (k : Int))
    (hlen : threads.length = k) :
    (∀ j, j ≤ k →
      payPreCostsSeq inst_set org ((threads.take j).map (fun t => (op, t))) hw
        = .ok (List.replicate j false,
            { hw with m_inst_ft_cost := hw.m_inst_ft_cost.set op ((k : Int) - j) }))
    ∧ (∀ more : List Nat,
      payPreCostsSeq inst_set org ((threads ++ more).map (fun t => (op, t))) hw
        = match payPreCostsSeq inst_set org (more.map (fun t => (op, t)))
              { hw with m_has_ft_costs := false,
                        m_inst_ft_cost := hw.m_inst_ft_cost.set op 0 } with
          | .ok (bs, hw') =>
            .ok (List.replicate k false ++ bs, { hw' with m_has_ft_costs := true })
          | .error e => .error e) := by
  have hlt := getElem?_lt hk
  constructor
  · intro j hj
    have hl : (threads.take j).length = j := by simp; omega
    have h := payPreCosts_ft_run inst_set org op (threads.take j) hw k hft hk (by omega)
    rw [hl] at h
    exact h
  · intro more
    have h := payPreCosts_ft_run inst_set org op threads hw k hft hk (by omega)
    rw [hlen, sub_self] at h
    rw [List.map_append, payPreCostsSeq_append, h]
    simp only []
    rw [payPreCosts_ft_exhausted_run inst_set org op 0 (le_refl 0) more
      { hw with m_inst_ft_cost := hw.m_inst_ft_cost.set op 0 } hft (by simp [hlt])]
    cases payPreCostsSeq inst_set org (more.map (fun t => (op, t)))
        { hw with m_has_ft_costs := false, m_inst_ft_cost := hw.m_inst_ft_cost.set op 0 } with
    | error e => rfl
    | ok r => rfl

/-- Witness for C15: first-time cost 2 for opcode 0; the calls on threads 1 and 0 return
`false` and use the cost up, the third call (on thread 1) returns `true`. -/
theorem payPreCosts_first_time_cost_witness :
    payPreCostsSeq plainInstSet plainCostOrganism [(0, 1), (0, 0)] firstTimeHardware
        = .ok ([false, false], { firstTimeHardware with m_inst_ft_cost := [0, 0] })
    ∧ payPreCostsSeq plainInstSet plainCostOrganism [(0, 1), (0, 0), (0, 1)] firstTimeHardware
        = .ok ([false, false, true], { firstTimeHardware with m_inst_ft_cost := [0, 0] }) :=
  ⟨(payPreCosts_first_time_cost plainInstSet plainCostOrganism firstTimeHardware 0 2 [1, 0]
      rfl rfl rfl).1 2 (by decide),
   (payPreCosts_first_time_cost plainInstSet plainCostOrganism firstTimeHardware 0 2 [1, 0]
      rfl rfl rfl).2 [1]⟩

/-! ## Cost ledger: the resource and bonus gates -/

theorem ft_lookup_exhausted (hw : cHardwareBase) (op : Nat) (h : firstTimeExhausted hw op) :
    ∃ ft, (if hw.m_has_ft_costs = true then seqGet hw.m_inst_ft_cost op else Except.ok 0)
        = Except.ok ft ∧ ¬ (hw.m_has_ft_costs = true ∧ ft > 0) := by
  rcases h with h | ⟨c, hc, hle⟩
  · refine ⟨0, by simp [h], by simp [h]⟩
  · by_cases hf : hw.m_has_ft_costs = true
    · exact ⟨c, by simp [hf, seqGet, hc], by omega⟩
    · exact ⟨0, by simp [hf], by simp [hf]⟩

theorem payPreCosts_short (inst_set : cInstSet) (org : CostOrganism) (hw : cHardwareBase)
    (op thread : Nat) (hft : firstTimeExhausted hw op) (hassert : resourceAssertHolds org hw)
    (h : resourceShort inst_set org hw op ∨ bonusShort inst_set org hw op) :
    SingleProcess_PayPreCosts inst_set org hw op thread = .ok (false, hw) := by
  obtain ⟨ft, hlook, hnot⟩ := ft_lookup_exhausted hw op hft
  have hA : ¬ ((hw.m_has_res_costs = true ∨ hw.m_has_fem_res_costs = true)
      ∧ org.COLLECT_SPECIFIC_RESOURCE < 0) := by
    intro hc
    have := hassert hc.1
    omega
  rw [payPreCosts_unfold, hlook]
  simp only [Except.bind]
  rw [if_neg hnot, if_neg hA]
  unfold resourceShort bonusShort at h
  by_cases hB : (hw.m_has_res_costs = true ∨ hw.m_has_fem_res_costs = true) ∧
      resStoredBelowRequired inst_set org op = true
  · rw [if_pos hB]
  · rw [if_neg hB, if_pos (h.resolve_left hB)]

/-- The resource gate compares the bin with the sum computed in `double`: a female whose bin
holds the double 0.7999999999999999 meets the costs 0.1 and 0.7, whose sum in `double` is that
very value, although the bin is below the exact sum of the two doubles. -/
theorem resource_gate_rounded_sum :
    resStoredBelowRequired fractionalCostInstSet femaleOrganism 2 = false
    ∧ ¬ resourceShort fractionalCostInstSet femaleOrganism gatedHardware 2
    ∧ (7205759403792793 / 9007199254740992 : ℚ)
        < (3602879701896397 / 36028797018963968)
          + (3152519739159347 / 4503599627370496) := by
  have r1 : Double.round (1 / 10) = .finite (3602879701896397 / 36028797018963968) := by
    rw [round_eq_pos (1 / 10) (-4) 7205759403792794] <;> norm_num [roundHalfEven]
  have r2 : Double.round (7 / 10) = .finite (3152519739159347 / 4503599627370496) := by
    rw [round_eq_pos (7 / 10) (-1) 6305039478318694] <;> norm_num [roundHalfEven]
  have r3 : Double.round (28823037615171173 / 36028797018963968)
      = .finite (7205759403792793 / 9007199254740992) := by
    rw [round_eq_pos (28823037615171173 / 36028797018963968) (-1) 7205759403792793] <;>
      norm_num [roundHalfEven]
  have r4 : Double.round (7205759403792793 / 9007199254740992) = .finite (7205759403792793 /
      9007199254740992) := by
    rw [round_exact_pos (7205759403792793 / 9007199254740992) 7205759403792793 (-53)] <;> norm_num
  have h : resStoredBelowRequired fractionalCostInstSet femaleOrganism 2 = false := by
    norm_num [resStoredBelowRequired, fractionalCostInstSet, femaleOrganism, add_finite,
      Double.lt, r1, r2, r3, r4]
  refine ⟨h, ?_, by norm_num⟩
  intro hs
  rw [hs.2] at h
  exact Bool.noConfusion h

theorem costly_gates_short :
    resStoredBelowRequired costlyInstSet plainCostOrganism 2 = true
    ∧ bonusBelowCost costlyInstSet stockedOrganism 2 = true := by
  have r1 : Double.round 1 = .finite 1 := by
    rw [round_exact_pos 1 1 0] <;> norm_num
  constructor
  · norm_num [resStoredBelowRequired, plainCostOrganism, costlyInstSet, Double.ofInt,
      add_finite, Double.lt, round_zero, r1]
  · norm_num [bonusBelowCost, stockedOrganism, costlyInstSet, Double.lt, round_zero, r1]


/-- C16: when the first-time cost of the instruction is exhausted and the organism's
resource-bin balance is below (resource cost + female resource cost), the sum and the
comparison being those the function makes in `double`, with the resource gate in force, or its
current bonus is below the instruction's bonus cost with the bonus gate in force,
`SingleProcess_PayPreCosts` returns `false` and leaves the hardware, so every per-thread
countdown counter, as it was. The organism is only read by the function. -/
theorem payPreCosts_resource_bonus_gate (inst_set : cInstSet) (org : CostOrganism)
    (hw : cHardwareBase) (op thread : Nat) (hft : firstTimeExhausted hw op)
    (hassert : resourceAssertHolds org hw)
    (h : resourceShort inst_set org hw op ∨ bonusShort inst_set org hw op) :
    SingleProcess_PayPreCosts inst_set org hw op thread = .ok (false, hw) :=
  payPreCosts_short inst_set org hw op thread hft hassert h

/-- Witness for C16: resource cost 1 against an empty bin, and bonus cost 1 against bonus 0
with a stocked bin. -/
theorem payPreCosts_resource_bonus_gate_witness :
    SingleProcess_PayPreCosts costlyInstSet plainCostOrganism gatedHardware 2 1
        = .ok (false, gatedHardware)
    ∧ SingleProcess_PayPreCosts costlyInstSet stockedOrganism gatedHardware 2 1
        = .ok (false, gatedHardware) :=
  ⟨payPreCosts_resource_bonus_gate costlyInstSet plainCostOrganism gatedHardware 2 1
      (Or.inl rfl) (fun _ => le_refl _) (Or.inl ⟨Or.inl rfl, costly_gates_short.1⟩),
   payPreCosts_resource_bonus_gate costlyInstSet stockedOrganism gatedHardware 2 1
      (Or.inl rfl) (fun _ => le_refl _) (Or.inr ⟨rfl, costly_gates_short.2⟩)⟩

/-! ## Cost ledger: the post-use countdown -/

theorem payPreCosts_gates_open (inst_set : cInstSet) (org : CostOrganism) (hw : cHardwareBase)
    (inst thread : Nat) (h : gatesOpen inst_set org hw inst)
    (hpost : hw.m_has_post_costs = true) :
    ∃ v, (if hw.m_has_costs = true then seqGet hw.m_thread_inst_cost inst
        else Except.ok 0) = Except.ok v
      ∧ SingleProcess_PayPreCosts inst_set org hw inst thread
        = payPerUseCosts hw
            (if (hw.m_has_choosy_female_costs && (org.is_female && org.is_choosy)
                  && decide (inst_set.GetChoosyFemaleCost inst ≠ 0)) = true then
              (if (hw.m_has_female_costs && org.is_female
                    && decide (inst_set.GetFemaleCost inst ≠ 0)) = true then
                v + inst_set.GetFemaleCost inst else v)
                + inst_set.GetChoosyFemaleCost inst
             else
              (if (hw.m_has_female_costs && org.is_female
                    && decide (inst_set.GetFemaleCost inst ≠ 0)) = true then
                v + inst_set.GetFemaleCost inst else v)) thread := by
  obtain ⟨hft, hassert, hres, hbonus, hread⟩ := h
  obtain ⟨ft, hlook, hnot⟩ := ft_lookup_exhausted hw inst hft
  have hA : ¬ ((hw.m_has_res_costs = true ∨ hw.m_has_fem_res_costs = true)
      ∧ org.COLLECT_SPECIFIC_RESOURCE < 0) := by
    intro hc
    have := hassert hc.1
    omega
  unfold resourceShort at hres
  unfold bonusShort at hbonus
  have hcost : ∃ v, (if hw.m_has_costs = true then seqGet hw.m_thread_inst_cost inst
      else Except.ok 0) = Except.ok v := by
    by_cases hc : hw.m_has_costs = true
    · exact ⟨_, by rw [if_pos hc, seqGet_eq _ _ (hread hc)]⟩
    · exact ⟨0, by rw [if_neg hc]⟩
  obtain ⟨v, hv⟩ := hcost
  have hD : (hw.m_has_costs
      || (hw.m_has_female_costs && org.is_female && decide (inst_set.GetFemaleCost inst ≠ 0))
      || (hw.m_has_choosy_female_costs && (org.is_female && org.is_choosy)
          && decide (inst_set.GetChoosyFemaleCost inst ≠ 0))
      || hw.m_has_post_costs) = true := by
    rw [hpost]
    simp
  refine ⟨v, hv, ?_⟩
  rw [payPreCosts_unfold, hlook]
  simp only [Except.bind]
  rw [if_neg hnot, if_neg hA, if_neg hres, if_neg hbonus, hv]
  simp only []
  rw [if_pos hD]

theorem payPerUseCosts_post_countdown (hw : cHardwareBase) (c : Int) (thread : Nat) (q : Int)
    (hq : hw.m_active_thread_post_costs[thread]? = some q) (h1 : q > 1) :
    payPerUseCosts hw c thread
      = .ok (false, { hw with m_active_thread_post_costs :=
          hw.m_active_thread_post_costs.set thread (q - 1) }) := by
  have hlt := getElem?_lt hq
  simp [payPerUseCosts, seqGet, seqSet, hq, h1, hlt, bind, Except.bind, pure, Except.pure]

theorem payPerUseCosts_post_last (hw : cHardwareBase) (c : Int) (thread : Nat)
    (hq : hw.m_active_thread_post_costs[thread]? = some 1) :
    payPerUseCosts hw c thread
      = payPerUseCosts { hw with m_active_thread_post_costs :=
          hw.m_active_thread_post_costs.set thread 0 } c thread := by
  have hlt := getElem?_lt hq
  simp [payPerUseCosts, seqGet, seqSet, hq, hlt, bind, Except.bind, pure, Except.pure]

theorem payPreCosts_post_run (inst_set : cInstSet) (org : CostOrganism) (thread : Nat) :
    ∀ (insts : List Instruction) (hw : cHardwareBase) (q : Int),
      hw.m_has_post_costs = true → (∀ i ∈ insts, gatesOpen inst_set org hw i) →
      hw.m_active_thread_post_costs[thread]? = some q → (insts.length : Int) < q →
      payPreCostsSeq inst_set org (insts.map (fun i => (i, thread))) hw
        = .ok (List.replicate insts.length false,
            { hw with m_active_thread_post_costs :=
                hw.m_active_thread_post_costs.set thread (q - insts.length) }) := by
  intro insts
  induction insts with
  | nil =>
    intro hw q _ _ hq _
    simp [payPreCostsSeq, set_getElem?_self _ _ _ hq]
  | cons i is ih =>
    intro hw q hpost hopen hq hlen
    have hlt := getElem?_lt hq
    have h1 : q > 1 := by simp at hlen; omega
    obtain ⟨v, _, hc⟩ := payPreCosts_gates_open inst_set org hw i thread
      (hopen i (List.mem_cons_self _ _)) hpost
    have hstep := fun c => payPerUseCosts_post_countdown hw c thread q hq h1
    have ih' := ih { hw with m_active_thread_post_costs :=
        hw.m_active_thread_post_costs.set thread (q - 1) } (q - 1) hpost
      (fun j hj => hopen j (List.mem_cons_of_mem _ hj)) (by simp [hlt])
      (by simp at hlen ⊢; omega)
    simp only [List.map_cons, payPreCostsSeq, hc, hstep, ih']
    simp [List.replicate_succ]
    congr 1
    omega

theorem SetPostCPUCosts_eq (hw : cHardwareBase) (op thread : Nat) (p a : Int)
    (hpost : hw.m_has_post_costs = true) (hp : hw.m_thread_inst_post_cost[op]? = some p)
    (ha : hw.m_active_thread_post_costs[thread]? = some a) :
    SingleProcess_SetPostCPUCosts hw op thread
      = if a = 0 ∧ p > 1 then
          .ok { hw with m_active_thread_post_costs :=
            hw.m_active_thread_post_costs.set thread p }
        else .ok hw := by
  have hlt := getElem?_lt ha
  by_cases h : a = 0 ∧ p > 1
  · simp [SingleProcess_SetPostCPUCosts, seqGet, seqSet, hpost, hp, ha, hlt, h, bind,
      Except.bind, pure, Except.pure]
  · simp [SingleProcess_SetPostCPUCosts, seqGet, seqSet, hpost, hp, ha, h, bind,
      Except.bind, pure, Except.pure]

/-- C17: with post-use costs in force, for a thread whose post countdown is 0 and an
instruction of post-use cost `p > 1`, `SingleProcess_SetPostCPUCosts` sets the thread's post
countdown to `p`; the next `p - 1` calls of `SingleProcess_PayPreCosts` on that thread return
`false` whatever instructions are passed (their first-time, resource and bonus gates not
blocking), after `j` of them the countdown is `p - j` and `IsPayingActiveCost` is true exactly
when `p - j > 1`; the `p`-th call goes as it does on the hardware before the arming. If the
thread's post countdown is not 0 or `p ≤ 1`, `SingleProcess_SetPostCPUCosts` changes
nothing. -/
theorem setPostCPUCosts_countdown (inst_set : cInstSet) (org : CostOrganism)
    (hw : cHardwareBase) (op thread : Nat) (p a : Int)
    (hpost : hw.m_has_post_costs = true)
    (hp : hw.m_thread_inst_post_cost[op]? = some p)
    (ha : hw.m_active_thread_post_costs[thread]? = some a) :
    (a = 0 → p > 1 →
      SingleProcess_SetPostCPUCosts hw op thread = .ok (withPostCountdown hw thread p)
      ∧ (∀ insts : List Instruction, (insts.length : Int) = p - 1 →
          (∀ i ∈ insts, gatesOpen inst_set org hw i) →
          ∀ j, j ≤ insts.length →
            payPreCostsSeq inst_set org ((insts.take j).map (fun i => (i, thread)))
                (withPostCountdown hw thread p)
              = .ok (List.replicate j false, withPostCountdown hw thread (p - j))
            ∧ IsPayingActiveCost (withPostCountdown hw thread (p - j)) thread
              = .ok (decide (p - j > 1)))
      ∧ (∀ inst, gatesOpen inst_set org hw inst →
          SingleProcess_PayPreCosts inst_set org (withPostCountdown hw thread 1) inst thread
            = SingleProcess_PayPreCosts inst_set org hw inst thread))
    ∧ ((a ≠ 0 ∨ p ≤ 1) → SingleProcess_SetPostCPUCosts hw op thread = .ok hw) := by
  have hlt := getElem?_lt ha
  have hset := SetPostCPUCosts_eq hw op thread p a hpost hp ha
  constructor
  · intro ha0 hp1
    subst ha0
    refine ⟨?_, ?_, ?_⟩
    · rw [hset, if_pos ⟨rfl, hp1⟩]
      rfl
    · intro insts hlen hopen j hj
      have hl : (insts.take j).length = j := by simp; omega
      have hrun := payPreCosts_post_run inst_set org thread (insts.take j)
        (withPostCountdown hw thread p) p hpost
        (fun i hi => hopen i (List.mem_of_mem_take hi))
        (by simp [withPostCountdown, hlt]) (by omega)
      rw [hl] at hrun
      constructor
      · rw [hrun]
        simp [withPostCountdown]
      · simp [IsPayingActiveCost, withPostCountdown, seqGet, hlt, bind, Except.bind, pure,
          Except.pure]
    · intro inst hopen
      obtain ⟨v, hv, hc⟩ := payPreCosts_gates_open inst_set org hw inst thread hopen hpost
      obtain ⟨v', hv', hc'⟩ := payPreCosts_gates_open inst_set org
        (withPostCountdown hw thread 1) inst thread hopen hpost
      have hvv : v' = v := by
        have h3 : (Except.ok v' : Except Fault Int) = Except.ok v := hv'.symm.trans hv
        injection h3
      subst hvv
      rw [hc, hc', payPerUseCosts_post_last _ _ _ (by simp [withPostCountdown, hlt])]
      have hback : ({ withPostCountdown hw thread 1 with
          m_active_thread_post_costs :=
            (withPostCountdown hw thread 1).m_active_thread_post_costs.set thread 0 }
          : cHardwareBase) = hw := by
        cases hw
        simp only [withPostCountdown, List.set_set] at ha ⊢
        rw [set_getElem?_self _ _ _ ha]
      rw [hback]
      rfl
  · intro h
    have hn : ¬ (a = 0 ∧ p > 1) := by omega
    rw [hset, if_neg hn]

theorem postCostHardware_gatesOpen (i : Instruction) :
    gatesOpen plainInstSet plainCostOrganism postCostHardware i := by
  simp [gatesOpen, firstTimeExhausted, resourceAssertHolds, resourceShort, bonusShort,
    postCostHardware]

/-- Witness for C17: post-use cost 3 for opcode 0 arms thread 0, the next two calls (with
opcodes 1 and 0) return `false` and leave a countdown of 1; thread 1, whose countdown is
under way, and opcode 1, of post-use cost 1, arm nothing. -/
theorem setPostCPUCosts_countdown_witness :
    SingleProcess_SetPostCPUCosts postCostHardware 0 0
        = .ok (withPostCountdown postCostHardware 0 3)
    ∧ payPreCostsSeq plainInstSet plainCostOrganism [(1, 0), (0, 0)]
          (withPostCountdown postCostHardware 0 3)
        = .ok ([false, false], withPostCountdown postCostHardware 0 1)
    ∧ IsPayingActiveCost (withPostCountdown postCostHardware 0 1) 0 = .ok false
    ∧ SingleProcess_SetPostCPUCosts postCostHardware 0 1 = .ok postCostHardware
    ∧ SingleProcess_SetPostCPUCosts postCostHardware 1 0 = .ok postCostHardware :=
  ⟨((setPostCPUCosts_countdown plainInstSet plainCostOrganism postCostHardware 0 0 3 0
      rfl rfl rfl).1 rfl (by decide)).1,
   ((((setPostCPUCosts_countdown plainInstSet plainCostOrganism postCostHardware 0 0 3 0
      rfl rfl rfl).1 rfl (by decide)).2.1 [1, 0] (by decide)
      (fun i _ => postCostHardware_gatesOpen i)) 2 (by decide)).1,
   ((((setPostCPUCosts_countdown plainInstSet plainCostOrganism postCostHardware 0 0 3 0
      rfl rfl rfl).1 rfl (by decide)).2.1 [1, 0] (by decide)
      (fun i _ => postCostHardware_gatesOpen i)) 2 (by decide)).2,
   (setPostCPUCosts_countdown plainInstSet plainCostOrganism postCostHardware 0 1 3 2
      rfl rfl rfl).2 (Or.inl (by decide)),
   (setPostCPUCosts_countdown plainInstSet plainCostOrganism postCostHardware 1 0 1 0
      rfl rfl rfl).2 (Or.inr (by decide))⟩

/-! ## Divide viability: the executed and copied lines -/

theorem forLoop_countExecuted (flags : List Bool) :
    ∀ (k a : Nat) (e0 e : Int),
      forLoop (fun i (executed_size : Int) => do
          let f ← seqGet flags i
          pure (if f then executed_size + 1 else executed_size)) a k e0 = .ok e →
      e = e0 + (((flags.drop a).take k).count true : Nat) := by
  intro k
  induction k with
  | zero =>
    intro a e0 e h
    simp [forLoop] at h
    simp [h]
  | succ k ih =>
    intro a e0 e h
    by_cases ha : a < flags.length
    · simp only [forLoop, seqGet_eq _ _ ha, bind, Except.bind, pure, Except.pure] at h
      have h' := ih (a + 1) _ e h
      rw [h']
      have hd : flags.drop a = flags[a] :: flags.drop (a + 1) := List.drop_eq_getElem_cons ha
      rw [hd, List.take_succ_cons, List.count_cons]
      cases hf : flags[a]
      · simp
      · simp
        omega
    · have hn : flags[a]? = none := List.getElem?_eq_none (by omega)
      simp [forLoop, seqGet, hn, bind, Except.bind] at h

theorem forLoop_countExecuted_ok (flags : List Bool) :
    ∀ (k a : Nat) (e0 : Int), a + k ≤ flags.length →
      ∃ e, forLoop (fun i (executed_size : Int) => do
          let f ← seqGet flags i
          pure (if f then executed_size + 1 else executed_size)) a k e0 = .ok e := by
  intro k
  induction k with
  | zero => intro a e0 _; exact ⟨e0, rfl⟩
  | succ k ih =>
    intro a e0 h
    have ha : a < flags.length := by omega
    obtain ⟨e, he⟩ := ih (a + 1) (if flags[a] then e0 + 1 else e0) (by omega)
    refine ⟨e, ?_⟩
    simp only [forLoop, seqGet_eq _ _ ha, bind, Except.bind, pure, Except.pure]
    exact he

theorem calcExecutedSize_count (flags : List Bool) (parent_size e : Int)
    (h : calcExecutedSize flags parent_size = .ok e) : e = executedCount flags parent_size := by
  have := forLoop_countExecuted flags parent_size.toNat 0 0 e h
  simpa [executedCount] using this

theorem calcExecutedSize_ok (flags : List Bool) (parent_size : Int)
    (h : parent_size.toNat ≤ flags.length) :
    calcExecutedSize flags parent_size = .ok (executedCount flags parent_size) := by
  obtain ⟨e, he⟩ := forLoop_countExecuted_ok flags parent_size.toNat 0 0 (by omega)
  have he' : calcExecutedSize flags parent_size = .ok e := he
  rw [he', calcExecutedSize_count flags parent_size e he']

theorem divideSizeChecks_error (cfg : cDivideConfig) (hooks : DivideHooks)
    (flag_executed : List Bool) (st : ViableState) (parent_size child_size : Int)
    (using_repro : Bool) (e : Fault)
    (hlim : sizeRangeLimits cfg st.org.genome_size = .error e) :
    divideSizeChecks cfg hooks flag_executed st parent_size child_size using_repro
      = .error e := by
  unfold divideSizeChecks
  dsimp only
  rw [hlim]

theorem ite_chain_cases {α : Type} (x y : α) (p1 p2 p3 p4 : Prop)
    [Decidable p1] [Decidable p2] [Decidable p3] [Decidable p4] :
    ((if p1 then x else if p2 then x else if p3 then x else if p4 then x else y) = x)
    ∨ (¬ p1 ∧ ¬ p2 ∧ ¬ p3 ∧ ¬ p4
      ∧ (if p1 then x else if p2 then x else if p3 then x else if p4 then x else y) = y) := by
  by_cases h1 : p1
  · left; rw [if_pos h1]
  by_cases h2 : p2
  · left; rw [if_neg h1, if_pos h2]
  by_cases h3 : p3
  · left; rw [if_neg h1, if_neg h2, if_pos h3]
  by_cases h4 : p4
  · left; rw [if_neg h1, if_neg h2, if_neg h3, if_pos h4]
  · right
    exact ⟨h1, h2, h3, h4, by rw [if_neg h1, if_neg h2, if_neg h3, if_neg h4]⟩

/-- Either `Divide_CheckViable` returns `false` in the state it was called in, or a conversion
to `int` of the size-range check is undefined, or its checks on age, size range and absolute
size are passed and it goes on with the executed-lines check. -/
theorem Divide_CheckViable_early (cfg : cDivideConfig) (hooks : DivideHooks)
    (flag_executed : List Bool) (st : ViableState) (parent_size child_size : Int)
    (using_repro : Bool) :
    Divide_CheckViable cfg hooks flag_executed st parent_size child_size using_repro
        = .ok (false, st)
    ∨ (∃ e, sizeRangeLimits cfg st.org.genome_size = .error e
      ∧ Divide_CheckViable cfg hooks flag_executed st parent_size child_size using_repro
        = .error e)
    ∨ (passesAgeAndRange cfg st parent_size child_size
      ∧ (cfg.MIN_GENOME_SIZE = 0
          ∨ (cfg.MIN_GENOME_SIZE ≤ child_size ∧ cfg.MIN_GENOME_SIZE ≤ parent_size))
      ∧ (cfg.MAX_GENOME_SIZE = 0
          ∨ (child_size ≤ cfg.MAX_GENOME_SIZE ∧ parent_size ≤ cfg.MAX_GENOME_SIZE))
      ∧ Divide_CheckViable cfg hooks flag_executed st parent_size child_size using_repro
          = divideCoverageChecks cfg hooks flag_executed st parent_size child_size
              using_repro) := by
  by_cases h1 : st.org.time_used < cfg.JUV_PERIOD
  · exact Or.inl (Divide_CheckViable_age_gate_aux _ _ _ _ _ _ _ (Or.inl h1))
  by_cases h2 : st.org.time_used < cfg.MIN_CYCLES
  · exact Or.inl (Divide_CheckViable_age_gate_aux _ _ _ _ _ _ _ (Or.inr h2))
  have haged := Divide_CheckViable_aged cfg hooks flag_executed st parent_size child_size
    using_repro (not_lt.mp h1) (not_lt.mp h2)
  rcases sizeRangeLimits_cases cfg st.org.genome_size with ⟨e, he⟩ | ⟨min_size, max_size, hlim⟩
  · right; left
    exact ⟨e, he, by rw [haged, divideSizeChecks_error _ _ _ _ _ _ _ e he]⟩
  · rw [haged, divideSizeChecks_of_limits _ _ _ _ _ _ _ _ _ hlim]
    rcases ite_chain_cases (Except.ok (false, st))
      (divideCoverageChecks cfg hooks flag_executed st parent_size child_size using_repro)
      (child_size < min_size ∨ child_size > max_size)
      (parent_size < min_size ∨ parent_size > max_size)
      ((cfg.MIN_GENOME_SIZE ≠ 0 ∧ child_size < cfg.MIN_GENOME_SIZE)
        ∨ (cfg.MAX_GENOME_SIZE ≠ 0 ∧ child_size > cfg.MAX_GENOME_SIZE))
      ((cfg.MIN_GENOME_SIZE ≠ 0 ∧ parent_size < cfg.MIN_GENOME_SIZE)
        ∨ (cfg.MAX_GENOME_SIZE ≠ 0 ∧ parent_size > cfg.MAX_GENOME_SIZE))
      with hf | ⟨n1, n2, n3, n4, heq⟩
    · exact Or.inl hf
    · right; right
      push_neg at n1 n2 n3 n4
      refine ⟨⟨not_lt.mp h1, not_lt.mp h2, min_size, max_size, hlim, n1.1, by omega, n2.1,
        by omega⟩, ?_, ?_, heq⟩
      · by_cases hz : cfg.MIN_GENOME_SIZE = 0
        · exact Or.inl hz
        · exact Or.inr ⟨by have := n3.1 hz; omega, by have := n4.1 hz; omega⟩
      · by_cases hz : cfg.MAX_GENOME_SIZE = 0
        · exact Or.inl hz
        · exact Or.inr ⟨by have := n3.2 hz; omega, by have := n4.2 hz; omega⟩

/-- The executed-lines check once the count and the threshold are computed. -/
theorem divideCoverageChecks_of_threshold (cfg : cDivideConfig) (hooks : DivideHooks)
    (flag_executed : List Bool) (st : ViableState) (parent_size child_size : Int)
    (using_repro : Bool) (hmem : parent_size.toNat ≤ flag_executed.length)
    (min_exe_lines : Int) (hT : minExeLines cfg parent_size = .ok min_exe_lines) :
    divideCoverageChecks cfg hooks flag_executed st parent_size child_size using_repro
      = (if executedCount flag_executed parent_size < min_exe_lines then .ok (false, st)
         else divideCopiedCheck cfg hooks st parent_size child_size using_repro
           (executedCount flag_executed parent_size)) := by
  unfold divideCoverageChecks
  rw [calcExecutedSize_ok flag_executed parent_size hmem]
  dsimp only
  rw [hT]

/-- The copied-lines check of a divide that is not repro-style, once the threshold is
computed. -/
theorem divideCopiedCheck_of_threshold (cfg : cDivideConfig) (hooks : DivideHooks)
    (st : ViableState) (parent_size child_size executed_size : Int) (min_copied : Int)
    (hC : minCopied cfg child_size = .ok min_copied) :
    divideCopiedCheck cfg hooks st parent_size child_size false executed_size
      = (if hooks.calcCopiedSize parent_size child_size < min_copied then .ok (false, st)
         else divideHookAndSterilize cfg hooks st executed_size
           (hooks.calcCopiedSize parent_size child_size)) := by
  unfold divideCopiedCheck
  rw [if_neg (by decide)]
  dsimp only
  rw [hC]

/-- A repro-style divide counts the whole parent as copied. -/
theorem divideCopiedCheck_repro (cfg : cDivideConfig) (hooks : DivideHooks)
    (st : ViableState) (parent_size child_size executed_size : Int) :
    divideCopiedCheck cfg hooks st parent_size child_size true executed_size
      = divideHookAndSterilize cfg hooks st executed_size parent_size := by
  unfold divideCopiedCheck
  rw [if_pos rfl]

theorem divideCoverageChecks_exe_fail (cfg : cDivideConfig) (hooks : DivideHooks)
    (flag_executed : List Bool) (st : ViableState) (parent_size child_size : Int)
    (using_repro : Bool) (hmem : parent_size.toNat ≤ flag_executed.length)
    (min_exe_lines : Int) (hT : minExeLines cfg parent_size = .ok min_exe_lines)
    (h : executedCount flag_executed parent_size < min_exe_lines) :
    divideCoverageChecks cfg hooks flag_executed st parent_size child_size using_repro
      = .ok (false, st) := by
  rw [divideCoverageChecks_of_threshold _ _ _ _ _ _ _ hmem _ hT, if_pos h]

theorem divideCoverageChecks_copy_fail (cfg : cDivideConfig) (hooks : DivideHooks)
    (flag_executed : List Bool) (st : ViableState) (parent_size child_size : Int)
    (hmem : parent_size.toNat ≤ flag_executed.length)
    (min_exe_lines : Int) (hT : minExeLines cfg parent_size = .ok min_exe_lines)
    (min_copied : Int) (hC : minCopied cfg child_size = .ok min_copied)
    (h : hooks.calcCopiedSize parent_size child_size < min_copied) :
    divideCoverageChecks cfg hooks flag_executed st parent_size child_size false
      = .ok (false, st) := by
  rw [divideCoverageChecks_of_threshold _ _ _ _ _ _ _ hmem _ hT]
  by_cases he : executedCount flag_executed parent_size < min_exe_lines
  · rw [if_pos he]
  · rw [if_neg he, divideCopiedCheck_of_threshold _ _ _ _ _ _ _ hC, if_pos h]

theorem divideHookAndSterilize_true (cfg : cDivideConfig) (hooks : DivideHooks)
    (st st' : ViableState) (executed_size copied_size : Int)
    (h : divideHookAndSterilize cfg hooks st executed_size copied_size = .ok (true, st')) :
    st'.org.lines_executed = executed_size ∧ st'.org.lines_copied = copied_size
      ∧ st'.org.is_fertile = st.org.is_fertile := by
  unfold divideHookAndSterilize at h
  dsimp only at h
  by_cases hv : (hooks.Divide_CheckViable st.rng).1 = false
  · rw [if_pos hv] at h
    split_ifs at h <;> simp at h
  · rw [if_neg hv] at h
    by_cases hs : cfg.GetTestSterilize = true ∧ st.org.is_injected = false
    · rw [if_pos hs] at h
      split at h
      · cases h
      · next sterilize rng heq =>
        split_ifs at h
        · simp at h
        · simp only [Except.ok.injEq, Prod.mk.injEq, true_and] at h
          subst h
          exact ⟨rfl, rfl, rfl⟩
    · rw [if_neg hs] at h
      simp only [Except.ok.injEq, Prod.mk.injEq, true_and] at h
      subst h
      exact ⟨rfl, rfl, rfl⟩

theorem divideCopiedCheck_true (cfg : cDivideConfig) (hooks : DivideHooks)
    (st st' : ViableState) (parent_size child_size executed_size : Int) (using_repro : Bool)
    (h : divideCopiedCheck cfg hooks st parent_size child_size using_repro executed_size
      = .ok (true, st')) :
    st'.org.lines_executed = executed_size
      ∧ st'.org.lines_copied = copiedCount hooks parent_size child_size using_repro := by
  cases using_repro with
  | true =>
    rw [divideCopiedCheck_repro] at h
    obtain ⟨a, b, _⟩ := divideHookAndSterilize_true cfg hooks st st' _ _ h
    exact ⟨a, by rw [b]; rfl⟩
  | false =>
    cases hC : minCopied cfg child_size with
    | error e =>
      unfold divideCopiedCheck at h
      rw [if_neg (by decide)] at h
      dsimp only at h
      rw [hC] at h
      cases h
    | ok min_copied =>
      rw [divideCopiedCheck_of_threshold _ _ _ _ _ _ _ hC] at h
      by_cases h2 : hooks.calcCopiedSize parent_size child_size < min_copied
      · rw [if_pos h2] at h
        simp at h
      · rw [if_neg h2] at h
        obtain ⟨a, b, _⟩ := divideHookAndSterilize_true cfg hooks st st' _ _ h
        exact ⟨a, by rw [b]; rfl⟩

theorem divideCoverageChecks_true (cfg : cDivideConfig) (hooks : DivideHooks)
    (flag_executed : List Bool) (st st' : ViableState) (parent_size child_size : Int)
    (using_repro : Bool)
    (h : divideCoverageChecks cfg hooks flag_executed st parent_size child_size using_repro
      = .ok (true, st')) :
    st'.org.lines_executed = executedCount flag_executed parent_size
      ∧ st'.org.lines_copied = copiedCount hooks parent_size child_size using_repro := by
  unfold divideCoverageChecks at h
  cases he : calcExecutedSize flag_executed parent_size with
  | error e => rw [he] at h; cases h
  | ok e =>
    rw [he] at h
    dsimp only at h
    have hcount := calcExecutedSize_count flag_executed parent_size e he
    cases hT : minExeLines cfg parent_size with
    | error e2 => rw [hT] at h; cases h
    | ok min_exe_lines =>
      rw [hT] at h
      dsimp only at h
      by_cases h1 : e < min_exe_lines
      · rw [if_pos h1] at h
        simp at h
      · rw [if_neg h1] at h
        obtain ⟨a, b⟩ := divideCopiedCheck_true cfg hooks st st' _ _ _ _ h
        exact ⟨by rw [a, hcount], b⟩

theorem Divide_CheckViable_exe_fail (cfg : cDivideConfig) (hooks : DivideHooks)
    (flag_executed : List Bool) (st : ViableState) (parent_size child_size : Int)
    (using_repro : Bool) (hmem : parent_size.toNat ≤ flag_executed.length)
    (hlim : ∃ lims, sizeRangeLimits cfg st.org.genome_size = .ok lims)
    (min_exe_lines : Int) (hT : minExeLines cfg parent_size = .ok min_exe_lines)
    (h : executedCount flag_executed parent_size < min_exe_lines) :
    Divide_CheckViable cfg hooks flag_executed st parent_size child_size using_repro
      = .ok (false, st) := by
  rcases Divide_CheckViable_early cfg hooks flag_executed st parent_size child_size using_repro
    with hf | ⟨e, he, _⟩ | ⟨_, _, _, heq⟩
  · exact hf
  · obtain ⟨lims, hl⟩ := hlim
    rw [hl] at he
    cases he
  · rw [heq]
    exact divideCoverageChecks_exe_fail cfg hooks flag_executed st parent_size child_size
      using_repro hmem _ hT h

theorem Divide_CheckViable_exe_pass (cfg : cDivideConfig) (hooks : DivideHooks)
    (flag_executed : List Bool) (st : ViableState) (parent_size child_size : Int)
    (using_repro : Bool) (hmem : parent_size.toNat ≤ flag_executed.length)
    (min_exe_lines : Int) (hT : minExeLines cfg parent_size = .ok min_exe_lines)
    (h : min_exe_lines ≤ executedCount flag_executed parent_size)
    (hpass : passesAgeAndRange cfg st parent_size child_size)
    (hmin : cfg.MIN_GENOME_SIZE = 0
      ∨ (cfg.MIN_GENOME_SIZE ≤ child_size ∧ cfg.MIN_GENOME_SIZE ≤ parent_size))
    (hmax : cfg.MAX_GENOME_SIZE = 0
      ∨ (child_size ≤ cfg.MAX_GENOME_SIZE ∧ parent_size ≤ cfg.MAX_GENOME_SIZE)) :
    Divide_CheckViable cfg hooks flag_executed st parent_size child_size using_repro
      = divideCopiedCheck cfg hooks st parent_size child_size using_repro
          (executedCount flag_executed parent_size) := by
  rw [Divide_CheckViable_absolute_pass _ _ _ _ _ _ _ hpass hmin hmax,
    divideCoverageChecks_of_threshold _ _ _ _ _ _ _ hmem _ hT, if_neg (not_lt.mpr h)]

/-- The thresholds of the executed-lines and copied-lines checks for sizes 4 and 5 and a
fraction of 1/2. -/
theorem thresholds_half (cfg : cDivideConfig) (h1 : cfg.MIN_EXE_LINES = 1 / 2)
    (h2 : cfg.MIN_COPIED_LINES = 1 / 2) :
    minExeLines cfg 4 = .ok 2 ∧ minExeLines cfg 5 = .ok 2
    ∧ minCopied cfg 4 = .ok 2 ∧ minCopied cfg 5 = .ok 2 := by
  have r1 : Double.round (1 / 2) = .finite (1 / 2) := by
    rw [round_exact_pos (1 / 2) 1 (-1)] <;> norm_num
  have r2 : Double.round 4 = .finite 4 := by
    rw [round_exact_pos 4 1 2] <;> norm_num
  have r3 : Double.round 5 = .finite 5 := by
    rw [round_exact_pos 5 5 0] <;> norm_num
  have r4 : Double.round 2 = .finite 2 := by
    rw [round_exact_pos 2 1 1] <;> norm_num
  have r5 : Double.round (5 / 2) = .finite (5 / 2) := by
    rw [round_exact_pos (5 / 2) 5 (-1)] <;> norm_num
  have t1 : Double.toInt (.finite 2) = .ok 2 := by
    rw [toInt_finite 2 2] <;> norm_num [truncToInt]
  have t2 : Double.toInt (.finite (5 / 2)) = .ok 2 := by
    rw [toInt_finite (5 / 2) 2] <;> norm_num [truncToInt]
  norm_num [minExeLines, minCopied, h1, h2, Double.ofInt, mul_finite, r1, r2, r3, r4, r5, t1, t2]

/-- The thresholds for a parent of 100 cells: the product of 100 and the double nearest to
0.29 rounds to the double just below 29, so the threshold of the executed-lines check is 28;
the limits of the size range for a genome of 100 and a size range of 2 are 50 and 100. -/
theorem thresholds_century :
    Double.toInt (Double.mul (Double.ofInt 100) (Double.round sparseExeConfig.MIN_EXE_LINES))
        = .ok 28
    ∧ sizeRangeLimits sparseExeConfig 100 = .ok (50, 100) := by
  have r1 : Double.round (29 / 100) = .finite (5224175567749775 / 18014398509481984) := by
    rw [round_eq_pos (29 / 100) (-2) 5224175567749775] <;> norm_num [roundHalfEven]
  have r2 : Double.round 100 = .finite 100 := by
    rw [round_exact_pos 100 25 2] <;> norm_num
  have r3 : Double.round 2 = .finite 2 := by
    rw [round_exact_pos 2 1 1] <;> norm_num
  have r4 : Double.round (130604389193744375 / 4503599627370496)
      = .finite (8162774324609023 / 281474976710656) := by
    rw [round_eq_pos (130604389193744375 / 4503599627370496) 4 8162774324609023] <;>
      norm_num [roundHalfEven]
  have t1 : Double.toInt (.finite (8162774324609023 / 281474976710656)) = .ok 28 := by
    rw [toInt_finite (8162774324609023 / 281474976710656) 28] <;> norm_num [truncToInt]
  have r5 : Double.round 50 = .finite 50 := by
    rw [round_exact_pos 50 25 1] <;> norm_num
  have r6 : Double.round 200 = .finite 200 := by
    rw [round_exact_pos 200 25 3] <;> norm_num
  have t2 : Double.toInt (.finite 50) = .ok 50 := by
    rw [toInt_finite 50 50] <;> norm_num [truncToInt]
  have t3 : Double.toInt (.finite 200) = .ok 200 := by
    rw [toInt_finite 200 200] <;> norm_num [truncToInt]
  have hr : sparseExeConfig.OFFSPRING_SIZE_RANGE = 2 := rfl
  have hm : sparseExeConfig.MIN_EXE_LINES = 29 / 100 := rfl
  constructor
  · norm_num [hm, Double.ofInt, mul_finite, r1, r2, r3, r4, t1, r5, r6, t2, t3]
  · rw [sizeRangeLimits_of_casts sparseExeConfig 100 50 200
      (by norm_num [hr, Double.ofInt, div_finite, r1, r2, r3, r4, t1, r5, r6, t2, t3])
      (by norm_num [hr, Double.ofInt, mul_finite, r1, r2, r3, r4, t1, r5, r6, t2, t3])]
    rfl

/-- The fitness ratio of an organism of size merit 4, bonus 1, age 10 and last fitness 1 is
the double nearest to 0.4. -/
theorem fitnessRatio_viable (org : DivideOrganism) (h1 : org.size_merit = 4)
    (h2 : org.cur_bonus = 1) (h3 : org.time_used = 10) (h4 : org.last_fitness = 1) :
    fitnessRatio org = .finite (3602879701896397 / 9007199254740992) := by
  have r1 : Double.round 4 = .finite 4 := by
    rw [round_exact_pos 4 1 2] <;> norm_num
  have r2 : Double.round 1 = .finite 1 := by
    rw [round_exact_pos 1 1 0] <;> norm_num
  have r3 : Double.round 10 = .finite 10 := by
    rw [round_exact_pos 10 5 1] <;> norm_num
  have r4 : Double.round (2 / 5) = .finite (3602879701896397 / 9007199254740992) := by
    rw [round_eq_pos (2 / 5) (-2) 7205759403792794] <;> norm_num [roundHalfEven]
  have r5 : Double.round (3602879701896397 / 9007199254740992)
      = .finite (3602879701896397 / 9007199254740992) := by
    rw [round_exact_pos (3602879701896397 / 9007199254740992) 3602879701896397 (-53)] <;> norm_num
  norm_num [fitnessRatio, h1, h2, h3, h4, Double.ofInt, mul_finite, div_finite,
    r1, r2, r3, r4, r5]


/-- C21 (counterexample): 2 of the 5 parent cells are flagged executed, a fraction of 2/5, below
`MIN_EXE_LINES` = 1/2, and `Divide_CheckViable` returns `true`: the threshold
`static_cast<int>(5 * 0.5)` is 2. -/
theorem Divide_CheckViable_fraction_below_passes :
    executedCount [true, true, false, false, false] 5 = 2
    ∧ ((2 : ℚ) / 5 < plainViableConfig.MIN_EXE_LINES)
    ∧ ∃ st', Divide_CheckViable plainViableConfig viableHooks
        [true, true, false, false, false] viableStart 5 5 false = .ok (true, st') := by
  refine ⟨by decide, by norm_num [plainViableConfig, viableConfig], ?_⟩
  have hp : passesAgeAndRange plainViableConfig viableStart 5 5 :=
    ⟨by decide, by decide, 2, 8, sizeRangeLimits_viable plainViableConfig rfl rfl rfl,
      by decide, by decide, by decide, by decide⟩
  rw [Divide_CheckViable_exe_pass _ _ _ _ _ _ _ (by decide) 2
      (thresholds_half plainViableConfig rfl rfl).2.1 (by decide) hp (Or.inl rfl) (Or.inl rfl),
    divideCopiedCheck_of_threshold _ _ _ _ _ _ 2
      (thresholds_half plainViableConfig rfl rfl).2.2.2]
  refine ⟨⟨{ viableOrganism with lines_executed := 2, lines_copied := 5 }, ⟨[7, 7, 7]⟩, 1, 0⟩,
    ?_⟩
  rw [show executedCount [true, true, false, false, false] 5 = 2 from by decide]
  norm_num [divideHookAndSterilize, plainViableConfig, viableConfig,
    viableHooks, viableStart, viableOrganism]

/-- C21 (amended): on a memory of at least `parent_size` cells, with `min_exe_lines` the value
of `static_cast<int>(parent_size * MIN_EXE_LINES)` (the product computed in `double`, the
conversion truncating toward zero), `Divide_CheckViable` returns `false` whenever the number of
the first `parent_size` cells flagged executed is below `min_exe_lines`, the conversions of the
size-range check being defined; and a count that reaches `min_exe_lines` passes the
executed-lines check: when the age, size-range and absolute-size checks are passed as well, the
function goes on with the copied-lines check. -/
theorem Divide_CheckViable_executed_lines (cfg : cDivideConfig) (hooks : DivideHooks)
    (flag_executed : List Bool) (st : ViableState) (parent_size child_size : Int)
    (using_repro : Bool) (hmem : parent_size.toNat ≤ flag_executed.length)
    (min_exe_lines : Int)
    (hT : Double.toInt (Double.mul (Double.ofInt parent_size)
      (Double.round cfg.MIN_EXE_LINES)) = .ok min_exe_lines) :
    ((∃ lims, sizeRangeLimits cfg st.org.genome_size = .ok lims) →
      executedCount flag_executed parent_size < min_exe_lines →
      Divide_CheckViable cfg hooks flag_executed st parent_size child_size using_repro
        = .ok (false, st))
    ∧ (min_exe_lines ≤ executedCount flag_executed parent_size →
      passesAgeAndRange cfg st parent_size child_size →
      (cfg.MIN_GENOME_SIZE = 0
        ∨ (cfg.MIN_GENOME_SIZE ≤ child_size ∧ cfg.MIN_GENOME_SIZE ≤ parent_size)) →
      (cfg.MAX_GENOME_SIZE = 0
        ∨ (child_size ≤ cfg.MAX_GENOME_SIZE ∧ parent_size ≤ cfg.MAX_GENOME_SIZE)) →
      Divide_CheckViable cfg hooks flag_executed st parent_size child_size using_repro
        = divideCopiedCheck cfg hooks st parent_size child_size using_repro
            (executedCount flag_executed parent_size)) :=
  ⟨fun hlim h => Divide_CheckViable_exe_fail cfg hooks flag_executed st parent_size child_size
      using_repro hmem hlim min_exe_lines hT h,
   fun h hpass hmin hmax => Divide_CheckViable_exe_pass cfg hooks flag_executed st parent_size
      child_size using_repro hmem min_exe_lines hT h hpass hmin hmax⟩

theorem centuryStart_passes : passesAgeAndRange sparseExeConfig centuryStart 100 100 :=
  ⟨by decide, by decide, 50, 100, thresholds_century.2, by decide, by decide, by decide,
    by decide⟩

/-- Witness for C21 (amended): with `MIN_EXE_LINES` = 0.29 and a parent of 100 cells the
threshold is 28; 27 executed cells are rejected, and 28 executed cells pass the check. -/
theorem Divide_CheckViable_executed_lines_witness :
    Double.toInt (Double.mul (Double.ofInt 100) (Double.round sparseExeConfig.MIN_EXE_LINES))
        = .ok 28
    ∧ executedCount (executedFirst 27 100) 100 = 27
    ∧ Divide_CheckViable sparseExeConfig viableHooks (executedFirst 27 100) centuryStart 100
        100 false = .ok (false, centuryStart)
    ∧ executedCount (executedFirst 28 100) 100 = 28
    ∧ Divide_CheckViable sparseExeConfig viableHooks (executedFirst 28 100) centuryStart 100
        100 false
      = divideCopiedCheck sparseExeConfig viableHooks centuryStart 100 100 false
          (executedCount (executedFirst 28 100) 100) :=
  ⟨thresholds_century.1, by decide,
   (Divide_CheckViable_executed_lines sparseExeConfig viableHooks (executedFirst 27 100)
      centuryStart 100 100 false (by decide) 28 thresholds_century.1).1
      ⟨(50, 100), thresholds_century.2⟩ (by decide),
   by decide,
   (Divide_CheckViable_executed_lines sparseExeConfig viableHooks (executedFirst 28 100)
      centuryStart 100 100 false (by decide) 28 thresholds_century.1).2
      (by decide) centuryStart_passes (Or.inl rfl) (Or.inl rfl)⟩

/-- C22: whenever `Divide_CheckViable` returns `true`, the phenotype's lines-executed is the
number of memory cells in `[0, parent_size)` flagged executed and its lines-copied is the
computed copied count, which is `parent_size` itself for a repro-style divide. -/
theorem Divide_CheckViable_records_lines (cfg : cDivideConfig) (hooks : DivideHooks)
    (flag_executed : List Bool) (st st' : ViableState) (parent_size child_size : Int)
    (using_repro : Bool)
    (h : Divide_CheckViable cfg hooks flag_executed st parent_size child_size using_repro
      = .ok (true, st')) :
    st'.org.lines_executed = executedCount flag_executed parent_size
    ∧ st'.org.lines_copied = copiedCount hooks parent_size child_size using_repro
    ∧ (using_repro = true → st'.org.lines_copied = parent_size) := by
  rcases Divide_CheckViable_early cfg hooks flag_executed st parent_size child_size using_repro
    with hf | ⟨e, _, he⟩ | ⟨_, _, _, heq⟩
  · rw [hf] at h
    simp at h
  · rw [he] at h
    cases h
  · rw [heq] at h
    obtain ⟨a, b⟩ := divideCoverageChecks_true cfg hooks flag_executed st st' parent_size
      child_size using_repro h
    refine ⟨a, b, fun hr => ?_⟩
    rw [b, copiedCount, if_pos hr]

theorem viableStart_checked :
    Divide_CheckViable plainViableConfig viableHooks [true, true, true, true] viableStart 4 4
      false = .ok (true, recordedStart) := by
  have hp : passesAgeAndRange plainViableConfig viableStart 4 4 :=
    ⟨by decide, by decide, 2, 8, sizeRangeLimits_viable plainViableConfig rfl rfl rfl,
      by decide, by decide, by decide, by decide⟩
  rw [Divide_CheckViable_exe_pass _ _ _ _ _ _ _ (by decide) 2
      (thresholds_half plainViableConfig rfl rfl).1 (by decide) hp (Or.inl rfl) (Or.inl rfl),
    divideCopiedCheck_of_threshold _ _ _ _ _ _ 2
      (thresholds_half plainViableConfig rfl rfl).2.2.1]
  rw [show executedCount [true, true, true, true] 4 = 4 from by decide]
  norm_num [divideHookAndSterilize, plainViableConfig, viableConfig, viableHooks, viableStart,
    viableOrganism, recordedStart]

/-- Witness for C22: a successful check at sizes 4 and 4 with every line executed records 4
lines executed and 4 lines copied. -/
theorem Divide_CheckViable_records_lines_witness :
    Divide_CheckViable plainViableConfig viableHooks [true, true, true, true] viableStart 4 4
        false = .ok (true, recordedStart)
    ∧ recordedStart.org.lines_executed = executedCount [true, true, true, true] 4
    ∧ recordedStart.org.lines_copied = copiedCount viableHooks 4 4 false :=
  ⟨viableStart_checked,
   (Divide_CheckViable_records_lines plainViableConfig viableHooks [true, true, true, true]
      viableStart recordedStart 4 4 false viableStart_checked).1,
   (Divide_CheckViable_records_lines plainViableConfig viableHooks [true, true, true, true]
      viableStart recordedStart 4 4 false viableStart_checked).2.1⟩

/-- C23: whenever one of the age, size-range, absolute-size, executed-lines or copied-lines
checks of `Divide_CheckViable` fails, the function returns `false` and the state is the one
it was called in: neither the organism's viability hook nor the reset-on-failed-divide hook
has been invoked, no random number has been drawn, and the phenotype (lines executed, lines
copied, fertility flag) is unchanged. -/
theorem Divide_CheckViable_early_failure_frame (cfg : cDivideConfig) (hooks : DivideHooks)
    (flag_executed : List Bool) (st : ViableState) (parent_size child_size : Int)
    (using_repro : Bool)
    (h : earlyCheckFails cfg hooks flag_executed st parent_size child_size using_repro) :
    Divide_CheckViable cfg hooks flag_executed st parent_size child_size using_repro
      = .ok (false, st) := by
  rcases h with hage | ⟨min_size, max_size, hlim, hr | ha | hb | ⟨hmem, T, hT, hcov⟩⟩
  · exact Divide_CheckViable_age_gate_aux _ _ _ _ _ _ _ hage
  · exact Divide_CheckViable_range_reject _ _ _ _ _ _ _ _ _ hlim hr
  · apply Divide_CheckViable_absolute_reject _ _ _ _ _ _ _ ⟨_, hlim⟩
    tauto
  · apply Divide_CheckViable_absolute_reject _ _ _ _ _ _ _ ⟨_, hlim⟩
    tauto
  · rcases Divide_CheckViable_early cfg hooks flag_executed st parent_size child_size
      using_repro with hf | ⟨e, he, _⟩ | ⟨_, _, _, heq⟩
    · exact hf
    · rw [hlim] at he
      cases he
    · rw [heq]
      rcases hcov with he | ⟨hrep, C, hC, hc⟩
      · exact divideCoverageChecks_exe_fail cfg hooks flag_executed st parent_size child_size
          using_repro hmem T hT he
      · subst hrep
        exact divideCoverageChecks_copy_fail cfg hooks flag_executed st parent_size child_size
          hmem T hT C hC hc

/-- Witness for C23: nothing counts as copied against a threshold of 2 copied lines. -/
theorem Divide_CheckViable_early_failure_frame_witness :
    Divide_CheckViable viableConfig nothingCopiedHooks [true, true, true, true] viableStart 4 4
      false = .ok (false, viableStart) :=
  Divide_CheckViable_early_failure_frame viableConfig nothingCopiedHooks
    [true, true, true, true] viableStart 4 4 false
    (Or.inr ⟨2, 8, sizeRangeLimits_viable viableConfig rfl rfl rfl,
      Or.inr (Or.inr (Or.inr ⟨by decide, 2, (thresholds_half viableConfig rfl rfl).1,
        Or.inr ⟨rfl, 2, (thresholds_half viableConfig rfl rfl).2.2.1, by decide⟩⟩))⟩)

theorem sterilizeDecision_viable :
    divideSterilizeDecision { viableOrganism with lines_executed := 4, lines_copied := 4 }
      ⟨[7, 7, 7]⟩ = .ok (false, ⟨[7]⟩) := by
  unfold divideSterilizeDecision
  rw [fitnessRatio_viable _ rfl rfl rfl rfl]
  norm_num [Double.lt, Double.eq, taskLossNoGain, forLoopWhile, taskLossStep, seqGet,
    viableOrganism, cRandom.P, cRandom.next, bind, Except.bind, pure, Except.pure]

/-- C13, failing input: the organism divides at sizes 4 and 4 with every line executed. The
sterilization step runs, the draw for its fitness-ratio class (the ratio is the double nearest
to 0.4, below 1) selects sterilize, and yet `Divide_CheckViable` returns `true` with the
fertility flag still set: the task-loss draw fires, finds no lost task, and its assignment
replaces the earlier decision. -/
theorem Divide_CheckViable_sterilize_overwritten :
    fitnessClassDraw viableStart.org viableStart.rng = true
    ∧ ∃ st', Divide_CheckViable viableConfig viableHooks [true, true, true, true]
          viableStart 4 4 false = .ok (true, st')
        ∧ st'.org.is_fertile = true := by
  constructor
  · unfold fitnessClassDraw
    rw [fitnessRatio_viable viableStart.org rfl rfl rfl rfl]
    norm_num [Double.lt, viableStart, viableOrganism, cRandom.P]
  · rw [Divide_CheckViable_exe_pass _ _ _ _ _ _ _ (by decide) 2
        (thresholds_half viableConfig rfl rfl).1 (by decide) viableStart_passes (Or.inl rfl)
        (Or.inl rfl),
      divideCopiedCheck_of_threshold _ _ _ _ _ _ 2 (thresholds_half viableConfig rfl rfl).2.2.1,
      show executedCount [true, true, true, true] 4 = 4 from by decide]
    unfold divideHookAndSterilize
    simp only [viableHooks, viableStart, viableConfig]
    norm_num [sterilizeDecision_viable]
    exact ⟨_, if_pos rfl, rfl⟩

/-- A parent fitness of 0 makes the fitness ratio an infinity, which is neither below nor equal
to 1: the draw is made with the probability `sterilize_pos`. -/
theorem fitnessRatio_zero_parent (rng : cRandom) :
    fitnessRatio orphanOrganism = .inf false
    ∧ fitnessClassDraw orphanOrganism rng = (rng.P orphanOrganism.sterilize_pos).1 := by
  have r1 : Double.round 1 = .finite 1 := by
    rw [round_exact_pos 1 1 0] <;> norm_num
  have r4 : Double.round 4 = .finite 4 := by
    rw [round_exact_pos 4 1 2] <;> norm_num
  have r10 : Double.round 10 = .finite 10 := by
    rw [round_exact_pos 10 5 1] <;> norm_num
  have r25 : Double.round (2 / 5) = .finite (3602879701896397 / 9007199254740992) := by
    rw [round_eq_pos (2 / 5) (-2) 7205759403792794] <;> norm_num [roundHalfEven]
  have h : fitnessRatio orphanOrganism = .inf false := by
    norm_num [fitnessRatio, orphanOrganism, viableOrganism, Double.ofInt, mul_finite,
      div_finite, Double.div, round_zero, r1, r4, r10, r25]
  refine ⟨h, ?_⟩
  unfold fitnessClassDraw
  rw [h]
  rfl

/-! ## Fitness gate: the sterilize-unstable policy and the buckets -/

theorem neutral_band_unit (org : cOrganism) (h1 : org.neutral_min = 0)
    (h2 : org.neutral_max = 0) : neutMin org 1 = .finite 1 ∧ neutMax org 1 = .finite 1 := by
  have r1 : Double.round 1 = .finite 1 := by
    rw [round_exact_pos 1 1 0] <;> norm_num
  norm_num [neutMin, neutMax, h1, h2, sub_finite, add_finite, mul_finite, round_zero, r1]

theorem fitnessBucketDraws_unit (org : cOrganism) (revert sterilize : Bool) (rng : cRandom) :
    fitnessBucketDraws org (Double.round 1) (.finite 1) (.finite 1) revert sterilize rng
      = drawRevertSterilize org.revert_neut org.sterilize_neut revert sterilize rng := by
  have r1 : Double.round 1 = .finite 1 := by
    rw [round_exact_pos 1 1 0] <;> norm_num
  norm_num [fitnessBucketDraws, r1, Double.eq, Double.lt, Double.le]

/-- C24 (failing input): the offspring is tested, the sterilize-unstable policy is on and the
test execution reports a recursion depth of 1, yet `Divide_TestFitnessMeasures` returns `true`
and leaves the child-fertile flag set: the draw for a task loss to sterilize fires, the child
has lost no task, and the assignment `sterilize = (del & !added)` replaces the forced
sterilization. -/
theorem unstable_sterilization_overwritten :
    taskLossTestingOrganism.test_on_divide = true
    ∧ taskLossTestingOrganism.offspring_genome ≠ taskLossTestingOrganism.genome
    ∧ taskLossTestingOrganism.sterilize_unstable = 1
    ∧ (offspringTestInfo depthOneHarness ⟨taskLossTestingOrganism, ⟨[]⟩, 0, []⟩).max_depth > 0
    ∧ ∃ st', Divide_TestFitnessMeasures depthOneHarness ⟨taskLossTestingOrganism, ⟨[]⟩, 0, []⟩
        = .ok (true, st')
      ∧ st'.org.child_fertile = true := by
  refine ⟨rfl, by decide, rfl, by decide, ?_⟩
  refine ⟨⟨{ taskLossTestingOrganism with offspring_genome := [0, 1, 2, 3] }, ⟨[]⟩, 2, []⟩,
    ?_, rfl⟩
  unfold Divide_TestFitnessMeasures
  dsimp only [depthOneHarness]
  rw [(neutral_band_unit _ rfl rfl).1, (neutral_band_unit _ rfl rfl).2]
  unfold resolveFitnessTest decideRevertSterilize
  simp only [fitnessBucketDraws_unit]
  norm_num [drawRorS, taskLossDecision, revertEqualsDecision, drawRevertSterilize, cRandom.P,
    taskLossNoGain, forLoopWhile, taskLossStep, seqGet, taskLossTestingOrganism,
    zeroProbOrganism, cRandom.next, pure, Except.pure, bind, Except.bind]

theorem pointMutOnce_count (env : MutEnv) (i : Nat) (st : MutState)
    (hpos : 0 < st.offspring_genome.length) :
    ∃ st', pointMutOnce env i st = .ok st'
      ∧ st'.offspring_genome.length = st.offspring_genome.length
      ∧ st'.totalMutations = st.totalMutations + 1 := by
  have hsite := GetUInt_lt st.rng st.offspring_genome.length hpos
  refine ⟨_, by simp [pointMutOnce, seqSet, hsite, bind, Except.bind, pure, Except.pure]; rfl,
    ?_, ?_⟩
  · simp
  · rfl

theorem forLoopWhile_pointMutOnce (env : MutEnv) (maxmut : Int) (L : Nat) (hL : 0 < L) :
    ∀ (k i : Nat) (st : MutState), st.offspring_genome.length = L →
      st.totalMutations ≤ maxmut →
      ∃ st', forLoopWhile (fun st => decide (st.totalMutations < maxmut)) (pointMutOnce env)
          i k st = .ok st'
        ∧ st'.offspring_genome.length = L
        ∧ st'.totalMutations = min (st.totalMutations + k) maxmut := by
  intro k
  induction k with
  | zero =>
    intro i st hlen hle
    exact ⟨st, rfl, hlen, by simp [hle]⟩
  | succ k ih =>
    intro i st hlen hle
    by_cases hc : st.totalMutations < maxmut
    · obtain ⟨s1, h1, h2, h3⟩ := pointMutOnce_count env i st (by omega)
      obtain ⟨s', h4, h5, h6⟩ := ih (i + 1) s1 (by omega) (by omega)
      refine ⟨s', by simp [forLoopWhile, hc, h1, h4], h5, ?_⟩
      rw [h6, h3]
      push_cast
      congr 1
      omega
    · refine ⟨st, by simp [forLoopWhile, hc], hlen, ?_⟩
      have : st.totalMutations = maxmut := by omega
      rw [this]
      simp
      omega

theorem exactSiteMutations_count (env : MutEnv) (pointmut : Int) (s1 : MutState) (L : Nat)
    (hL : 0 < L) (hlen : s1.offspring_genome.length = L) (h1 : s1.totalMutations = 1)
    (hp : 1 ≤ pointmut) :
    ∃ s2, exactSiteMutations env pointmut pointmut s1 = .ok s2
      ∧ s2.offspring_genome.length = L
      ∧ s2.totalMutations = if env.rates.div_mut_prob > 0 then pointmut else 1 := by
  unfold exactSiteMutations
  by_cases hd : env.rates.div_mut_prob > 0
  · by_cases h1p : s1.totalMutations < pointmut
    · obtain ⟨s2, h4, h5, h6⟩ := forLoopWhile_pointMutOnce env pointmut L hL
        pointmut.toNat 0 s1 hlen (by omega)
      rw [if_pos ⟨hd, h1p⟩]
      dsimp only
      rw [if_pos ⟨by omega, h1p⟩, h4, if_pos hd]
      refine ⟨s2, rfl, h5, ?_⟩
      rw [h6, h1]
      have : (1 : Int) + (pointmut.toNat : Int) = 1 + pointmut := by omega
      rw [this]
      omega
    · rw [if_neg (fun hx => h1p hx.2), if_pos hd]
      exact ⟨s1, rfl, hlen, by omega⟩
  · rw [if_neg (fun hx => hd hx.1), if_neg hd]
    exact ⟨s1, rfl, hlen, h1⟩

theorem Divide_DoExactMutations_count (env : MutEnv) (pointmut : Int) (rng : cRandom)
    (g memory : InstructionSequence) (hp : 0 ≤ pointmut)
    (hg : 0 < pointmut → 0 < g.length) :
    ∃ st, Divide_DoExactMutations env pointmut rng g memory
        = .ok (if env.rates.div_mut_prob > 0 then pointmut else min pointmut 1, st)
      ∧ st.offspring_genome.length = g.length := by
  unfold Divide_DoExactMutations
  dsimp only
  by_cases h0 : 0 < pointmut
  · have hlen := hg h0
    obtain ⟨s1, h1, h2, h3⟩ := pointMutOnce_count env 0 ⟨rng, g, memory, env.mut_multiplier, 0⟩
      hlen
    have h3' : s1.totalMutations = 1 := by simpa using h3
    have h2' : s1.offspring_genome.length = g.length := h2
    obtain ⟨s2, h4, h5, h6⟩ := exactSiteMutations_count env pointmut s1 g.length hlen h2' h3'
      (by omega)
    have hfirst : exactFirstMutation env pointmut ⟨rng, g, memory, env.mut_multiplier, 0⟩
        = .ok s1 := by
      unfold exactFirstMutation
      rw [if_pos h0, h1]
    simp only [runSteps, hfirst, h4]
    refine ⟨s2, ?_, h5⟩
    rw [h6]
    have hm : min pointmut 1 = 1 := by omega
    rw [hm]
  · have hz : pointmut = 0 := by omega
    subst hz
    have hfirst : exactFirstMutation env 0 ⟨rng, g, memory, env.mut_multiplier, 0⟩
        = .ok ⟨rng, g, memory, env.mut_multiplier, 0⟩ := by
      unfold exactFirstMutation
      rw [if_neg (by simp)]
    have hsecond : exactSiteMutations env 0 0 ⟨rng, g, memory, env.mut_multiplier, 0⟩
        = .ok ⟨rng, g, memory, env.mut_multiplier, 0⟩ := by
      unfold exactSiteMutations
      rw [if_neg (by simp)]
    simp only [runSteps, hfirst, hsecond]
    refine ⟨⟨rng, g, memory, env.mut_multiplier, 0⟩, ?_, rfl⟩
    split_ifs <;> rfl

/-- C26 (counterexample): with `pointmut = 3` and a per-site divide mutation probability of 0,
`Divide_DoExactMutations` applies one substitution and returns 1. -/
theorem Divide_DoExactMutations_returns_one :
    noSiteMutEnv.rates.div_mut_prob = 0
    ∧ Divide_DoExactMutations noSiteMutEnv 3 ⟨[1, 2]⟩ [0, 1, 2, 3] [0, 1, 2, 3]
        = .ok (1, ⟨⟨[]⟩, [0, 2, 2, 3], [0, 1, 2, 3], 1, 1⟩) := by
  refine ⟨rfl, ?_⟩
  norm_num [Divide_DoExactMutations, runSteps, exactFirstMutation, exactSiteMutations,
    pointMutOnce, noSiteMutEnv, zeroRates, plainInstSet, cInstSet.GetRandomInst,
    cRandom.GetUInt, cRandom.next, seqSet, bind, Except.bind, pure, Except.pure]

/-- C26 (amended): for every `pointmut ≥ 0` and every offspring genome that is not empty (or
`pointmut = 0`), `Divide_DoExactMutations` leaves the length of the offspring genome
unchanged and returns `pointmut` when the organism's per-site divide mutation probability is
positive, and `min(pointmut, 1)` when it is not. -/
theorem Divide_DoExactMutations_exact (env : MutEnv) (pointmut : Int) (rng : cRandom)
    (g memory : InstructionSequence) (hp : 0 ≤ pointmut)
    (hg : 0 < pointmut → 0 < g.length) :
    ∃ st, Divide_DoExactMutations env pointmut rng g memory
        = .ok (if env.rates.div_mut_prob > 0 then pointmut else min pointmut 1, st)
      ∧ st.offspring_genome.length = g.length :=
  Divide_DoExactMutations_count env pointmut rng g memory hp hg

/-- Witness for C26 (amended): `pointmut = 3` with a per-site divide mutation probability of
1/2 on a genome of length 4. -/
theorem Divide_DoExactMutations_exact_witness :
    ∃ st, Divide_DoExactMutations siteMutEnv 3 ⟨[1, 2, 0, 3, 2, 1]⟩ [0, 1, 2, 3] [0, 1, 2, 3]
        = .ok (3, st)
      ∧ st.offspring_genome.length = 4 := by
  have h := Divide_DoExactMutations_exact siteMutEnv 3 ⟨[1, 2, 0, 3, 2, 1]⟩ [0, 1, 2, 3]
    [0, 1, 2, 3] (by decide) (fun _ => by decide)
  have hd : siteMutEnv.rates.div_mut_prob > 0 := by norm_num [siteMutEnv, zeroRates]
  rw [if_pos hd] at h
  exact h

/-! ## Point mutations and the size bounds -/

/-- C27 (failing input): the size bounds are unset, so the bounds in force are `[2, 100]`; an
executing memory of length 3 lies within them; the binomial draw of the deletion block is 2,
and `PointMutate` deletes two cells and leaves a memory of length 1. -/
theorem PointMutate_leaves_size_bounds :
    unsetBoundsConfig.min_genome_size = 2 ∧ unsetBoundsConfig.max_genome_size = 100
    ∧ withinSizeBounds unsetBoundsConfig [0, 1, 2]
    ∧ PointMutate unsetBoundsConfig plainInstSet pointDelRates 0 ⟨[2, 0, 0]⟩ [0, 1, 2]
        = .ok (2, [2], ⟨[]⟩)
    ∧ ¬ withinSizeBounds unsetBoundsConfig [2] := by
  refine ⟨by decide, by decide, by unfold withinSizeBounds; decide, ?_,
    by unfold withinSizeBounds; decide⟩
  norm_num [PointMutate, unsetBoundsConfig, pointDelRates, zeroRates, plainInstSet,
    cRandom.GetRandBinomial, cRandom.GetUInt, cRandom.next, forLoop, seqRemove, bind,
    Except.bind, pure, Except.pure]

/-! ## Translocation: the scrambled fill reads the genome being written -/

/-- C30 (failing input): genome `[10, 11, 12, 13]`, `from = 2`, `to = 0`, insertion location 1,
`TRANS_FILL_MODE` 1. The span to permute is `[10, 11]`, but the cells `[1, 3)` of the result
hold `[10, 10]`: the second round reads `genome[1]`, which the first round has overwritten. -/
theorem doTransMutation_scrambled_not_permutation :
    doTransMutation scrambledTransConfig ⟨[2, 0, 1, 0, 0]⟩ [10, 11, 12, 13] (-1)
      = .ok ([10, 10, 10, 11, 12, 13], ⟨[]⟩) := by
  decide

/-! ## Translocation: duplication at the insertion location -/

theorem doTransMutationAt_dup (cfg : cConfig) (rng : cRandom) (g : InstructionSequence)
    (from_ to_ : Nat) (hmode : cfg.TRANS_FILL_MODE = 0) (hlt : to_ < from_)
    (hfrom : from_ ≤ g.length) :
    doTransMutationAt cfg rng g from_ to_
      = .ok (g.take (rng.GetUInt (g.length + 1)).1 ++ (g.drop to_).take (from_ - to_)
              ++ g.drop (rng.GetUInt (g.length + 1)).1,
             (rng.GetUInt (g.length + 1)).2) := by
  have hN : (g.length : Int) + ((from_ : Int) - (to_ : Int))
      = ((g.length + from_ - to_ : Nat) : Int) := by omega
  set r := g.take (g.length + from_ - to_) ++ List.replicate (g.length + from_ - to_ - g.length) 0
    with hr
  have hrlen : r.length = g.length + from_ - to_ := by
    simp [hr]; omega
  have hrget : ∀ j, j < g.length → r[j]? = g[j]? := by
    intro j hj
    rw [hr, List.getElem?_append_left (by simp; omega), List.getElem?_take_of_lt (by omega)]
  have hins := GetUInt_le rng g.length
  set ins_loc := (rng.GetUInt (g.length + 1)).1 with hins_loc
  have h1 : ((from_ : Int) - (to_ : Int)) > 0 := by omega
  have h2 : ¬ ((from_ : Int) - (to_ : Int)) < 0 := by omega
  have h3 : ((from_ : Int) - (to_ : Int)).toNat = from_ - to_ := by omega
  obtain ⟨g1, hg1, hl1, hget1⟩ := forLoop_copyStep g ins_loc to_ (from_ - to_) 0 r
    (by omega) (by omega)
  obtain ⟨g2, hg2, hl2, hget2⟩ := forLoop_copyStep g (from_ - to_) 0 (g.length - ins_loc)
    ins_loc g1 (by omega) (by omega)
  unfold doTransMutationAt
  simp only [hN, seqResize_eq, bind, Except.bind]
  rw [← hr, ← hins_loc]
  simp only [h1, h2, if_true, if_false, h3, hmode, hg1, pure, Except.pure, hg2]
  congr 2
  apply List.ext_getElem?
  intro j
  rw [hget2 j, hget1 j]
  by_cases hj1 : j < ins_loc
  · have c1 : ¬ (from_ - to_ + ins_loc ≤ j ∧ j < from_ - to_ + ins_loc + (g.length - ins_loc)) := by
      omega
    have c2 : ¬ (ins_loc + 0 ≤ j ∧ j < ins_loc + 0 + (from_ - to_)) := by omega
    rw [if_neg c1, if_neg c2, hrget j (by omega), List.append_assoc,
      List.getElem?_append_left (by simp; omega), List.getElem?_take_of_lt hj1]
  · by_cases hj2 : j < ins_loc + (from_ - to_)
    · have c1 : ¬ (from_ - to_ + ins_loc ≤ j
          ∧ j < from_ - to_ + ins_loc + (g.length - ins_loc)) := by omega
      have c2 : ins_loc + 0 ≤ j ∧ j < ins_loc + 0 + (from_ - to_) := by omega
      rw [if_neg c1, if_pos c2, List.append_assoc,
        List.getElem?_append_right (by simp; omega),
        List.getElem?_append_left (by simp; omega),
        List.getElem?_take_of_lt (by simp; omega), List.getElem?_drop]
      simp [Nat.min_eq_left hins]
    · by_cases hj3 : j < g.length + (from_ - to_)
      · have c1 : from_ - to_ + ins_loc ≤ j
            ∧ j < from_ - to_ + ins_loc + (g.length - ins_loc) := by omega
        rw [if_pos c1, List.getElem?_append_right (by simp; omega), List.getElem?_drop]
        congr 1
        simp
        omega
      · have c1 : ¬ (from_ - to_ + ins_loc ≤ j
            ∧ j < from_ - to_ + ins_loc + (g.length - ins_loc)) := by omega
        have c2 : ¬ (ins_loc + 0 ≤ j ∧ j < ins_loc + 0 + (from_ - to_)) := by omega
        rw [if_neg c1, if_neg c2, List.getElem?_eq_none (by omega),
          List.getElem?_eq_none (by simp; omega)]

/-- C29: for a genome `g` of length `L`, a drawn (or passed) `from` in `[0, L]`, a drawn
`to < from` and a drawn insertion location `ins_loc` in `[0, L]`, `doTransMutation` with
`TRANS_FILL_MODE` 0 returns `g[0..ins_loc) ++ g[to..from) ++ g[ins_loc..L)`, of length
`L + (from - to)`. -/
theorem doTransMutation_duplication (cfg : cConfig) (g : InstructionSequence)
    (from_ to_ ins_loc : Nat) (rest : List Nat) (hmode : cfg.TRANS_FILL_MODE = 0)
    (hlt : to_ < from_) (hfrom : from_ ≤ g.length) (hins : ins_loc ≤ g.length) :
    doTransMutation cfg ⟨from_ :: to_ :: ins_loc :: rest⟩ g (-1)
        = .ok (g.take ins_loc ++ (g.drop to_).take (from_ - to_) ++ g.drop ins_loc, ⟨rest⟩)
    ∧ doTransMutation cfg ⟨to_ :: ins_loc :: rest⟩ g (from_ : Int)
        = .ok (g.take ins_loc ++ (g.drop to_).take (from_ - to_) ++ g.drop ins_loc, ⟨rest⟩)
    ∧ (g.take ins_loc ++ (g.drop to_).take (from_ - to_) ++ g.drop ins_loc).length
        = g.length + (from_ - to_) := by
  have hneg : ((-1 : Int) < 0) := by decide
  have hnn : ¬ ((from_ : Int) < 0) := by omega
  have hz : ¬ from_ = 0 := by omega
  have hdraw1 := GetUInt_cons from_ (to_ :: ins_loc :: rest) (g.length + 1) (by omega)
  have hdraw2 := GetUInt_cons to_ (ins_loc :: rest) (g.length + 1) (by omega)
  have hdraw3 := GetUInt_cons ins_loc rest (g.length + 1) (by omega)
  have hat := doTransMutationAt_dup cfg ⟨ins_loc :: rest⟩ g from_ to_ hmode hlt hfrom
  rw [hdraw3] at hat
  refine ⟨?_, ?_, ?_⟩
  · unfold doTransMutation
    simp only [hneg, if_true, hdraw1, hz, if_false, hdraw2, hat]
  · unfold doTransMutation
    simp only [hnn, if_false, Int.toNat_ofNat, hz, hdraw2, hat]
  · simp
    omega

/-- Witness for C29: `[A,B,C,D]` with `from = 3`, `to = 1` and insertion location 0 becomes
`[B,C,A,B,C,D]`. -/
theorem doTransMutation_duplication_witness :
    doTransMutation sizeBoundedConfig ⟨[3, 1, 0]⟩ [10, 11, 12, 13] (-1)
      = .ok ([11, 12, 10, 11, 12, 13], ⟨[]⟩) :=
  (doTransMutation_duplication sizeBoundedConfig [10, 11, 12, 13] 3 1 0 [] rfl (by decide)
    (by decide) (by decide)).1

/-! ## Lineages: removing a creature -/

theorem genotypeMapFind_none (m : List (cGenotype × Int)) (genotype : cGenotype)
    (h : ∀ e ∈ m, e.1.id ≠ genotype.id) : genotypeMapFind m genotype = none := by
  induction m with
  | nil => rfl
  | cons e rest ih =>
    have he : e.1.id ≠ genotype.id := h e (List.mem_cons_self _ _)
    have hn : ¬ (gt_gentype e.1 genotype = false ∧ gt_gentype genotype e.1 = false) := by
      simp only [gt_gentype, decide_eq_false_iff_not, not_and, not_not]
      intro h1
      omega
    rw [genotypeMapFind, if_neg hn, ih (fun x hx => h x (List.mem_cons_of_mem _ hx))]
    rfl

theorem RemoveCreature_absent (lineage : cLineage) (genotype : cGenotype)
    (h : ∀ e ∈ lineage.m_genotype_map, e.1.id ≠ genotype.id) :
    RemoveCreature lineage genotype
      = (false, lineage,
          ["Removing creature from lineage whose genotype is not part of the lineage!\n   "
            ++ genotype.name ++ " " ++ toString lineage.m_id]) := by
  unfold RemoveCreature
  rw [genotypeMapFind_none _ _ h]

/-- C28: `cLineage::RemoveCreature` called with a genotype that is not in the lineage's
genotype map (no key of the map has its id, the map being ordered by id) returns `false` and
leaves the lineage as it was, in particular the map, the current CPU count, the totals and
the fitness fields; it writes one warning. -/
theorem RemoveCreature_not_in_map (lineage : cLineage) (genotype : cGenotype)
    (h : ∀ e ∈ lineage.m_genotype_map, e.1.id ≠ genotype.id) :
    (RemoveCreature lineage genotype).1 = false
    ∧ (RemoveCreature lineage genotype).2.1 = lineage
    ∧ (RemoveCreature lineage genotype).2.2.length = 1 := by
  rw [RemoveCreature_absent lineage genotype h]
  exact ⟨rfl, rfl, rfl⟩

/-- Witness for C28: a genotype of id 6 is removed from a lineage that holds the ids 7 and
5. -/
theorem RemoveCreature_not_in_map_witness :
    (RemoveCreature twoGenotypeLineage ⟨6, "g6", 3⟩).1 = false
    ∧ (RemoveCreature twoGenotypeLineage ⟨6, "g6", 3⟩).2.1 = twoGenotypeLineage
    ∧ (RemoveCreature twoGenotypeLineage ⟨6, "g6", 3⟩).2.2.length = 1 :=
  RemoveCreature_not_in_map twoGenotypeLineage ⟨6, "g6", 3⟩ (by decide)

/-! ## Fitness gate: the task-loss flag -/

/-- One round of the comparison loop at an index inside both arrays, by the order of the two
counts. -/
theorem taskLossStep_eq (childtasks parenttasks : List Int) (i : Nat) (c p : Int)
    (hc : childtasks[i]? = some c) (hp : parenttasks[i]? = some p) (s : TaskLossState) :
    taskLossStep childtasks parenttasks i s =
      .ok (if c > p then { s with added := true }
           else if c < p then { s with del := true } else s) := by
  simp only [taskLossStep, seqGet, hc, hp, bind, Except.bind, pure, Except.pure]
  split_ifs <;> rfl

/-- The comparison loop from round `i` on, entered with no gain seen so far: it ends, and its
flag `del & !added` is true exactly when a loss was seen before or is found from `i` on, and no
gain is found from `i` on. -/
theorem forLoopWhile_taskLossStep (childtasks parenttasks : List Int)
    (hlen : childtasks.length = parenttasks.length) :
    ∀ (k i : Nat) (s : TaskLossState), i + k = childtasks.length → s.added = false →
      ∃ s', forLoopWhile (fun s => !s.added) (taskLossStep childtasks parenttasks) i k s
          = .ok s'
        ∧ ((s'.del && !s'.added) = true ↔
            ((s.del = true ∨ ∃ (j : Nat) (c p : Int), i ≤ j ∧ childtasks[j]? = some c
                ∧ parenttasks[j]? = some p ∧ c < p)
              ∧ ¬ ∃ (j : Nat) (c p : Int), i ≤ j ∧ childtasks[j]? = some c
                ∧ parenttasks[j]? = some p ∧ c > p)) := by
  intro k
  induction k with
  | zero =>
    intro i s hi ha
    refine ⟨s, rfl, ?_⟩
    have hnone : ∀ j, i ≤ j → childtasks[j]? = none := fun j hj =>
      List.getElem?_eq_none (by omega)
    constructor
    · intro h
      simp only [ha, Bool.not_false, Bool.and_true] at h
      refine ⟨Or.inl h, ?_⟩
      rintro ⟨j, c, p, hj, hc, _, _⟩
      rw [hnone j hj] at hc
      cases hc
    · rintro ⟨h | ⟨j, c, p, hj, hc, _, _⟩, _⟩
      · simp [ha, h]
      · rw [hnone j hj] at hc
        cases hc
  | succ k ih =>
    intro i s hi ha
    have hic : i < childtasks.length := by omega
    have hip : i < parenttasks.length := by omega
    have hc : childtasks[i]? = some childtasks[i] := List.getElem?_eq_getElem hic
    have hp : parenttasks[i]? = some parenttasks[i] := List.getElem?_eq_getElem hip
    have hstep := taskLossStep_eq childtasks parenttasks i _ _ hc hp s
    have hcond : (fun (s : TaskLossState) => !s.added) s = true := by simp [ha]
    rcases lt_trichotomy childtasks[i] parenttasks[i] with hlt | heq | hgt
    · -- a loss at `i`
      rw [if_neg (by omega), if_pos hlt] at hstep
      obtain ⟨s', hrun, hiff⟩ := ih (i + 1) { s with del := true } (by omega) ha
      refine ⟨s', by simp only [forLoopWhile, hcond, if_true, hstep, hrun], ?_⟩
      rw [hiff]
      constructor
      · rintro ⟨_, hno⟩
        refine ⟨Or.inr ⟨i, _, _, le_refl i, hc, hp, hlt⟩, ?_⟩
        rintro ⟨j, c, p, hj, hjc, hjp, hg⟩
        by_cases hji : j = i
        · subst hji
          rw [hc] at hjc
          rw [hp] at hjp
          cases hjc
          cases hjp
          omega
        · exact hno ⟨j, c, p, by omega, hjc, hjp, hg⟩
      · rintro ⟨_, hno⟩
        refine ⟨Or.inl rfl, ?_⟩
        rintro ⟨j, c, p, hj, hjc, hjp, hg⟩
        exact hno ⟨j, c, p, by omega, hjc, hjp, hg⟩
    · -- equal counts at `i`
      rw [if_neg (by omega), if_neg (by omega)] at hstep
      obtain ⟨s', hrun, hiff⟩ := ih (i + 1) s (by omega) ha
      refine ⟨s', by simp only [forLoopWhile, hcond, if_true, hstep, hrun], ?_⟩
      rw [hiff]
      have hshift : ∀ (R : Int → Int → Prop), (∀ c p, R c p → c ≠ p) →
          ((∃ (j : Nat) (c p : Int), i + 1 ≤ j ∧ childtasks[j]? = some c
              ∧ parenttasks[j]? = some p ∧ R c p)
            ↔ ∃ (j : Nat) (c p : Int), i ≤ j ∧ childtasks[j]? = some c
              ∧ parenttasks[j]? = some p ∧ R c p) := by
        intro R hR
        constructor
        · rintro ⟨j, c, p, hj, h1, h2, h3⟩
          exact ⟨j, c, p, by omega, h1, h2, h3⟩
        · rintro ⟨j, c, p, hj, h1, h2, h3⟩
          by_cases hji : j = i
          · subst hji
            rw [hc] at h1
            rw [hp] at h2
            cases h1
            cases h2
            exact absurd heq (hR _ _ h3)
          · exact ⟨j, c, p, by omega, h1, h2, h3⟩
      rw [hshift (fun c p => c < p) (fun c p h => by omega),
        hshift (fun c p => c > p) (fun c p h => by omega)]
    · -- a gain at `i`: the loop is left
      rw [if_pos hgt] at hstep
      have hleft : forLoopWhile (fun (s : TaskLossState) => !s.added)
          (taskLossStep childtasks parenttasks) i (k + 1) s
            = .ok { s with added := true } := by
        simp only [forLoopWhile, hcond, if_true, hstep]
        cases k <;> simp [forLoopWhile]
      refine ⟨_, hleft, ?_⟩
      constructor
      · intro h
        simp at h
      · rintro ⟨_, hno⟩
        exact absurd ⟨i, _, _, le_refl i, hc, hp, hgt⟩ hno

/-- The flag of the comparison loop for arrays of equal length. -/
theorem taskLossNoGain_eq (childtasks parenttasks : List Int)
    (hlen : childtasks.length = parenttasks.length) :
    ∃ lost, taskLossNoGain childtasks parenttasks = .ok lost
      ∧ (lost = true ↔
          ((∃ (i : Nat) (c p : Int),
              childtasks[i]? = some c ∧ parenttasks[i]? = some p ∧ c < p)
            ∧ ¬ ∃ (i : Nat) (c p : Int),
              childtasks[i]? = some c ∧ parenttasks[i]? = some p ∧ c > p)) := by
  obtain ⟨s', hrun, hiff⟩ := forLoopWhile_taskLossStep childtasks parenttasks hlen
    childtasks.length 0 ⟨false, false⟩ (by omega) rfl
  refine ⟨s'.del && !s'.added,
    by simp only [taskLossNoGain, hrun, bind, Except.bind, pure, Except.pure], ?_⟩
  rw [hiff]
  simp

/-- C33: for task-count arrays `child` and `parent` of equal length, the comparison loop ends
without a fault and its flag "task loss without gain" is true exactly when some index has
`child[i] < parent[i]` and no index has `child[i] > parent[i]`; the flag is what
`Divide_TestFitnessMeasures` assigns to `revert` (`RorS = 1`) or to `sterilize` (`RorS = 2`),
and what `Divide_CheckViable` returns as `sterilize` when its task-loss draw fires. -/
theorem task_loss_flag (childtasks parenttasks : List Int)
    (hlen : childtasks.length = parenttasks.length) :
    ∃ lost, taskLossNoGain childtasks parenttasks = .ok lost
      ∧ (lost = true ↔
          ((∃ (i : Nat) (c p : Int),
              childtasks[i]? = some c ∧ parenttasks[i]? = some p ∧ c < p)
            ∧ ¬ ∃ (i : Nat) (c p : Int),
              childtasks[i]? = some c ∧ parenttasks[i]? = some p ∧ c > p))
      ∧ (∀ revert sterilize,
          taskLossDecision 1 childtasks parenttasks revert sterilize = .ok (lost, sterilize)
          ∧ taskLossDecision 2 childtasks parenttasks revert sterilize = .ok (revert, lost))
      ∧ (∀ (org : DivideOrganism) (rng : cRandom),
          org.cur_task_count = childtasks → org.last_task_count = parenttasks →
          org.sterilize_taskloss ≥ 1 →
          ∃ rng', divideSterilizeDecision org rng = .ok (lost, rng')) := by
  obtain ⟨lost, hrun, hiff⟩ := taskLossNoGain_eq childtasks parenttasks hlen
  refine ⟨lost, hrun, hiff, fun revert sterilize => ⟨?_, ?_⟩, fun org rng hc hp hs => ?_⟩
  · simp [taskLossDecision, hrun, bind, Except.bind, pure, Except.pure]
  · simp [taskLossDecision, hrun, bind, Except.bind, pure, Except.pure]
  · have hP : ∀ r : cRandom, (r.P org.sterilize_taskloss).1 = true := by
      intro r
      have h0 : ¬ org.sterilize_taskloss ≤ 0 := by linarith
      simp [cRandom.P, h0, hs]
    have h : ∃ r, divideSterilizeDecision org rng = .ok r ∧ r.1 = lost := by
      unfold divideSterilizeDecision
      simp only [hc, hp, hrun, hP, if_true, bind, Except.bind, pure, Except.pure]
      exact ⟨_, rfl, rfl⟩
    obtain ⟨⟨a, b⟩, h1, h2⟩ := h
    exact ⟨b, by rw [h1]; simp only at h2; rw [h2]⟩

/-- C33 at concrete arrays: a loss at index 0 and no gain gives the flag; a later gain clears
it. -/
theorem task_loss_flag_witness :
    taskLossNoGain [0, 2, 1] [1, 2, 1] = .ok true
    ∧ taskLossNoGain [0, 2, 1] [1, 2, 0] = .ok false
    ∧ ∃ lost, taskLossNoGain [0, 2, 1] [1, 2, 1] = .ok lost
      ∧ (lost = true ↔
          ((∃ (i : Nat) (c p : Int),
              [0, 2, (1 : Int)][i]? = some c ∧ [1, 2, (1 : Int)][i]? = some p ∧ c < p)
            ∧ ¬ ∃ (i : Nat) (c p : Int),
              [0, 2, (1 : Int)][i]? = some c ∧ [1, 2, (1 : Int)][i]? = some p ∧ c > p))
      ∧ (∀ revert sterilize,
          taskLossDecision 1 [0, 2, 1] [1, 2, 1] revert sterilize = .ok (lost, sterilize)
          ∧ taskLossDecision 2 [0, 2, 1] [1, 2, 1] revert sterilize = .ok (revert, lost))
      ∧ (∀ (org : DivideOrganism) (rng : cRandom),
          org.cur_task_count = [0, 2, 1] → org.last_task_count = [1, 2, 1] →
          org.sterilize_taskloss ≥ 1 →
          ∃ rng', divideSterilizeDecision org rng = .ok (lost, rng')) :=
  ⟨by decide, by decide, task_loss_flag [0, 2, 1] [1, 2, 1] rfl⟩

/-! ## Fitness gate: the two variants of the fitness test -/

/-- The value of `sterilize` after the policy test of `Divide_TestFitnessMeasures1` is that of
`Divide_TestFitnessMeasures` when the level does not exceed 1. -/
theorem sterilize_policy_agree (level depth : Int) (viable : Bool) (h : level ≤ 1) :
    (if level > 1 ∧ viable = false then true
      else (if level > 0 then (if depth > 0 then true else false) else false))
      = (decide (level = 1) && decide (depth > 0)) := by
  rw [if_neg (by omega)]
  by_cases h1 : level = 1
  · subst h1
    by_cases hd : depth > 0 <;> simp [hd]
  · rw [if_neg (by omega)]
    simp [h1]

/-- The two variants of the fitness test agree when the policy level does not exceed 1. -/
theorem Divide_TestFitnessMeasures1_eq (harness : TestHarness) (st : GateState)
    (h : st.org.sterilize_unstable ≤ 1) :
    Divide_TestFitnessMeasures1 harness st = Divide_TestFitnessMeasures harness st := by
  unfold Divide_TestFitnessMeasures1 Divide_TestFitnessMeasures
  simp only []
  rw [sterilize_policy_agree _ _ _ h]

/-- At level 2 the two variants differ: with an offspring whose test recursed, the first leaves
the child fertile and the second sterilizes it. -/
theorem Divide_TestFitnessMeasures1_differs :
    (∃ st, Divide_TestFitnessMeasures depthOneHarness ⟨levelTwoOrganism, ⟨[]⟩, 0, []⟩
        = .ok (false, st) ∧ st.org.child_fertile = true)
    ∧ ∃ st, Divide_TestFitnessMeasures1 depthOneHarness ⟨levelTwoOrganism, ⟨[]⟩, 0, []⟩
        = .ok (false, st) ∧ st.org.child_fertile = false := by
  constructor
  · refine ⟨⟨levelTwoOrganism, ⟨[]⟩, 2, []⟩, ?_, rfl⟩
    unfold Divide_TestFitnessMeasures
    dsimp only [depthOneHarness]
    rw [(neutral_band_unit _ rfl rfl).1, (neutral_band_unit _ rfl rfl).2]
    unfold resolveFitnessTest decideRevertSterilize
    simp only [fitnessBucketDraws_unit]
    simp [drawRorS, taskLossDecision, revertEqualsDecision, drawRevertSterilize, cRandom.P,
      levelTwoOrganism, zeroProbOrganism, cRandom.next, pure, Except.pure, bind, Except.bind]
  · refine ⟨⟨{ levelTwoOrganism with child_fertile := false }, ⟨[]⟩, 2, []⟩, ?_, rfl⟩
    unfold Divide_TestFitnessMeasures1
    dsimp only [depthOneHarness]
    rw [(neutral_band_unit _ rfl rfl).1, (neutral_band_unit _ rfl rfl).2]
    unfold resolveFitnessTest decideRevertSterilize
    simp only [fitnessBucketDraws_unit]
    simp [drawRorS, taskLossDecision, revertEqualsDecision, drawRevertSterilize, cRandom.P,
      levelTwoOrganism, zeroProbOrganism, cRandom.next, pure, Except.pure, bind, Except.bind]

/-- C34: for every organism state, genome pair, test-harness result and random source, when the
sterilize-unstable policy level is 0 or 1 (indeed whenever it does not exceed 1)
`Divide_TestFitnessMeasures1` and `Divide_TestFitnessMeasures` give the same outcome: the same
returned value and the same state after the call, so the same offspring genome, copy-true flag
and child-fertile flag. Hence the two can differ only when the level exceeds 1. -/
theorem fitness_test_variants_agree (harness : TestHarness) (st : GateState)
    (h : st.org.sterilize_unstable ≤ 1) :
    Divide_TestFitnessMeasures1 harness st = Divide_TestFitnessMeasures harness st :=
  Divide_TestFitnessMeasures1_eq harness st h

/-- C34 at a concrete organism with policy level 1 whose offspring is tested. -/
theorem fitness_test_variants_agree_witness :
    taskLossTestingOrganism.sterilize_unstable ≤ 1
    ∧ Divide_TestFitnessMeasures1 depthOneHarness ⟨taskLossTestingOrganism, ⟨[]⟩, 0, []⟩
      = Divide_TestFitnessMeasures depthOneHarness ⟨taskLossTestingOrganism, ⟨[]⟩, 0, []⟩ :=
  ⟨by decide, fitness_test_variants_agree depthOneHarness
    ⟨taskLossTestingOrganism, ⟨[]⟩, 0, []⟩ (by decide)⟩

/-! ## Slip and translocation: the result is never empty -/

/-- The draws of `from` and `to` from a random source that yields admissible values. -/
theorem drawFromTo_cons (g : InstructionSequence) (from_ to_ : Nat) (rest : List Nat)
    (hfrom : from_ ≤ g.length) (hto : to_ ≤ g.length) (h0 : from_ = 0 → to_ < g.length) :
    drawFromTo ⟨from_ :: to_ :: rest⟩ g (-1) = (from_, to_, ⟨rest⟩) := by
  have hneg : ((-1 : Int) < 0) := by decide
  have hdraw1 := GetUInt_cons from_ (to_ :: rest) (g.length + 1) (by omega)
  unfold drawFromTo
  simp only [hneg, if_true, hdraw1]
  by_cases hz : from_ = 0
  · rw [if_pos hz, GetUInt_cons to_ rest g.length (h0 hz)]
  · rw [if_neg hz, GetUInt_cons to_ rest (g.length + 1) (by omega)]

/-- C35: for a non-empty genome of length `L`, admissible draws (`from` in `[0, L]`, `to` in
`[0, L]`, `to < L` when `from = 0`), whatever is drawn afterwards, and a fill mode the operator
knows, `doSlipMutation` and `doTransMutation` return a genome of length exactly
`L + from - to`, which is at least 1 and at most `2 L`: the result is never empty. -/
theorem slip_trans_never_empty (cfg : cConfig) (inst_set : cInstSet)
    (g : InstructionSequence) (from_ to_ : Nat) (rest : List Nat)
    (hslip : 0 ≤ cfg.SLIP_FILL_MODE ∧ cfg.SLIP_FILL_MODE ≤ 4)
    (htrans : cfg.TRANS_FILL_MODE = 0 ∨ cfg.TRANS_FILL_MODE = 1)
    (hne : g ≠ [])
    (hfrom : from_ ≤ g.length) (hto : to_ ≤ g.length) (h0 : from_ = 0 → to_ < g.length) :
    (∃ g' rng', doSlipMutation cfg inst_set ⟨from_ :: to_ :: rest⟩ g (-1) = .ok (g', rng')
      ∧ g'.length = g.length + from_ - to_ ∧ 1 ≤ g'.length ∧ g'.length ≤ 2 * g.length
      ∧ g' ≠ [])
    ∧ (∃ g' rng', doTransMutation cfg ⟨from_ :: to_ :: rest⟩ g (-1) = .ok (g', rng')
      ∧ g'.length = g.length + from_ - to_ ∧ 1 ≤ g'.length ∧ g'.length ≤ 2 * g.length
      ∧ g' ≠ []) := by
  have hL : 0 < g.length := List.length_pos.mpr hne
  have hdraw := drawFromTo_cons g from_ to_ rest hfrom hto h0
  have hlow : 1 ≤ g.length + from_ - to_ := by
    by_cases hz : from_ = 0
    · have := h0 hz
      omega
    · omega
  have hnil : ∀ g' : InstructionSequence, 1 ≤ g'.length → g' ≠ [] := by
    intro g' h hg
    rw [hg] at h
    simp at h
  constructor
  · obtain ⟨g', rng', h1, h2⟩ := doSlipMutationAt_length cfg inst_set ⟨rest⟩ g from_ to_ hslip
      hfrom hto
    refine ⟨g', rng', ?_, h2, by omega, by omega, hnil g' (by omega)⟩
    rw [doSlipMutation_at, hdraw]
    exact h1
  · obtain ⟨g', rng', h1, h2⟩ := doTransMutationAt_length cfg ⟨rest⟩ g from_ to_ htrans
      hfrom hto
    refine ⟨g', rng', ?_, h2, by omega, by omega, hnil g' (by omega)⟩
    rw [doTransMutation_at, hdraw]
    exact h1

/-- C35 at the two extreme draws on `[A,B,C,D]`: `from = 0`, `to = 3` leaves one instruction,
and `from = 4`, `to = 0` doubles the genome. -/
theorem slip_trans_never_empty_witness :
    ((∃ g' rng', doSlipMutation sizeBoundedConfig plainInstSet ⟨[0, 3, 2]⟩ [10, 11, 12, 13] (-1)
          = .ok (g', rng') ∧ g'.length = 1)
      ∧ ∃ g' rng', doTransMutation sizeBoundedConfig ⟨[0, 3, 2]⟩ [10, 11, 12, 13] (-1)
          = .ok (g', rng') ∧ g'.length = 1)
    ∧ ((∃ g' rng', doSlipMutation sizeBoundedConfig plainInstSet ⟨[4, 0, 2]⟩ [10, 11, 12, 13] (-1)
          = .ok (g', rng') ∧ g'.length = 8)
      ∧ ∃ g' rng', doTransMutation sizeBoundedConfig ⟨[4, 0, 2]⟩ [10, 11, 12, 13] (-1)
          = .ok (g', rng') ∧ g'.length = 8) := by
  have h1 := slip_trans_never_empty sizeBoundedConfig plainInstSet [10, 11, 12, 13] 0 3 [2]
    (by decide) (by decide) (by decide) (by decide) (by decide) (by decide)
  have h2 := slip_trans_never_empty sizeBoundedConfig plainInstSet [10, 11, 12, 13] 4 0 [2]
    (by decide) (by decide) (by decide) (by decide) (by decide) (by decide)
  obtain ⟨⟨a1, b1, c1, d1, _⟩, ⟨a2, b2, c2, d2, _⟩⟩ := h1
  obtain ⟨⟨a3, b3, c3, d3, _⟩, ⟨a4, b4, c4, d4, _⟩⟩ := h2
  exact ⟨⟨⟨a1, b1, c1, d1⟩, ⟨a2, b2, c2, d2⟩⟩, ⟨⟨a3, b3, c3, d3⟩, ⟨a4, b4, c4, d4⟩⟩⟩

/-! ## Cost ledger: the countdowns are per thread and never negative -/

theorem threadLocalStep_refl (t : Nat) (hw : cHardwareBase) : threadLocalStep t hw hw :=
  ⟨fun _ _ => ⟨rfl, rfl⟩, fun h => h⟩

theorem threadLocalStep_trans {t : Nat} {hw1 hw2 hw3 : cHardwareBase}
    (h12 : threadLocalStep t hw1 hw2) (h23 : threadLocalStep t hw2 hw3) :
    threadLocalStep t hw1 hw3 :=
  ⟨fun u hu => ⟨((h23.1 u hu).1).trans (h12.1 u hu).1, ((h23.1 u hu).2).trans (h12.1 u hu).2⟩,
   fun h => h23.2 (h12.2 h)⟩

/-- Writing a non-negative value to the pre-cost countdown of thread `t`. -/
theorem threadLocalStep_set_cost (hw : cHardwareBase) (t : Nat) (v : Int) (hv : 0 ≤ v) :
    threadLocalStep t hw
      { hw with m_active_thread_costs := hw.m_active_thread_costs.set t v } := by
  refine ⟨fun u hu => ⟨?_, rfl⟩, fun h => ⟨fun a ha => ?_, h.2⟩⟩
  · exact List.getElem?_set_ne (Ne.symm hu)
  · have hlt : t < (hw.m_active_thread_costs.set t v).length := getElem?_lt ha
    rw [List.length_set] at hlt
    have hsome : (hw.m_active_thread_costs.set t v)[t]? = some v := by
      rw [List.getElem?_set_self hlt]
    have hav : some a = some v := ha.symm.trans hsome
    cases hav
    exact hv

/-- Writing a non-negative value to the post-cost countdown of thread `t`. -/
theorem threadLocalStep_set_post (hw : cHardwareBase) (t : Nat) (v : Int) (hv : 0 ≤ v) :
    threadLocalStep t hw
      { hw with m_active_thread_post_costs := hw.m_active_thread_post_costs.set t v } := by
  refine ⟨fun u hu => ⟨rfl, ?_⟩, fun h => ⟨h.1, fun a ha => ?_⟩⟩
  · exact List.getElem?_set_ne (Ne.symm hu)
  · have hlt : t < (hw.m_active_thread_post_costs.set t v).length := getElem?_lt ha
    rw [List.length_set] at hlt
    have hsome : (hw.m_active_thread_post_costs.set t v)[t]? = some v := by
      rw [List.getElem?_set_self hlt]
    have hav : some a = some v := ha.symm.trans hsome
    cases hav
    exact hv

/-- Whatever the per-use block returns, it is a thread-local step. -/
theorem payPerUseCosts_thread (hw hw' : cHardwareBase) (c : Int) (t : Nat) (b : Bool)
    (h : payPerUseCosts hw c t = .ok (b, hw')) : threadLocalStep t hw hw' := by
  unfold payPerUseCosts at h
  simp only [seqGet, seqSet, bind, Except.bind, pure, Except.pure] at h
  cases hp : hw.m_active_thread_post_costs[t]? with
  | none => rw [hp] at h; cases h
  | some post =>
    rw [hp] at h
    simp only [] at h
    have h3 : t < hw.m_active_thread_post_costs.length := getElem?_lt hp
    by_cases h1 : post > 1
    · simp only [h1, if_true, h3] at h
      cases h
      exact threadLocalStep_set_post hw t _ (by omega)
    · simp only [h1, if_false] at h
      by_cases h2 : post = 1
      · simp only [h2, if_true, h3] at h
        have hA := threadLocalStep_set_post hw t 0 (le_refl 0)
        cases ha : hw.m_active_thread_costs[t]? with
        | none => rw [ha] at h; cases h
        | some a =>
          rw [ha] at h
          simp only [] at h
          split_ifs at h <;> cases h <;>
            first
            | exact hA
            | exact threadLocalStep_trans hA (threadLocalStep_set_cost _ t _ (by omega))
      · simp only [h2, if_false] at h
        cases ha : hw.m_active_thread_costs[t]? with
        | none => rw [ha] at h; cases h
        | some a =>
          rw [ha] at h
          simp only [] at h
          split_ifs at h <;> cases h <;>
            first
            | exact threadLocalStep_refl t hw
            | exact threadLocalStep_set_cost hw t _ (by omega)

/-- With both countdown cells of thread `t` present, the per-use block returns. -/
theorem payPerUseCosts_returns (hw : cHardwareBase) (c : Int) (t : Nat)
    (ht : t < hw.m_active_thread_costs.length)
    (htp : t < hw.m_active_thread_post_costs.length) :
    ∃ b hw', payPerUseCosts hw c t = .ok (b, hw') := by
  unfold payPerUseCosts
  simp only [seqGet, seqSet, bind, Except.bind, pure, Except.pure,
    List.getElem?_eq_getElem htp, List.getElem?_eq_getElem ht, htp, ht, if_true]
  split_ifs <;> exact ⟨_, _, rfl⟩

/-- Whatever `SingleProcess_PayPreCosts` returns, it is a thread-local step. -/
theorem payPreCosts_thread (inst_set : cInstSet) (org : CostOrganism) (hw hw' : cHardwareBase)
    (op t : Nat) (b : Bool) (h : SingleProcess_PayPreCosts inst_set org hw op t = .ok (b, hw')) :
    threadLocalStep t hw hw' := by
  rw [payPreCosts_unfold] at h
  generalize (if hw.m_has_ft_costs = true then seqGet hw.m_inst_ft_cost op
    else Except.ok 0) = r at h
  cases r with
  | error e => cases h
  | ok ft =>
    simp only [Except.bind] at h
    by_cases h1 : hw.m_has_ft_costs = true ∧ ft > 0
    · rw [if_pos h1] at h
      cases hs : seqSet hw.m_inst_ft_cost op (ft - 1) with
      | error e => rw [hs] at h; cases h
      | ok a =>
        rw [hs] at h
        cases h
        exact ⟨fun _ _ => ⟨rfl, rfl⟩, fun hn => hn⟩
    · rw [if_neg h1] at h
      by_cases hA : (hw.m_has_res_costs = true ∨ hw.m_has_fem_res_costs = true)
          ∧ org.COLLECT_SPECIFIC_RESOURCE < 0
      · rw [if_pos hA] at h
        cases h
      · rw [if_neg hA] at h
        by_cases hB : (hw.m_has_res_costs = true ∨ hw.m_has_fem_res_costs = true) ∧
            resStoredBelowRequired inst_set org op = true
        · rw [if_pos hB] at h
          cases h
          exact threadLocalStep_refl t hw
        · rw [if_neg hB] at h
          by_cases hC : hw.m_has_bonus_costs = true ∧ bonusBelowCost inst_set org op = true
          · rw [if_pos hC] at h
            cases h
            exact threadLocalStep_refl t hw
          · rw [if_neg hC] at h
            generalize (if hw.m_has_costs = true then seqGet hw.m_thread_inst_cost op
              else Except.ok 0) = r at h
            cases r with
            | error e => cases h
            | ok v =>
              simp only [] at h
              by_cases hD : (hw.m_has_costs
                  || (hw.m_has_female_costs && org.is_female
                      && decide (inst_set.GetFemaleCost op ≠ 0))
                  || (hw.m_has_choosy_female_costs && (org.is_female && org.is_choosy)
                      && decide (inst_set.GetChoosyFemaleCost op ≠ 0))
                  || hw.m_has_post_costs) = true
              · rw [if_pos hD] at h
                exact payPerUseCosts_thread _ _ _ _ _ h
              · rw [if_neg hD] at h
                cases h
                exact threadLocalStep_refl t hw

/-- `SingleProcess_PayPreCosts` returns when the cells it reads exist and the resource
assertion holds. -/
theorem payPreCosts_returns (inst_set : cInstSet) (org : CostOrganism) (hw : cHardwareBase)
    (op t : Nat)
    (hft : hw.m_has_ft_costs = true → op < hw.m_inst_ft_cost.length)
    (hcost : hw.m_has_costs = true → op < hw.m_thread_inst_cost.length)
    (hassert : resourceAssertHolds org hw)
    (ht : t < hw.m_active_thread_costs.length)
    (htp : t < hw.m_active_thread_post_costs.length) :
    ∃ b hw', SingleProcess_PayPreCosts inst_set org hw op t = .ok (b, hw') := by
  rw [payPreCosts_unfold]
  have hlook : ∃ ft, (if hw.m_has_ft_costs = true then seqGet hw.m_inst_ft_cost op
      else Except.ok 0) = Except.ok ft := by
    by_cases hc : hw.m_has_ft_costs = true
    · exact ⟨_, by rw [if_pos hc, seqGet_eq _ _ (hft hc)]⟩
    · exact ⟨0, by rw [if_neg hc]⟩
  obtain ⟨ft, hlook⟩ := hlook
  rw [hlook]
  simp only [Except.bind]
  by_cases h1 : hw.m_has_ft_costs = true ∧ ft > 0
  · rw [if_pos h1]
    have : seqSet hw.m_inst_ft_cost op (ft - 1)
        = .ok (hw.m_inst_ft_cost.set op (ft - 1)) := by
      simp [seqSet, hft h1.1]
    rw [this]
    exact ⟨_, _, rfl⟩
  · rw [if_neg h1]
    have hA : ¬ ((hw.m_has_res_costs = true ∨ hw.m_has_fem_res_costs = true)
        ∧ org.COLLECT_SPECIFIC_RESOURCE < 0) := by
      intro hc
      have := hassert hc.1
      omega
    rw [if_neg hA]
    by_cases hB : (hw.m_has_res_costs = true ∨ hw.m_has_fem_res_costs = true) ∧
        resStoredBelowRequired inst_set org op = true
    · rw [if_pos hB]
      exact ⟨_, _, rfl⟩
    · rw [if_neg hB]
      by_cases hC : hw.m_has_bonus_costs = true ∧ bonusBelowCost inst_set org op = true
      · rw [if_pos hC]
        exact ⟨_, _, rfl⟩
      · rw [if_neg hC]
        have hv : ∃ v, (if hw.m_has_costs = true then seqGet hw.m_thread_inst_cost op
            else Except.ok 0) = Except.ok v := by
          by_cases hc : hw.m_has_costs = true
          · exact ⟨_, by rw [if_pos hc, seqGet_eq _ _ (hcost hc)]⟩
          · exact ⟨0, by rw [if_neg hc]⟩
        obtain ⟨v, hv⟩ := hv
        rw [hv]
        simp only []
        by_cases hD : (hw.m_has_costs
            || (hw.m_has_female_costs && org.is_female
                && decide (inst_set.GetFemaleCost op ≠ 0))
            || (hw.m_has_choosy_female_costs && (org.is_female && org.is_choosy)
                && decide (inst_set.GetChoosyFemaleCost op ≠ 0))
            || hw.m_has_post_costs) = true
        · rw [if_pos hD]
          exact payPerUseCosts_returns hw _ t ht htp
        · rw [if_neg hD]
          exact ⟨_, _, rfl⟩

/-- Whatever `SingleProcess_SetPostCPUCosts` returns, it is a thread-local step. -/
theorem setPostCPUCosts_thread (hw hw' : cHardwareBase) (op t : Nat)
    (h : SingleProcess_SetPostCPUCosts hw op t = .ok hw') : threadLocalStep t hw hw' := by
  unfold SingleProcess_SetPostCPUCosts at h
  by_cases hpost : hw.m_has_post_costs = true
  · simp only [hpost, if_true, seqGet, seqSet, bind, Except.bind, pure, Except.pure] at h
    cases hp : hw.m_thread_inst_post_cost[op]? with
    | none => rw [hp] at h; cases h
    | some p =>
      rw [hp] at h
      simp only [] at h
      cases ha : hw.m_active_thread_post_costs[t]? with
      | none => rw [ha] at h; cases h
      | some a =>
        rw [ha] at h
        simp only [] at h
        split_ifs at h <;> cases h <;>
          first
          | exact threadLocalStep_refl t hw
          | exact threadLocalStep_set_post hw t _ (by omega)
  · simp only [hpost, pure, Except.pure] at h
    cases h
    exact threadLocalStep_refl t hw

/-- `SingleProcess_SetPostCPUCosts` returns when the cells it reads exist. -/
theorem setPostCPUCosts_returns (hw : cHardwareBase) (op t : Nat)
    (hop : hw.m_has_post_costs = true → op < hw.m_thread_inst_post_cost.length)
    (htp : t < hw.m_active_thread_post_costs.length) :
    ∃ hw', SingleProcess_SetPostCPUCosts hw op t = .ok hw' := by
  by_cases hpost : hw.m_has_post_costs = true
  · rw [SetPostCPUCosts_eq hw op t _ _ hpost (List.getElem?_eq_getElem (hop hpost))
      (List.getElem?_eq_getElem htp)]
    split_ifs <;> exact ⟨_, rfl⟩
  · exact ⟨hw, by simp [SingleProcess_SetPostCPUCosts, hpost, pure, Except.pure]⟩

/-- After `ResizeCostArrays` every countdown cell is 0. -/
theorem ResizeCostArrays_zero (hw : cHardwareBase) (new_size t : Nat) (v : Int) :
    ((ResizeCostArrays hw new_size).m_active_thread_costs[t]? = some v → v = 0)
    ∧ ((ResizeCostArrays hw new_size).m_active_thread_post_costs[t]? = some v → v = 0) := by
  constructor <;>
  · intro h
    simp only [ResizeCostArrays] at h
    have hlt := getElem?_lt h
    rw [List.getElem?_eq_getElem hlt, List.getElem_replicate] at h
    cases h
    rfl

/-- C36: `SingleProcess_PayPreCosts` and `SingleProcess_SetPostCPUCosts` called for thread `t`
return whenever the table cells of the instruction and the two countdown cells of `t` exist
(and the resource assertion holds); whatever they return, the active-cost and active-post-cost
counters of every other thread are unchanged, and counters of `t` that were not negative (as
they are after `ResizeCostArrays`, which sets all of them to 0) are not negative afterwards.
This needs no assumption on the sign of the instruction costs. -/
theorem cost_counters_thread_local (inst_set : cInstSet) (org : CostOrganism)
    (hw : cHardwareBase) (op t : Nat) :
    (∀ b hw', SingleProcess_PayPreCosts inst_set org hw op t = .ok (b, hw') →
        otherThreadsUnchanged hw hw' t ∧ (countersNonneg hw t → countersNonneg hw' t))
    ∧ (∀ hw', SingleProcess_SetPostCPUCosts hw op t = .ok hw' →
        otherThreadsUnchanged hw hw' t ∧ (countersNonneg hw t → countersNonneg hw' t))
    ∧ (∀ new_size, countersNonneg (ResizeCostArrays hw new_size) t)
    ∧ ((hw.m_has_ft_costs = true → op < hw.m_inst_ft_cost.length) →
        (hw.m_has_costs = true → op < hw.m_thread_inst_cost.length) →
        resourceAssertHolds org hw →
        t < hw.m_active_thread_costs.length → t < hw.m_active_thread_post_costs.length →
        ∃ b hw', SingleProcess_PayPreCosts inst_set org hw op t = .ok (b, hw'))
    ∧ ((hw.m_has_post_costs = true → op < hw.m_thread_inst_post_cost.length) →
        t < hw.m_active_thread_post_costs.length →
        ∃ hw', SingleProcess_SetPostCPUCosts hw op t = .ok hw') := by
  refine ⟨fun b hw' h => payPreCosts_thread inst_set org hw hw' op t b h,
    fun hw' h => setPostCPUCosts_thread hw hw' op t h, fun new_size => ⟨fun a ha => ?_,
      fun p hp => ?_⟩,
    fun h1 h2 h3 h4 h5 => payPreCosts_returns inst_set org hw op t h1 h2 h3 h4 h5,
    fun h1 h2 => setPostCPUCosts_returns hw op t h1 h2⟩
  · rw [(ResizeCostArrays_zero hw new_size t a).1 ha]
  · rw [(ResizeCostArrays_zero hw new_size t p).2 hp]

/-- C36 on a hardware with three threads: a call of `SingleProcess_PayPreCosts` for the second
thread, which is in a pre-cost countdown at 2, returns `false` and takes that countdown to 1;
the cells of the first and third thread are as before, and no cell of the second is negative;
`SingleProcess_SetPostCPUCosts` for the first thread returns too. -/
theorem cost_counters_thread_local_witness :
    SingleProcess_PayPreCosts plainInstSet plainCostOrganism threeThreadHardware 0 1
      = .ok (false, { threeThreadHardware with m_active_thread_costs := [0, 1, 0] })
    ∧ otherThreadsUnchanged threeThreadHardware
        { threeThreadHardware with m_active_thread_costs := [0, 1, 0] } 1
    ∧ countersNonneg { threeThreadHardware with m_active_thread_costs := [0, 1, 0] } 1
    ∧ (∃ hw', SingleProcess_SetPostCPUCosts threeThreadHardware 0 0 = .ok hw') :=
  ⟨rfl,
   ((cost_counters_thread_local plainInstSet plainCostOrganism threeThreadHardware 0 1).1
      false _ rfl).1,
   ((cost_counters_thread_local plainInstSet plainCostOrganism threeThreadHardware 0 1).1
      false _ rfl).2 (by simp [countersNonneg, threeThreadHardware]),
   (cost_counters_thread_local plainInstSet plainCostOrganism threeThreadHardware 0
      0).2.2.2.2 (fun _ => by decide) (by decide)⟩

/-! ## Translocation: deletion -/

/-- The deletion branch of `doTransMutation` (`from < to`, `d = to - from`): the resized genome
keeps the first `L - d` instructions, and the loop from `ins_loc` to the new size shifts the
tail left by `d`; with `ins_loc` beyond the new size the loop does not run. -/
theorem doTransMutationAt_del (cfg : cConfig) (rng : cRandom) (g : InstructionSequence)
    (from_ to_ : Nat) (hlt : from_ < to_) (hto : to_ ≤ g.length) :
    doTransMutationAt cfg rng g from_ to_
      = .ok (g.take (min (rng.GetUInt (g.length + 1)).1 (g.length - (to_ - from_)))
              ++ g.drop (min (rng.GetUInt (g.length + 1)).1 (g.length - (to_ - from_))
                          + (to_ - from_)),
             (rng.GetUInt (g.length + 1)).2) := by
  have hN : (g.length : Int) + ((from_ : Int) - (to_ : Int))
      = ((g.length + from_ - to_ : Nat) : Int) := by omega
  set r := g.take (g.length + from_ - to_) ++ List.replicate (g.length + from_ - to_ - g.length) 0
    with hr
  have hrep : g.length + from_ - to_ - g.length = 0 := by omega
  have hr' : r = g.take (g.length + from_ - to_) := by
    rw [hr, hrep]
    simp
  have hrlen : r.length = g.length + from_ - to_ := by
    rw [hr']
    simp
    omega
  have hins := GetUInt_le rng g.length
  set ins_loc := (rng.GetUInt (g.length + 1)).1 with hins_loc
  have h1 : ¬ ((from_ : Int) - (to_ : Int)) > 0 := by omega
  have h2 : ((from_ : Int) - (to_ : Int)) < 0 := by omega
  have h3 : (-((from_ : Int) - (to_ : Int))).toNat = to_ - from_ := by omega
  unfold doTransMutationAt
  simp only [hN, seqResize_eq, bind, Except.bind]
  rw [← hr, ← hins_loc]
  simp only [h1, h2, if_true, if_false, h3, pure, Except.pure]
  by_cases hle : ins_loc ≤ g.length - (to_ - from_)
  · obtain ⟨g', hg1, hl1, hget⟩ := forLoop_copyStep g 0 (to_ - from_) (r.length - ins_loc)
      ins_loc r (by omega) (by omega)
    rw [hg1, Nat.min_eq_left hle]
    simp only []
    congr 2
    apply List.ext_getElem?
    intro j
    rw [hget j]
    by_cases hj1 : j < ins_loc
    · have c1 : ¬ (0 + ins_loc ≤ j ∧ j < 0 + ins_loc + (r.length - ins_loc)) := by omega
      rw [if_neg c1, hr', List.getElem?_take_of_lt (by omega),
        List.getElem?_append_left (by simp; omega), List.getElem?_take_of_lt hj1]
    · have hR : (g.take ins_loc ++ g.drop (ins_loc + (to_ - from_)))[j]?
          = g[to_ - from_ + (j - 0)]? := by
        rw [List.getElem?_append_right (by simp; omega), List.getElem?_drop]
        congr 1
        simp
        omega
      rw [hR]
      by_cases hj2 : j < r.length
      · have c1 : 0 + ins_loc ≤ j ∧ j < 0 + ins_loc + (r.length - ins_loc) := by omega
        rw [if_pos c1]
      · have c1 : ¬ (0 + ins_loc ≤ j ∧ j < 0 + ins_loc + (r.length - ins_loc)) := by omega
        rw [if_neg c1, List.getElem?_eq_none (by omega), List.getElem?_eq_none (by omega)]
  · have hk : r.length - ins_loc = 0 := by omega
    rw [hk, Nat.min_eq_right (by omega)]
    simp only [forLoop]
    congr 2
    rw [hr']
    have e1 : g.length + from_ - to_ = g.length - (to_ - from_) := by omega
    have e2 : g.length - (to_ - from_) + (to_ - from_) = g.length := by omega
    rw [e1, e2]
    simp

/-- C32 (counterexample): on `[A,B,C,D]` with `from = 1`, `to = 3` (`d = 2`) and insertion
location 3, `doTransMutation` returns `[A,B]`, while `g[0..3) ++ g[5..4)` is `[A,B,C]`, which
does not even have the length `L - d = 2`: the loop starts at `ins_loc = 3`, beyond the new
size 2, and does not run. -/
theorem doTransMutation_deletion_past_new_size :
    doTransMutation sizeBoundedConfig ⟨[1, 3, 3]⟩ [10, 11, 12, 13] (-1)
      = .ok ([10, 11], ⟨[]⟩)
    ∧ (3 : Nat) ≤ [10, 11, 12, 13].length
    ∧ List.take 3 [10, 11, 12, 13] ++ List.drop (3 + (3 - 1)) [10, 11, 12, 13]
      = [10, 11, 12] := by
  decide

/-- C32 (amended): for a genome `g` of length `L`, a drawn (or passed) `from`, a drawn `to`
with `from < to ≤ L` (`d = to - from`) and a drawn insertion location `ins_loc` in `[0, L]`,
`doTransMutation` returns, whatever the fill mode, the sequence
`g[0..m) ++ g[m+d..L)` with `m = min(ins_loc, L - d)`, of length `L - d`: for
`ins_loc ≤ L - d` this is `g` with the `d` elements starting at `ins_loc` removed and the tail
shifted left, `g[0..ins_loc) ++ g[ins_loc+d..L)`; for `ins_loc > L - d` it is `g` with its
last `d` elements removed. -/
theorem doTransMutation_deletion (cfg : cConfig) (g : InstructionSequence)
    (from_ to_ ins_loc : Nat) (rest : List Nat)
    (hlt : from_ < to_) (hto : to_ ≤ g.length) (h0 : from_ = 0 → to_ < g.length)
    (hins : ins_loc ≤ g.length) :
    doTransMutation cfg ⟨from_ :: to_ :: ins_loc :: rest⟩ g (-1)
        = .ok (g.take (min ins_loc (g.length - (to_ - from_)))
                ++ g.drop (min ins_loc (g.length - (to_ - from_)) + (to_ - from_)), ⟨rest⟩)
    ∧ doTransMutation cfg ⟨to_ :: ins_loc :: rest⟩ g (from_ : Int)
        = .ok (g.take (min ins_loc (g.length - (to_ - from_)))
                ++ g.drop (min ins_loc (g.length - (to_ - from_)) + (to_ - from_)), ⟨rest⟩)
    ∧ (g.take (min ins_loc (g.length - (to_ - from_)))
          ++ g.drop (min ins_loc (g.length - (to_ - from_)) + (to_ - from_))).length
        = g.length - (to_ - from_)
    ∧ (ins_loc ≤ g.length - (to_ - from_) →
        g.take (min ins_loc (g.length - (to_ - from_)))
          ++ g.drop (min ins_loc (g.length - (to_ - from_)) + (to_ - from_))
        = g.take ins_loc ++ g.drop (ins_loc + (to_ - from_)))
    ∧ (g.length - (to_ - from_) < ins_loc →
        g.take (min ins_loc (g.length - (to_ - from_)))
          ++ g.drop (min ins_loc (g.length - (to_ - from_)) + (to_ - from_))
        = g.take (g.length - (to_ - from_))) := by
  have hnn : ¬ ((from_ : Int) < 0) := by omega
  have hdraw := drawFromTo_cons g from_ to_ (ins_loc :: rest) (by omega) hto h0
  have hdraw2 : (if from_ = 0 then (cRandom.mk (to_ :: ins_loc :: rest)).GetUInt g.length
      else (cRandom.mk (to_ :: ins_loc :: rest)).GetUInt (g.length + 1))
        = (to_, ⟨ins_loc :: rest⟩) := by
    by_cases hz : from_ = 0
    · rw [if_pos hz, GetUInt_cons to_ _ g.length (h0 hz)]
    · rw [if_neg hz, GetUInt_cons to_ _ (g.length + 1) (by omega)]
  have hdraw3 := GetUInt_cons ins_loc rest (g.length + 1) (by omega)
  have hat := doTransMutationAt_del cfg ⟨ins_loc :: rest⟩ g from_ to_ hlt hto
  rw [hdraw3] at hat
  refine ⟨?_, ?_, ?_, ?_, ?_⟩
  · rw [doTransMutation_at, hdraw]
    exact hat
  · unfold doTransMutation
    simp only [hnn, if_false, Int.toNat_ofNat, hdraw2, hat]
  · simp
    omega
  · intro hle
    rw [Nat.min_eq_left hle]
  · intro hgt
    rw [Nat.min_eq_right (by omega)]
    have e2 : g.length - (to_ - from_) + (to_ - from_) = g.length := by omega
    rw [e2]
    simp

/-- Witness for C32 (amended): `[A,B,C,D]` with `from = 1`, `to = 3` and insertion location 1
becomes `[A,D]`; with insertion location 3 it becomes `[A,B]`. -/
theorem doTransMutation_deletion_witness :
    doTransMutation sizeBoundedConfig ⟨[1, 3, 1]⟩ [10, 11, 12, 13] (-1)
      = .ok ([10, 13], ⟨[]⟩)
    ∧ doTransMutation sizeBoundedConfig ⟨[1, 3, 3]⟩ [10, 11, 12, 13] (-1)
      = .ok ([10, 11], ⟨[]⟩) :=
  ⟨(doTransMutation_deletion sizeBoundedConfig [10, 11, 12, 13] 1 3 1 [] (by decide)
      (by decide) (by decide) (by decide)).1,
   (doTransMutation_deletion sizeBoundedConfig [10, 11, 12, 13] 1 3 3 [] (by decide)
      (by decide) (by decide) (by decide)).1⟩

/-! ## Slip mutation: the scrambled fill is a permutation of the span -/

/-- The scan returns the slot that is not chosen and has exactly `p` slots not chosen below
it: the `(p+1)`-th slot not yet chosen. -/
theorem scrambleScan_nth :
    ∀ (l : List Bool) (p c : Nat), p < l.count false →
      ∃ j, j < l.length ∧ l[j]? = some false ∧ (l.take j).count false = p ∧ p ≤ j ∧
        scrambleScan l p c = .ok (c + (j - p)) := by
  intro l
  induction l with
  | nil => intro p c h; simp at h
  | cons b rest ih =>
    intro p c h
    cases b with
    | true =>
      have h' : p < rest.count false := by simpa using h
      obtain ⟨j, hj1, hj2, hj3, hj4, hj5⟩ := ih p (c + 1) h'
      refine ⟨j + 1, by simp; omega, by simpa using hj2, by simpa using hj3, by omega, ?_⟩
      rw [scrambleScan, hj5]
      congr 1
      omega
    | false =>
      cases p with
      | zero => exact ⟨0, by simp, by simp, by simp, by omega, by simp [scrambleScan]⟩
      | succ p =>
        have h' : p < rest.count false := by simpa using h
        obtain ⟨j, hj1, hj2, hj3, hj4, hj5⟩ := ih p c h'
        refine ⟨j + 1, by simp; omega, by simpa using hj2, by simpa using hj3, by omega, ?_⟩
        rw [scrambleScan, hj5]
        congr 1
        omega

theorem chosenMask_length (n : Nat) (js : List Nat) : (chosenMask n js).length = n := by
  simp [chosenMask]

theorem chosenMask_get (n : Nat) (js : List Nat) (k : Nat) (hk : k < n) :
    (chosenMask n js)[k]? = some (decide (k ∈ js)) := by
  simp [chosenMask, List.getElem?_range hk]

theorem chosenMask_set (n : Nat) (js : List Nat) (j : Nat) :
    (chosenMask n js).set j true = chosenMask n (js ++ [j]) := by
  apply List.ext_getElem?
  intro k
  by_cases hk : k < n
  · rw [chosenMask_get n _ k hk]
    by_cases hkj : j = k
    · subst hkj
      rw [List.getElem?_set_self (by rw [chosenMask_length]; exact hk)]
      simp
    · rw [List.getElem?_set_ne hkj, chosenMask_get n _ k hk]
      have : k ≠ j := fun h => hkj h.symm
      simp [this]
  · rw [List.getElem?_eq_none (by rw [List.length_set, chosenMask_length]; omega),
      List.getElem?_eq_none (by rw [chosenMask_length]; omega)]

theorem chosenMask_count_take (n : Nat) (js : List Nat) (j : Nat) (hj : j ≤ n) :
    ((chosenMask n js).take j).count false = unchosenBelow js j := by
  unfold chosenMask unchosenBelow
  rw [← List.map_take, List.take_range, Nat.min_eq_left hj, List.count_eq_countP,
    List.countP_map, List.countP_eq_length_filter]
  congr 2
  funext m
  by_cases hm : m ∈ js <;> simp [hm]

/-- A list of `n` distinct slots below `n` is a permutation of `0 .. n-1`. -/
theorem perm_range_of_nodup (n : Nat) (js : List Nat) (hlen : js.length = n)
    (hnd : js.Nodup) (hlt : ∀ x ∈ js, x < n) : js.Perm (List.range n) := by
  have hsub : js ⊆ List.range n := fun x hx => List.mem_range.mpr (hlt x hx)
  exact (List.subperm_of_subset hnd hsub).perm_of_length_le (by simp [hlen])

/-- The span `g[to .. to + n)` read slot by slot. -/
theorem span_eq_map_range (g : InstructionSequence) (to_ n : Nat) (h : to_ + n ≤ g.length) :
    (g.drop to_).take n = (List.range n).map (fun j => g.getD (to_ + j) 0) := by
  apply List.ext_getElem?
  intro k
  by_cases hk : k < n
  · rw [List.getElem?_take_of_lt hk, List.getElem?_drop, List.getElem?_map,
      List.getElem?_range hk]
    simp [List.getD_eq_getElem?_getD, List.getElem?_eq_getElem (show to_ + k < g.length by omega)]
  · rw [List.getElem?_eq_none (by simp; omega), List.getElem?_eq_none (by simp; omega)]

/-- One scrambled round, exactly: the slot `j` found by the scan is not chosen and has as many
slots not chosen below it as the draw says; the round copies `genome[src + j]` to
`genome[dst + i]` and marks `j`. -/
theorem scramble_round_exact (src dst n i : Nat) (s : FillState)
    (hr : (s.rng.GetUInt (n - i)).1 < s.copied_so_far.count false)
    (hsrc : src + s.copied_so_far.length ≤ s.genome.length)
    (hdst : dst + i < s.genome.length) :
    ∃ j x, j < s.copied_so_far.length ∧ s.copied_so_far[j]? = some false
      ∧ (s.copied_so_far.take j).count false = (s.rng.GetUInt (n - i)).1
      ∧ s.genome[src + j]? = some x
      ∧ transScrambleStep dst src n i s
          = .ok ⟨s.genome.set (dst + i) x, s.copied_so_far.set j true,
              (s.rng.GetUInt (n - i)).2⟩ := by
  obtain ⟨j, hj1, hj2, hj3, hj4, hj5⟩ :=
    scrambleScan_nth s.copied_so_far _ (s.rng.GetUInt (n - i)).1 hr
  have hidx : (s.rng.GetUInt (n - i)).1 + (j - (s.rng.GetUInt (n - i)).1) = j := by omega
  rw [hidx] at hj5
  have hread : src + j < s.genome.length := by omega
  refine ⟨j, s.genome[src + j], hj1, hj2, hj3, List.getElem?_eq_getElem hread, ?_⟩
  simp [transScrambleStep, hj5, seqGet_eq _ _ hread, seqSet, hdst, hj1, bind, Except.bind,
    pure, Except.pure]

/-- One round of the scrambled fill loop of `doSlipMutation` keeps `scrambledFillInv`. -/
theorem scrambledFillInv_step (g : InstructionSequence) (from_ to_ : Nat) (ds rest : List Nat)
    (hlt : to_ < from_) (hfrom : from_ ≤ g.length) (hds : ds.length = from_ - to_)
    (hrange : ∀ i, i < from_ - to_ → ds.getD i 0 < from_ - to_ - i)
    (i : Nat) (s : FillState) (hi : i < from_ - to_)
    (hinv : scrambledFillInv g from_ to_ ds rest i s) :
    ∃ s', transScrambleStep from_ to_ (from_ - to_) i s = .ok s'
      ∧ scrambledFillInv g from_ to_ ds rest (i + 1) s' := by
  obtain ⟨js, hlen, hnd, hbound, hmask, hcount, hglen, hpre, hfill, hrng, hsel⟩ := hinv
  have hdi : i < ds.length := by omega
  have hgetD : ds.getD i 0 = ds[i] := by
    rw [List.getD_eq_getElem?_getD, List.getElem?_eq_getElem hdi]
    rfl
  have hdrop : ds.drop i ++ rest = ds[i] :: (ds.drop (i + 1) ++ rest) := by
    rw [List.drop_eq_getElem_cons hdi]
    rfl
  have hdraw : s.rng.GetUInt (from_ - to_ - i) = (ds[i], ⟨ds.drop (i + 1) ++ rest⟩) := by
    rw [hrng, hdrop]
    exact GetUInt_cons _ _ _ (by rw [← hgetD]; exact hrange i hi)
  have hclen : s.copied_so_far.length = from_ - to_ := by
    rw [hmask, chosenMask_length]
  obtain ⟨j, x, hj1, hj2, hj3, hx, hstep⟩ := scramble_round_exact to_ from_ (from_ - to_) i s
    (by rw [hdraw, hcount, ← hgetD]; exact hrange i hi) (by omega) (by omega)
  rw [hdraw] at hstep hj3
  rw [hclen] at hj1
  have hj3' : (s.copied_so_far.take j).count false = ds.getD i 0 := by
    rw [hgetD]
    exact hj3
  have hjnot : j ∉ js := by
    intro hmem
    rw [hmask, chosenMask_get _ _ j hj1] at hj2
    simp [hmem] at hj2
  have hxval : x = g.getD (to_ + j) 0 := by
    rw [hpre (to_ + j) (by omega), List.getElem?_eq_getElem (show to_ + j < g.length by omega)]
      at hx
    rw [List.getD_eq_getElem?_getD, List.getElem?_eq_getElem (show to_ + j < g.length by omega)]
    exact (Option.some.inj hx).symm
  refine ⟨_, hstep, js ++ [j], by simp [hlen], ?_, ?_, ?_, ?_, ?_, ?_, ?_, rfl, ?_⟩
  · exact List.nodup_append.mpr ⟨hnd, List.nodup_singleton j, by
      intro a ha hb
      rw [List.mem_singleton] at hb
      subst hb
      exact hjnot ha⟩
  · intro a ha
    rcases List.mem_append.mp ha with h | h
    · exact hbound a h
    · rw [List.mem_singleton] at h
      subst h
      exact hj1
  · show s.copied_so_far.set j true = _
    rw [hmask, chosenMask_set]
  · show (s.copied_so_far.set j true).count false = _
    have := count_false_set_true s.copied_so_far j hj2
    omega
  · show (s.genome.set (from_ + i) x).length = _
    rw [List.length_set, hglen]
  · intro k hk
    show (s.genome.set (from_ + i) x)[k]? = _
    rw [List.getElem?_set_ne (by omega), hpre k hk]
  · intro k hk
    show (s.genome.set (from_ + i) x)[from_ + k]? = _
    by_cases hki : k < i
    · rw [List.getElem?_set_ne (by omega), hfill k hki, List.map_append,
        List.getElem?_append_left (by simp; omega)]
    · have hke : k = i := by omega
      subst hke
      rw [List.getElem?_set_self (by omega), List.map_append,
        List.getElem?_append_right (by simp; omega)]
      simp [hlen, hxval]
  · intro k hk
    by_cases hki : k < i
    · rw [List.take_append_of_le_length (by omega)]
      have : (js ++ [j]).getD k 0 = js.getD k 0 := by
        rw [List.getD_eq_getElem?_getD, List.getD_eq_getElem?_getD,
          List.getElem?_append_left (by omega)]
      rw [this]
      exact hsel k hki
    · have hke : k = i := by omega
      subst hke
      have h1 : (js ++ [j]).take k = js := by
        rw [← hlen]
        exact List.take_left' rfl
      have h2 : (js ++ [j]).getD k 0 = j := by
        rw [List.getD_eq_getElem?_getD, List.getElem?_append_right (by omega)]
        simp [hlen]
      rw [h1, h2, ← hj3', hmask]
      exact (chosenMask_count_take _ js j (by omega)).symm

/-- The scrambled fill loop of `doSlipMutation` run from a resized genome: it does not fault and
ends in a state satisfying `scrambledFillInv` for all the rounds. -/
theorem forLoop_scrambledFill (cfg : cConfig) (inst_set : cInstSet) (g r : InstructionSequence)
    (from_ to_ : Nat) (ds rest : List Nat) (hmode : cfg.SLIP_FILL_MODE = 3)
    (hlt : to_ < from_) (hfrom : from_ ≤ g.length) (hds : ds.length = from_ - to_)
    (hrange : ∀ i, i < from_ - to_ → ds.getD i 0 < from_ - to_ - i)
    (hrlen : r.length = g.length + (from_ - to_)) (hrget : ∀ k, k < from_ → r[k]? = g[k]?) :
    ∃ s', forLoop (slipFillStep cfg inst_set g from_ to_ (from_ - to_)) 0 (from_ - to_)
        ⟨r, List.replicate (from_ - to_) false, ⟨ds ++ rest⟩⟩ = .ok s'
      ∧ scrambledFillInv g from_ to_ ds rest (from_ - to_) s' := by
  have hbody : slipFillStep cfg inst_set g from_ to_ (from_ - to_)
      = transScrambleStep from_ to_ (from_ - to_) := by
    funext i s
    exact slipFillStep_scrambled cfg inst_set g from_ to_ (from_ - to_) i s hmode
  rw [hbody]
  have h := forLoop_inv (scrambledFillInv g from_ to_ ds rest)
    (transScrambleStep from_ to_ (from_ - to_)) (from_ - to_) 0
    ⟨r, List.replicate (from_ - to_) false, ⟨ds ++ rest⟩⟩
    (fun j s _ hj hinv =>
      scrambledFillInv_step g from_ to_ ds rest hlt hfrom hds hrange j s (by omega) hinv)
    ⟨[], rfl, List.nodup_nil, by simp, by simp [chosenMask], by simp, hrlen, hrget,
      by intro k hk; omega, by simp, by intro k hk; omega⟩
  simpa using h

/-- `doSlipMutation` from "Resize child genome" on, with `SLIP_FILL_MODE` 3 and `from > to`:
the slots `js` chosen by the rounds are a permutation of `0 .. n-1`, each chosen as the draw
says, and the result is `g[0..from)`, the span read in the order `js`, then `g[from..L)`. -/
theorem doSlipMutationAt_scrambled (cfg : cConfig) (inst_set : cInstSet)
    (g : InstructionSequence) (from_ to_ : Nat) (ds rest : List Nat)
    (hmode : cfg.SLIP_FILL_MODE = 3)
    (hlt : to_ < from_) (hfrom : from_ ≤ g.length) (hds : ds.length = from_ - to_)
    (hrange : ∀ i, i < from_ - to_ → ds.getD i 0 < from_ - to_ - i) :
    ∃ js : List Nat, js.Perm (List.range (from_ - to_))
      ∧ (∀ i, i < from_ - to_ → unchosenBelow (js.take i) (js.getD i 0) = ds.getD i 0)
      ∧ doSlipMutationAt cfg inst_set ⟨ds ++ rest⟩ g from_ to_
          = .ok (g.take from_ ++ js.map (fun j => g.getD (to_ + j) 0) ++ g.drop from_,
                 ⟨rest⟩) := by
  have hN : (g.length : Int) + ((from_ : Int) - (to_ : Int))
      = ((g.length + from_ - to_ : Nat) : Int) := by omega
  set r := g.take (g.length + from_ - to_) ++ List.replicate (g.length + from_ - to_ - g.length) 0
    with hr
  have hrlen : r.length = g.length + (from_ - to_) := by
    simp [hr]; omega
  have hrget : ∀ j, j < from_ → r[j]? = g[j]? := by
    intro j hj
    rw [hr, List.getElem?_append_left (by simp; omega), List.getElem?_take_of_lt (by omega)]
  obtain ⟨s', hrun, js, hlen, hnd, hbound, _, _, hglen, hpre, hfill, hrng, hsel⟩ :=
    forLoop_scrambledFill cfg inst_set g r from_ to_ ds rest hmode hlt hfrom hds hrange hrlen
      hrget
  have hrng' : s'.rng = ⟨rest⟩ := by
    rw [hrng, List.drop_of_length_le (by omega)]
    rfl
  obtain ⟨g2, hg2, hl2, hget2⟩ := forLoop_copyStep g from_ to_ (g.length - from_)
    (from_ - to_) s'.genome (by omega) (by omega)
  have h1 : ((from_ : Int) - (to_ : Int)) > 0 := by omega
  have h2 : ¬ ((from_ : Int) - (to_ : Int)) < 0 := by omega
  have h3 : ((from_ : Int) - (to_ : Int)).toNat = from_ - to_ := by omega
  have h4 : (((g.length : Int) - (to_ : Int)) - ((from_ : Int) - (to_ : Int))).toNat
      = g.length - from_ := by omega
  refine ⟨js, perm_range_of_nodup _ js hlen hnd hbound, hsel, ?_⟩
  unfold doSlipMutationAt
  simp only [hN, seqResize_eq, bind, Except.bind]
  rw [← hr]
  simp only [h1, h2, if_true, if_false, h3, h4, hrun, hg2, pure, Except.pure, hrng']
  congr 2
  apply List.ext_getElem?
  intro j
  rw [hget2 j]
  by_cases hj1 : j < from_
  · have c1 : ¬ (from_ + (from_ - to_) ≤ j
        ∧ j < from_ + (from_ - to_) + (g.length - from_)) := by omega
    rw [if_neg c1, hpre j hj1, List.append_assoc, List.getElem?_append_left (by simp; omega),
      List.getElem?_take_of_lt hj1]
  · by_cases hj2 : j < from_ + (from_ - to_)
    · have c1 : ¬ (from_ + (from_ - to_) ≤ j
          ∧ j < from_ + (from_ - to_) + (g.length - from_)) := by omega
      have hjk : j = from_ + (j - from_) := by omega
      rw [if_neg c1, List.append_assoc, List.getElem?_append_right (by simp; omega),
        List.getElem?_append_left (by simp; omega)]
      rw [hjk, hfill (j - from_) (by omega)]
      congr 1
      simp [Nat.min_eq_left hfrom]
    · by_cases hj3 : j < g.length + (from_ - to_)
      · have c1 : from_ + (from_ - to_) ≤ j
            ∧ j < from_ + (from_ - to_) + (g.length - from_) := by omega
        rw [if_pos c1, List.getElem?_append_right (by simp; omega), List.getElem?_drop]
        congr 1
        simp [Nat.min_eq_left hfrom, hlen]
        omega
      · have c1 : ¬ (from_ + (from_ - to_) ≤ j
            ∧ j < from_ + (from_ - to_) + (g.length - from_)) := by omega
        rw [if_neg c1, List.getElem?_eq_none (by omega),
          List.getElem?_eq_none (by simp [hlen]; omega)]

/-- In a list without repetitions the entry at `i` is not among the entries before it. -/
theorem getD_not_mem_take (js : List Nat) (hnd : js.Nodup) (i : Nat) (hi : i < js.length) :
    js.getD i 0 ∉ js.take i := by
  have hsplit : js.take i ++ js[i] :: js.drop (i + 1) = js := by
    rw [← List.drop_eq_getElem_cons hi, List.take_append_drop]
  have hget : js.getD i 0 = js[i] := by
    rw [List.getD_eq_getElem?_getD, List.getElem?_eq_getElem hi]
    rfl
  rw [← hsplit] at hnd
  have hdis := (List.nodup_append.mp hnd).2.2
  intro hmem
  rw [hget] at hmem
  exact hdis hmem (List.mem_cons_self _ _)

/-- C31: for a genome `g` of length `L`, a drawn (or passed) `from` in `[0, L]`, a drawn
`to < from` (insertion length `n = from - to`) and draws `r_i` in `[0, n - i)` for the rounds
`i = 0 .. n-1`, whatever is drawn afterwards, `doSlipMutation` with `SLIP_FILL_MODE` 3 returns
without a fault (no read or write of `copied_so_far` or of the genome is out of range). The slot
`js[i]` chosen in round `i` was not chosen before and has exactly `r_i` slots not yet chosen
below it: it is the `(r_i + 1)`-th slot not yet chosen. The slots `js` are a permutation of
`0 .. n-1`, so the cells `[from, from + n)` hold a permutation of the span `g[to..from)`, and
the result is `g[0..from)`, these cells, then `g[from..L)`. -/
theorem doSlipMutation_scrambled_permutation (cfg : cConfig) (inst_set : cInstSet)
    (g : InstructionSequence) (from_ to_ : Nat) (ds rest : List Nat)
    (hmode : cfg.SLIP_FILL_MODE = 3)
    (hlt : to_ < from_) (hfrom : from_ ≤ g.length) (hds : ds.length = from_ - to_)
    (hrange : ∀ i, i < from_ - to_ → ds.getD i 0 < from_ - to_ - i) :
    ∃ (js : List Nat) (filled : InstructionSequence),
      doSlipMutation cfg inst_set ⟨from_ :: to_ :: (ds ++ rest)⟩ g (-1)
          = .ok (g.take from_ ++ filled ++ g.drop from_, ⟨rest⟩)
      ∧ doSlipMutation cfg inst_set ⟨to_ :: (ds ++ rest)⟩ g (from_ : Int)
          = .ok (g.take from_ ++ filled ++ g.drop from_, ⟨rest⟩)
      ∧ filled = js.map (fun j => g.getD (to_ + j) 0)
      ∧ filled.length = from_ - to_
      ∧ js.Perm (List.range (from_ - to_))
      ∧ filled.Perm ((g.drop to_).take (from_ - to_))
      ∧ (∀ i, i < from_ - to_ →
          js.getD i 0 ∉ js.take i
          ∧ unchosenBelow (js.take i) (js.getD i 0) = ds.getD i 0) := by
  obtain ⟨js, hperm, hsel, hrun⟩ :=
    doSlipMutationAt_scrambled cfg inst_set g from_ to_ ds rest hmode hlt hfrom hds hrange
  have hnn : ¬ ((from_ : Int) < 0) := by omega
  have hz : ¬ from_ = 0 := by omega
  have hdraw := drawFromTo_cons g from_ to_ (ds ++ rest) hfrom (by omega) (fun h => absurd h hz)
  have hdraw2 := GetUInt_cons to_ (ds ++ rest) (g.length + 1) (by omega)
  have hjlen : js.length = from_ - to_ := by
    rw [hperm.length_eq, List.length_range]
  refine ⟨js, js.map (fun j => g.getD (to_ + j) 0), ?_, ?_, rfl, by simp [hjlen], hperm, ?_,
    fun i hi => ⟨?_, hsel i hi⟩⟩
  · rw [doSlipMutation_at, hdraw]
    exact hrun
  · unfold doSlipMutation
    simp only [hnn, if_false, Int.toNat_ofNat, hz, hdraw2, hrun]
  · rw [span_eq_map_range g to_ (from_ - to_) (by omega)]
    exact hperm.map _
  · exact getD_not_mem_take js (hperm.nodup_iff.mpr (List.nodup_range _)) i (by omega)

/-- Witness for C31: `[A,B,C,D]` with `from = 3`, `to = 1` and the draws 1, 0: round 0 takes
the second of the two slots, round 1 the one left, and the result is `[A,B,C,C,B,D]`. -/
theorem doSlipMutation_scrambled_permutation_witness :
    doSlipMutation ⟨1, 100, 2, 5, 3, 1⟩ plainInstSet ⟨[3, 1, 1, 0]⟩ [10, 11, 12, 13] (-1)
      = .ok ([10, 11, 12, 12, 11, 13], ⟨[]⟩)
    ∧ ∃ (js : List Nat) (filled : InstructionSequence),
      doSlipMutation ⟨1, 100, 2, 5, 3, 1⟩ plainInstSet ⟨3 :: 1 :: ([1, 0] ++ [])⟩
          [10, 11, 12, 13] (-1)
          = .ok (List.take 3 [10, 11, 12, 13] ++ filled ++ List.drop 3 [10, 11, 12, 13], ⟨[]⟩)
      ∧ filled.Perm ((List.drop 1 [10, 11, 12, 13]).take (3 - 1))
      ∧ js.Perm (List.range (3 - 1)) := by
  refine ⟨by decide, ?_⟩
  obtain ⟨js, filled, h1, _, _, _, h5, h6, _⟩ :=
    doSlipMutation_scrambled_permutation ⟨1, 100, 2, 5, 3, 1⟩ plainInstSet [10, 11, 12, 13]
      3 1 [1, 0] [] rfl (by decide) (by decide) rfl
      (fun i hi => by
        have hi2 : i < 2 := hi
        interval_cases i <;> decide)
  exact ⟨js, filled, h1, h6, h5⟩

end Avida
